import Mathlib

/-!
# lav_io.c : the JPEG marker scanner and the field tagger

A shallow embedding of `scan_jpeg`, `lav_get_field_size` and `lav_write_frame`
from `src/lav_io.c`.

Conventions of the embedding.

* A byte buffer (`unsigned char *`) is a `List Nat`; a pointer into it is the
  list with the bytes before the pointer dropped.  Reading at an index that
  is not in the list is a read outside the object the pointer points into:
  the C behaviour is undefined and the embedding answers `fault`.
* `long` / `unsigned long` positions and lengths are natural numbers: the
  build is for x86-64 (`config.h`), where they have 64 bits, and every value
  computed is at most the declared length plus 65535.  The comparisons
  `p <= jpeglen-2` and `p < jpeglen-1` of the source are written
  `p + 2 ≤ jpeglen` and `p + 1 < jpeglen`, which is what they mean in signed
  arithmetic.  The one place where a length is narrowed to the 32 bits of
  `int`, the return of `lav_get_field_size`, is modelled by `to_int`.
* Loops are structural recursions on a fuel argument.  Running out of fuel
  is the separate answer `timeout`, so that a theorem that states a result
  also states that the loop ended.
-/

namespace LavIO

/-! ## Marker codes -/

def M_SOF0 : Nat := 0xC0
def M_SOF1 : Nat := 0xC1
def M_DHT : Nat := 0xC4
def M_SOI : Nat := 0xD8
def M_EOI : Nat := 0xD9
def M_SOS : Nat := 0xDA
def M_DQT : Nat := 0xDB
def M_APP0 : Nat := 0xE0
def M_APP1 : Nat := 0xE1

def ERROR_JPEG : Nat := 1
def ERROR_MALLOC : Nat := 2
def ERROR_FORMAT : Nat := 3
def ERROR_NOAUDIO : Nat := 4

/-- The file-scope statics `jpeg_field_size` ... `jpeg_app1_offset` that
`scan_jpeg` resets and fills. -/
structure JpegStatics where
  jpeg_field_size : Nat
  jpeg_quant_offset : Nat
  jpeg_huffman_offset : Nat
  jpeg_image_offset : Nat
  jpeg_scan_offset : Nat
  jpeg_data_offset : Nat
  jpeg_padded_len : Nat
  jpeg_app0_offset : Nat
  jpeg_app1_offset : Nat
  /-- Ghost field, not in the source: the marker codes the scan has read so
  far, oldest first, each with the index of its code byte. -/
  met : List (Nat × Nat)
  deriving DecidableEq, Repr

/-- All nine statics set to zero, as at the top of `scan_jpeg`. -/
def JpegStatics.zero : JpegStatics := ⟨0, 0, 0, 0, 0, 0, 0, 0, 0, []⟩

/-- Big endian two byte integer `buff[0]*256 + buff[1]`, where `buff` is the
pointer `jpegdata + off`. -/
def get_int2 (jpegdata : List Nat) (off : Nat) : Option Nat :=
  match jpegdata[off]? with
  | none => none
  | some b0 =>
    match jpegdata[off + 1]? with
    | none => none
    | some b1 => some (b0 * 256 + b1)

/-- How one of the two marker searching loops of `scan_jpeg` ends. -/
inductive Skip where
  /-- the loop condition became false at position `p` -/
  | stop (p : Nat)
  /-- `return -1` from inside the loop -/
  | bad
  /-- a byte outside the buffer was read -/
  | fault
  /-- the fuel ran out -/
  | timeout
  deriving DecidableEq, Repr

/-- The loop `while(jpegdata[p] != 0xFF) { p++; if(p>=jpeglen) return -1; }`. -/
def skip_non_ff (jpegdata : List Nat) (jpeglen : Nat) : Nat → Nat → Skip
  | 0, _ => Skip.timeout
  | fuel + 1, p =>
    match jpegdata[p]? with
    | none => Skip.fault
    | some b =>
      if b ≠ 0xFF then
        if p + 1 ≥ jpeglen then Skip.bad
        else skip_non_ff jpegdata jpeglen fuel (p + 1)
      else Skip.stop p

/-- The loop `while(jpegdata[p] == 0xFF) { p++; if(p>=jpeglen) return -1; }`. -/
def skip_ff (jpegdata : List Nat) (jpeglen : Nat) : Nat → Nat → Skip
  | 0, _ => Skip.timeout
  | fuel + 1, p =>
    match jpegdata[p]? with
    | none => Skip.fault
    | some b =>
      if b = 0xFF then
        if p + 1 ≥ jpeglen then Skip.bad
        else skip_ff jpegdata jpeglen fuel (p + 1)
      else Skip.stop p

/-- The `switch(marker)` of `scan_jpeg`, at the position `p` just after the
marker code byte: which static the marker is recorded in. -/
def record_marker (marker p length : Nat) (st : JpegStatics) : JpegStatics :=
  if marker = M_SOF0 ∨ marker = M_SOF1 then
    { st with jpeg_image_offset := p - 2 }
  else if marker = M_DQT then
    if st.jpeg_quant_offset = 0 then { st with jpeg_quant_offset := p - 2 } else st
  else if marker = M_DHT then
    if st.jpeg_huffman_offset = 0 then { st with jpeg_huffman_offset := p - 2 } else st
  else if marker = M_SOS then
    { st with jpeg_scan_offset := p - 2, jpeg_data_offset := p + length }
  else if marker = M_APP0 then
    if st.jpeg_app0_offset = 0 then { st with jpeg_app0_offset := p - 2 } else st
  else if marker = M_APP1 then
    if st.jpeg_app1_offset = 0 then { st with jpeg_app1_offset := p - 2 } else st
  else st

/-- The markers without parameters: the test
`marker == 0 || marker == 1 || (marker >= 0xd0 && marker <= 0xd7)`. -/
def no_params (marker : Nat) : Bool :=
  marker == 0 || marker == 1 || (decide (0xd0 ≤ marker) && decide (marker ≤ 0xd7))

/-- How one pass through the body of the main loop of `scan_jpeg` ends. -/
inductive Step where
  /-- the body ran to its end, or reached `continue`: next pass at `p` -/
  | next (p : Nat) (st : JpegStatics)
  /-- `break`, at an `M_EOI` marker code -/
  | brk (p : Nat) (st : JpegStatics)
  /-- a `return` inside the loop -/
  | ret (r : Int) (st : JpegStatics)
  /-- a byte outside the buffer was read -/
  | fault
  /-- the fuel of an inner loop ran out -/
  | timeout
  deriving DecidableEq, Repr

/-- The second half of the loop body, from the comment
`We found a marker - check it` on: `p` is the position just after the marker
code byte and `length` the value the body has just computed. -/
def check_marker (jpeglen : Nat) (header_only : Bool) (marker p length : Nat)
    (st : JpegStatics) : Step :=
  if marker = M_EOI then Step.brk p { st with jpeg_field_size := p }
  else
    let st1 := record_marker marker p length st
    if marker = M_SOS ∧ header_only = true then Step.ret 0 st1
    else if no_params marker = true then Step.next p st1
    else if p + length ≤ jpeglen then Step.next (p + length) st1
    else Step.ret (-1) st1

/-- The body of the main loop `while(p<jpeglen)` of `scan_jpeg`, entered at
position `p` with statics `st`. -/
def scan_step (jpegdata : List Nat) (jpeglen : Nat) (header_only : Bool)
    (p : Nat) (st : JpegStatics) : Step :=
  match skip_non_ff jpegdata jpeglen jpeglen p with
  | Skip.bad => Step.ret (-1) st
  | Skip.fault => Step.fault
  | Skip.timeout => Step.timeout
  | Skip.stop p1 =>
    match skip_ff jpegdata jpeglen jpeglen p1 with
    | Skip.bad => Step.ret (-1) st
    | Skip.fault => Step.fault
    | Skip.timeout => Step.timeout
    | Skip.stop p2 =>
      match jpegdata[p2]? with
      | none => Step.fault
      | some marker =>
        match (if p2 + 1 + 2 ≤ jpeglen then get_int2 jpegdata (p2 + 1) else some 0) with
        | none => Step.fault
        | some length =>
          check_marker jpeglen header_only marker (p2 + 1) length
            { st with met := st.met ++ [(marker, p2)] }

/-- How the main loop `while(p<jpeglen)` of `scan_jpeg` ends. -/
inductive Loop where
  /-- control is after the loop, at position `p`: by `break`, or because
  `p<jpeglen` became false -/
  | out (p : Nat) (st : JpegStatics)
  /-- a `return` inside the loop -/
  | ret (r : Int) (st : JpegStatics)
  /-- a byte outside the buffer was read -/
  | fault
  /-- the fuel ran out -/
  | timeout
  deriving DecidableEq, Repr

/-- The main loop of `scan_jpeg`, from position `p` with statics `st`. -/
def scan_loop (jpegdata : List Nat) (jpeglen : Nat) (header_only : Bool) :
    Nat → Nat → JpegStatics → Loop
  | 0, _, _ => Loop.timeout
  | fuel + 1, p, st =>
    if p < jpeglen then
      match scan_step jpegdata jpeglen header_only p st with
      | Step.next p1 st1 => scan_loop jpegdata jpeglen header_only fuel p1 st1
      | Step.brk p1 st1 => Loop.out p1 st1
      | Step.ret r st1 => Loop.ret r st1
      | Step.fault => Loop.fault
      | Step.timeout => Loop.timeout
    else Loop.out p st

/-- How the trailing garbage loop of `scan_jpeg` ends. -/
inductive Pad where
  | stop (p : Nat)
  | fault
  | timeout
  deriving DecidableEq, Repr

/-- The loop
`while(p<jpeglen) { if(p<jpeglen-1 && jpegdata[p]==0xFF && jpegdata[p+1]==M_SOI) break; p++; }`. -/
def skip_padding (jpegdata : List Nat) (jpeglen : Nat) : Nat → Nat → Pad
  | 0, _ => Pad.timeout
  | fuel + 1, p =>
    if p < jpeglen then
      if p + 1 < jpeglen then
        match jpegdata[p]? with
        | none => Pad.fault
        | some b0 =>
          if b0 = 0xFF then
            match jpegdata[p + 1]? with
            | none => Pad.fault
            | some b1 =>
              if b1 = M_SOI then Pad.stop p
              else skip_padding jpegdata jpeglen fuel (p + 1)
          else skip_padding jpegdata jpeglen fuel (p + 1)
      else skip_padding jpegdata jpeglen fuel (p + 1)
    else Pad.stop p

/-- What a call of `scan_jpeg` gives: the returned `int` with the statics as
the call leaves them, or a fault, or a timeout. -/
inductive Scan where
  | ret (r : Int) (st : JpegStatics)
  | fault
  | timeout
  deriving DecidableEq, Repr

/-- The function `scan_jpeg(jpegdata, jpeglen, header_only)`. -/
def scan_jpeg (jpegdata : List Nat) (jpeglen : Nat) (header_only : Bool) : Scan :=
  match jpegdata[0]? with
  | none => Scan.fault
  | some b0 =>
    if b0 ≠ 0xFF then Scan.ret (-1) JpegStatics.zero
    else
      match jpegdata[1]? with
      | none => Scan.fault
      | some b1 =>
        if b1 ≠ M_SOI then Scan.ret (-1) JpegStatics.zero
        else
          match scan_loop jpegdata jpeglen header_only (jpeglen + 1) 2 JpegStatics.zero with
          | Loop.ret r st => Scan.ret r st
          | Loop.fault => Scan.fault
          | Loop.timeout => Scan.timeout
          | Loop.out p st =>
            if st.jpeg_field_size = 0 then Scan.ret (-1) st
            else
              match skip_padding jpegdata jpeglen (jpeglen + 1) p with
              | Pad.fault => Scan.fault
              | Pad.timeout => Scan.timeout
              | Pad.stop q => Scan.ret 0 { st with jpeg_padded_len := q }

/-! ## lav_get_field_size -/

/-- Conversion of an integer value to the C type `int` (32 bits, two's
complement), as it happens at the `return` of a function of that type. -/
def to_int (x : Int) : Int := (x + 2 ^ 31) % 2 ^ 32 - 2 ^ 31

/-- What a call of `lav_get_field_size` gives. -/
inductive FieldSize where
  | ret (r : Int)
  | fault
  | timeout
  deriving DecidableEq, Repr

/-- The function `lav_get_field_size(jpegdata, jpeglen)`. -/
def lav_get_field_size (jpegdata : List Nat) (jpeglen : Nat) : FieldSize :=
  match scan_jpeg jpegdata jpeglen false with
  | Scan.fault => FieldSize.fault
  | Scan.timeout => FieldSize.timeout
  | Scan.ret res st =>
    if res < 0 then FieldSize.ret (to_int jpeglen)
    else FieldSize.ret (to_int st.jpeg_padded_len)

/-! ## lav_write_frame -/

/-- Modelled from the spec: the value "none" of the interlace-polarity
enumeration {none, top-field-first, bottom-field-first, unknown}.  The header
`yuv4mpeg.h` that defines the four `Y4M_` constants is not under `src/`; only
that they are pairwise different is used. -/
def Y4M_ILACE_NONE : Int := 0

/-- Modelled from the spec: the value "top-field-first" of the
interlace-polarity enumeration (see `Y4M_ILACE_NONE`). -/
def Y4M_ILACE_TOP_FIRST : Int := 1

/-- Modelled from the spec: the value "bottom-field-first" of the
interlace-polarity enumeration (see `Y4M_ILACE_NONE`). -/
def Y4M_ILACE_BOTTOM_FIRST : Int := 2

/-- Modelled from the spec: the value "unknown" of the interlace-polarity
and chroma enumerations (see `Y4M_ILACE_NONE`). -/
def Y4M_UNKNOWN : Int := -1

/-- The fields of `lav_file_t` (lav_io.h) other than the backend handles. -/
structure lav_file_t where
  format : Char
  interlacing : Int
  sar_w : Int
  sar_h : Int
  has_audio : Int
  bps : Int
  chroma : Int
  dataformat : Int
  deriving DecidableEq, Repr

/-- The assignment `buff[i] = v`; storing outside the buffer is undefined in
C and gives `none`. -/
def store (buff : List Nat) (i v : Nat) : Option (List Nat) :=
  if i < buff.length then some (buff.set i v) else none

/-- The five assignments `jpgdata[jpeg_app0_offset+4] = 'A'` ...
`jpgdata[jpeg_app0_offset+8] = order` of the AVI branch, where `a` is the
index of `jpgdata[jpeg_app0_offset]` in the frame buffer. -/
def put_avi1 (buff : List Nat) (a order : Nat) : Option (List Nat) :=
  (store buff (a + 4) 65).bind fun b1 =>
  (store b1 (a + 5) 86).bind fun b2 =>
  (store b2 (a + 6) 73).bind fun b3 =>
  (store b3 (a + 7) 49).bind fun b4 =>
  store b4 (a + 8) order

/-- The function `put_int4(buf, val)` of the source, where `buf` is the
pointer to index `a` of the frame buffer: the four bytes of `val`, most
significant first, each cut to eight bits by the store into `unsigned char`. -/
def put_int4 (buff : List Nat) (a val : Nat) : Option (List Nat) :=
  (store buff a (val / 2 ^ 24 % 256)).bind fun b1 =>
  (store b1 (a + 1) (val / 2 ^ 16 % 256)).bind fun b2 =>
  (store b2 (a + 2) (val / 2 ^ 8 % 256)).bind fun b3 =>
  store b3 (a + 3) (val % 256)

def QUICKTIME_MJPG_TAG : Nat := 0x6d6a7067

/-- How the block `if(lav_file->interlacing != Y4M_ILACE_NONE) { ... }` of
`lav_write_frame` ends. -/
inductive Tagged where
  /-- the block ran to its end and left the frame buffer as `buff` -/
  | done (buff : List Nat)
  /-- `internal_error=ERROR_JPEG; return -1;` with the frame buffer as `buff` -/
  | broken (buff : List Nat)
  /-- a byte outside a buffer was read or written -/
  | fault
  /-- the fuel of a scan ran out -/
  | timeout
  deriving DecidableEq, Repr

/-- The loop `for(n=0;n<2;n++)` of the branch `case 'a': case 'A':`, with `k`
passes left to run, at pass `n`, where `jpgdata` points to index `off` of the
frame buffer.  (`jpglen` is written but never read in this branch.) -/
def tag_avi (format : Char) (size : Nat) : Nat → Nat → List Nat → Nat → Tagged
  | 0, _, buff, _ => Tagged.done buff
  | k + 1, n, buff, off =>
    match scan_jpeg (buff.drop off) size (decide (n ≠ 0)) with
    | Scan.fault => Tagged.fault
    | Scan.timeout => Tagged.timeout
    | Scan.ret res st =>
      if res ≠ 0 then Tagged.broken buff
      else if st.jpeg_app0_offset = 0 then tag_avi format size k (n + 1) buff off
      else
        match get_int2 (buff.drop off) (st.jpeg_app0_offset + 2) with
        | none => Tagged.fault
        | some l =>
          if l < 16 then tag_avi format size k (n + 1) buff off
          else
            match put_avi1 buff (off + st.jpeg_app0_offset)
                (if format = 'a' then n + 1 else 2 - n) with
            | none => Tagged.fault
            | some buff1 => tag_avi format size k (n + 1) buff1 (off + st.jpeg_padded_len)

/-- The ten calls of `put_int4` of the Quicktime branch, where `a` is the
index of `jpgdata[jpeg_app1_offset]` in the frame buffer. -/
def put_mjpa (buff : List Nat) (a n : Nat) (st : JpegStatics) : Option (List Nat) :=
  (put_int4 buff (a + 4) 0).bind fun b1 =>
  (put_int4 b1 (a + 8) QUICKTIME_MJPG_TAG).bind fun b2 =>
  (put_int4 b2 (a + 12) st.jpeg_field_size).bind fun b3 =>
  (put_int4 b3 (a + 16) st.jpeg_padded_len).bind fun b4 =>
  (put_int4 b4 (a + 20) (if n = 0 then st.jpeg_padded_len else 0)).bind fun b5 =>
  (put_int4 b5 (a + 24) st.jpeg_quant_offset).bind fun b6 =>
  (put_int4 b6 (a + 28) st.jpeg_huffman_offset).bind fun b7 =>
  (put_int4 b7 (a + 32) st.jpeg_image_offset).bind fun b8 =>
  (put_int4 b8 (a + 36) st.jpeg_scan_offset).bind fun b9 =>
  put_int4 b9 (a + 40) st.jpeg_data_offset

/-- The loop `for(n=0;n<2;n++)` of the branch `case 'q':`, compiled only
with `HAVE_LIBQUICKTIME`: `k` passes left to run, at pass `n`, `jpgdata` at
index `off` of the frame buffer, `jpglen` bytes left. -/
def tag_qt : Nat → Nat → List Nat → Nat → Nat → Tagged
  | 0, _, buff, _, _ => Tagged.done buff
  | k + 1, n, buff, off, jpglen =>
    match scan_jpeg (buff.drop off) jpglen false with
    | Scan.fault => Tagged.fault
    | Scan.timeout => Tagged.timeout
    | Scan.ret res st =>
      if res ≠ 0 ∨ st.jpeg_app1_offset = 0 then Tagged.broken buff
      else
        match get_int2 (buff.drop off) (st.jpeg_app1_offset + 2) with
        | none => Tagged.fault
        | some l =>
          if l < 42 then Tagged.broken buff
          else
            match put_mjpa buff (off + st.jpeg_app1_offset) n st with
            | none => Tagged.fault
            | some buff1 =>
              tag_qt k (n + 1) buff1 (off + st.jpeg_padded_len) (jpglen - st.jpeg_padded_len)

/-- A call that `lav_write_frame` makes to a container backend. -/
inductive BackendCall where
  | AVI_write_frame (data : List Nat) (bytes : Nat)
  | AVI_dup_frame
  | write (data : List Nat) (bytes : Nat)
  | quicktime_write_frame (data : List Nat) (bytes : Nat)
  deriving DecidableEq, Repr

/-- The `switch` in pass `n` of the loop `for(n=0;n<count;n++)`: the new
value of `res` and the backend calls made.  `backend n` is what the backend
call of pass `n` returns; the value of `write` is not used by the source. -/
def write_pass (have_libquicktime : Bool) (format : Char) (buff : List Nat) (size : Nat)
    (backend : Nat → Int) (n : Nat) (res : Int) : Int × List BackendCall :=
  if format = 'a' ∨ format = 'A' then
    if n = 0 then (backend n, [BackendCall.AVI_write_frame buff size])
    else (backend n, [BackendCall.AVI_dup_frame])
  else if format = 'j' then
    if n = 0 then (res, [BackendCall.write buff size]) else (res, [])
  else if format = 'q' ∧ have_libquicktime = true then
    (backend n, [BackendCall.quicktime_write_frame buff size])
  else (-1, [])

/-- The loop `for(n=0;n<count;n++) { switch ...; if (res) break; }` with `k`
passes left to run, at pass `n`: the value of `res` and the backend calls
made.  The counter `n` is an `int` and `count` a `long`: `none` when `n++`
would leave the range of `int`, which is undefined. -/
def write_loop (have_libquicktime : Bool) (format : Char) (buff : List Nat) (size : Nat)
    (backend : Nat → Int) :
    Nat → Nat → Int → List BackendCall → Option (Int × List BackendCall)
  | 0, _, res, calls => some (res, calls)
  | k + 1, n, res, calls =>
    let r := write_pass have_libquicktime format buff size backend n res
    if r.1 ≠ 0 then some (r.1, calls ++ r.2)
    else if n + 1 < 2 ^ 31 then
      write_loop have_libquicktime format buff size backend k (n + 1) r.1 (calls ++ r.2)
    else none

/-- What a call of `lav_write_frame` that returns leaves behind: the returned
`int`, the frame buffer, the statics `video_format` and `internal_error`, and
the backend calls made, in order. -/
structure FrameWritten where
  res : Int
  buff : List Nat
  video_format : Char
  internal_error : Nat
  calls : List BackendCall
  deriving DecidableEq, Repr

/-- What a call of `lav_write_frame` gives. -/
inductive WriteFrame where
  | ret (w : FrameWritten)
  | fault
  | timeout
  deriving DecidableEq, Repr

/-- The function `lav_write_frame(lav_file, buff, size, count)`.  The build
option `HAVE_LIBQUICKTIME` (not set in `config.h`) is the first argument.
An overflow of the `int` counter of the write loop gives `fault`. -/
def lav_write_frame (have_libquicktime : Bool) (lav_file : lav_file_t) (buff : List Nat)
    (size : Nat) (count : Int) (backend : Nat → Int) : WriteFrame :=
  let tagged :=
    if lav_file.interlacing ≠ Y4M_ILACE_NONE then
      if lav_file.format = 'a' ∨ lav_file.format = 'A' then
        tag_avi lav_file.format size 2 0 buff 0
      else if lav_file.format = 'q' ∧ have_libquicktime = true then
        tag_qt 2 0 buff 0 size
      else Tagged.done buff
    else Tagged.done buff
  match tagged with
  | Tagged.fault => WriteFrame.fault
  | Tagged.timeout => WriteFrame.timeout
  | Tagged.broken buff1 => WriteFrame.ret ⟨-1, buff1, lav_file.format, ERROR_JPEG, []⟩
  | Tagged.done buff1 =>
    match write_loop have_libquicktime lav_file.format buff1 size backend count.toNat 0 0 [] with
    | none => WriteFrame.fault
    | some r => WriteFrame.ret ⟨r.1, buff1, lav_file.format, 0, r.2⟩

/-! ## lav_open_input_file -/

def DATAFORMAT_MJPG : Int := 0
def DATAFORMAT_DV2 : Int := 1
def DATAFORMAT_YUV420 : Int := 2
def DATAFORMAT_YUV422 : Int := 3

/-- Modelled from the spec: the value "4:2:0-JPEG" of the chroma-subsampling
enumeration {unknown, 4:2:0-JPEG, 4:2:0-PAL-DV, 4:2:2, 4:1:1}.  The header
`yuv4mpeg.h` that defines the `Y4M_CHROMA_` constants is not under `src/`;
only that they differ from one another and from `Y4M_UNKNOWN` is used. -/
def Y4M_CHROMA_420JPEG : Int := 0

/-- Modelled from the spec: the value "4:2:2" of the chroma-subsampling
enumeration (see `Y4M_CHROMA_420JPEG`). -/
def Y4M_CHROMA_422 : Int := 4

/-- The function `lav_query_polarity(format)`. -/
def lav_query_polarity (format : Char) : Int :=
  if format = 'a' then Y4M_ILACE_TOP_FIRST
  else if format = 'A' then Y4M_ILACE_BOTTOM_FIRST
  else if format = 'j' then Y4M_ILACE_TOP_FIRST
  else if format = 'q' then Y4M_ILACE_TOP_FIRST
  else Y4M_ILACE_TOP_FIRST

/-- The statics `video_format` and `internal_error`. -/
structure Globals where
  video_format : Char
  internal_error : Nat
  deriving DecidableEq, Repr

/-- What the world outside `lav_io.c` answers during one call of
`lav_open_input_file`: the allocator and the container library of the file
(avilib, or libquicktime when compiled in).  The fields without prefix are
the answers of the library the file was opened with. -/
structure Backend where
  /-- `malloc(sizeof(lav_file_t))` gave memory -/
  lav_fd_alloc : Bool
  /-- `AVI_open_input_file` gave a handle -/
  avi_fd : Bool
  /-- `AVI_errno==AVI_ERR_NO_AVI` after a failed open -/
  avi_err_no_avi : Bool
  /-- `AVI_audio_format(...)==WAVE_FORMAT_PCM` -/
  avi_audio_pcm : Bool
  /-- `quicktime_check_sig(filename)` is not zero -/
  qt_check_sig : Bool
  /-- `quicktime_open` gave a handle -/
  qt_fd : Bool
  /-- `quicktime_video_tracks` -/
  qt_video_tracks : Int
  /-- `lqt_get_pasp`: `hSpacing`, `vSpacing` when it answers nonzero -/
  qt_pasp : Option (Int × Int)
  /-- `lqt_get_fiel`: `nfields`, `detail` when it answers nonzero -/
  qt_fiel : Option (Int × Int)
  /-- `quicktime_audio_tracks` -/
  qt_audio_tracks : Int
  /-- `strncasecmp(audio_comp, QUICKTIME_TWOS,4)==0` -/
  qt_audio_twos : Bool
  /-- `AVI_audio_bits` / `quicktime_audio_bits` -/
  audio_bits : Int
  /-- `AVI_audio_channels` / `quicktime_track_channels` -/
  audio_channels : Int
  /-- `AVI_video_compressor` / `quicktime_video_compressor`, without the
  closing NUL -/
  video_compressor : List Char
  /-- `AVI_video_height` / `quicktime_video_height` -/
  video_height : Int
  /-- `AVI_set_video_position` / `quicktime_set_video_position`, by call -/
  set_video_position : Nat → Int
  /-- `AVI_frame_size` / `quicktime_frame_size` of frame 0 -/
  frame_size : Int
  /-- `malloc(len)` for the frame gave memory -/
  frame_alloc : Bool
  /-- `AVI_read_frame` / `quicktime_read_frame` -/
  read_frame : Int
  /-- the frame buffer after the read -/
  frame : List Nat

/-- What a call of `lav_open_input_file` gives: the session returned (`none`
for the null pointer) with the statics as the call leaves them, or a fault,
or a timeout. -/
inductive OpenInput where
  | ret (lav_fd : Option lav_file_t) (g : Globals)
  | fault
  | timeout
  deriving DecidableEq, Repr

/-- The formats for which the `switch` of the query and positioning routines
(`lav_video_height`, `lav_set_video_position`, ...) has a case: `'a'`, `'A'`,
and `'q'` with `HAVE_LIBQUICKTIME`. -/
def has_case (have_libquicktime : Bool) (format : Char) : Bool :=
  decide (format = 'a') || decide (format = 'A') ||
    (decide (format = 'q') && have_libquicktime)

/-- The value of `lav_video_height(lav_file)`. -/
def lav_video_height (hq : Bool) (env : Backend) (lav_file : lav_file_t) : Int :=
  if has_case hq lav_file.format = true then env.video_height else -1

/-- The value of the `k`-th call `lav_set_video_position(lav_file, 0)`. -/
def lav_set_video_position (hq : Bool) (env : Backend) (lav_file : lav_file_t) (k : Nat) : Int :=
  if has_case hq lav_file.format = true then env.set_video_position k else -1

/-- The value of `lav_frame_size(lav_file, 0)`. -/
def lav_frame_size (hq : Bool) (env : Backend) (lav_file : lav_file_t) : Int :=
  if has_case hq lav_file.format = true then env.frame_size else -1

/-- The value of `lav_read_frame(lav_file, frame)`: the function is declared
`int`, so the `long` that the backend answers is converted to `int`. -/
def lav_read_frame (hq : Bool) (env : Backend) (lav_file : lav_file_t) : Int :=
  if has_case hq lav_file.format = true then to_int env.read_frame else -1

/-- The value of `lav_audio_channels(lav_file)`. -/
def lav_audio_channels (hq : Bool) (env : Backend) (lav_file : lav_file_t) : Int :=
  if lav_file.has_audio = 0 then 0
  else if has_case hq lav_file.format = true then env.audio_channels else -1

/-- The value of `lav_audio_bits(lav_file)`. -/
def lav_audio_bits (hq : Bool) (env : Backend) (lav_file : lav_file_t) : Int :=
  if lav_file.has_audio = 0 then 0
  else if has_case hq lav_file.format = true then env.audio_bits else -1

/-- The test `strncasecmp(s1, s2, n) == 0` on strings given without their
closing NUL. -/
def strncasecmp_eq (s1 s2 : List Char) (n : Nat) : Bool :=
  decide ((s1.take n).map Char.toLower = (s2.take n).map Char.toLower)

/-- The exit `ERREXIT:` of `lav_open_input_file`: `lav_close` sets
`video_format` and clears `internal_error`, then `internal_error = ierr` and
the null pointer is returned. -/
def errexit (lav_fd : lav_file_t) (ierr : Nat) : OpenInput :=
  OpenInput.ret none ⟨lav_fd.format, ierr⟩

/-- The block `if(ncomps==3) { ... }` of `lav_open_input_file` with the read
of `ncomps` before it: the new value of `lav_fd->chroma`, or `none` when a
byte outside the frame buffer is read. -/
def chroma_of_frame (frame : List Nat) (image_offset : Nat) (chroma : Int) : Option Int :=
  match frame[image_offset + 9]? with
  | none => none
  | some ncomps =>
    if ncomps = 3 then
      match frame[image_offset + 10 + 3 * 0 + 1]?, frame[image_offset + 10 + 3 * 1 + 1]?,
          frame[image_offset + 10 + 3 * 2 + 1]? with
      | some s0, some s1, some s2 =>
        if s0 / 16 = 2 * (s1 / 16) ∧ s0 / 16 = 2 * (s2 / 16) then
          if s0 % 16 = s1 % 16 ∧ s0 % 16 = s2 % 16 then some Y4M_CHROMA_422
          else if s0 % 16 = 2 * (s1 % 16) ∧ s0 % 16 = 2 * (s2 % 16) then
            some Y4M_CHROMA_420JPEG
          else some Y4M_UNKNOWN
        else some Y4M_UNKNOWN
      | _, _, _ => none
    else some chroma

/-- The test `strncasecmp((char*)(frame + a),"AVI1",4)==0`: the bytes are
compared one by one, up to the first that differs. -/
def is_avi1 (frame : List Nat) (a : Nat) : Option Bool :=
  match frame[a]? with
  | none => none
  | some c0 =>
    if ¬ (c0 = 65 ∨ c0 = 97) then some false
    else
      match frame[a + 1]? with
      | none => none
      | some c1 =>
        if ¬ (c1 = 86 ∨ c1 = 118) then some false
        else
          match frame[a + 2]? with
          | none => none
          | some c2 =>
            if ¬ (c2 = 73 ∨ c2 = 105) then some false
            else
              match frame[a + 3]? with
              | none => none
              | some c3 => some (decide (c3 = 49))

/-- The statement `if(jpeg_app0_offset && get_int2(...) >= 5 && strncasecmp(...)==0)
{...} else {...}` of the branch `case 'a':`: the new value of
`lav_fd->interlacing`, or `none` when a byte outside the frame buffer is
read. -/
def avi_polarity (frame : List Nat) (app0_offset : Nat) : Option Int :=
  if app0_offset = 0 then some Y4M_ILACE_TOP_FIRST
  else
    match get_int2 frame (app0_offset + 2) with
    | none => none
    | some l =>
      if l < 5 then some Y4M_ILACE_TOP_FIRST
      else
        match is_avi1 frame (app0_offset + 4) with
        | none => none
        | some false => some Y4M_ILACE_TOP_FIRST
        | some true =>
          match frame[app0_offset + 8]? with
          | none => none
          | some v =>
            if v = 1 then some Y4M_ILACE_TOP_FIRST else some Y4M_ILACE_BOTTOM_FIRST

/-- The part of `lav_open_input_file` behind the successful header-only scan
of the first frame (from the read of `ncomps` to `return lav_fd`), with the
statics `st` the scan has left. -/
def probe_frame (hq : Bool) (env : Backend) (lav_fd : lav_file_t) (st : JpegStatics) :
    OpenInput :=
  match chroma_of_frame env.frame st.jpeg_image_offset lav_fd.chroma with
  | none => OpenInput.fault
  | some chroma =>
    match get_int2 env.frame (st.jpeg_image_offset + 5),
        get_int2 env.frame (st.jpeg_image_offset + 7) with
    | some jpg_height, some _ =>
      if (jpg_height : Int) = lav_video_height hq env lav_fd then
        OpenInput.ret (some { lav_fd with chroma := chroma, interlacing := Y4M_ILACE_NONE })
          ⟨lav_fd.format, 0⟩
      else if (jpg_height : Int) = Int.tdiv (lav_video_height hq env lav_fd) 2 then
        if lav_fd.format = 'a' then
          match avi_polarity env.frame st.jpeg_app0_offset with
          | none => OpenInput.fault
          | some pol =>
            OpenInput.ret
              (some { lav_fd with
                chroma := chroma, interlacing := pol,
                format := if pol = Y4M_ILACE_BOTTOM_FIRST then 'A' else 'a' })
              ⟨lav_fd.format, 0⟩
        else if lav_fd.format = 'q' then
          OpenInput.ret (some { lav_fd with chroma := chroma, interlacing := Y4M_ILACE_TOP_FIRST })
            ⟨lav_fd.format, 0⟩
        else OpenInput.ret (some { lav_fd with chroma := chroma }) ⟨lav_fd.format, 0⟩
      else errexit lav_fd ERROR_JPEG
    | _, _ => OpenInput.fault

/-- The part of `lav_open_input_file` from the comment `From here on down is
MJPG only code` on: the first frame is read and scanned. -/
def probe_mjpg (hq : Bool) (env : Backend) (lav_fd : lav_file_t) : OpenInput :=
  if lav_set_video_position hq env lav_fd 0 ≠ 0 then errexit lav_fd 0
  else if lav_frame_size hq env lav_fd ≤ 0 then errexit lav_fd 0
  else if env.frame_alloc = false then errexit lav_fd ERROR_MALLOC
  else if lav_read_frame hq env lav_fd ≤ 0 then errexit lav_fd 0
  else if lav_set_video_position hq env lav_fd 1 ≠ 0 then errexit lav_fd 0
  else
    match scan_jpeg env.frame (lav_frame_size hq env lav_fd).toNat true with
    | Scan.fault => OpenInput.fault
    | Scan.timeout => OpenInput.timeout
    | Scan.ret r st =>
      if r ≠ 0 then errexit lav_fd ERROR_JPEG else probe_frame hq env lav_fd st

/-- The value of `(channels*bits+7)/8` in `int` arithmetic: the product and
the sum wrap modulo `2^32`, as the x86-64 build computes them, and the
division truncates. -/
def bytes_per_sample (channels bits : Int) : Int :=
  Int.tdiv (to_int (to_int (channels * bits) + 7)) 8

/-- The session after the statements `lav_fd->bps = ...; if(lav_fd->bps==0)
lav_fd->bps=1;`. -/
def with_bps (hq : Bool) (env : Backend) (lav_fd : lav_file_t) : lav_file_t :=
  { lav_fd with
    bps :=
      if bytes_per_sample (lav_audio_channels hq env lav_fd) (lav_audio_bits hq env lav_fd) = 0
      then 1
      else bytes_per_sample (lav_audio_channels hq env lav_fd) (lav_audio_bits hq env lav_fd) }

/-- The part of `lav_open_input_file` from `set audio bytes per sample` on,
for the session `lav_fd` of the backend that has been opened.  (`HAVE_LIBDV`
is not set in `config.h`: `check_DV2_input` is not compiled.) -/
def probe (hq : Bool) (env : Backend) (lav_fd : lav_file_t) (g : Globals) : OpenInput :=
  let g1 : Globals := if lav_fd.has_audio = 0 then g else ⟨lav_fd.format, 0⟩
  if strncasecmp_eq env.video_compressor ['y', 'v', '1', '2'] 3 = true then
    OpenInput.ret
      (some { with_bps hq env lav_fd with
        dataformat := DATAFORMAT_YUV420, chroma := Y4M_CHROMA_420JPEG }) g1
  else if strncasecmp_eq env.video_compressor ['y', 'u', 'v', '2'] 4 = true then
    OpenInput.ret
      (some { with_bps hq env lav_fd with
        dataformat := DATAFORMAT_YUV422, chroma := Y4M_CHROMA_422 }) g1
  else if strncasecmp_eq env.video_compressor ['d', 'v'] 2 = true then
    OpenInput.ret
      (some { with_bps hq env lav_fd with
        dataformat := DATAFORMAT_DV2, interlacing := Y4M_ILACE_BOTTOM_FIRST }) g1
  else if strncasecmp_eq env.video_compressor ['m', 'j', 'p'] 3 = true ∨
      strncasecmp_eq env.video_compressor ['j', 'p', 'e', 'g'] 4 = true then
    probe_mjpg hq env { with_bps hq env lav_fd with dataformat := DATAFORMAT_MJPG }
  else errexit (with_bps hq env lav_fd) 0

/-- The session as `lav_open_input_file` sets it up right after the
allocation.  (`dataformat` is not set there; it is written before it is read
on every path.) -/
def new_session : lav_file_t :=
  ⟨Char.ofNat 0, Y4M_UNKNOWN, 1, 1, 0, 0, Y4M_UNKNOWN, 0⟩

/-- The session after the branch `if(lav_fd->avi_fd)`: an AVI file. -/
def avi_session (env : Backend) : lav_file_t :=
  { new_session with
    format := 'a',
    has_audio := if 0 < env.audio_bits ∧ env.avi_audio_pcm = true then 1 else 0 }

/-- The interlacing that the `fiel` atom of a Quicktime file gives. -/
def fiel_interlacing (fiel : Option (Int × Int)) (interlacing : Int) : Int :=
  match fiel with
  | none => interlacing
  | some (nfields, detail) =>
    if nfields = 2 then
      if detail = 14 ∨ detail = 6 then Y4M_ILACE_BOTTOM_FIRST
      else if detail = 9 ∨ detail = 1 then Y4M_ILACE_TOP_FIRST
      else interlacing
    else Y4M_ILACE_NONE

/-- The session after the branch `It is a quicktime file`. -/
def qt_session (env : Backend) : lav_file_t :=
  { new_session with
    format := 'q',
    sar_w := match env.qt_pasp with
      | some (w, _) => w
      | none => 1,
    sar_h := match env.qt_pasp with
      | some (_, h) => h
      | none => 1,
    interlacing := fiel_interlacing env.qt_fiel Y4M_UNKNOWN,
    has_audio := if env.qt_audio_tracks ≠ 0 ∧ env.qt_audio_twos = true then 1 else 0 }

/-- The function `lav_open_input_file(filename)`: `hq` is the build option
`HAVE_LIBQUICKTIME`, `env` what the allocator and the container library
answer, `g` the statics before the call. -/
def lav_open_input_file (hq : Bool) (env : Backend) (g : Globals) : OpenInput :=
  if env.lav_fd_alloc = false then OpenInput.ret none { g with internal_error := ERROR_MALLOC }
  else if env.avi_fd = true then probe hq env (avi_session env) ⟨'a', g.internal_error⟩
  else if env.avi_err_no_avi = true then
    if hq = false ∨ env.qt_check_sig = false then OpenInput.ret none ⟨'a', ERROR_FORMAT⟩
    else if env.qt_fd = false then OpenInput.ret none ⟨'q', g.internal_error⟩
    else if env.qt_video_tracks < 1 then OpenInput.ret none ⟨'q', ERROR_FORMAT⟩
    else probe hq env (qt_session env) ⟨'q', g.internal_error⟩
  else OpenInput.ret none ⟨'a', g.internal_error⟩

/-! ## Well-formed fields -/

/-- The code of a header segment: a code that is followed by a length field
(not `0x00`, `0x01`, `0xD0..0xD7`, not `M_EOI`), that is not the fill byte
`0xFF`, and that is not `M_SOS`, the code of the scan header itself. -/
def header_code (m : Nat) : Prop :=
  m ≠ 0xFF ∧ no_params m = false ∧ m ≠ M_EOI ∧ m ≠ M_SOS

/-- At index `a` the buffer holds the head of a segment: the byte `0xFF`, the
code `m`, and two length bytes that declare the length `l`, at least 2. -/
def segment_at (b : List Nat) (a m l : Nat) : Prop :=
  b[a]? = some 0xFF ∧ b[a + 1]? = some m ∧ get_int2 b (a + 2) = some l ∧ 2 ≤ l

/-- From index `a` on the buffer holds the header segments `segs`, given by
code and declared length, one right behind the other. -/
def segments_at (b : List Nat) : Nat → List (Nat × Nat) → Prop
  | _, [] => True
  | a, (m, l) :: rest => header_code m ∧ segment_at b a m l ∧ segments_at b (a + 2 + l) rest

/-- The index just behind the segments `segs` that start at `a`. -/
def segments_end : Nat → List (Nat × Nat) → Nat
  | a, [] => a
  | a, (_, l) :: rest => segments_end (a + 2 + l) rest

/-- The byte behind index `i` is `0x00` or a restart code `0xD0..0xD7`. -/
def stuffed_after (b : List Nat) (i : Nat) : Prop :=
  b[i + 1]? = some 0 ∨ (0xD0 ≤ b.getD (i + 1) 0 ∧ b.getD (i + 1) 0 ≤ 0xD7)

/-- In the entropy-coded data `[d, e)` every `0xFF` is followed by `0x00` or
by a restart code. -/
def entropy_ok (b : List Nat) (d e : Nat) : Prop :=
  ∀ i, d ≤ i → i < e → b[i]? = some 0xFF → stuffed_after b i

/-- The buffer starts with a well-formed field: `0xFF 0xD8`; the header
segments `segs`; a scan header of declared length `sl`; entropy-coded data up
to index `eoi`; and `0xFF 0xD9` at `eoi`. -/
def well_formed_field (b : List Nat) (segs : List (Nat × Nat)) (sl eoi : Nat) : Prop :=
  b[0]? = some 0xFF ∧ b[1]? = some M_SOI ∧ segments_at b 2 segs ∧
  segment_at b (segments_end 2 segs) M_SOS sl ∧ segments_end 2 segs + 2 + sl ≤ eoi ∧
  entropy_ok b (segments_end 2 segs + 2 + sl) eoi ∧
  b[eoi]? = some 0xFF ∧ b[eoi + 1]? = some M_EOI

instance header_code_decidable (m : Nat) : Decidable (header_code m) := by
  unfold header_code; infer_instance

instance segment_at_decidable (b : List Nat) (a m l : Nat) : Decidable (segment_at b a m l) := by
  unfold segment_at; infer_instance

instance segments_at_decidable (b : List Nat) :
    ∀ (a : Nat) (segs : List (Nat × Nat)), Decidable (segments_at b a segs)
  | _, [] => isTrue trivial
  | a, (m, l) :: rest =>
    @instDecidableAnd _ _ (header_code_decidable m)
      (@instDecidableAnd _ _ (segment_at_decidable b a m l)
        (segments_at_decidable b (a + 2 + l) rest))

instance stuffed_after_decidable (b : List Nat) (i : Nat) : Decidable (stuffed_after b i) := by
  unfold stuffed_after; infer_instance

instance entropy_ok_decidable (b : List Nat) (d e : Nat) : Decidable (entropy_ok b d e) := by
  unfold entropy_ok; infer_instance

instance well_formed_field_decidable (b : List Nat) (segs : List (Nat × Nat)) (sl eoi : Nat) :
    Decidable (well_formed_field b segs sl eoi) := by
  unfold well_formed_field; infer_instance

/-- No `0xFF 0xD8` pair starts in the buffer `f` at an index from `k` on:
the bytes behind the end-of-image marker of a field are padding only. -/
def no_soi_from (f : List Nat) (k : Nat) : Prop :=
  ∀ i, k ≤ i → i < f.length → ¬ (f[i]? = some 0xFF ∧ f[i + 1]? = some M_SOI)

instance no_soi_from_decidable (f : List Nat) (k : Nat) : Decidable (no_soi_from f k) := by
  unfold no_soi_from; infer_instance

/-- The buffer `f` starts with a well-formed field whose header segments are
`pre`, then an `M_APP0` segment of declared length `l`, at least 16, then
`post`: the `M_APP0` segment is the first of the field. -/
def field_with_app0 (f : List Nat) (pre post : List (Nat × Nat)) (l sl eoi : Nat) : Prop :=
  well_formed_field f (pre ++ (M_APP0, l) :: post) sl eoi ∧
  (∀ e ∈ pre, e.1 ≠ M_APP0) ∧ 16 ≤ l

instance field_with_app0_decidable (f : List Nat) (pre post : List (Nat × Nat))
    (l sl eoi : Nat) : Decidable (field_with_app0 f pre post l sl eoi) := by
  unfold field_with_app0; infer_instance

/-- The buffer after the five assignments of `put_avi1`. -/
def avi1_tagged (buff : List Nat) (a order : Nat) : List Nat :=
  ((((buff.set (a + 4) 65).set (a + 5) 86).set (a + 6) 73).set (a + 7) 49).set (a + 8) order

/-- The bytes 4..7 behind index `a` are `'A'`, `'V'`, `'I'`, `'1'` and byte 8
is `order`. -/
def avi1_at (buff : List Nat) (a order : Nat) : Prop :=
  buff[a + 4]? = some 65 ∧ buff[a + 5]? = some 86 ∧ buff[a + 6]? = some 73 ∧
  buff[a + 7]? = some 49 ∧ buff[a + 8]? = some order

/-- The statics after the scan has passed the header segments `segs` that
start at `a`: the `switch` of the loop body applied to each in turn. -/
def record_segments : Nat → List (Nat × Nat) → JpegStatics → JpegStatics
  | _, [], st => st
  | a, (m, l) :: rest, st =>
    record_segments (a + 2 + l) rest
      (record_marker m (a + 2) l { st with met := st.met ++ [(m, a + 1)] })

/-- The statics after the scan has passed the header segments `segs` of a
field and its scan header of declared length `sl`. -/
def record_headers (segs : List (Nat × Nat)) (sl : Nat) : JpegStatics :=
  let s := segments_end 2 segs
  let st := record_segments 2 segs JpegStatics.zero
  record_marker M_SOS (s + 2) sl { st with met := st.met ++ [(M_SOS, s + 1)] }

/-- Two values of the statics differ in the ghost field at most. -/
def same_statics (s t : JpegStatics) : Prop :=
  { s with met := [] } = { t with met := [] }

/-! ## Notions used in the statements -/

/-- The length the loop body computes for the marker whose code byte is at
index `q`. -/
def length_at (b : List Nat) (len q : Nat) : Option Nat :=
  if q + 1 + 2 ≤ len then get_int2 b (q + 1) else some 0

/-- A recorded offset is either 0 or the index of the `0xFF` byte before a
marker code whose following position is within the declared length. -/
def off_ok (len off : Nat) : Prop := off = 0 ∨ (2 ≤ off ∧ off + 2 ≤ len)

/-- The six marker offsets `quant`, `huffman`, `image`, `scan`, `app0` and
`app1` are each 0 or a marker index, as in `off_ok`. -/
def offsets_ok (len : Nat) (st : JpegStatics) : Prop :=
  off_ok len st.jpeg_quant_offset ∧ off_ok len st.jpeg_huffman_offset ∧
  off_ok len st.jpeg_image_offset ∧ off_ok len st.jpeg_scan_offset ∧
  off_ok len st.jpeg_app0_offset ∧ off_ok len st.jpeg_app1_offset

/-- Loop head invariant of the main loop, on the ranges of the statics. -/
def range_inv (len : Nat) (h : Bool) (p : Nat) (st : JpegStatics) : Prop :=
  st.jpeg_field_size = 0 ∧ st.jpeg_padded_len = 0 ∧ 2 ≤ p ∧ offsets_ok len st ∧
  (st.jpeg_data_offset = 0 ∨
    (h = false ∧ 3 ≤ st.jpeg_data_offset ∧ st.jpeg_data_offset ≤ p ∧
      st.jpeg_data_offset ≤ len))

/-- What `range_inv` gives for each way the main loop ends. -/
def range_post (b : List Nat) (len : Nat) (h : Bool) : Loop → Prop
  | Loop.ret r st =>
    (r = 0 ∨ r = -1) ∧
    (r = 0 → h = true ∧ st.jpeg_field_size = 0 ∧ st.jpeg_padded_len = 0 ∧
      offsets_ok len st ∧ 2 ≤ st.jpeg_scan_offset ∧
      ∃ l, length_at b len (st.jpeg_scan_offset + 1) = some l ∧
        st.jpeg_data_offset = st.jpeg_scan_offset + 2 + l)
  | Loop.out p st =>
    st.jpeg_padded_len = 0 ∧
    (st.jpeg_field_size = 0 ∨
      (st.jpeg_field_size = p ∧ 4 ≤ p ∧ p ≤ len ∧ b[p - 2]? = some 0xFF ∧
        b[p - 1]? = some M_EOI ∧ (M_EOI, p - 1) ∈ st.met ∧ offsets_ok len st ∧
        (st.jpeg_data_offset = 0 ∨
          (h = false ∧ 2 ≤ st.jpeg_data_offset ∧ st.jpeg_data_offset < len))))
  | Loop.fault => True
  | Loop.timeout => True

/-- An offset is 0 (not found) or lies in the half-open range `[2, len)`. -/
def in_range (len off : Nat) : Prop := off = 0 ∨ (2 ≤ off ∧ off < len)

/-- Where the trailing garbage loop may stop: at the declared length, or at
a `0xFF 0xD8` pair that lies within it. -/
def soi_or_end (b : List Nat) (len i : Nat) : Prop :=
  i = len ∨ (i + 1 < len ∧ b[i]? = some 0xFF ∧ b[i + 1]? = some M_SOI)

/-- A marker code that is followed by a length field: any code other than
`0x00`, `0x01`, `0xD0..0xD7` and `M_EOI`. -/
def length_bearing (m : Nat) : Prop := no_params m = false ∧ m ≠ M_EOI

/-- The marker whose code byte is at index `q` reaches past the declared
length `len`: its two length bytes do, or the segment length they declare. -/
def overruns (b : List Nat) (len q : Nat) : Prop :=
  len < q + 1 + 2 ∨ ∃ l, get_int2 b (q + 1) = some l ∧ len < q + 1 + l

/-- Loop head invariant of the main loop, on the markers met so far. -/
def met_inv (b : List Nat) (len p : Nat) (st : JpegStatics) : Prop :=
  st.jpeg_field_size = 0 ∧
  ∀ e ∈ st.met, length_bearing e.1 → overruns b len e.2 → len ≤ p + 1

/-- What `met_inv` gives for each way the main loop ends. -/
def met_post (b : List Nat) (len : Nat) (h : Bool) : Loop → Prop
  | Loop.ret r st =>
    r = 0 → ∀ e ∈ st.met, length_bearing e.1 → overruns b len e.2 →
      (h = true ∧ e.1 = M_SOS)
  | Loop.out _ st =>
    st.jpeg_field_size ≠ 0 → ∀ e ∈ st.met, length_bearing e.1 → ¬ overruns b len e.2
  | Loop.fault => True
  | Loop.timeout => True

/-- Loop head invariant of a header-only scan: no `M_SOS` code has been read. -/
def no_sos_inv (_p : Nat) (st : JpegStatics) : Prop := ∀ e ∈ st.met, e.1 ≠ M_SOS

/-- What `no_sos_inv` gives when the main loop is left by its end. -/
def no_sos_post : Loop → Prop
  | Loop.out _ st => ∀ e ∈ st.met, e.1 ≠ M_SOS
  | _ => True

/-- The compressor identifier takes `lav_open_input_file` to its MJPG code:
none of the tests for `"yv12"`, `"yuv2"` and `"dv"` holds, and the test for
`"mjp"` or the one for `"jpeg"` does. -/
def mjpg_compressor (vc : List Char) : Prop :=
  strncasecmp_eq vc ['y', 'v', '1', '2'] 3 = false ∧
  strncasecmp_eq vc ['y', 'u', 'v', '2'] 4 = false ∧
  strncasecmp_eq vc ['d', 'v'] 2 = false ∧
  (strncasecmp_eq vc ['m', 'j', 'p'] 3 = true ∨ strncasecmp_eq vc ['j', 'p', 'e', 'g'] 4 = true)

instance mjpg_compressor_decidable (vc : List Char) : Decidable (mjpg_compressor vc) := by
  unfold mjpg_compressor; infer_instance

/-- The call of `lav_open_input_file` gets as far as the scan of the first
frame: the session is allocated, the file opens as AVI or (with
`HAVE_LIBQUICKTIME`) as Quicktime with a video track, the compressor is a
motion JPEG one, and positioning, allocating and reading the first frame all
succeed (the `int` that `lav_read_frame` returns is positive). -/
def reads_first_frame (hq : Bool) (env : Backend) : Prop :=
  env.lav_fd_alloc = true ∧
  (env.avi_fd = true ∨
    (env.avi_fd = false ∧ env.avi_err_no_avi = true ∧ hq = true ∧ env.qt_check_sig = true ∧
      env.qt_fd = true ∧ 1 ≤ env.qt_video_tracks)) ∧
  mjpg_compressor env.video_compressor ∧
  env.set_video_position 0 = 0 ∧ 0 < env.frame_size ∧ env.frame_alloc = true ∧
  0 < to_int env.read_frame ∧ env.set_video_position 1 = 0

instance reads_first_frame_decidable (hq : Bool) (env : Backend) :
    Decidable (reads_first_frame hq env) := by
  unfold reads_first_frame; infer_instance

/-- The session that `lav_open_input_file` holds when it scans the first
frame. -/
def session_at_probe (hq : Bool) (env : Backend) : lav_file_t :=
  { with_bps hq env (if env.avi_fd = true then avi_session env else qt_session env) with
    dataformat := DATAFORMAT_MJPG }

/-- The reads of the probe behind the scan of the first frame lie within the
frame buffer: the frame header up to the sampling factors of the third
component, and the first nine bytes at the app0 offset. -/
def probe_in_bounds (frame : List Nat) (st : JpegStatics) : Prop :=
  st.jpeg_image_offset + 17 < frame.length ∧ st.jpeg_app0_offset + 8 < frame.length

instance probe_in_bounds_decidable (frame : List Nat) (st : JpegStatics) :
    Decidable (probe_in_bounds frame st) := by
  unfold probe_in_bounds; infer_instance

/-- An AVI file of motion JPEG video (compressor `"MJPG"`, no audio) of the
reported frame height `height`, whose first frame is `frame`, with every call
of the allocator and of avilib successful. -/
def avi_file (height : Int) (frame : List Nat) : Backend :=
  ⟨true, true, false, false, false, false, 0, none, none, 0, false, 0, 0, ['M', 'J', 'P', 'G'],
    height, fun _ => 0, frame.length, true, frame.length, frame⟩

/-- A Quicktime file of motion JPEG video (compressor `"jpeg"`, one video
track, no audio) of the reported frame height `height`, whose first frame is
`frame`, with every call of the allocator and of libquicktime successful. -/
def qt_file (height : Int) (frame : List Nat) : Backend :=
  ⟨true, false, true, false, true, true, 1, none, none, 0, false, 0, 0, ['j', 'p', 'e', 'g'],
    height, fun _ => 0, frame.length, true, frame.length, frame⟩

/-- A frame of one field for the examples: SOI, the APP0 segment of declared
length 16 with the payload `app0` (14 bytes), a frame header SOF0 of height
`height` (below 256) and width 16 with three components of the sampling
bytes `s0`, `s1`, `s2`, a scan header, one byte of data, EOI. -/
def sample_frame (app0 : List Nat) (height s0 s1 s2 : Nat) : List Nat :=
  [0xFF, 0xD8, 0xFF, 0xE0, 0, 16] ++ app0 ++
    [0xFF, 0xC0, 0, 17, 8, 0, height, 0, 16, 3, 1, s0, 0, 2, s1, 1, 3, s2, 1,
      0xFF, 0xDA, 0, 2, 7, 0xFF, 0xD9]

/-- The Quicktime branch of `lav_write_frame` rejects a field whose scan gave
the status `res` and the statics `st`: the scan failed, or no `M_APP1`
segment was recorded, or the declared length of the recorded one is below
42. -/
def qt_rejects (jpgdata : List Nat) (res : Int) (st : JpegStatics) : Prop :=
  res ≠ 0 ∨ st.jpeg_app1_offset = 0 ∨
    ∃ l, get_int2 jpgdata (st.jpeg_app1_offset + 2) = some l ∧ l < 42

/-- A field for the examples: SOI, an `M_APP0` segment of declared length 16
with a payload of zeros, a scan header, one byte of data, EOI. -/
def app0_field : List Nat :=
  [0xFF, 0xD8, 0xFF, 0xE0, 0, 16, 0, 0, 0, 0, 0, 0, 0, 0, 0, 0, 0, 0, 0, 0,
    0xFF, 0xDA, 0, 2, 7, 0xFF, 0xD9]

/-- The buffer `f` starts with a well-formed field whose header segments are
`pre`, then an `M_APP1` segment of declared length `l`, at least 42, then
`post`: the `M_APP1` segment is the first of the field. -/
def field_with_app1 (f : List Nat) (pre post : List (Nat × Nat)) (l sl eoi : Nat) : Prop :=
  well_formed_field f (pre ++ (M_APP1, l) :: post) sl eoi ∧
  (∀ e ∈ pre, e.1 ≠ M_APP1) ∧ 42 ≤ l

instance field_with_app1_decidable (f : List Nat) (pre post : List (Nat × Nat))
    (l sl eoi : Nat) : Decidable (field_with_app1 f pre post l sl eoi) := by
  unfold field_with_app1; infer_instance

/-- The big-endian 32-bit word that a reader finds in the four bytes from
index `a` on. -/
def read_int4 (b : List Nat) (a : Nat) : Option Nat :=
  match b[a]?, b[a + 1]?, b[a + 2]?, b[a + 3]? with
  | some b0, some b1, some b2, some b3 => some (b0 * 2 ^ 24 + b1 * 2 ^ 16 + b2 * 2 ^ 8 + b3)
  | _, _, _, _ => none

/-- Read back big-endian at consecutive 4-byte steps from index `a` on, the
buffer gives the words `ws`. -/
def words_at (b : List Nat) : Nat → List Nat → Prop
  | _, [] => True
  | a, w :: ws => read_int4 b a = some w ∧ words_at b (a + 4) ws

instance words_at_decidable (b : List Nat) :
    ∀ (a : Nat) (ws : List Nat), Decidable (words_at b a ws)
  | _, [] => isTrue trivial
  | a, w :: ws =>
    @instDecidableAnd _ _ (inferInstanceAs (Decidable (read_int4 b a = some w)))
      (words_at_decidable b (a + 4) ws)

/-- The calls `put_int4(buf, w)`, `put_int4(buf + 4, w1)`, ... for the words
`ws` in turn, where `buf` is the pointer to index `a` of the frame buffer. -/
def put_words (buff : List Nat) : Nat → List Nat → Option (List Nat)
  | _, [] => some buff
  | a, w :: ws => (put_int4 buff a w).bind fun b1 => put_words b1 (a + 4) ws

/-- The ten values that pass `n` of the Quicktime branch hands to `put_int4`,
in the order of the calls, for the statics `st` the scan has left. -/
def mjpa_words (n : Nat) (st : JpegStatics) : List Nat :=
  [0, QUICKTIME_MJPG_TAG, st.jpeg_field_size, st.jpeg_padded_len,
    if n = 0 then st.jpeg_padded_len else 0, st.jpeg_quant_offset, st.jpeg_huffman_offset,
    st.jpeg_image_offset, st.jpeg_scan_offset, st.jpeg_data_offset]

/-- A field for the examples: SOI, a quantization table segment of declared
length 2, an `M_APP1` segment of declared length 42 with a payload of zeros,
a scan header, one byte of data, EOI. -/
def app1_field : List Nat :=
  [0xFF, 0xD8, 0xFF, 0xDB, 0, 2, 0xFF, 0xE1, 0, 42] ++ List.replicate 40 0 ++
    [0xFF, 0xDA, 0, 2, 7, 0xFF, 0xD9]

/-- The index of the code byte of the first marker of code `k` among the
markers met, in the order of the scan. -/
def first_met (k : Nat) : List (Nat × Nat) → Option Nat
  | [] => none
  | (m, q) :: rest => if m = k then some q else first_met k rest

/-- The offset that belongs to a marker whose code byte is at index `q`: the
index of the byte before it; 0 when there is no such marker. -/
def offset_of : Option Nat → Nat
  | none => 0
  | some q => q - 1

/-- The four statics with a guard `if(... == 0)` hold the offsets of the first
markers met of their kinds, and every marker met has its code byte at an
index from 3 on, behind a byte `0xFF`. -/
def first_seen (b : List Nat) (st : JpegStatics) : Prop :=
  st.jpeg_quant_offset = offset_of (first_met M_DQT st.met) ∧
  st.jpeg_huffman_offset = offset_of (first_met M_DHT st.met) ∧
  st.jpeg_app0_offset = offset_of (first_met M_APP0 st.met) ∧
  st.jpeg_app1_offset = offset_of (first_met M_APP1 st.met) ∧
  ∀ e ∈ st.met, 3 ≤ e.2 ∧ b[e.2 - 1]? = some 0xFF ∧ b[e.2]? = some e.1

/-- The block `if(lav_file->interlacing != Y4M_ILACE_NONE) { switch ... }` of
`lav_write_frame`: how the tagging of the frame buffer ends. -/
def tag_frame (have_libquicktime : Bool) (lav_file : lav_file_t) (buff : List Nat)
    (size : Nat) : Tagged :=
  if lav_file.interlacing ≠ Y4M_ILACE_NONE then
    if lav_file.format = 'a' ∨ lav_file.format = 'A' then
      tag_avi lav_file.format size 2 0 buff 0
    else if lav_file.format = 'q' ∧ have_libquicktime = true then tag_qt 2 0 buff 0 size
    else Tagged.done buff
  else Tagged.done buff

/-- What `lav_strerror` returns: the text it has printed into `error_string`,
or the answer of `AVI_strerror`, or the Quicktime text that ends with
`strerror(errno)`, or `error_string` as an earlier call has left it. -/
inductive ErrorText where
  | text (s : String)
  | AVI_strerror
  | quicktime
  | stale
  deriving DecidableEq, Repr

/-- The function `lav_strerror()`: the text returned and the statics as the
call leaves them.  `hq` is the build option `HAVE_LIBQUICKTIME` and `errno`
the value of `errno` at the call. -/
def lav_strerror (hq : Bool) (errno : Int) (g : Globals) : ErrorText × Globals :=
  if g.internal_error = ERROR_JPEG then
    (ErrorText.text "Internal: broken JPEG format", { g with internal_error := 0 })
  else if g.internal_error = ERROR_MALLOC then
    (ErrorText.text "Internal: Out of memory", { g with internal_error := 0 })
  else if g.internal_error = ERROR_FORMAT then
    (ErrorText.text "Input file format not recognized", { g with internal_error := 0 })
  else if g.internal_error = ERROR_NOAUDIO then
    (ErrorText.text "Trying to read audio from a video only file",
      { g with internal_error := 0 })
  else if g.video_format = 'a' ∨ g.video_format = 'A' then (ErrorText.AVI_strerror, g)
  else if g.video_format = 'q' ∧ hq = true then (ErrorText.quicktime, g)
  else if errno ≠ 0 then (ErrorText.stale, g)
  else (ErrorText.text "No or unknown video format", g)

/-- A call `scan_jpeg(jpgdata, len, header_only)` made by the tagging: the
index of `jpgdata` in the frame buffer, the length and the mode passed. -/
structure ScanCall where
  off : Nat
  len : Nat
  header_only : Bool
  deriving DecidableEq, Repr

/-- The loop of `tag_avi`, with the calls of `scan_jpeg` it makes recorded in
the order they are made. -/
def tag_avi_traced (format : Char) (size : Nat) :
    Nat → Nat → List Nat → Nat → Tagged × List ScanCall
  | 0, _, buff, _ => (Tagged.done buff, [])
  | k + 1, n, buff, off =>
    match scan_jpeg (buff.drop off) size (decide (n ≠ 0)) with
    | Scan.fault => (Tagged.fault, [⟨off, size, decide (n ≠ 0)⟩])
    | Scan.timeout => (Tagged.timeout, [⟨off, size, decide (n ≠ 0)⟩])
    | Scan.ret res st =>
      if res ≠ 0 then (Tagged.broken buff, [⟨off, size, decide (n ≠ 0)⟩])
      else if st.jpeg_app0_offset = 0 then
        ((tag_avi_traced format size k (n + 1) buff off).1,
          ⟨off, size, decide (n ≠ 0)⟩ :: (tag_avi_traced format size k (n + 1) buff off).2)
      else
        match get_int2 (buff.drop off) (st.jpeg_app0_offset + 2) with
        | none => (Tagged.fault, [⟨off, size, decide (n ≠ 0)⟩])
        | some l =>
          if l < 16 then
            ((tag_avi_traced format size k (n + 1) buff off).1,
              ⟨off, size, decide (n ≠ 0)⟩ ::
                (tag_avi_traced format size k (n + 1) buff off).2)
          else
            match put_avi1 buff (off + st.jpeg_app0_offset)
                (if format = 'a' then n + 1 else 2 - n) with
            | none => (Tagged.fault, [⟨off, size, decide (n ≠ 0)⟩])
            | some buff1 =>
              ((tag_avi_traced format size k (n + 1) buff1 (off + st.jpeg_padded_len)).1,
                ⟨off, size, decide (n ≠ 0)⟩ ::
                  (tag_avi_traced format size k (n + 1) buff1 (off + st.jpeg_padded_len)).2)

/-- A field for the examples without an `M_APP0` segment: SOI, a scan header,
one byte of data, EOI. -/
def plain_field : List Nat := [0xFF, 0xD8, 0xFF, 0xDA, 0, 2, 7, 0xFF, 0xD9]

/-- The conversion of an `int` value to `int16_t`: reduction modulo `2 ^ 16`
into the range of the type. -/
def to_int16 (x : Int) : Int := (x + 2 ^ 15) % 2 ^ 16 - 2 ^ 15

/-- The value `((int16_t)(buff[k]) << 8) ^ 0x8000` stored into an `int16_t`,
or `none` when `k` is outside the buffer. -/
def sample8 (buff : List Nat) (k : Nat) : Option Int :=
  match buff[k]? with
  | none => none
  | some v => some (to_int16 (((v <<< 8) ^^^ 0x8000 : Nat) : Int))

/-- The value `buff16[k]`, where `buff16` is the byte buffer read as
`int16_t` (`WORDS_BIGENDIAN` is not defined in `config.h`: the low byte comes
first), or `none` when it is outside the buffer. -/
def sample16 (buff : List Nat) (k : Nat) : Option Int :=
  match buff[2 * k]?, buff[2 * k + 1]? with
  | some lo, some hi => some (to_int16 ((lo + 256 * hi : Nat) : Int))
  | _, _ => none

/-- The assignment `qt_audion[j][i] = v`; `none` outside the rows. -/
def put_sample (out : List (List Int)) (j i : Nat) (v : Int) : Option (List (List Int)) :=
  match out[j]? with
  | none => none
  | some row => if i < row.length then some (out.set j (row.set i v)) else none

/-- The loop `for (j = 0; j < channels; j++) qt_audion[j][i] = ...;` with `k`
passes left to run, at `j`; `sample` gives the right-hand side by the index
`channels * i + j`. -/
def deinterleave_row (sample : Nat → Option Int) (channels i : Nat) :
    Nat → Nat → List (List Int) → Option (List (List Int))
  | 0, _, out => some out
  | k + 1, j, out =>
    match sample (channels * i + j) with
    | none => none
    | some v =>
      match put_sample out j i v with
      | none => none
      | some out1 => deinterleave_row sample channels i k (j + 1) out1

/-- The loop `for (i = 0; i < samps; i++) for (j = 0; ...) ...` with `k`
passes left to run, at `i`. -/
def deinterleave (sample : Nat → Option Int) (channels : Nat) :
    Nat → Nat → List (List Int) → Option (List (List Int))
  | 0, _, out => some out
  | k + 1, i, out =>
    match deinterleave_row sample channels i channels 0 out with
    | none => none
    | some out1 => deinterleave sample channels k (i + 1) out1

/-- A call that `lav_write_audio` makes to a container backend. -/
inductive AudioCall where
  | AVI_write_audio (data : List Nat) (bytes : Int)
  | lqt_encode_audio_track (channels : List (List Int)) (samples : Int)
  deriving DecidableEq, Repr

/-- What a call of `lav_write_audio` gives: the returned `int`, the statics
and the backend calls made, or a fault. -/
inductive WriteAudio where
  | ret (res : Int) (g : Globals) (calls : List AudioCall)
  | fault
  deriving DecidableEq, Repr

/-- The first `n` samples of `buff16`, for the branch `qt_audion = &buff16`. -/
def samples16 (buff : List Nat) (n : Nat) : Option (List Int) :=
  (List.range n).mapM (sample16 buff)

/-- The function `lav_write_audio(lav_file, buff, samps)`.  `hq` is the build
option `HAVE_LIBQUICKTIME`, `env` gives the answers of the container library
to `lav_audio_channels` and `lav_audio_bits`, and `backend` is what the
backend call returns.  The calls of `malloc` are taken to succeed, and the
rows of `qt_audion` to hold zeros until they are written; an `int` index
`channels * i + j`, or a counter `i`, that leaves the range of `int` gives
`fault`. -/
def lav_write_audio (hq : Bool) (env : Backend) (lav_file : lav_file_t) (buff : List Nat)
    (samps : Int) (backend : Int) : WriteAudio :=
  if lav_file.format = 'a' ∨ lav_file.format = 'A' then
    WriteAudio.ret backend ⟨lav_file.format, 0⟩
      [AudioCall.AVI_write_audio buff (samps * lav_file.bps)]
  else if lav_file.format = 'q' ∧ hq = true then
    if lav_audio_bits hq env lav_file ≠ 16 ∨ lav_audio_channels hq env lav_file > 1 then
      if lav_audio_bits hq env lav_file = 16 ∨ lav_audio_bits hq env lav_file = 8 then
        if 2 ^ 31 ≤ samps ∨ 2 ^ 31 < lav_audio_channels hq env lav_file * samps then
          WriteAudio.fault
        else
          match deinterleave
              (if lav_audio_bits hq env lav_file = 16 then sample16 buff else sample8 buff)
              (lav_audio_channels hq env lav_file).toNat samps.toNat 0
              (List.replicate (lav_audio_channels hq env lav_file).toNat
                (List.replicate samps.toNat 0)) with
          | none => WriteAudio.fault
          | some out =>
            WriteAudio.ret backend ⟨lav_file.format, 0⟩
              [AudioCall.lqt_encode_audio_track out samps]
      else WriteAudio.ret (-1) ⟨lav_file.format, 0⟩ []
    else
      match samples16 buff samps.toNat with
      | none => WriteAudio.fault
      | some ch =>
        WriteAudio.ret backend ⟨lav_file.format, 0⟩
          [AudioCall.lqt_encode_audio_track [ch] samps]
  else WriteAudio.ret (-1) ⟨lav_file.format, 0⟩ []

/-- The sample `qt_audion[j][i]`, when the rows reach that far. -/
def cell (out : List (List Int)) (j i : Nat) : Option Int :=
  match out[j]? with
  | none => none
  | some row => row[i]?

/-- The rows `qt_audion[0..channels-1]` are there, each of `samps` samples. -/
def shaped (channels samps : Nat) (out : List (List Int)) : Prop :=
  out.length = channels ∧ ∀ j, j < channels → ∃ row, out[j]? = some row ∧ row.length = samps

/-- The answers of libquicktime for a file with one audio track of `channels`
channels and `bits` bits per sample, for the examples. -/
def qt_audio (channels bits : Int) : Backend :=
  ⟨true, false, true, false, true, true, 1, none, none, 1, true, bits, channels,
    ['j', 'p', 'e', 'g'], 0, fun _ => 0, 0, true, 0, []⟩

/-- What the world outside `lav_io.c` answers during one call of
`lav_open_output_file`. -/
structure OutBackend where
  /-- `malloc(sizeof(lav_file_t))` gave memory -/
  lav_fd_alloc : Bool
  /-- `AVI_open_output_file` gave a handle -/
  avi_fd : Bool
  /-- `malloc` for the name of the temporary file gave memory -/
  tempfile_alloc : Bool
  /-- `quicktime_open` gave a handle -/
  qt_fd : Bool
  deriving DecidableEq, Repr

/-- What a call of `lav_open_output_file` gives: the session returned (`none`
for the null pointer) with the statics as the call leaves them. -/
inductive OpenOutput where
  | ret (lav_fd : Option lav_file_t) (g : Globals)
  deriving DecidableEq, Repr

/-- The function `lav_open_output_file(filename, format, width, height,
interlaced, fps, asize, achans, arate)`.  `hq` is the build option
`HAVE_LIBQUICKTIME`, `mem` the memory `malloc` gives (the fields `sar_w`,
`sar_h` and `dataformat` are not assigned) and `g` the statics before the
call; the arguments that only go on to the container library are left out.
The expression `(asize*achans+7)/8` is computed in `int`, as
`bytes_per_sample` has it: the product and the sum wrap modulo `2^32`. -/
def lav_open_output_file (hq : Bool) (env : OutBackend) (mem : lav_file_t) (g : Globals)
    (format : Char) (interlaced asize achans : Int) : OpenOutput :=
  if env.lav_fd_alloc = false then OpenOutput.ret none { g with internal_error := ERROR_MALLOC }
  else
    let lav_fd : lav_file_t :=
      { mem with
        format := format,
        interlacing := if interlaced ≠ 0 then lav_query_polarity format else Y4M_ILACE_NONE,
        has_audio := if 0 < asize ∧ 0 < achans then 1 else 0,
        bps := bytes_per_sample asize achans,
        chroma := Y4M_UNKNOWN }
    if format = 'a' ∨ format = 'A' then
      if env.avi_fd = false then OpenOutput.ret none g else OpenOutput.ret (some lav_fd) g
    else if format = 'j' then
      if env.tempfile_alloc = false then
        OpenOutput.ret none { g with internal_error := ERROR_MALLOC }
      else OpenOutput.ret (some lav_fd) g
    else if format = 'q' then
      if hq = true then
        if env.qt_fd = false then OpenOutput.ret none g else OpenOutput.ret (some lav_fd) g
      else OpenOutput.ret none { g with internal_error := ERROR_FORMAT }
    else OpenOutput.ret none g

/-- What a query of the audio of a session gives: the returned `long` with
the statics as the call leaves them, or a fault (a division by zero). -/
inductive AudioQuery where
  | ret (r : Int) (g : Globals)
  | fault
  deriving DecidableEq, Repr

/-- The function `lav_audio_samples(lav_file)`: `audio_bytes` is the answer
of `AVI_audio_bytes` and `audio_length` that of `quicktime_audio_length`. -/
def lav_audio_samples (hq : Bool) (lav_file : lav_file_t) (g : Globals)
    (audio_bytes audio_length : Int) : AudioQuery :=
  if lav_file.has_audio = 0 then AudioQuery.ret 0 g
  else if lav_file.format = 'a' ∨ lav_file.format = 'A' then
    if lav_file.bps = 0 then AudioQuery.fault
    else AudioQuery.ret (Int.tdiv audio_bytes lav_file.bps) ⟨lav_file.format, 0⟩
  else if lav_file.format = 'q' ∧ hq = true then AudioQuery.ret audio_length ⟨lav_file.format, 0⟩
  else AudioQuery.ret (-1) ⟨lav_file.format, 0⟩

/-- The value that `lav_read_audio(lav_file, audbuf, samps)` returns, with
the statics as the call leaves them; the bytes stored into `audbuf` are not
modelled.  `read_bytes` is the answer of `AVI_read_audio` and `decoded` the
difference `last_pos - start_pos` of the Quicktime branch. -/
def lav_read_audio (hq : Bool) (lav_file : lav_file_t) (g : Globals)
    (read_bytes decoded : Int) : AudioQuery :=
  if lav_file.has_audio = 0 then AudioQuery.ret (-1) { g with internal_error := ERROR_NOAUDIO }
  else if lav_file.format = 'a' ∨ lav_file.format = 'A' then
    if lav_file.bps = 0 then AudioQuery.fault
    else AudioQuery.ret (Int.tdiv read_bytes lav_file.bps) ⟨lav_file.format, 0⟩
  else if lav_file.format = 'q' ∧ hq = true then
    AudioQuery.ret (to_int decoded) ⟨lav_file.format, 0⟩
  else AudioQuery.ret (-1) ⟨lav_file.format, 0⟩

/-! # Theorems -/

/-! ## The two marker searching loops -/

theorem skip_non_ff_spec (b : List Nat) (len : Nat) :
    ∀ (fuel p p1 : Nat), skip_non_ff b len fuel p = Skip.stop p1 →
      p ≤ p1 ∧ p1 - p < fuel ∧ b[p1]? = some 0xFF ∧ (p < len → p1 < len) ∧
      ∀ i, p ≤ i → i < p1 → ∃ v, b[i]? = some v ∧ v ≠ 0xFF := by
  intro fuel
  induction fuel with
  | zero => intro p p1 h; simp [skip_non_ff] at h
  | succ fuel ih =>
    intro p p1 h
    unfold skip_non_ff at h
    cases hb : b[p]? with
    | none => simp [hb] at h
    | some v =>
      simp only [hb] at h
      by_cases hv : v = 0xFF
      · subst hv
        simp at h
        subst h
        refine ⟨le_refl _, by omega, hb, fun hp => hp, ?_⟩
        intro i h1 h2; omega
      · simp only [ne_eq, hv, not_false_eq_true, if_true] at h
        by_cases hlen : p + 1 ≥ len
        · simp [hlen] at h
        · simp only [hlen, if_false] at h
          obtain ⟨h1, h2, h3, h4, h5⟩ := ih (p + 1) p1 h
          refine ⟨by omega, by omega, h3, fun _ => h4 (by omega), ?_⟩
          intro i hi1 hi2
          by_cases hip : i = p
          · subst hip; exact ⟨v, hb, hv⟩
          · exact h5 i (by omega) hi2

theorem skip_non_ff_run (b : List Nat) (len : Nat) :
    ∀ (fuel p p1 : Nat), p ≤ p1 → p1 - p < fuel → p1 < len → b[p1]? = some 0xFF →
      (∀ i, p ≤ i → i < p1 → ∃ v, b[i]? = some v ∧ v ≠ 0xFF) →
      skip_non_ff b len fuel p = Skip.stop p1 := by
  intro fuel
  induction fuel with
  | zero => intro p p1 _ h; omega
  | succ fuel ih =>
    intro p p1 hle hfuel hlen hff hrun
    unfold skip_non_ff
    by_cases hp : p = p1
    · subst hp; simp [hff]
    · obtain ⟨v, hv, hne⟩ := hrun p (le_refl _) (by omega)
      have hlt : ¬ (p + 1 ≥ len) := by omega
      simp only [hv, ne_eq, hne, not_false_eq_true, if_true, hlt, if_false]
      exact ih (p + 1) p1 (by omega) (by omega) hlen hff
        (fun i h1 h2 => hrun i (by omega) h2)

theorem skip_ff_spec (b : List Nat) (len : Nat) :
    ∀ (fuel p p2 : Nat), skip_ff b len fuel p = Skip.stop p2 →
      p ≤ p2 ∧ p2 - p < fuel ∧ (∃ m, b[p2]? = some m ∧ m ≠ 0xFF) ∧ (p < len → p2 < len) ∧
      ∀ i, p ≤ i → i < p2 → b[i]? = some 0xFF := by
  intro fuel
  induction fuel with
  | zero => intro p p2 h; simp [skip_ff] at h
  | succ fuel ih =>
    intro p p2 h
    unfold skip_ff at h
    cases hb : b[p]? with
    | none => simp [hb] at h
    | some v =>
      simp only [hb] at h
      by_cases hv : v = 0xFF
      · simp only [hv, if_true] at h
        by_cases hlen : p + 1 ≥ len
        · simp [hlen] at h
        · simp only [hlen, if_false] at h
          obtain ⟨h1, h2, h3, h4, h5⟩ := ih (p + 1) p2 h
          refine ⟨by omega, by omega, h3, fun _ => h4 (by omega), ?_⟩
          intro i hi1 hi2
          by_cases hip : i = p
          · subst hip; rw [hb, hv]
          · exact h5 i (by omega) hi2
      · simp only [hv, if_false] at h
        simp at h
        subst h
        refine ⟨le_refl _, by omega, ⟨v, hb, hv⟩, fun hp => hp, ?_⟩
        intro i h1 h2; omega

theorem skip_ff_run (b : List Nat) (len : Nat) :
    ∀ (fuel p p2 m : Nat), p ≤ p2 → p2 - p < fuel → p2 < len → b[p2]? = some m →
      m ≠ 0xFF → (∀ i, p ≤ i → i < p2 → b[i]? = some 0xFF) →
      skip_ff b len fuel p = Skip.stop p2 := by
  intro fuel
  induction fuel with
  | zero => intro p p2 m _ h; omega
  | succ fuel ih =>
    intro p p2 m hle hfuel hlen hm hne hrun
    unfold skip_ff
    by_cases hp : p = p2
    · subst hp; simp [hm, hne]
    · have hv := hrun p (le_refl _) (by omega)
      have hlt : ¬ (p + 1 ≥ len) := by omega
      simp only [hv, if_true, hlt, if_false]
      exact ih (p + 1) p2 m (by omega) (by omega) hlen hm hne
        (fun i h1 h2 => hrun i (by omega) h2)

/-- Inside the declared length, with the declared length inside the buffer,
the first searching loop ends by `stop` or by `return -1`. -/
theorem skip_non_ff_total (b : List Nat) (len : Nat) (hlen : len ≤ b.length) :
    ∀ (fuel p : Nat), p < len → len - p ≤ fuel →
      skip_non_ff b len fuel p = Skip.bad ∨ ∃ p1, skip_non_ff b len fuel p = Skip.stop p1 := by
  intro fuel
  induction fuel with
  | zero => intro p h1 h2; omega
  | succ fuel ih =>
    intro p hp hfuel
    unfold skip_non_ff
    have hpb : p < b.length := by omega
    rw [List.getElem?_eq_getElem hpb]
    simp only
    by_cases hv : b[p] = 0xFF
    · right; exact ⟨p, by simp [hv]⟩
    · simp only [ne_eq, hv, not_false_eq_true, if_true]
      by_cases hl : p + 1 ≥ len
      · left; simp [hl]
      · simp only [hl, if_false]
        exact ih (p + 1) (by omega) (by omega)

theorem skip_ff_total (b : List Nat) (len : Nat) (hlen : len ≤ b.length) :
    ∀ (fuel p : Nat), p < len → len - p ≤ fuel →
      skip_ff b len fuel p = Skip.bad ∨ ∃ p1, skip_ff b len fuel p = Skip.stop p1 := by
  intro fuel
  induction fuel with
  | zero => intro p h1 h2; omega
  | succ fuel ih =>
    intro p hp hfuel
    unfold skip_ff
    have hpb : p < b.length := by omega
    rw [List.getElem?_eq_getElem hpb]
    simp only
    by_cases hv : b[p] = 0xFF
    · simp only [hv, if_true]
      by_cases hl : p + 1 ≥ len
      · left; simp [hl]
      · simp only [hl, if_false]
        exact ih (p + 1) (by omega) (by omega)
    · right; exact ⟨p, by simp [hv]⟩

/-! ## One pass through the loop body -/

theorem scan_step_inv (b : List Nat) (len : Nat) (h : Bool) (p : Nat) (st : JpegStatics)
    (hp : p < len) :
    scan_step b len h p st = Step.ret (-1) st ∨ scan_step b len h p st = Step.fault ∨
    scan_step b len h p st = Step.timeout ∨
    ∃ p1 p2 m l, p ≤ p1 ∧ p1 < p2 ∧ p2 < len ∧
      (∀ i, p ≤ i → i < p1 → ∃ v, b[i]? = some v ∧ v ≠ 0xFF) ∧
      (∀ i, p1 ≤ i → i < p2 → b[i]? = some 0xFF) ∧
      b[p2]? = some m ∧ m ≠ 0xFF ∧ length_at b len p2 = some l ∧
      scan_step b len h p st =
        check_marker len h m (p2 + 1) l { st with met := st.met ++ [(m, p2)] } := by
  unfold scan_step
  cases h1 : skip_non_ff b len len p with
  | bad => left; rfl
  | fault => right; left; rfl
  | timeout => right; right; left; rfl
  | stop p1 =>
    obtain ⟨a1, _, a3, a4, a5⟩ := skip_non_ff_spec b len len p p1 h1
    simp only
    cases h2 : skip_ff b len len p1 with
    | bad => left; rfl
    | fault => right; left; rfl
    | timeout => right; right; left; rfl
    | stop p2 =>
      obtain ⟨c1, _, ⟨m, c3, c3n⟩, c4, c5⟩ := skip_ff_spec b len len p1 p2 h2
      simp only [c3]
      have hne : p1 ≠ p2 := by
        intro he; subst he; rw [a3] at c3; simp at c3; exact c3n c3.symm
      cases h3 : (if p2 + 1 + 2 ≤ len then get_int2 b (p2 + 1) else some 0) with
      | none => right; left; rfl
      | some l =>
        right; right; right
        exact ⟨p1, p2, m, l, a1, by omega, c4 (a4 hp), a5, c5, c3, c3n, h3, rfl⟩

theorem scan_step_run (b : List Nat) (len : Nat) (h : Bool) (p : Nat) (st : JpegStatics)
    (p1 p2 m l : Nat) (h1 : p ≤ p1) (h2 : p1 < p2) (h3 : p2 < len)
    (hnon : ∀ i, p ≤ i → i < p1 → ∃ v, b[i]? = some v ∧ v ≠ 0xFF)
    (hff : ∀ i, p1 ≤ i → i < p2 → b[i]? = some 0xFF)
    (hm : b[p2]? = some m) (hne : m ≠ 0xFF) (hl : length_at b len p2 = some l) :
    scan_step b len h p st =
      check_marker len h m (p2 + 1) l { st with met := st.met ++ [(m, p2)] } := by
  unfold scan_step
  rw [skip_non_ff_run b len len p p1 h1 (by omega) (by omega) (hff p1 (le_refl _) h2) hnon]
  simp only
  rw [skip_ff_run b len len p1 p2 m (by omega) (by omega) h3 hm hne hff]
  simp only [hm]
  unfold length_at at hl
  rw [hl]

/-- A pass through the body inside a buffer that holds the declared length
neither faults nor runs out of fuel. -/
theorem scan_step_total (b : List Nat) (len : Nat) (h : Bool) (p : Nat) (st : JpegStatics)
    (hp : p < len) (hlen : len ≤ b.length) :
    scan_step b len h p st ≠ Step.fault ∧ scan_step b len h p st ≠ Step.timeout := by
  unfold scan_step
  rcases skip_non_ff_total b len hlen len p hp (by omega) with h1 | ⟨p1, h1⟩
  · rw [h1]; simp
  · rw [h1]
    obtain ⟨a1, _, _, a4, _⟩ := skip_non_ff_spec b len len p p1 h1
    simp only
    rcases skip_ff_total b len hlen len p1 (a4 hp) (by omega) with h2 | ⟨p2, h2⟩
    · rw [h2]; simp
    · rw [h2]
      obtain ⟨c1, _, _, c4, _⟩ := skip_ff_spec b len len p1 p2 h2
      have hp2 : p2 < b.length := by have := c4 (a4 hp); omega
      simp only [List.getElem?_eq_getElem hp2]
      by_cases hfit : p2 + 1 + 2 ≤ len
      · have e1 : p2 + 1 < b.length := by omega
        have e2 : p2 + 1 + 1 < b.length := by omega
        simp only [hfit, if_true, get_int2, List.getElem?_eq_getElem e1,
          List.getElem?_eq_getElem e2]
        unfold check_marker
        split_ifs <;> simp
      · simp only [hfit, if_false]
        unfold check_marker
        split_ifs <;> simp

theorem check_marker_next (len : Nat) (h : Bool) (m p l : Nat) (st : JpegStatics)
    (p' : Nat) (st' : JpegStatics) (hc : check_marker len h m p l st = Step.next p' st') :
    m ≠ M_EOI ∧ ¬ (m = M_SOS ∧ h = true) ∧ st' = record_marker m p l st ∧
    ((no_params m = true ∧ p' = p) ∨ (no_params m = false ∧ p' = p + l ∧ p + l ≤ len)) := by
  unfold check_marker at hc
  split_ifs at hc with h1 h2 h3 h4
  · simp at hc
    exact ⟨h1, h2, hc.2.symm, Or.inl ⟨h3, hc.1.symm⟩⟩
  · simp at hc
    exact ⟨h1, h2, hc.2.symm, Or.inr ⟨by simpa using h3, hc.1.symm, h4⟩⟩

theorem check_marker_brk (len : Nat) (h : Bool) (m p l : Nat) (st : JpegStatics)
    (p' : Nat) (st' : JpegStatics) (hc : check_marker len h m p l st = Step.brk p' st') :
    m = M_EOI ∧ p' = p ∧ st' = { st with jpeg_field_size := p } := by
  unfold check_marker at hc
  split_ifs at hc with h1 h2 h3 h4
  simp at hc
  exact ⟨h1, hc.1.symm, hc.2.symm⟩

theorem check_marker_ret (len : Nat) (h : Bool) (m p l : Nat) (st : JpegStatics)
    (r : Int) (st' : JpegStatics) (hc : check_marker len h m p l st = Step.ret r st') :
    m ≠ M_EOI ∧ st' = record_marker m p l st ∧
    ((r = 0 ∧ m = M_SOS ∧ h = true) ∨
     (r = -1 ∧ ¬ (m = M_SOS ∧ h = true) ∧ no_params m = false ∧ len < p + l)) := by
  unfold check_marker at hc
  split_ifs at hc with h1 h2 h3 h4
  · simp at hc
    exact ⟨h1, hc.2.symm, Or.inl ⟨hc.1.symm, h2.1, h2.2⟩⟩
  · simp at hc
    exact ⟨h1, hc.2.symm, Or.inr ⟨hc.1.symm, h2, by simpa using h3, by omega⟩⟩

theorem check_marker_no_fault (len : Nat) (h : Bool) (m p l : Nat) (st : JpegStatics) :
    check_marker len h m p l st ≠ Step.fault ∧ check_marker len h m p l st ≠ Step.timeout := by
  unfold check_marker
  split_ifs <;> simp

/-! ## The main loop -/

/-- Proof rule for the main loop: an invariant `I` of the loop head that every
pass through the body keeps, and a property `Q` of the ways the loop ends. -/
theorem scan_loop_rule (b : List Nat) (len : Nat) (h : Bool)
    (I : Nat → JpegStatics → Prop) (Q : Loop → Prop)
    (hnext : ∀ p st p' st', I p st → p < len →
      scan_step b len h p st = Step.next p' st' → I p' st')
    (hbrk : ∀ p st p' st', I p st → p < len →
      scan_step b len h p st = Step.brk p' st' → Q (Loop.out p' st'))
    (hret : ∀ p st r st', I p st → p < len →
      scan_step b len h p st = Step.ret r st' → Q (Loop.ret r st'))
    (hexit : ∀ p st, I p st → ¬ p < len → Q (Loop.out p st))
    (hfault : Q Loop.fault) (htime : Q Loop.timeout) :
    ∀ (fuel p : Nat) (st : JpegStatics), I p st → Q (scan_loop b len h fuel p st) := by
  intro fuel
  induction fuel with
  | zero => intro p st _; exact htime
  | succ fuel ih =>
    intro p st hI
    unfold scan_loop
    by_cases hp : p < len
    · simp only [hp, if_true]
      cases hs : scan_step b len h p st with
      | next p' st' => exact ih p' st' (hnext p st p' st' hI hp hs)
      | brk p' st' => exact hbrk p st p' st' hI hp hs
      | ret r st' => exact hret p st r st' hI hp hs
      | fault => exact hfault
      | timeout => exact htime
    · simp only [hp, if_false]
      exact hexit p st hI hp

theorem scan_loop_succ (b : List Nat) (len : Nat) (h : Bool) (fuel p : Nat)
    (st : JpegStatics) :
    scan_loop b len h (fuel + 1) p st =
      if p < len then
        match scan_step b len h p st with
        | Step.next p1 st1 => scan_loop b len h fuel p1 st1
        | Step.brk p1 st1 => Loop.out p1 st1
        | Step.ret r st1 => Loop.ret r st1
        | Step.fault => Loop.fault
        | Step.timeout => Loop.timeout
      else Loop.out p st := rfl

/-- Every pass through the body moves the position forward and keeps it
within the declared length. -/
theorem scan_step_progress (b : List Nat) (len : Nat) (h : Bool) (p : Nat)
    (st : JpegStatics) (p' : Nat) (st' : JpegStatics) (hp : p < len)
    (hs : scan_step b len h p st = Step.next p' st') : p < p' ∧ p' ≤ len := by
  rcases scan_step_inv b len h p st hp with e | e | e | ⟨p1, p2, m, l, a1, a2, a3, _, _, _, _, _, e⟩
  · rw [e] at hs; simp at hs
  · rw [e] at hs; simp at hs
  · rw [e] at hs; simp at hs
  · rw [e] at hs
    obtain ⟨_, _, _, hc⟩ := check_marker_next len h m (p2 + 1) l _ p' st' hs
    rcases hc with ⟨_, hc⟩ | ⟨_, hc, hc2⟩ <;> omega

/-- The main loop ends: with the declared length inside the buffer and fuel
for every remaining position it neither faults nor runs out of fuel. -/
theorem scan_loop_total (b : List Nat) (len : Nat) (h : Bool) (hlen : len ≤ b.length) :
    ∀ (fuel p : Nat) (st : JpegStatics), len - p < fuel →
      scan_loop b len h fuel p st ≠ Loop.fault ∧ scan_loop b len h fuel p st ≠ Loop.timeout := by
  intro fuel
  induction fuel with
  | zero =>
    intro p st hf
    omega
  | succ fuel ih =>
    intro p st hf
    unfold scan_loop
    by_cases hp : p < len
    · simp only [hp, if_true]
      have ht := scan_step_total b len h p st hp hlen
      cases hs : scan_step b len h p st with
      | next p' st' =>
        have := scan_step_progress b len h p st p' st' hp hs
        exact ih p' st' (by omega)
      | brk p' st' => simp
      | ret r st' => simp
      | fault => exact absurd hs ht.1
      | timeout => exact absurd hs ht.2
    · simp [hp]

/-! ## Ranges of the recorded offsets -/

theorem record_marker_field_size (m p l : Nat) (st : JpegStatics) :
    (record_marker m p l st).jpeg_field_size = st.jpeg_field_size := by
  unfold record_marker; split_ifs <;> rfl

theorem record_marker_padded_len (m p l : Nat) (st : JpegStatics) :
    (record_marker m p l st).jpeg_padded_len = st.jpeg_padded_len := by
  unfold record_marker; split_ifs <;> rfl

theorem record_marker_met (m p l : Nat) (st : JpegStatics) :
    (record_marker m p l st).met = st.met := by
  unfold record_marker; split_ifs <;> rfl

theorem record_marker_data (m p l : Nat) (st : JpegStatics) :
    (record_marker m p l st).jpeg_data_offset =
      if m = M_SOS then p + l else st.jpeg_data_offset := by
  unfold record_marker
  split_ifs <;> simp_all [M_SOS, M_SOF0, M_SOF1, M_DQT, M_DHT]

theorem record_marker_scan (m p l : Nat) (st : JpegStatics) :
    (record_marker m p l st).jpeg_scan_offset =
      if m = M_SOS then p - 2 else st.jpeg_scan_offset := by
  unfold record_marker
  split_ifs <;> simp_all [M_SOS, M_SOF0, M_SOF1, M_DQT, M_DHT]

theorem record_marker_ok (len m p l : Nat) (st : JpegStatics)
    (hst : offsets_ok len st) (hp : 4 ≤ p) (hlen : p ≤ len) :
    offsets_ok len (record_marker m p l st) := by
  obtain ⟨h1, h2, h3, h4, h5, h6⟩ := hst
  have hnew : off_ok len (p - 2) := Or.inr ⟨by omega, by omega⟩
  unfold record_marker
  split_ifs <;> exact ⟨by first | exact hnew | exact h1, by first | exact hnew | exact h2,
    by first | exact hnew | exact h3, by first | exact hnew | exact h4,
    by first | exact hnew | exact h5, by first | exact hnew | exact h6⟩

/-- The ranges of the statics at every end of the main loop. -/
theorem scan_loop_range (b : List Nat) (len : Nat) (h : Bool) :
    ∀ (fuel p : Nat) (st : JpegStatics), range_inv len h p st →
      range_post b len h (scan_loop b len h fuel p st) := by
  apply scan_loop_rule b len h (range_inv len h) (range_post b len h)
  · -- next
    intro p st p' st' hI hp hs
    obtain ⟨i1, i2, i3, i4, i5⟩ := hI
    rcases scan_step_inv b len h p st hp with e | e | e |
      ⟨p1, p2, m, l, a1, a2, a3, _, _, _, _, _, e⟩
    · rw [e] at hs; simp at hs
    · rw [e] at hs; simp at hs
    · rw [e] at hs; simp at hs
    · rw [e] at hs
      obtain ⟨c1, c2, c3, c4⟩ := check_marker_next len h m (p2 + 1) l _ p' st' hs
      subst c3
      refine ⟨?_, ?_, ?_, ?_, ?_⟩
      · rw [record_marker_field_size]; exact i1
      · rw [record_marker_padded_len]; exact i2
      · rcases c4 with ⟨_, c4⟩ | ⟨_, c4, _⟩ <;> omega
      · exact record_marker_ok len m (p2 + 1) l _ i4 (by omega) (by omega)
      · rw [record_marker_data]
        by_cases hm : m = M_SOS
        · simp only [hm, if_true]
          right
          have hh : h = false := by
            cases h with
            | false => rfl
            | true => exact absurd ⟨hm, rfl⟩ c2
          have hnp : no_params m = false := by rw [hm]; decide
          rcases c4 with ⟨c4, _⟩ | ⟨_, c4, c5⟩
          · rw [hnp] at c4; simp at c4
          · exact ⟨hh, by omega, by omega, by omega⟩
        · simp only [hm, if_false]
          rcases i5 with i5 | ⟨j1, j2, j3, j4⟩
          · left; exact i5
          · right
            refine ⟨j1, j2, ?_, j4⟩
            rcases c4 with ⟨_, c4⟩ | ⟨_, c4, _⟩ <;> omega
  · -- break
    intro p st p' st' hI hp hs
    obtain ⟨i1, i2, i3, i4, i5⟩ := hI
    rcases scan_step_inv b len h p st hp with e | e | e |
      ⟨p1, p2, m, l, a1, a2, a3, _, aff, am, _, _, e⟩
    · rw [e] at hs; simp at hs
    · rw [e] at hs; simp at hs
    · rw [e] at hs; simp at hs
    · rw [e] at hs
      obtain ⟨c1, c2, c3⟩ := check_marker_brk len h m (p2 + 1) l _ p' st' hs
      subst c2 c3
      refine ⟨i2, Or.inr ⟨rfl, by omega, by omega, ?_, ?_, ?_, i4, ?_⟩⟩
      · have := aff (p2 - 1) (by omega) (by omega)
        rw [show p2 + 1 - 2 = p2 - 1 by omega]; exact this
      · rw [show p2 + 1 - 1 = p2 by omega, am, c1]
      · simp [c1]
      · rcases i5 with i5 | ⟨j1, j2, j3, j4⟩
        · left; exact i5
        · refine Or.inr ⟨j1, ?_, ?_⟩
          · show 2 ≤ st.jpeg_data_offset
            omega
          · show st.jpeg_data_offset < len
            omega
  · -- return
    intro p st r st' hI hp hs
    obtain ⟨i1, i2, i3, i4, i5⟩ := hI
    rcases scan_step_inv b len h p st hp with e | e | e |
      ⟨p1, p2, m, l, a1, a2, a3, _, _, _, _, al, e⟩
    · rw [e] at hs; simp at hs
      refine ⟨Or.inr hs.1.symm, fun h0 => ?_⟩
      rw [← hs.1] at h0; simp at h0
    · rw [e] at hs; simp at hs
    · rw [e] at hs; simp at hs
    · rw [e] at hs
      obtain ⟨c1, c2, c3⟩ := check_marker_ret len h m (p2 + 1) l _ r st' hs
      subst c2
      rcases c3 with ⟨r0, hm, hh⟩ | ⟨r1, _⟩
      · refine ⟨Or.inl r0, fun _ => ⟨hh, ?_, ?_, ?_, ?_, ?_⟩⟩
        · rw [record_marker_field_size]; exact i1
        · rw [record_marker_padded_len]; exact i2
        · exact record_marker_ok len m (p2 + 1) l _ i4 (by omega) (by omega)
        · rw [record_marker_scan]; simp only [hm, if_true]; omega
        · refine ⟨l, ?_, ?_⟩
          · rw [record_marker_scan]; simp only [hm, if_true]
            rw [show p2 + 1 - 2 + 1 = p2 by omega]; exact al
          · rw [record_marker_scan, record_marker_data]; simp only [hm, if_true]
            omega
      · refine ⟨Or.inr r1, fun h0 => ?_⟩
        rw [r1] at h0; simp at h0
  · -- exit
    intro p st hI hp
    exact ⟨hI.2.1, Or.inl hI.1⟩
  · trivial
  · trivial

/-! ## Markers that reach past the declared length -/

theorem scan_loop_met (b : List Nat) (len : Nat) (h : Bool) :
    ∀ (fuel p : Nat) (st : JpegStatics), met_inv b len p st →
      met_post b len h (scan_loop b len h fuel p st) := by
  apply scan_loop_rule b len h (met_inv b len) (met_post b len h)
  · -- next
    intro p st p' st' hI hp hs
    obtain ⟨i1, i2⟩ := hI
    rcases scan_step_inv b len h p st hp with e | e | e |
      ⟨p1, p2, m, l, a1, a2, a3, _, _, _, _, al, e⟩
    · rw [e] at hs; simp at hs
    · rw [e] at hs; simp at hs
    · rw [e] at hs; simp at hs
    · rw [e] at hs
      obtain ⟨c1, c2, c3, c4⟩ := check_marker_next len h m (p2 + 1) l _ p' st' hs
      subst c3
      refine ⟨by rw [record_marker_field_size]; exact i1, ?_⟩
      rw [record_marker_met]
      intro e he hlb hov
      simp only [List.mem_append, List.mem_singleton] at he
      rcases he with he | he
      · have := i2 e he hlb hov
        omega
      · subst he
        rcases c4 with ⟨c4, _⟩ | ⟨_, c4, c5⟩
        · exact absurd c4 (by rw [hlb.1]; simp)
        · unfold length_at at al
          by_cases hfit : p2 + 1 + 2 ≤ len
          · simp only [hfit, if_true] at al
            rcases hov with hov | ⟨l', hl', hov⟩
            · simp only at hov; omega
            · simp only at hl' hov
              rw [al] at hl'
              simp at hl'
              omega
          · simp only [hfit, if_false] at al
            simp at al
            omega
  · -- break
    intro p st p' st' hI hp hs
    obtain ⟨i1, i2⟩ := hI
    rcases scan_step_inv b len h p st hp with e | e | e |
      ⟨p1, p2, m, l, a1, a2, a3, _, _, _, _, al, e⟩
    · rw [e] at hs; simp at hs
    · rw [e] at hs; simp at hs
    · rw [e] at hs; simp at hs
    · rw [e] at hs
      obtain ⟨c1, c2, c3⟩ := check_marker_brk len h m (p2 + 1) l _ p' st' hs
      subst c2 c3
      intro _ e he hlb hov
      simp only [List.mem_append, List.mem_singleton] at he
      rcases he with he | he
      · have := i2 e he hlb hov
        omega
      · subst he
        exact hlb.2 c1
  · -- return
    intro p st r st' hI hp hs
    obtain ⟨i1, i2⟩ := hI
    rcases scan_step_inv b len h p st hp with e | e | e |
      ⟨p1, p2, m, l, a1, a2, a3, _, _, _, _, al, e⟩
    · rw [e] at hs; simp at hs
      intro h0
      rw [← hs.1] at h0; simp at h0
    · rw [e] at hs; simp at hs
    · rw [e] at hs; simp at hs
    · rw [e] at hs
      obtain ⟨c1, c2, c3⟩ := check_marker_ret len h m (p2 + 1) l _ r st' hs
      subst c2
      intro h0 e he hlb hov
      rw [record_marker_met] at he
      simp only [List.mem_append, List.mem_singleton] at he
      rcases he with he | he
      · have := i2 e he hlb hov
        omega
      · subst he
        rcases c3 with ⟨_, hm, hh⟩ | ⟨r1, _⟩
        · exact ⟨hh, hm⟩
        · rw [r1] at h0; simp at h0
  · -- exit
    intro p st hI hp hne
    exact absurd hI.1 hne
  · trivial
  · trivial

/-! ## The trailing garbage loop -/

theorem skip_padding_spec (b : List Nat) (len : Nat) :
    ∀ (fuel p q : Nat), skip_padding b len fuel p = Pad.stop q →
      p ≤ q ∧ (p ≤ len → q ≤ len) ∧
      (len ≤ q ∨ (q + 1 < len ∧ b[q]? = some 0xFF ∧ b[q + 1]? = some M_SOI)) ∧
      ∀ i, p ≤ i → i < q → ¬ (i + 1 < len ∧ b[i]? = some 0xFF ∧ b[i + 1]? = some M_SOI) := by
  intro fuel
  induction fuel with
  | zero => intro p q h; simp [skip_padding] at h
  | succ fuel ih =>
    intro p q h
    unfold skip_padding at h
    by_cases hp : p < len
    · simp only [hp, if_true] at h
      have step : skip_padding b len fuel (p + 1) = Pad.stop q →
          ¬ (p + 1 < len ∧ b[p]? = some 0xFF ∧ b[p + 1]? = some M_SOI) →
          p ≤ q ∧ (p ≤ len → q ≤ len) ∧
          (len ≤ q ∨ (q + 1 < len ∧ b[q]? = some 0xFF ∧ b[q + 1]? = some M_SOI)) ∧
          ∀ i, p ≤ i → i < q →
            ¬ (i + 1 < len ∧ b[i]? = some 0xFF ∧ b[i + 1]? = some M_SOI) := by
        intro hrec hno
        obtain ⟨h1, h2, h3, h4⟩ := ih (p + 1) q hrec
        refine ⟨by omega, fun _ => h2 (by omega), h3, ?_⟩
        intro i hi1 hi2
        by_cases hip : i = p
        · subst hip; exact hno
        · exact h4 i (by omega) hi2
      by_cases hp1 : p + 1 < len
      · simp only [hp1, if_true] at h
        cases hb0 : b[p]? with
        | none => simp [hb0] at h
        | some b0 =>
          simp only [hb0] at h
          by_cases h0 : b0 = 0xFF
          · simp only [h0, if_true] at h
            cases hb1 : b[p + 1]? with
            | none => simp [hb1] at h
            | some b1 =>
              simp only [hb1] at h
              by_cases h1 : b1 = M_SOI
              · simp only [h1, if_true] at h
                simp at h
                subst h
                refine ⟨le_refl _, fun _ => by omega, Or.inr ⟨hp1, by rw [hb0, h0], by rw [hb1, h1]⟩, ?_⟩
                intro i hi1 hi2; omega
              · simp only [h1, if_false] at h
                apply step h
                rintro ⟨_, _, h6⟩
                rw [hb1] at h6
                simp at h6
                exact h1 h6
          · simp only [h0, if_false] at h
            apply step h
            rintro ⟨_, h5, _⟩
            rw [hb0] at h5
            simp at h5
            exact h0 h5
      · simp only [hp1, if_false] at h
        apply step h
        rintro ⟨h5, _, _⟩
        exact hp1 h5
    · simp only [hp, if_false] at h
      simp at h
      subst h
      refine ⟨le_refl _, fun hle => hle, Or.inl (by omega), ?_⟩
      intro i hi1 hi2; omega

theorem skip_padding_total (b : List Nat) (len : Nat) (hlen : len ≤ b.length) :
    ∀ (fuel p : Nat), len - p < fuel → ∃ q, skip_padding b len fuel p = Pad.stop q := by
  intro fuel
  induction fuel with
  | zero => intro p hf; omega
  | succ fuel ih =>
    intro p hf
    unfold skip_padding
    by_cases hp : p < len
    · simp only [hp, if_true]
      by_cases hp1 : p + 1 < len
      · have e0 : p < b.length := by omega
        have e1 : p + 1 < b.length := by omega
        simp only [hp1, if_true, List.getElem?_eq_getElem e0, List.getElem?_eq_getElem e1]
        split_ifs
        · exact ⟨p, rfl⟩
        · exact ih (p + 1) (by omega)
        · exact ih (p + 1) (by omega)
      · simp only [hp1, if_false]
        exact ih (p + 1) (by omega)
    · simp only [hp, if_false]
      exact ⟨p, rfl⟩

/-- The trailing garbage loop stops at the first start-of-image pair. -/
theorem skip_padding_run (b : List Nat) (len : Nat) (hlen : len ≤ b.length)
    (fuel p q : Nat) (hf : len - p < fuel) (hpq : p ≤ q) (hq : q + 1 < len)
    (h0 : b[q]? = some 0xFF) (h1 : b[q + 1]? = some M_SOI)
    (hno : ∀ i, p ≤ i → i < q → ¬ (b[i]? = some 0xFF ∧ b[i + 1]? = some M_SOI)) :
    skip_padding b len fuel p = Pad.stop q := by
  obtain ⟨q', hq'⟩ := skip_padding_total b len hlen fuel p hf
  obtain ⟨a1, a2, a3, a4⟩ := skip_padding_spec b len fuel p q' hq'
  have hle : q' ≤ q := by
    by_contra hc
    exact a4 q hpq (by omega) ⟨hq, h0, h1⟩
  have hge : q ≤ q' := by
    by_contra hc
    rcases a3 with a3 | ⟨_, a3, a3'⟩
    · omega
    · exact hno q' a1 (by omega) ⟨a3, a3'⟩
  have : q' = q := by omega
  rw [hq', this]

/-! ## The whole of scan_jpeg -/

/-- The ways a call of `scan_jpeg` returns. -/
theorem scan_jpeg_inv (b : List Nat) (len : Nat) (h : Bool) (r : Int) (st : JpegStatics)
    (hs : scan_jpeg b len h = Scan.ret r st) :
    (r = -1 ∧ st = JpegStatics.zero ∧ ¬ (b[0]? = some 0xFF ∧ b[1]? = some M_SOI)) ∨
    (b[0]? = some 0xFF ∧ b[1]? = some M_SOI ∧
      (scan_loop b len h (len + 1) 2 JpegStatics.zero = Loop.ret r st ∨
       (∃ p, scan_loop b len h (len + 1) 2 JpegStatics.zero = Loop.out p st ∧
          st.jpeg_field_size = 0 ∧ r = -1) ∨
       (∃ p st0 q, scan_loop b len h (len + 1) 2 JpegStatics.zero = Loop.out p st0 ∧
          st0.jpeg_field_size ≠ 0 ∧ skip_padding b len (len + 1) p = Pad.stop q ∧
          r = 0 ∧ st = { st0 with jpeg_padded_len := q }))) := by
  unfold scan_jpeg at hs
  cases hb0 : b[0]? with
  | none => simp [hb0] at hs
  | some b0 =>
    simp only [hb0] at hs
    by_cases h0 : b0 = 0xFF
    · simp only [h0, ne_eq, not_true_eq_false, if_false] at hs
      cases hb1 : b[1]? with
      | none => simp [hb1] at hs
      | some b1 =>
        simp only [hb1] at hs
        by_cases h1 : b1 = M_SOI
        · simp only [h1, ne_eq, not_true_eq_false, if_false] at hs
          right
          refine ⟨by rw [h0], by rw [h1], ?_⟩
          cases hl : scan_loop b len h (len + 1) 2 JpegStatics.zero with
          | ret r' st' =>
            rw [hl] at hs
            simp at hs
            left; rw [hs.1, hs.2]
          | fault => rw [hl] at hs; simp at hs
          | timeout => rw [hl] at hs; simp at hs
          | out p st0 =>
            rw [hl] at hs
            simp only at hs
            by_cases hf : st0.jpeg_field_size = 0
            · simp only [hf, if_true] at hs
              simp at hs
              right; left
              exact ⟨p, by rw [hs.2], by rw [← hs.2]; exact hf, hs.1.symm⟩
            · simp only [hf, if_false] at hs
              cases hpad : skip_padding b len (len + 1) p with
              | fault => rw [hpad] at hs; simp at hs
              | timeout => rw [hpad] at hs; simp at hs
              | stop q =>
                rw [hpad] at hs
                simp at hs
                right; right
                exact ⟨p, st0, q, rfl, hf, hpad, hs.1.symm, hs.2.symm⟩
        · simp only [ne_eq, h1, not_false_eq_true, if_true] at hs
          simp at hs
          left
          refine ⟨hs.1.symm, hs.2.symm, ?_⟩
          rintro ⟨_, h3⟩
          simp at h3
          exact h1 h3
    · simp only [ne_eq, h0, not_false_eq_true, if_true] at hs
      simp at hs
      left
      refine ⟨hs.1.symm, hs.2.symm, ?_⟩
      rintro ⟨h3, _⟩
      simp at h3
      exact h0 h3

/-- A call of `scan_jpeg` on a buffer that holds the declared length, and at
least the two bytes of the first test, returns. -/
theorem scan_jpeg_total (b : List Nat) (len : Nat) (h : Bool)
    (h2 : 2 ≤ b.length) (hlen : len ≤ b.length) :
    ∃ r st, scan_jpeg b len h = Scan.ret r st := by
  unfold scan_jpeg
  have e0 : 0 < b.length := by omega
  have e1 : 1 < b.length := by omega
  simp only [List.getElem?_eq_getElem e0, List.getElem?_eq_getElem e1]
  split_ifs with c0 c1
  · exact ⟨_, _, rfl⟩
  · exact ⟨_, _, rfl⟩
  · have ht := scan_loop_total b len h hlen (len + 1) 2 JpegStatics.zero (by omega)
    cases hl : scan_loop b len h (len + 1) 2 JpegStatics.zero with
    | ret r' st' => exact ⟨_, _, rfl⟩
    | fault => exact absurd hl ht.1
    | timeout => exact absurd hl ht.2
    | out p st0 =>
      simp only
      split_ifs with hf
      · exact ⟨_, _, rfl⟩
      · obtain ⟨q, hq⟩ := skip_padding_total b len hlen (len + 1) p (by omega)
        rw [hq]
        exact ⟨_, _, rfl⟩

theorem range_inv_start (len : Nat) (h : Bool) : range_inv len h 2 JpegStatics.zero :=
  ⟨rfl, rfl, le_refl _, ⟨Or.inl rfl, Or.inl rfl, Or.inl rfl, Or.inl rfl, Or.inl rfl, Or.inl rfl⟩,
    Or.inl rfl⟩

theorem met_inv_start (b : List Nat) (len : Nat) : met_inv b len 2 JpegStatics.zero :=
  ⟨rfl, fun e he => by simp [JpegStatics.zero] at he⟩

theorem off_ok_in_range (len off : Nat) (ho : off_ok len off) : in_range len off := by
  rcases ho with ho | ⟨h1, h2⟩
  · exact Or.inl ho
  · exact Or.inr ⟨h1, by omega⟩

/-! ## A header-only scan and the bytes behind the scan header -/

theorem scan_loop_no_sos (b : List Nat) (len : Nat) :
    ∀ (fuel p : Nat) (st : JpegStatics), no_sos_inv p st →
      no_sos_post (scan_loop b len true fuel p st) := by
  apply scan_loop_rule b len true no_sos_inv no_sos_post
  · intro p st p' st' hI hp hs
    rcases scan_step_inv b len true p st hp with e | e | e | ⟨p1, p2, m, l, _, _, _, _, _, _, _, _, e⟩
    · rw [e] at hs; simp at hs
    · rw [e] at hs; simp at hs
    · rw [e] at hs; simp at hs
    · rw [e] at hs
      obtain ⟨_, c2, c3, _⟩ := check_marker_next len true m (p2 + 1) l _ p' st' hs
      subst c3
      intro e he
      rw [record_marker_met] at he
      simp only [List.mem_append, List.mem_singleton] at he
      rcases he with he | he
      · exact hI e he
      · subst he
        intro hm
        exact c2 ⟨hm, rfl⟩
  · intro p st p' st' hI hp hs
    rcases scan_step_inv b len true p st hp with e | e | e | ⟨p1, p2, m, l, _, _, _, _, _, _, _, _, e⟩
    · rw [e] at hs; simp at hs
    · rw [e] at hs; simp at hs
    · rw [e] at hs; simp at hs
    · rw [e] at hs
      obtain ⟨c1, c2, c3⟩ := check_marker_brk len true m (p2 + 1) l _ p' st' hs
      subst c3
      intro e he
      simp only [List.mem_append, List.mem_singleton] at he
      rcases he with he | he
      · exact hI e he
      · subst he
        rw [c1]
        show M_EOI ≠ M_SOS
        decide
  · intro p st r st' _ _ _; trivial
  · intro p st hI _; exact hI
  · trivial
  · trivial

theorem length_at_agree (b1 b2 : List Nat) (len p2 k : Nat)
    (hag : ∀ i, i ≤ k → b1[i]? = b2[i]?) (hk : p2 + 2 ≤ k) :
    length_at b2 len p2 = length_at b1 len p2 := by
  unfold length_at get_int2
  rw [hag (p2 + 1) (by omega), hag (p2 + 1 + 1) (by omega)]

/-- A pass through the body that reads a marker code at `p2` is the same on
every buffer with the same bytes up to index `p2 + 2`. -/
theorem scan_step_agree (b1 b2 : List Nat) (len : Nat) (h : Bool) (p : Nat)
    (st : JpegStatics) (k p1 p2 m l : Nat) (hag : ∀ i, i ≤ k → b1[i]? = b2[i]?)
    (hk : p2 + 2 ≤ k) (h1 : p ≤ p1) (h2 : p1 < p2) (h3 : p2 < len)
    (hnon : ∀ i, p ≤ i → i < p1 → ∃ v, b1[i]? = some v ∧ v ≠ 0xFF)
    (hff : ∀ i, p1 ≤ i → i < p2 → b1[i]? = some 0xFF)
    (hm : b1[p2]? = some m) (hne : m ≠ 0xFF) (hl : length_at b1 len p2 = some l) :
    scan_step b2 len h p st =
      check_marker len h m (p2 + 1) l { st with met := st.met ++ [(m, p2)] } := by
  apply scan_step_run b2 len h p st p1 p2 m l h1 h2 h3
  · intro i hi1 hi2
    rw [← hag i (by omega)]
    exact hnon i hi1 hi2
  · intro i hi1 hi2
    rw [← hag i (by omega)]
    exact hff i hi1 hi2
  · rw [← hag p2 (by omega)]; exact hm
  · exact hne
  · rw [length_at_agree b1 b2 len p2 k hag hk]; exact hl

theorem scan_loop_agree (b1 b2 : List Nat) (len q : Nat) (r : Int) (st' : JpegStatics)
    (hag : ∀ i, i ≤ q + 2 → b1[i]? = b2[i]?) (hq : (M_SOS, q) ∈ st'.met) :
    ∀ (fuel p : Nat) (st : JpegStatics), (∀ e ∈ st.met, e.1 ≠ M_SOS) →
      scan_loop b1 len true fuel p st = Loop.ret r st' →
      scan_loop b2 len true fuel p st = Loop.ret r st' ∧ p ≤ q := by
  intro fuel
  induction fuel with
  | zero => intro p st _ hs; simp [scan_loop] at hs
  | succ fuel ih =>
    intro p st hno hs
    unfold scan_loop at hs ⊢
    by_cases hp : p < len
    · simp only [hp, if_true] at hs ⊢
      rcases scan_step_inv b1 len true p st hp with e | e | e |
        ⟨p1, p2, m, l, a1, a2, a3, a4, a5, a6, a7, a8, e⟩
      · rw [e] at hs
        simp at hs
        rw [← hs.2] at hq
        exact absurd rfl (hno _ hq)
      · rw [e] at hs; simp at hs
      · rw [e] at hs; simp at hs
      · rw [e] at hs
        cases hc : check_marker len true m (p2 + 1) l { st with met := st.met ++ [(m, p2)] } with
        | next p' st1 =>
          rw [hc] at hs
          simp only at hs
          obtain ⟨_, c2, c3, c4⟩ := check_marker_next len true m (p2 + 1) l _ p' st1 hc
          have hno1 : ∀ e ∈ st1.met, e.1 ≠ M_SOS := by
            subst c3
            intro e he
            rw [record_marker_met] at he
            simp only [List.mem_append, List.mem_singleton] at he
            rcases he with he | he
            · exact hno e he
            · subst he
              intro hm
              exact c2 ⟨hm, rfl⟩
          obtain ⟨g1, g2⟩ := ih p' st1 hno1 hs
          have hp' : p2 + 1 ≤ p' := by
            rcases c4 with ⟨_, c4⟩ | ⟨_, c4, _⟩ <;> omega
          rw [scan_step_agree b1 b2 len true p st (q + 2) p1 p2 m l hag (by omega) a1 a2 a3
            a4 a5 a6 a7 a8, hc]
          exact ⟨g1, by omega⟩
        | brk p' st1 => rw [hc] at hs; simp at hs
        | fault => rw [hc] at hs; simp at hs
        | timeout => rw [hc] at hs; simp at hs
        | ret r1 st1 =>
          rw [hc] at hs
          simp at hs
          obtain ⟨_, c2, _⟩ := check_marker_ret len true m (p2 + 1) l _ r1 st1 hc
          have hq2 : q = p2 := by
            rw [← hs.2, c2, record_marker_met] at hq
            simp only [List.mem_append, List.mem_singleton] at hq
            rcases hq with hq | hq
            · exact absurd rfl (hno _ hq)
            · simp at hq; exact hq.2
          rw [scan_step_agree b1 b2 len true p st (q + 2) p1 p2 m l hag (by omega) a1 a2 a3
            a4 a5 a6 a7 a8, hc]
          simp only
          exact ⟨by rw [hs.1, hs.2], by omega⟩
    · simp only [hp, if_false] at hs
      simp at hs

/-! ## The scan of a well-formed field -/

theorem segments_end_ge : ∀ (segs : List (Nat × Nat)) (a : Nat), a ≤ segments_end a segs := by
  intro segs
  induction segs with
  | nil => intro a; exact le_refl _
  | cons hd tl ih =>
    intro a
    obtain ⟨m, l⟩ := hd
    unfold segments_end
    have := ih (a + 2 + l)
    omega

/-- The main loop passes the header segments one per pass. -/
theorem scan_loop_segments (b : List Nat) (len : Nat) (h : Bool) :
    ∀ (segs : List (Nat × Nat)) (a fuel : Nat) (st : JpegStatics),
      segments_at b a segs → segments_end a segs < len →
      scan_loop b len h (segs.length + fuel) a st =
        scan_loop b len h fuel (segments_end a segs) (record_segments a segs st) := by
  intro segs
  induction segs with
  | nil =>
    intro a fuel st _ _
    simp [segments_end, record_segments]
  | cons hd tl ih =>
    intro a fuel st hseg hend
    obtain ⟨m, l⟩ := hd
    obtain ⟨⟨c1, c2, c3, c4⟩, ⟨s1, s2, s3, s4⟩, hrest⟩ := hseg
    have hge := segments_end_ge tl (a + 2 + l)
    unfold segments_end at hend
    have hfuel : (((m, l) :: tl).length + fuel) = (tl.length + fuel) + 1 := by
      simp only [List.length_cons]; omega
    rw [hfuel, scan_loop_succ]
    have hp : a < len := by omega
    simp only [hp, if_true]
    have hl : length_at b len (a + 1) = some l := by
      unfold length_at
      have : a + 1 + 1 + 2 ≤ len := by omega
      simp only [this, if_true]
      exact s3
    rw [scan_step_run b len h a st a (a + 1) m l (le_refl _) (by omega) (by omega)
      (fun i h1 h2 => by omega)
      (fun i h1 h2 => by have : i = a := by omega
                         rw [this]; exact s1)
      s2 c1 hl]
    unfold check_marker
    have hsos : ¬ (m = M_SOS ∧ h = true) := fun hc => c4 hc.1
    have hfit : a + 1 + 1 + l ≤ len := by omega
    simp only [c3, hsos, c2, hfit, if_true, if_false, Bool.false_eq_true]
    rw [show a + 1 + 1 + l = a + 2 + l by omega]
    rw [ih (a + 2 + l) fuel _ hrest hend]
    rfl

theorem record_marker_no_params (c p l : Nat) (st : JpegStatics) (hc : no_params c = true) :
    record_marker c p l st = st := by
  have hc' : (c = 0 ∨ c = 1) ∨ (0xd0 ≤ c ∧ c ≤ 0xd7) := by
    simpa [no_params] using hc
  unfold record_marker
  have e1 : ¬ (c = M_SOF0 ∨ c = M_SOF1) := by unfold M_SOF0 M_SOF1; omega
  have e2 : ¬ (c = M_DQT) := by unfold M_DQT; omega
  have e3 : ¬ (c = M_DHT) := by unfold M_DHT; omega
  have e4 : ¬ (c = M_SOS) := by unfold M_SOS; omega
  have e5 : ¬ (c = M_APP0) := by unfold M_APP0; omega
  have e6 : ¬ (c = M_APP1) := by unfold M_APP1; omega
  simp only [e1, e2, e3, e4, e5, e6, if_false]

/-- The first searching loop finds a `0xFF` that lies ahead. -/
theorem skip_non_ff_finds (b : List Nat) (len : Nat) (hlen : len ≤ b.length) :
    ∀ (fuel p e : Nat), p ≤ e → e < len → b[e]? = some 0xFF → e - p < fuel →
      ∃ p1, p1 ≤ e ∧ skip_non_ff b len fuel p = Skip.stop p1 := by
  intro fuel
  induction fuel with
  | zero => intro p e _ _ _ hf; omega
  | succ fuel ih =>
    intro p e hpe he hff hf
    unfold skip_non_ff
    have hpb : p < b.length := by omega
    rw [List.getElem?_eq_getElem hpb]
    simp only
    by_cases hv : b[p] = 0xFF
    · exact ⟨p, hpe, by simp [hv]⟩
    · have hne : p ≠ e := by
        intro hc
        subst hc
        rw [List.getElem?_eq_getElem hpb] at hff
        simp at hff
        exact hv hff
      have hl : ¬ (p + 1 ≥ len) := by omega
      simp only [ne_eq, hv, not_false_eq_true, if_true, hl, if_false]
      exact ih (p + 1) e (by omega) he hff (by omega)

/-- In full mode the main loop passes the entropy-coded data and leaves at
the end-of-image marker, changing the field size and the ghost field only. -/
theorem scan_loop_entropy (b : List Nat) (len d eoi : Nat) (hlen : len ≤ b.length)
    (hent : entropy_ok b d eoi) (h0 : b[eoi]? = some 0xFF) (h1 : b[eoi + 1]? = some M_EOI)
    (hfit : eoi + 2 ≤ len) :
    ∀ (k p fuel : Nat) (st : JpegStatics), eoi - p < k → d ≤ p → p ≤ eoi → eoi - p < fuel →
      ∃ st', scan_loop b len false fuel p st = Loop.out (eoi + 2) st' ∧
        same_statics st' { st with jpeg_field_size := eoi + 2 } := by
  intro k
  induction k with
  | zero => intro p fuel st hk; omega
  | succ k ih =>
    intro p fuel st hk hdp hpe hfuel
    obtain ⟨fuel', rfl⟩ : ∃ f, fuel = f + 1 := ⟨fuel - 1, by omega⟩
    rw [scan_loop_succ]
    have hp : p < len := by omega
    simp only [hp, if_true]
    obtain ⟨p1, hp1, hskip⟩ := skip_non_ff_finds b len hlen len p eoi hpe (by omega) h0 (by omega)
    obtain ⟨a1, _, a3, _, a5⟩ := skip_non_ff_spec b len len p p1 hskip
    by_cases hlast : p1 = eoi
    · subst hlast
      have hl : ∃ l, length_at b len (p1 + 1) = some l := by
        unfold length_at get_int2
        by_cases hc : p1 + 1 + 1 + 2 ≤ len
        · have e1 : p1 + 1 + 1 < b.length := by omega
          have e2 : p1 + 1 + 1 + 1 < b.length := by omega
          simp only [hc, if_true, List.getElem?_eq_getElem e1, List.getElem?_eq_getElem e2]
          exact ⟨_, rfl⟩
        · simp only [hc, if_false]
          exact ⟨_, rfl⟩
      obtain ⟨l, hl⟩ := hl
      rw [scan_step_run b len false p st p1 (p1 + 1) M_EOI l a1 (by omega) (by omega) a5
        (fun i h1 h2 => by have : i = p1 := by omega
                           rw [this]; exact a3)
        h1 (by decide) hl]
      unfold check_marker
      simp only [if_true]
      exact ⟨_, rfl, rfl⟩
    · have hlt : p1 < eoi := by omega
      have hst := hent p1 (by omega) hlt a3
      unfold stuffed_after at hst
      rw [List.getD_eq_getElem?_getD] at hst
      cases hc : b[p1 + 1]? with
      | none => rw [hc] at hst; simp at hst
      | some c =>
        rw [hc] at hst
        simp only [Option.some.injEq, Option.getD_some] at hst
        have hcff : c ≠ 0xFF := by omega
        have hnp : no_params c = true := by
          simp only [no_params, Bool.or_eq_true, beq_iff_eq, Bool.and_eq_true, decide_eq_true_eq]
          rcases hst with hst | hst
          · left; left; exact hst
          · right; exact hst
        have hne : p1 + 1 ≠ eoi := by
          intro he
          rw [he, h0] at hc
          simp at hc
          exact hcff hc.symm
        have hl : ∃ l, length_at b len (p1 + 1) = some l := by
          unfold length_at get_int2
          by_cases hc : p1 + 1 + 1 + 2 ≤ len
          · have e1 : p1 + 1 + 1 < b.length := by omega
            have e2 : p1 + 1 + 1 + 1 < b.length := by omega
            simp only [hc, if_true, List.getElem?_eq_getElem e1, List.getElem?_eq_getElem e2]
            exact ⟨_, rfl⟩
          · simp only [hc, if_false]
            exact ⟨_, rfl⟩
        obtain ⟨l, hl⟩ := hl
        rw [scan_step_run b len false p st p1 (p1 + 1) c l a1 (by omega) (by omega) a5
          (fun i h1 h2 => by have : i = p1 := by omega
                             rw [this]; exact a3)
          hc hcff hl]
        unfold check_marker
        have heoi : c ≠ M_EOI := by unfold M_EOI; omega
        have hsos : ¬ (c = M_SOS ∧ false = true) := by simp
        simp only [heoi, hsos, hnp, if_true, if_false]
        rw [record_marker_no_params c _ _ _ hnp]
        obtain ⟨st', g1, g2⟩ := ih (p1 + 1 + 1) fuel'
          { st with met := st.met ++ [(c, p1 + 1)] } (by omega) (by omega) (by omega) (by omega)
        exact ⟨st', g1, g2⟩

theorem segments_end_lower (b : List Nat) :
    ∀ (segs : List (Nat × Nat)) (a : Nat), segments_at b a segs →
      a + 4 * segs.length ≤ segments_end a segs := by
  intro segs
  induction segs with
  | nil => intro a _; simp [segments_end]
  | cons hd tl ih =>
    intro a hseg
    obtain ⟨m, l⟩ := hd
    obtain ⟨_, ⟨_, _, _, s4⟩, hrest⟩ := hseg
    have := ih (a + 2 + l) hrest
    simp only [List.length_cons, segments_end]
    omega

/-- The pass of the main loop at the scan header of a well-formed field. -/
theorem scan_step_sos (b : List Nat) (len : Nat) (h : Bool) (s sl : Nat) (st : JpegStatics)
    (hsos : segment_at b s M_SOS sl) (hfit : s + 4 ≤ len) :
    scan_step b len h s st =
      check_marker len h M_SOS (s + 2) sl { st with met := st.met ++ [(M_SOS, s + 1)] } := by
  obtain ⟨s1, s2, s3, _⟩ := hsos
  have hl : length_at b len (s + 1) = some sl := by
    unfold length_at
    have : s + 1 + 1 + 2 ≤ len := by omega
    simp only [this, if_true]
    exact s3
  exact scan_step_run b len h s st s (s + 1) M_SOS sl (le_refl _) (by omega) (by omega)
    (fun i h1 h2 => by omega)
    (fun i h1 h2 => by have : i = s := by omega
                       rw [this]; exact s1)
    s2 (by decide) hl

/-- The header-only scan of a buffer that starts with `0xFF 0xD8`, header
segments and a scan header returns success at the scan header, whatever
follows and whatever the declared length from the scan header's length field
on. -/
theorem scan_jpeg_header_only (b : List Nat) (len : Nat) (segs : List (Nat × Nat)) (sl : Nat)
    (h0 : b[0]? = some 0xFF) (h1 : b[1]? = some M_SOI) (hseg : segments_at b 2 segs)
    (hsos : segment_at b (segments_end 2 segs) M_SOS sl)
    (hfit : segments_end 2 segs + 4 ≤ len) :
    scan_jpeg b len true = Scan.ret 0 (record_headers segs sl) := by
  have hlow := segments_end_lower b segs 2 hseg
  unfold scan_jpeg
  simp only [h0, h1, ne_eq, not_true_eq_false, if_false]
  obtain ⟨fuel, hfuel⟩ : ∃ f, len + 1 = segs.length + (f + 1) :=
    ⟨len - segs.length, by omega⟩
  rw [hfuel, scan_loop_segments b len true segs 2 (fuel + 1) _ hseg (by omega), scan_loop_succ]
  have hp : segments_end 2 segs < len := by omega
  simp only [hp, if_true]
  rw [scan_step_sos b len true _ sl _ hsos hfit]
  unfold check_marker
  have e1 : M_SOS ≠ M_EOI := by decide
  simp only [e1, if_false, and_self, if_true]
  rfl

/-- The full scan of a buffer that starts with a well-formed field succeeds;
the statics are those after the headers, with the field size behind the
end-of-image marker and the padded length where the trailing loop stops. -/
theorem scan_jpeg_field (b : List Nat) (len : Nat) (segs : List (Nat × Nat)) (sl eoi : Nat)
    (hwf : well_formed_field b segs sl eoi) (hfit : eoi + 2 ≤ len) (hlen : len ≤ b.length) :
    ∃ q st, skip_padding b len (len + 1) (eoi + 2) = Pad.stop q ∧
      scan_jpeg b len false = Scan.ret 0 st ∧
      same_statics st
        { record_headers segs sl with jpeg_field_size := eoi + 2, jpeg_padded_len := q } := by
  obtain ⟨h0, h1, hseg, hsos, hd, hent, he0, he1⟩ := hwf
  have hlow := segments_end_lower b segs 2 hseg
  obtain ⟨q, hq⟩ := skip_padding_total b len hlen (len + 1) (eoi + 2) (by omega)
  obtain ⟨fuel, hfuel⟩ : ∃ f, len + 1 = segs.length + (f + 1) :=
    ⟨len - segs.length, by omega⟩
  have hp : segments_end 2 segs < len := by omega
  have hloop : ∃ st', scan_loop b len false (len + 1) 2 JpegStatics.zero =
      Loop.out (eoi + 2) st' ∧
      same_statics st' { record_headers segs sl with jpeg_field_size := eoi + 2 } := by
    rw [hfuel, scan_loop_segments b len false segs 2 (fuel + 1) _ hseg hp, scan_loop_succ]
    simp only [hp, if_true]
    rw [scan_step_sos b len false _ sl _ hsos (by omega)]
    unfold check_marker
    have e1 : M_SOS ≠ M_EOI := by decide
    have e2 : no_params M_SOS = false := by decide
    have e3 : segments_end 2 segs + 2 + sl ≤ len := by omega
    simp only [e1, e2, e3, if_false, if_true, Bool.false_eq_true, and_false]
    exact scan_loop_entropy b len _ eoi hlen hent he0 he1 hfit (eoi + 1) _ fuel _
      (by omega) (le_refl _) hd (by omega)
  obtain ⟨st', hl, hsame⟩ := hloop
  have hfs : st'.jpeg_field_size = eoi + 2 := by
    have := congrArg JpegStatics.jpeg_field_size hsame
    exact this
  refine ⟨q, { st' with jpeg_padded_len := q }, hq, ?_, ?_⟩
  · unfold scan_jpeg
    simp only [h0, h1, ne_eq, not_true_eq_false, if_false, hl]
    have : ¬ (st'.jpeg_field_size = 0) := by omega
    simp only [this, if_false, hq]
  · unfold same_statics at hsame ⊢
    have := congrArg (fun t : JpegStatics => { t with jpeg_padded_len := q }) hsame
    exact this

/-! ## Well-formedness and changes of the buffer -/

theorem get_int2_congr (b b' : List Nat) (a : Nat) (h0 : b'[a]? = b[a]?)
    (h1 : b'[a + 1]? = b[a + 1]?) : get_int2 b' a = get_int2 b a := by
  unfold get_int2
  rw [h0, h1]

theorem segment_at_congr (b b' : List Nat) (a m l : Nat)
    (hag : ∀ i, a ≤ i → i ≤ a + 3 → b'[i]? = b[i]?) (hs : segment_at b a m l) :
    segment_at b' a m l := by
  obtain ⟨s1, s2, s3, s4⟩ := hs
  refine ⟨?_, ?_, ?_, s4⟩
  · rw [hag a (le_refl _) (by omega)]; exact s1
  · rw [hag (a + 1) (by omega) (by omega)]; exact s2
  · rw [get_int2_congr b b' (a + 2) (hag (a + 2) (by omega) (by omega))
      (hag (a + 2 + 1) (by omega) (by omega))]
    exact s3

theorem segments_at_congr_ge (b b' : List Nat) :
    ∀ (segs : List (Nat × Nat)) (a : Nat), (∀ i, a ≤ i → b'[i]? = b[i]?) →
      segments_at b a segs → segments_at b' a segs := by
  intro segs
  induction segs with
  | nil => intro a _ _; trivial
  | cons hd tl ih =>
    intro a hag hseg
    obtain ⟨m, l⟩ := hd
    obtain ⟨hc, hs, hrest⟩ := hseg
    exact ⟨hc, segment_at_congr b b' a m l (fun i h1 _ => hag i h1) hs,
      ih (a + 2 + l) (fun i h1 => hag i (by omega)) hrest⟩

theorem segments_at_congr_lt (b b' : List Nat) (N : Nat) (hag : ∀ i, i < N → b'[i]? = b[i]?) :
    ∀ (segs : List (Nat × Nat)) (a : Nat), segments_at b a segs → segments_end a segs ≤ N →
      segments_at b' a segs := by
  intro segs
  induction segs with
  | nil => intro a _ _; trivial
  | cons hd tl ih =>
    intro a hseg hend
    obtain ⟨m, l⟩ := hd
    obtain ⟨hc, hs, hrest⟩ := hseg
    unfold segments_end at hend
    have hge := segments_end_ge tl (a + 2 + l)
    have hl := hs.2.2.2
    exact ⟨hc, segment_at_congr b b' a m l (fun i _ h2 => hag i (by omega)) hs,
      ih (a + 2 + l) hrest hend⟩

theorem segments_end_append : ∀ (pre post : List (Nat × Nat)) (a : Nat),
    segments_end a (pre ++ post) = segments_end (segments_end a pre) post := by
  intro pre
  induction pre with
  | nil => intro post a; rfl
  | cons hd tl ih =>
    intro post a
    obtain ⟨m, l⟩ := hd
    simp only [List.cons_append, segments_end]
    exact ih post (a + 2 + l)

theorem segments_at_append (b : List Nat) : ∀ (pre post : List (Nat × Nat)) (a : Nat),
    segments_at b a (pre ++ post) ↔
      segments_at b a pre ∧ segments_at b (segments_end a pre) post := by
  intro pre
  induction pre with
  | nil => intro post a; simp [segments_at, segments_end]
  | cons hd tl ih =>
    intro post a
    obtain ⟨m, l⟩ := hd
    have := ih post (a + 2 + l)
    show header_code m ∧ segment_at b a m l ∧ segments_at b (a + 2 + l) (tl ++ post) ↔
      (header_code m ∧ segment_at b a m l ∧ segments_at b (a + 2 + l) tl) ∧
        segments_at b (segments_end (a + 2 + l) tl) post
    rw [this]
    tauto

/-- The part of a well-formed field from the scan header on depends on the
bytes from the scan header to the end-of-image marker only. -/
theorem field_tail_congr (b b' : List Nat) (s sl eoi : Nat)
    (hag : ∀ i, s ≤ i → i ≤ eoi + 1 → b'[i]? = b[i]?)
    (hsos : segment_at b s M_SOS sl) (hd : s + 2 + sl ≤ eoi)
    (hent : entropy_ok b (s + 2 + sl) eoi)
    (he0 : b[eoi]? = some 0xFF) (he1 : b[eoi + 1]? = some M_EOI) :
    segment_at b' s M_SOS sl ∧ entropy_ok b' (s + 2 + sl) eoi ∧
    b'[eoi]? = some 0xFF ∧ b'[eoi + 1]? = some M_EOI := by
  have hl := hsos.2.2.2
  refine ⟨segment_at_congr b b' s M_SOS sl (fun i h1 h2 => hag i h1 (by omega)) hsos, ?_, ?_, ?_⟩
  · intro i hi1 hi2 hff
    rw [hag i (by omega) (by omega)] at hff
    have := hent i hi1 hi2 hff
    unfold stuffed_after at this ⊢
    rw [List.getD_eq_getElem?_getD] at this ⊢
    rw [hag (i + 1) (by omega) (by omega)]
    exact this
  · rw [hag eoi (by omega) (by omega)]; exact he0
  · rw [hag (eoi + 1) (by omega) (le_refl _)]; exact he1

/-- A well-formed field stays one in every buffer with the same bytes up to
the end-of-image marker. -/
theorem well_formed_field_congr_lt (b b' : List Nat) (segs : List (Nat × Nat)) (sl eoi : Nat)
    (hag : ∀ i, i ≤ eoi + 1 → b'[i]? = b[i]?) (hwf : well_formed_field b segs sl eoi) :
    well_formed_field b' segs sl eoi := by
  obtain ⟨h0, h1, hseg, hsos, hd, hent, he0, he1⟩ := hwf
  have hge := segments_end_ge segs 2
  obtain ⟨t1, t2, t3, t4⟩ := field_tail_congr b b' _ sl eoi (fun i _ h2 => hag i h2)
    hsos hd hent he0 he1
  refine ⟨?_, ?_, ?_, t1, hd, t2, t3, t4⟩
  · rw [hag 0 (by omega)]; exact h0
  · rw [hag 1 (by omega)]; exact h1
  · exact segments_at_congr_lt b b' (segments_end 2 segs) (fun i hi => hag i (by omega)) segs 2
      hseg (le_refl _)

/-- A well-formed field stays one when bytes inside the payload of one of its
header segments change. -/
theorem well_formed_field_congr_hole (b b' : List Nat) (pre post : List (Nat × Nat))
    (m l sl eoi : Nat)
    (hag : ∀ i, (i < segments_end 2 pre + 4 ∨ segments_end 2 pre + 2 + l ≤ i) →
      b'[i]? = b[i]?)
    (hwf : well_formed_field b (pre ++ (m, l) :: post) sl eoi) :
    well_formed_field b' (pre ++ (m, l) :: post) sl eoi := by
  obtain ⟨h0, h1, hseg, hsos, hd, hent, he0, he1⟩ := hwf
  have hend : segments_end 2 (pre ++ (m, l) :: post) =
      segments_end (segments_end 2 pre + 2 + l) post := by
    rw [segments_end_append]; rfl
  have hge := segments_end_ge post (segments_end 2 pre + 2 + l)
  have hge2 := segments_end_ge pre 2
  obtain ⟨t1, t2, t3, t4⟩ := field_tail_congr b b' _ sl eoi
    (fun i h1 _ => hag i (Or.inr (by omega))) hsos hd hent he0 he1
  rw [segments_at_append] at hseg
  obtain ⟨hpre, hc, hs, hpost⟩ := hseg
  refine ⟨?_, ?_, ?_, t1, hd, t2, t3, t4⟩
  · rw [hag 0 (Or.inl (by omega))]; exact h0
  · rw [hag 1 (Or.inl (by omega))]; exact h1
  · rw [segments_at_append]
    refine ⟨?_, hc, ?_, ?_⟩
    · exact segments_at_congr_lt b b' (segments_end 2 pre) (fun i hi => hag i (Or.inl (by omega)))
        pre 2 hpre (le_refl _)
    · exact segment_at_congr b b' _ m l (fun i _ h2 => hag i (Or.inl (by omega))) hs
    · exact segments_at_congr_ge b b' post _ (fun i hi => hag i (Or.inr hi)) hpost

/-! ## A frame of two fields -/

/-- The full scan over a frame `f1 ++ f2`, where `f1` is a well-formed field
followed by padding without a `0xFF 0xD8` pair and `f2` starts with
`0xFF 0xD8`: success, with the padded length the length of `f1`. -/
theorem scan_jpeg_first_field (f1 f2 : List Nat) (segs : List (Nat × Nat)) (sl eoi : Nat)
    (hwf : well_formed_field f1 segs sl eoi)
    (hpad : no_soi_from f1 (eoi + 2))
    (h0 : f2[0]? = some 0xFF) (h1 : f2[1]? = some M_SOI) :
    ∃ st, scan_jpeg (f1 ++ f2) (f1 ++ f2).length false = Scan.ret 0 st ∧
      same_statics st { record_headers segs sl with
        jpeg_field_size := eoi + 2, jpeg_padded_len := f1.length } := by
  have he1 := hwf.2.2.2.2.2.2.2
  have hn1 : eoi + 1 < f1.length := by
    by_contra hc
    rw [List.getElem?_eq_none (by omega)] at he1
    simp at he1
  have hn2 : 1 < f2.length := by
    by_contra hc
    rw [List.getElem?_eq_none (by omega)] at h1
    simp at h1
  have hlen : (f1 ++ f2).length = f1.length + f2.length := List.length_append f1 f2
  have hwf' : well_formed_field (f1 ++ f2) segs sl eoi :=
    well_formed_field_congr_lt f1 (f1 ++ f2) segs sl eoi
      (fun i hi => List.getElem?_append_left (by omega)) hwf
  obtain ⟨q, st, hq, hs, hsame⟩ := scan_jpeg_field (f1 ++ f2) (f1 ++ f2).length segs sl eoi hwf'
    (by omega) (le_refl _)
  have hb0 : (f1 ++ f2)[f1.length]? = some 0xFF := by
    rw [List.getElem?_append_right (le_refl _), Nat.sub_self]; exact h0
  have hb1 : (f1 ++ f2)[f1.length + 1]? = some M_SOI := by
    rw [List.getElem?_append_right (by omega), show f1.length + 1 - f1.length = 1 by omega]
    exact h1
  have hrun := skip_padding_run (f1 ++ f2) (f1 ++ f2).length (le_refl _)
    ((f1 ++ f2).length + 1) (eoi + 2) f1.length (by omega) (by omega) (by omega) hb0 hb1
    (by
      intro i hi1 hi2 ⟨hp0, hp1⟩
      rw [List.getElem?_append_left hi2] at hp0
      by_cases hlast : i + 1 < f1.length
      · rw [List.getElem?_append_left hlast] at hp1
        exact hpad i hi1 hi2 ⟨hp0, hp1⟩
      · have : i + 1 = f1.length := by omega
        rw [this, hb0] at hp1
        simp [M_SOI] at hp1)
  rw [hrun] at hq
  simp at hq
  subst hq
  exact ⟨st, hs, hsame⟩

theorem to_int_of_lt (x : Nat) (hx : x < 2 ^ 31) : to_int x = x := by
  unfold to_int
  omega

theorem to_int_le (x : Nat) : to_int x ≤ x := by
  unfold to_int
  omega

/-- After a successful full scan the padded length is within the declared
length. -/
theorem padded_len_bounds (b : List Nat) (len : Nat) (st : JpegStatics)
    (hs : scan_jpeg b len false = Scan.ret 0 st) : st.jpeg_padded_len ≤ len := by
  have hrange := scan_loop_range b len false (len + 1) 2 JpegStatics.zero
    (range_inv_start len false)
  rcases scan_jpeg_inv b len false 0 st hs with ⟨hr, _, _⟩ | ⟨_, _, hl | ⟨p, hl, hf, hr⟩ |
    ⟨p, st0, q, hl, hf, hpad, hr, hst⟩⟩
  · simp at hr
  · rw [hl] at hrange
    have := (hrange.2 rfl).1
    simp at this
  · simp at hr
  · rw [hl] at hrange
    rcases hrange.2 with g | ⟨g1, _, g3, _⟩
    · exact absurd g hf
    · obtain ⟨_, a2, _, _⟩ := skip_padding_spec b len (len + 1) p q hpad
      subst hst
      exact a2 g3

/-! ## The offset of the first APP0 segment -/

theorem record_marker_app0 (m p l : Nat) (st : JpegStatics) :
    (record_marker m p l st).jpeg_app0_offset =
      if m = M_APP0 ∧ st.jpeg_app0_offset = 0 then p - 2 else st.jpeg_app0_offset := by
  unfold record_marker
  split_ifs <;> simp_all [M_APP0, M_SOS, M_SOF0, M_SOF1, M_DQT, M_DHT, M_APP1]

theorem record_segments_app0_none : ∀ (pre : List (Nat × Nat)) (a : Nat) (st : JpegStatics),
    (∀ e ∈ pre, e.1 ≠ M_APP0) →
      (record_segments a pre st).jpeg_app0_offset = st.jpeg_app0_offset := by
  intro pre
  induction pre with
  | nil => intro a st _; rfl
  | cons hd tl ih =>
    intro a st hno
    obtain ⟨m, l⟩ := hd
    unfold record_segments
    rw [ih _ _ (fun e he => hno e (List.mem_cons_of_mem _ he)), record_marker_app0]
    have : m ≠ M_APP0 := hno (m, l) (List.mem_cons_self _ _)
    simp [this]

theorem record_segments_app0_keep : ∀ (segs : List (Nat × Nat)) (a : Nat) (st : JpegStatics),
    st.jpeg_app0_offset ≠ 0 →
      (record_segments a segs st).jpeg_app0_offset = st.jpeg_app0_offset := by
  intro segs
  induction segs with
  | nil => intro a st _; rfl
  | cons hd tl ih =>
    intro a st hne
    obtain ⟨m, l⟩ := hd
    unfold record_segments
    have hstep : (record_marker m (a + 2) l
        { st with met := st.met ++ [(m, a + 1)] }).jpeg_app0_offset = st.jpeg_app0_offset := by
      rw [record_marker_app0]
      simp [hne]
    rw [ih _ _ (by rw [hstep]; exact hne), hstep]

theorem record_segments_append : ∀ (pre post : List (Nat × Nat)) (a : Nat) (st : JpegStatics),
    record_segments a (pre ++ post) st =
      record_segments (segments_end a pre) post (record_segments a pre st) := by
  intro pre
  induction pre with
  | nil => intro post a st; rfl
  | cons hd tl ih =>
    intro post a st
    obtain ⟨m, l⟩ := hd
    simp only [List.cons_append, record_segments, segments_end]
    exact ih post (a + 2 + l) _

theorem record_segments_padded_len : ∀ (segs : List (Nat × Nat)) (a : Nat) (st : JpegStatics),
    (record_segments a segs st).jpeg_padded_len = st.jpeg_padded_len := by
  intro segs
  induction segs with
  | nil => intro a st; rfl
  | cons hd tl ih =>
    intro a st
    obtain ⟨m, l⟩ := hd
    unfold record_segments
    rw [ih, record_marker_padded_len]

/-- After the headers of a field whose first `M_APP0` segment stands behind
the segments `pre`, the app0 offset is the index of that segment. -/
theorem record_headers_app0 (pre post : List (Nat × Nat)) (l sl : Nat)
    (hno : ∀ e ∈ pre, e.1 ≠ M_APP0) :
    (record_headers (pre ++ (M_APP0, l) :: post) sl).jpeg_app0_offset = segments_end 2 pre := by
  have hge := segments_end_ge pre 2
  unfold record_headers
  simp only
  rw [record_marker_app0]
  have e1 : ¬ (M_SOS = M_APP0 ∧
      ({ record_segments 2 (pre ++ (M_APP0, l) :: post) JpegStatics.zero with
          met := (record_segments 2 (pre ++ (M_APP0, l) :: post) JpegStatics.zero).met ++
            [(M_SOS, segments_end 2 (pre ++ (M_APP0, l) :: post) + 1)] } :
        JpegStatics).jpeg_app0_offset = 0) := by
    intro hc
    exact absurd hc.1 (by decide)
  simp only [e1, if_false]
  rw [record_segments_append]
  have hfirst : (record_segments (segments_end 2 pre) [(M_APP0, l)]
      (record_segments 2 pre JpegStatics.zero)).jpeg_app0_offset = segments_end 2 pre := by
    unfold record_segments
    simp only [record_segments]
    rw [record_marker_app0]
    have hz : (record_segments 2 pre JpegStatics.zero).jpeg_app0_offset = 0 := by
      rw [record_segments_app0_none pre 2 _ hno]; rfl
    simp only [hz, and_self, if_true]
    omega
  have hsplit : record_segments (segments_end 2 pre) ((M_APP0, l) :: post)
      (record_segments 2 pre JpegStatics.zero) =
      record_segments (segments_end 2 pre + 2 + l) post
        (record_segments (segments_end 2 pre) [(M_APP0, l)]
          (record_segments 2 pre JpegStatics.zero)) := rfl
  rw [hsplit, record_segments_app0_keep post _ _ (by rw [hfirst]; omega), hfirst]

theorem record_headers_padded_len (segs : List (Nat × Nat)) (sl : Nat) :
    (record_headers segs sl).jpeg_padded_len = 0 := by
  unfold record_headers
  simp only
  rw [record_marker_padded_len]
  show (record_segments 2 segs JpegStatics.zero).jpeg_padded_len = 0
  rw [record_segments_padded_len]
  rfl

/-- The scan of a field with a first `M_APP0` segment, in either mode, with
the field as the whole declared length: success, and the app0 offset is the
index of that segment. -/
theorem scan_jpeg_app0 (f : List Nat) (pre post : List (Nat × Nat)) (l sl eoi len : Nat)
    (h : Bool) (hwf : well_formed_field f (pre ++ (M_APP0, l) :: post) sl eoi)
    (hno : ∀ e ∈ pre, e.1 ≠ M_APP0) (hfit : eoi + 2 ≤ len) (hlen : len ≤ f.length) :
    ∃ st, scan_jpeg f len h = Scan.ret 0 st ∧ st.jpeg_app0_offset = segments_end 2 pre := by
  cases h with
  | true =>
    obtain ⟨h0, h1, hseg, hsos, hd, _, _, _⟩ := hwf
    have hl := hsos.2.2.2
    refine ⟨_, scan_jpeg_header_only f len _ sl h0 h1 hseg hsos (by omega), ?_⟩
    exact record_headers_app0 pre post l sl hno
  | false =>
    obtain ⟨q, st, _, hs, hsame⟩ := scan_jpeg_field f len _ sl eoi hwf hfit hlen
    refine ⟨st, hs, ?_⟩
    have := congrArg JpegStatics.jpeg_app0_offset hsame
    rw [this]
    exact record_headers_app0 pre post l sl hno

/-! ## The tagging of the AVI branch -/

theorem put_avi1_eq (buff : List Nat) (a v : Nat) (ha : a + 8 < buff.length) :
    put_avi1 buff a v = some (avi1_tagged buff a v) := by
  unfold put_avi1 avi1_tagged store
  have h4 : a + 4 < buff.length := by omega
  have h5 : a + 5 < buff.length := by omega
  have h6 : a + 6 < buff.length := by omega
  have h7 : a + 7 < buff.length := by omega
  simp [h4, h5, h6, h7, ha]

theorem avi1_tagged_length (buff : List Nat) (a v : Nat) :
    (avi1_tagged buff a v).length = buff.length := by
  simp [avi1_tagged]

theorem avi1_tagged_outside (buff : List Nat) (a v i : Nat) (hi : i < a + 4 ∨ a + 8 < i) :
    (avi1_tagged buff a v)[i]? = buff[i]? := by
  unfold avi1_tagged
  rw [List.getElem?_set_ne (by omega), List.getElem?_set_ne (by omega),
    List.getElem?_set_ne (by omega), List.getElem?_set_ne (by omega),
    List.getElem?_set_ne (by omega)]

theorem avi1_tagged_at (buff : List Nat) (a v : Nat) (ha : a + 8 < buff.length) :
    avi1_at (avi1_tagged buff a v) a v := by
  unfold avi1_at avi1_tagged
  refine ⟨?_, ?_, ?_, ?_, ?_⟩
  · rw [List.getElem?_set_ne (by omega), List.getElem?_set_ne (by omega),
      List.getElem?_set_ne (by omega), List.getElem?_set_ne (by omega),
      List.getElem?_set_self (by omega)]
  · rw [List.getElem?_set_ne (by omega), List.getElem?_set_ne (by omega),
      List.getElem?_set_ne (by omega), List.getElem?_set_self (by simp; omega)]
  · rw [List.getElem?_set_ne (by omega), List.getElem?_set_ne (by omega),
      List.getElem?_set_self (by simp; omega)]
  · rw [List.getElem?_set_ne (by omega), List.getElem?_set_self (by simp; omega)]
  · rw [List.getElem?_set_self (by simp; omega)]

theorem tag_avi_succ (format : Char) (size k n : Nat) (buff : List Nat) (off : Nat) :
    tag_avi format size (k + 1) n buff off =
      match scan_jpeg (buff.drop off) size (decide (n ≠ 0)) with
      | Scan.fault => Tagged.fault
      | Scan.timeout => Tagged.timeout
      | Scan.ret res st =>
        if res ≠ 0 then Tagged.broken buff
        else if st.jpeg_app0_offset = 0 then tag_avi format size k (n + 1) buff off
        else
          match get_int2 (buff.drop off) (st.jpeg_app0_offset + 2) with
          | none => Tagged.fault
          | some l =>
            if l < 16 then tag_avi format size k (n + 1) buff off
            else
              match put_avi1 buff (off + st.jpeg_app0_offset)
                  (if format = 'a' then n + 1 else 2 - n) with
              | none => Tagged.fault
              | some buff1 =>
                tag_avi format size k (n + 1) buff1 (off + st.jpeg_padded_len) := rfl

/-- The facts on a field with a first `M_APP0` segment that the tagging uses. -/
theorem field_with_app0_facts (f : List Nat) (pre post : List (Nat × Nat)) (l sl eoi : Nat)
    (hf : field_with_app0 f pre post l sl eoi) :
    2 ≤ segments_end 2 pre ∧ get_int2 f (segments_end 2 pre + 2) = some l ∧
    segments_end 2 pre + 2 + l ≤ segments_end 2 (pre ++ (M_APP0, l) :: post) ∧
    segments_end 2 (pre ++ (M_APP0, l) :: post) + 4 ≤ eoi ∧ eoi + 2 ≤ f.length := by
  obtain ⟨⟨_, _, hseg, hsos, hd, _, _, he1⟩, _, _⟩ := hf
  rw [segments_at_append] at hseg
  obtain ⟨_, _, hs, _⟩ := hseg
  have hend : segments_end 2 (pre ++ (M_APP0, l) :: post) =
      segments_end (segments_end 2 pre + 2 + l) post := by
    rw [segments_end_append]; rfl
  have hge := segments_end_ge post (segments_end 2 pre + 2 + l)
  have hl := hsos.2.2.2
  refine ⟨segments_end_ge pre 2, hs.2.2.1, by omega, by omega, ?_⟩
  by_contra hc
  rw [List.getElem?_eq_none (by omega)] at he1
  simp at he1

theorem tag_avi_two_fields (format : Char) (f1 f2 : List Nat)
    (pre1 post1 pre2 post2 : List (Nat × Nat)) (l1 sl1 eoi1 l2 sl2 eoi2 : Nat)
    (h1 : field_with_app0 f1 pre1 post1 l1 sl1 eoi1) (hpad : no_soi_from f1 (eoi1 + 2))
    (h2 : field_with_app0 f2 pre2 post2 l2 sl2 eoi2) :
    tag_avi format (f1 ++ f2).length 2 0 (f1 ++ f2) 0 =
      Tagged.done
        (avi1_tagged (avi1_tagged (f1 ++ f2) (segments_end 2 pre1) (if format = 'a' then 1 else 2))
          (f1.length + segments_end 2 pre2) (if format = 'a' then 2 else 1)) := by
  obtain ⟨a1, a2, a3, a4, a5⟩ := field_with_app0_facts f1 pre1 post1 l1 sl1 eoi1 h1
  obtain ⟨c1, c2, c3, c4, c5⟩ := field_with_app0_facts f2 pre2 post2 l2 sl2 eoi2 h2
  have hlen : (f1 ++ f2).length = f1.length + f2.length := List.length_append f1 f2
  obtain ⟨st1, hs1, hsame1⟩ := scan_jpeg_first_field f1 f2 _ sl1 eoi1 h1.1 hpad h2.1.1 h2.1.2.1
  have happ1 : st1.jpeg_app0_offset = segments_end 2 pre1 := by
    have := congrArg JpegStatics.jpeg_app0_offset hsame1
    rw [this]
    exact record_headers_app0 pre1 post1 l1 sl1 h1.2.1
  have hpl1 : st1.jpeg_padded_len = f1.length := congrArg JpegStatics.jpeg_padded_len hsame1
  have hg1 : get_int2 (f1 ++ f2) (segments_end 2 pre1 + 2) = some l1 := by
    rw [get_int2_congr f1 (f1 ++ f2) _ (List.getElem?_append_left (by omega))
      (List.getElem?_append_left (by omega))]
    exact a2
  rw [tag_avi_succ]
  simp only [List.drop_zero, ne_eq, not_true_eq_false, decide_False, hs1, happ1, hpl1, hg1,
    if_false, Nat.zero_add]
  have hx1 : ¬ (segments_end 2 pre1 = 0) := by omega
  have hl1 : ¬ (l1 < 16) := by have := h1.2.2; omega
  have hl2 : ¬ (l2 < 16) := by have := h2.2.2; omega
  have hput1 := put_avi1_eq (f1 ++ f2) (segments_end 2 pre1) (if format = 'a' then 1 else 2)
    (by omega)
  simp only [hx1, hl1, if_false, hput1]
  rw [tag_avi_succ]
  have hdrop : (avi1_tagged (f1 ++ f2) (segments_end 2 pre1)
      (if format = 'a' then 1 else 2)).drop f1.length = f2 := by
    unfold avi1_tagged
    rw [List.drop_set_of_lt _ _ (by omega), List.drop_set_of_lt _ _ (by omega),
      List.drop_set_of_lt _ _ (by omega), List.drop_set_of_lt _ _ (by omega),
      List.drop_set_of_lt _ _ (by omega), List.drop_left]
  have hs2 := scan_jpeg_header_only f2 (f1 ++ f2).length _ sl2 h2.1.1 h2.1.2.1 h2.1.2.2.1
    h2.1.2.2.2.1 (by omega)
  have happ2 := record_headers_app0 pre2 post2 l2 sl2 h2.2.1
  have hpl2 := record_headers_padded_len (pre2 ++ (M_APP0, l2) :: post2) sl2
  have hx2 : ¬ (segments_end 2 pre2 = 0) := by omega
  have hput2 := put_avi1_eq (avi1_tagged (f1 ++ f2) (segments_end 2 pre1)
      (if format = 'a' then 1 else 2)) (f1.length + segments_end 2 pre2)
    (if format = 'a' then 2 else 1) (by rw [avi1_tagged_length]; omega)
  simp only [hdrop, ne_eq, one_ne_zero, not_false_eq_true, decide_True, hs2, happ2, hpl2, c2,
    hx2, hl2, if_false, not_true_eq_false, Nat.add_zero, Nat.reduceAdd, Nat.reduceSub, hput2]
  rfl

/-- The frame after both fields have been tagged. -/
theorem tagged_frame_spec (f1 f2 : List Nat) (x1 x2 v1 v2 : Nat) (hx1 : x1 + 8 < f1.length)
    (hx2 : x2 + 8 < f2.length) :
    (avi1_tagged (avi1_tagged (f1 ++ f2) x1 v1) (f1.length + x2) v2).length =
      (f1 ++ f2).length ∧
    avi1_at (avi1_tagged (avi1_tagged (f1 ++ f2) x1 v1) (f1.length + x2) v2) x1 v1 ∧
    avi1_at (avi1_tagged (avi1_tagged (f1 ++ f2) x1 v1) (f1.length + x2) v2)
      (f1.length + x2) v2 ∧
    ∀ i, (i < x1 + 4 ∨ x1 + 8 < i) → (i < f1.length + x2 + 4 ∨ f1.length + x2 + 8 < i) →
      (avi1_tagged (avi1_tagged (f1 ++ f2) x1 v1) (f1.length + x2) v2)[i]? =
        (f1 ++ f2)[i]? := by
  have hlen : (f1 ++ f2).length = f1.length + f2.length := List.length_append f1 f2
  refine ⟨by rw [avi1_tagged_length, avi1_tagged_length], ?_, ?_, ?_⟩
  · obtain ⟨t1, t2, t3, t4, t5⟩ := avi1_tagged_at (f1 ++ f2) x1 v1 (by omega)
    exact ⟨(avi1_tagged_outside _ (f1.length + x2) v2 (x1 + 4) (Or.inl (by omega))).trans t1,
      (avi1_tagged_outside _ (f1.length + x2) v2 (x1 + 5) (Or.inl (by omega))).trans t2,
      (avi1_tagged_outside _ (f1.length + x2) v2 (x1 + 6) (Or.inl (by omega))).trans t3,
      (avi1_tagged_outside _ (f1.length + x2) v2 (x1 + 7) (Or.inl (by omega))).trans t4,
      (avi1_tagged_outside _ (f1.length + x2) v2 (x1 + 8) (Or.inl (by omega))).trans t5⟩
  · exact avi1_tagged_at _ _ _ (by rw [avi1_tagged_length]; omega)
  · intro i hi1 hi2
    rw [avi1_tagged_outside _ _ _ _ hi2, avi1_tagged_outside _ _ _ _ hi1]

/-- The first field of the tagged frame, as a buffer of its own, has the
bytes of `f1` outside the five tagged ones. -/
theorem tagged_frame_take (f1 f2 : List Nat) (x1 x2 v1 v2 : Nat) (hx1 : x1 + 8 < f1.length)
    (hx2 : x2 + 8 < f2.length) (i : Nat) (hi : i < x1 + 4 ∨ x1 + 8 < i) :
    ((avi1_tagged (avi1_tagged (f1 ++ f2) x1 v1) (f1.length + x2) v2).take f1.length)[i]? =
      f1[i]? := by
  obtain ⟨_, _, _, hout⟩ := tagged_frame_spec f1 f2 x1 x2 v1 v2 hx1 hx2
  rw [List.getElem?_take]
  by_cases hlt : i < f1.length
  · simp only [hlt, if_true]
    rw [hout i hi (Or.inl (by omega)), List.getElem?_append_left hlt]
  · simp only [hlt, if_false]
    rw [List.getElem?_eq_none (by omega)]

/-- The second field of the tagged frame has the bytes of `f2` outside the
five tagged ones. -/
theorem tagged_frame_drop (f1 f2 : List Nat) (x1 x2 v1 v2 : Nat) (hx1 : x1 + 8 < f1.length)
    (hx2 : x2 + 8 < f2.length) (j : Nat) (hj : j < x2 + 4 ∨ x2 + 8 < j) :
    ((avi1_tagged (avi1_tagged (f1 ++ f2) x1 v1) (f1.length + x2) v2).drop f1.length)[j]? =
      f2[j]? := by
  obtain ⟨_, _, _, hout⟩ := tagged_frame_spec f1 f2 x1 x2 v1 v2 hx1 hx2
  rw [List.getElem?_drop, hout (f1.length + j) (Or.inr (by omega)) (by omega),
    List.getElem?_append_right (by omega), show f1.length + j - f1.length = j by omega]

/-! ## The write loop and its counter -/

theorem write_loop_succ (hq : Bool) (format : Char) (buff : List Nat) (size : Nat)
    (backend : Nat → Int) (k n : Nat) (res : Int) (calls : List BackendCall) :
    write_loop hq format buff size backend (k + 1) n res calls =
      if (write_pass hq format buff size backend n res).1 ≠ 0 then
        some ((write_pass hq format buff size backend n res).1,
          calls ++ (write_pass hq format buff size backend n res).2)
      else if n + 1 < 2 ^ 31 then
        write_loop hq format buff size backend k (n + 1)
          (write_pass hq format buff size backend n res).1
          (calls ++ (write_pass hq format buff size backend n res).2)
      else none := rfl

/-- The write loop returns when its counter stays in the range of `int`. -/
theorem write_loop_returns (hq : Bool) (format : Char) (buff : List Nat) (size : Nat)
    (backend : Nat → Int) (k n : Nat) (res : Int) (calls : List BackendCall)
    (h : n + k < 2 ^ 31) :
    ∃ r, write_loop hq format buff size backend k n res calls = some r := by
  induction k generalizing n res calls with
  | zero => exact ⟨_, rfl⟩
  | succ k ih =>
    rw [write_loop_succ]
    split
    · exact ⟨_, rfl⟩
    · rw [if_pos (by omega)]
      exact ih (n + 1) _ _ (by omega)

/-- The function `lav_write_frame` as its tagging block followed by the write
loop. -/
theorem lav_write_frame_eq (hq : Bool) (lav_file : lav_file_t) (buff : List Nat) (size : Nat)
    (count : Int) (backend : Nat → Int) :
    lav_write_frame hq lav_file buff size count backend =
      match (if lav_file.interlacing ≠ Y4M_ILACE_NONE then
          if lav_file.format = 'a' ∨ lav_file.format = 'A' then
            tag_avi lav_file.format size 2 0 buff 0
          else if lav_file.format = 'q' ∧ hq = true then tag_qt 2 0 buff 0 size
          else Tagged.done buff
        else Tagged.done buff) with
      | Tagged.fault => WriteFrame.fault
      | Tagged.timeout => WriteFrame.timeout
      | Tagged.broken buff1 => WriteFrame.ret ⟨-1, buff1, lav_file.format, ERROR_JPEG, []⟩
      | Tagged.done buff1 =>
        match write_loop hq lav_file.format buff1 size backend count.toNat 0 0 [] with
        | none => WriteFrame.fault
        | some r => WriteFrame.ret ⟨r.1, buff1, lav_file.format, 0, r.2⟩ := rfl

/-- On an interlaced session of format `'a'` or `'A'`, when the tagging loop
runs to its end and the repeat count is in the range of the `int` counter,
`lav_write_frame` returns with the tagged frame. -/
theorem lav_write_frame_avi (hq : Bool) (lav_file : lav_file_t) (buff : List Nat) (size : Nat)
    (count : Int) (backend : Nat → Int)
    (hfmt : lav_file.format = 'a' ∨ lav_file.format = 'A')
    (hil : lav_file.interlacing ≠ Y4M_ILACE_NONE) (buff1 : List Nat)
    (htag : tag_avi lav_file.format size 2 0 buff 0 = Tagged.done buff1)
    (hcount : count < 2 ^ 31) :
    ∃ w, lav_write_frame hq lav_file buff size count backend = WriteFrame.ret w ∧
      w.buff = buff1 := by
  obtain ⟨r, hr⟩ := write_loop_returns hq lav_file.format buff1 size backend count.toNat 0 0 []
    (by omega)
  rw [lav_write_frame_eq, if_pos hil, if_pos hfmt, htag]
  simp only [hr]
  exact ⟨_, rfl, rfl⟩

/-! ## The claims on scan_jpeg -/

/-- C1: on every buffer of at least two bytes whose first two bytes are not
`0xFF 0xD8`, for every declared length and both values of `header_only`,
`scan_jpeg` returns -1 (and leaves the statics at zero). -/
theorem scan_jpeg_rejects_missing_soi (b : List Nat) (len : Nat) (h : Bool)
    (h2 : 2 ≤ b.length) (hsoi : ¬ (b[0]? = some 0xFF ∧ b[1]? = some M_SOI)) :
    scan_jpeg b len h = Scan.ret (-1) JpegStatics.zero := by
  obtain ⟨r, st, hs⟩ := show ∃ r st, scan_jpeg b len h = Scan.ret r st by
    unfold scan_jpeg
    have e0 : 0 < b.length := by omega
    have e1 : 1 < b.length := by omega
    simp only [List.getElem?_eq_getElem e0, List.getElem?_eq_getElem e1] at hsoi ⊢
    split_ifs with c0 c1
    · exact ⟨_, _, rfl⟩
    · exact ⟨_, _, rfl⟩
    · exfalso
      apply hsoi
      simp only [ne_eq, not_not] at c0 c1
      rw [c0, c1]
      exact ⟨rfl, rfl⟩
  rcases scan_jpeg_inv b len h r st hs with ⟨hr, hst, _⟩ | ⟨h0, h1, _⟩
  · rw [hs, hr, hst]
  · exact absurd ⟨h0, h1⟩ hsoi

theorem scan_jpeg_rejects_missing_soi_witness :
    scan_jpeg [0xFF, 0xD9, 0xFF, 0xD9] 4 true = Scan.ret (-1) JpegStatics.zero :=
  scan_jpeg_rejects_missing_soi [0xFF, 0xD9, 0xFF, 0xD9] 4 true (by decide) (by decide)

/-- C4: a full scan that returns success has recorded a field size `f` with
`4 ≤ f ≤ len` and the bytes `0xFF 0xD9` at `f-2`, `f-1`; and a full scan of a
buffer that holds the declared length returns, with -1 whenever no `M_EOI`
code is among the marker codes it has read. -/
theorem full_scan_succeeds_only_at_eoi (b : List Nat) (len : Nat) :
    (∀ st, scan_jpeg b len false = Scan.ret 0 st →
      4 ≤ st.jpeg_field_size ∧ st.jpeg_field_size ≤ len ∧
      b[st.jpeg_field_size - 2]? = some 0xFF ∧ b[st.jpeg_field_size - 1]? = some M_EOI) ∧
    (2 ≤ b.length → len ≤ b.length →
      ∃ r st, scan_jpeg b len false = Scan.ret r st ∧ (r = 0 ∨ r = -1) ∧
        ((∀ q, (M_EOI, q) ∉ st.met) → r = -1)) := by
  have key : ∀ r st, scan_jpeg b len false = Scan.ret r st →
      (r = 0 ∨ r = -1) ∧
      (r = 0 → 4 ≤ st.jpeg_field_size ∧ st.jpeg_field_size ≤ len ∧
        b[st.jpeg_field_size - 2]? = some 0xFF ∧ b[st.jpeg_field_size - 1]? = some M_EOI ∧
        (M_EOI, st.jpeg_field_size - 1) ∈ st.met) := by
    intro r st hs
    have hrange := scan_loop_range b len false (len + 1) 2 JpegStatics.zero
      (range_inv_start len false)
    rcases scan_jpeg_inv b len false r st hs with ⟨hr, _, _⟩ | ⟨_, _, hl | ⟨p, hl, hf, hr⟩ |
      ⟨p, st0, q, hl, hf, _, hr, hst⟩⟩
    · exact ⟨Or.inr hr, fun h0 => by rw [hr] at h0; simp at h0⟩
    · rw [hl] at hrange
      obtain ⟨g1, g2⟩ := hrange
      refine ⟨g1, fun h0 => ?_⟩
      have := (g2 h0).1
      simp at this
    · exact ⟨Or.inr hr, fun h0 => by rw [hr] at h0; simp at h0⟩
    · rw [hl] at hrange
      obtain ⟨_, g2⟩ := hrange
      rcases g2 with g2 | ⟨g1, g2, g3, g4, g5, g6, _⟩
      · exact absurd g2 hf
      · refine ⟨Or.inl hr, fun _ => ?_⟩
        subst hst
        simp only
        rw [g1]
        exact ⟨g2, g3, g4, g5, g6⟩
  refine ⟨fun st hs => ?_, fun h2 hlen => ?_⟩
  · obtain ⟨k1, k2, k3, k4, _⟩ := (key 0 st hs).2 rfl
    exact ⟨k1, k2, k3, k4⟩
  · obtain ⟨r, st, hs⟩ := scan_jpeg_total b len false h2 hlen
    obtain ⟨k1, k2⟩ := key r st hs
    refine ⟨r, st, hs, k1, fun hno => ?_⟩
    rcases k1 with k1 | k1
    · exact absurd (k2 k1).2.2.2.2 (hno _)
    · exact k1

theorem full_scan_succeeds_only_at_eoi_witness :
    ∃ r st, scan_jpeg [0xFF, 0xD8, 0xFF, 0xE0, 0, 2, 0xFF, 0xD8] 8 false = Scan.ret r st ∧
      (r = 0 ∨ r = -1) ∧ ((∀ q, (M_EOI, q) ∉ st.met) → r = -1) :=
  (full_scan_succeeds_only_at_eoi [0xFF, 0xD8, 0xFF, 0xE0, 0, 2, 0xFF, 0xD8] 8).2
    (by decide) (by decide)

/-- C5, as stated, fails: a header-only scan meets an `M_SOS` marker whose
declared segment length (16, at position 4) reaches past the end of the six
byte buffer, and returns success. -/
theorem header_only_accepts_overrunning_sos :
    ∃ st, scan_jpeg [0xFF, 0xD8, 0xFF, 0xDA, 0, 16] 6 true = Scan.ret 0 st ∧
      (M_SOS, 3) ∈ st.met ∧ length_bearing M_SOS ∧
      overruns [0xFF, 0xD8, 0xFF, 0xDA, 0, 16] 6 3 :=
  ⟨⟨0, 0, 0, 0, 2, 20, 0, 0, 0, [(M_SOS, 3)]⟩, by decide, by decide,
    ⟨by decide, by decide⟩, Or.inr ⟨16, by decide, by decide⟩⟩

/-- C5, amended: on a buffer that holds the declared length `scan_jpeg`
returns, and it returns -1 whenever it has read a length-bearing marker code
whose length field, or the segment length it declares, reaches past the
declared length; this holds for every such marker in full mode and for every
one other than `M_SOS` in header-only mode. -/
theorem scan_jpeg_fails_on_overrun (b : List Nat) (len : Nat) (h : Bool)
    (h2 : 2 ≤ b.length) (hlen : len ≤ b.length) :
    ∃ r st, scan_jpeg b len h = Scan.ret r st ∧
      ∀ m q, (m, q) ∈ st.met → length_bearing m → overruns b len q →
        (h = false ∨ m ≠ M_SOS) → r = -1 := by
  obtain ⟨r, st, hs⟩ := scan_jpeg_total b len h h2 hlen
  refine ⟨r, st, hs, ?_⟩
  intro m q hmet hlb hov hmode
  have hrange := scan_loop_range b len h (len + 1) 2 JpegStatics.zero (range_inv_start len h)
  have hmetp := scan_loop_met b len h (len + 1) 2 JpegStatics.zero (met_inv_start b len)
  rcases scan_jpeg_inv b len h r st hs with ⟨hr, _, _⟩ | ⟨_, _, hl | ⟨p, hl, hf, hr⟩ |
    ⟨p, st0, q', hl, hf, _, hr, hst⟩⟩
  · exact hr
  · rw [hl] at hrange hmetp
    rcases hrange.1 with r0 | r1
    · obtain ⟨g1, g2⟩ := hmetp r0 (m, q) hmet hlb hov
      rcases hmode with hmode | hmode
      · rw [hmode] at g1; simp at g1
      · exact absurd g2 hmode
    · exact r1
  · exact hr
  · rw [hl] at hmetp
    subst hst
    exact absurd hov (hmetp hf (m, q) hmet hlb)

theorem scan_jpeg_fails_on_overrun_witness :
    overruns [0xFF, 0xD8, 0xFF, 0xE0, 0, 16] 6 3 ∧
    ∃ r st, scan_jpeg [0xFF, 0xD8, 0xFF, 0xE0, 0, 16] 6 true = Scan.ret r st ∧
      ∀ m q, (m, q) ∈ st.met → length_bearing m →
        overruns [0xFF, 0xD8, 0xFF, 0xE0, 0, 16] 6 q → (true = false ∨ m ≠ M_SOS) → r = -1 :=
  ⟨Or.inr ⟨16, by decide, by decide⟩,
    scan_jpeg_fails_on_overrun [0xFF, 0xD8, 0xFF, 0xE0, 0, 16] 6 true (by decide) (by decide)⟩

/-- C6, as stated, fails: a header-only scan of a six byte buffer succeeds
and leaves the data offset 20, outside `[2, 6)`. -/
theorem header_only_data_offset_out_of_range :
    ∃ st, scan_jpeg [0xFF, 0xD8, 0xFF, 0xDA, 0, 16] 6 true = Scan.ret 0 st ∧
      ¬ in_range 6 st.jpeg_data_offset :=
  ⟨⟨0, 0, 0, 0, 2, 20, 0, 0, 0, [(M_SOS, 3)]⟩, by decide, by
    unfold in_range; simp⟩

/-- C6, amended: after every successful scan, in either mode, each of the
offsets quant, huffman, image, scan, app0 and app1 is 0 or lies in
`[2, len)`; after a successful full scan so does the data offset; after a
successful header-only scan the data offset is 0 or the scan offset plus 2
plus the length the scan computed for that `M_SOS` marker. -/
theorem scan_jpeg_offsets_in_range (b : List Nat) (len : Nat) (h : Bool) (st : JpegStatics)
    (hs : scan_jpeg b len h = Scan.ret 0 st) :
    in_range len st.jpeg_quant_offset ∧ in_range len st.jpeg_huffman_offset ∧
    in_range len st.jpeg_image_offset ∧ in_range len st.jpeg_scan_offset ∧
    in_range len st.jpeg_app0_offset ∧ in_range len st.jpeg_app1_offset ∧
    (h = false → in_range len st.jpeg_data_offset) ∧
    (h = true → st.jpeg_data_offset = 0 ∨
      ∃ l, length_at b len (st.jpeg_scan_offset + 1) = some l ∧
        st.jpeg_data_offset = st.jpeg_scan_offset + 2 + l) := by
  have hrange := scan_loop_range b len h (len + 1) 2 JpegStatics.zero (range_inv_start len h)
  have pack : ∀ s : JpegStatics, offsets_ok len s →
      in_range len s.jpeg_quant_offset ∧ in_range len s.jpeg_huffman_offset ∧
      in_range len s.jpeg_image_offset ∧ in_range len s.jpeg_scan_offset ∧
      in_range len s.jpeg_app0_offset ∧ in_range len s.jpeg_app1_offset := by
    intro s ⟨o1, o2, o3, o4, o5, o6⟩
    exact ⟨off_ok_in_range _ _ o1, off_ok_in_range _ _ o2, off_ok_in_range _ _ o3,
      off_ok_in_range _ _ o4, off_ok_in_range _ _ o5, off_ok_in_range _ _ o6⟩
  rcases scan_jpeg_inv b len h 0 st hs with ⟨hr, _, _⟩ | ⟨_, _, hl | ⟨p, hl, hf, hr⟩ |
    ⟨p, st0, q', hl, hf, _, hr, hst⟩⟩
  · simp at hr
  · rw [hl] at hrange
    obtain ⟨hh, _, _, g3, _, g5⟩ := hrange.2 rfl
    obtain ⟨o1, o2, o3, o4, o5, o6⟩ := pack st g3
    refine ⟨o1, o2, o3, o4, o5, o6, fun hf => ?_, fun _ => Or.inr g5⟩
    rw [hh] at hf; simp at hf
  · simp at hr
  · rw [hl] at hrange
    rcases hrange.2 with g | ⟨_, _, _, _, _, _, g3, g4⟩
    · exact absurd g hf
    · obtain ⟨o1, o2, o3, o4, o5, o6⟩ := pack st0 g3
      subst hst
      refine ⟨o1, o2, o3, o4, o5, o6, fun _ => ?_, fun hh => ?_⟩
      · rcases g4 with g4 | ⟨_, g4, g5⟩
        · exact Or.inl g4
        · exact Or.inr ⟨g4, g5⟩
      · rcases g4 with g4 | ⟨g4, _⟩
        · exact Or.inl g4
        · rw [hh] at g4; simp at g4

theorem scan_jpeg_offsets_in_range_witness :
    in_range 8 2 ∧ in_range 8 0 ∧ in_range 8 0 ∧ in_range 8 0 ∧ in_range 8 0 ∧
    in_range 8 0 ∧ (false = false → in_range 8 0) ∧
    (false = true → (0 : Nat) = 0 ∨
      ∃ l, length_at [0xFF, 0xD8, 0xFF, 0xDB, 0, 2, 0xFF, 0xD9] 8 (0 + 1) = some l ∧
        0 = 0 + 2 + l) :=
  scan_jpeg_offsets_in_range [0xFF, 0xD8, 0xFF, 0xDB, 0, 2, 0xFF, 0xD9] 8 false
    ⟨8, 2, 0, 0, 0, 0, 8, 0, 0, [(M_DQT, 3), (M_EOI, 7)]⟩ (by decide)

/-- C7: after a successful full scan with field size `f`, the padded length
`q` is the smallest index with `f ≤ q ≤ len` that is `len` or the start of a
`0xFF 0xD8` pair inside the declared length; so no such pair starts in
`[f, q)`, and when the buffer is exactly `len` bytes long no `0xFF 0xD8`
pair at all starts there. -/
theorem padded_len_is_first_soi_or_end (b : List Nat) (len : Nat) (st : JpegStatics)
    (hs : scan_jpeg b len false = Scan.ret 0 st) :
    st.jpeg_field_size ≤ st.jpeg_padded_len ∧ st.jpeg_padded_len ≤ len ∧
    soi_or_end b len st.jpeg_padded_len ∧
    (∀ i, st.jpeg_field_size ≤ i → i < st.jpeg_padded_len → ¬ soi_or_end b len i) ∧
    (b.length = len → ∀ i, st.jpeg_field_size ≤ i → i < st.jpeg_padded_len →
      ¬ (b[i]? = some 0xFF ∧ b[i + 1]? = some M_SOI)) := by
  have hrange := scan_loop_range b len false (len + 1) 2 JpegStatics.zero
    (range_inv_start len false)
  rcases scan_jpeg_inv b len false 0 st hs with ⟨hr, _, _⟩ | ⟨_, _, hl | ⟨p, hl, hf, hr⟩ |
    ⟨p, st0, q, hl, hf, hpad, hr, hst⟩⟩
  · simp at hr
  · rw [hl] at hrange
    have := (hrange.2 rfl).1
    simp at this
  · simp at hr
  · rw [hl] at hrange
    rcases hrange.2 with g | ⟨g1, _, g3, _⟩
    · exact absurd g hf
    · obtain ⟨a1, a2, a3, a4⟩ := skip_padding_spec b len (len + 1) p q hpad
      subst hst
      simp only
      rw [g1]
      have hq : q ≤ len := a2 g3
      refine ⟨a1, hq, ?_, ?_, ?_⟩
      · rcases a3 with a3 | a3
        · exact Or.inl (by omega)
        · exact Or.inr a3
      · intro i hi1 hi2 hstop
        rcases hstop with hstop | hstop
        · omega
        · exact a4 i hi1 hi2 hstop
      · intro hbl i hi1 hi2 ⟨hp0, hp1⟩
        apply a4 i hi1 hi2
        refine ⟨?_, hp0, hp1⟩
        by_contra hc
        have hnone : b[i + 1]? = none := List.getElem?_eq_none (by omega)
        rw [hnone] at hp1
        simp at hp1

theorem padded_len_is_first_soi_or_end_witness :
    4 ≤ 6 ∧ 6 ≤ 8 ∧ soi_or_end [0xFF, 0xD8, 0xFF, 0xD9, 0, 0, 0xFF, 0xD8] 8 6 ∧
    (∀ i, 4 ≤ i → i < 6 → ¬ soi_or_end [0xFF, 0xD8, 0xFF, 0xD9, 0, 0, 0xFF, 0xD8] 8 i) ∧
    ([0xFF, 0xD8, 0xFF, 0xD9, 0, 0, 0xFF, 0xD8].length = 8 → ∀ i, 4 ≤ i → i < 6 →
      ¬ ([0xFF, 0xD8, 0xFF, 0xD9, 0, 0, 0xFF, 0xD8][i]? = some 0xFF ∧
        [0xFF, 0xD8, 0xFF, 0xD9, 0, 0, 0xFF, 0xD8][i + 1]? = some M_SOI)) :=
  padded_len_is_first_soi_or_end [0xFF, 0xD8, 0xFF, 0xD9, 0, 0, 0xFF, 0xD8] 8
    ⟨4, 0, 0, 0, 0, 0, 6, 0, 0, [(M_EOI, 3)]⟩ (by decide)

/-- C3: a header-only scan does not depend on the bytes behind the length
field of the scan header.  If the header-only scan of `b1` has read an
`M_SOS` code at index `q`, and `b2` has the same length as `b1` and the same
bytes at every index up to the two length bytes `q+1`, `q+2`, then the
header-only scan of `b2` returns the same status and the same statics. -/
theorem header_only_ignores_bytes_after_sos (b1 b2 : List Nat) (len : Nat) (r : Int)
    (st : JpegStatics) (q : Nat) (hlen : b1.length = b2.length)
    (hs : scan_jpeg b1 len true = Scan.ret r st) (hq : (M_SOS, q) ∈ st.met)
    (hsame : ∀ i, i ≤ q + 2 → i < b1.length → b1[i]? = b2[i]?) :
    scan_jpeg b2 len true = Scan.ret r st := by
  have hag : ∀ i, i ≤ q + 2 → b1[i]? = b2[i]? := by
    intro i hi
    by_cases hb : i < b1.length
    · exact hsame i hi hb
    · rw [List.getElem?_eq_none (by omega), List.getElem?_eq_none (by omega)]
  have hno := scan_loop_no_sos b1 len (len + 1) 2 JpegStatics.zero
    (fun e he => by simp [JpegStatics.zero] at he)
  rcases scan_jpeg_inv b1 len true r st hs with ⟨_, hst, _⟩ | ⟨h0, h1, hl | ⟨p, hl, _, _⟩ |
    ⟨p, st0, q', hl, _, _, _, hst⟩⟩
  · rw [hst] at hq
    simp [JpegStatics.zero] at hq
  · obtain ⟨g, _⟩ := scan_loop_agree b1 b2 len q r st hag hq (len + 1) 2 JpegStatics.zero
      (fun e he => by simp [JpegStatics.zero] at he) hl
    unfold scan_jpeg
    rw [← hag 0 (by omega), ← hag 1 (by omega), h0, h1, g]
    simp
  · rw [hl] at hno
    exact absurd rfl (hno _ hq)
  · rw [hl] at hno
    subst hst
    exact absurd rfl (hno _ hq)

theorem header_only_ignores_bytes_after_sos_witness :
    scan_jpeg [0xFF, 0xD8, 0xFF, 0xDA, 0, 2, 0xFF, 0xD9] 8 true =
        Scan.ret 0 ⟨0, 0, 0, 0, 2, 6, 0, 0, 0, [(M_SOS, 3)]⟩ ∧
      scan_jpeg [0xFF, 0xD8, 0xFF, 0xDA, 0, 2, 0xFF, 0xFF] 8 true =
        Scan.ret 0 ⟨0, 0, 0, 0, 2, 6, 0, 0, 0, [(M_SOS, 3)]⟩ :=
  ⟨by decide,
    header_only_ignores_bytes_after_sos [0xFF, 0xD8, 0xFF, 0xDA, 0, 2, 0xFF, 0xD9]
      [0xFF, 0xD8, 0xFF, 0xDA, 0, 2, 0xFF, 0xFF] 8 0 ⟨0, 0, 0, 0, 2, 6, 0, 0, 0, [(M_SOS, 3)]⟩ 3
      (by decide) (by decide) (by decide) (by decide)⟩

/-- C2: on every buffer that starts with a well-formed field (start of
image; header segments with declared lengths of at least 2; a scan header;
entropy-coded data in which every `0xFF` is followed by `0x00` or a restart
code; end of image at `eoi`), with the field inside the declared length and
the declared length inside the buffer, the full scan succeeds and records
the field size `eoi + 2`. -/
theorem full_scan_of_well_formed_field (b : List Nat) (len : Nat) (segs : List (Nat × Nat))
    (sl eoi : Nat) (hwf : well_formed_field b segs sl eoi) (hfit : eoi + 2 ≤ len)
    (hlen : len ≤ b.length) :
    ∃ st, scan_jpeg b len false = Scan.ret 0 st ∧ st.jpeg_field_size = eoi + 2 := by
  obtain ⟨q, st, _, hs, hsame⟩ := scan_jpeg_field b len segs sl eoi hwf hfit hlen
  exact ⟨st, hs, congrArg JpegStatics.jpeg_field_size hsame⟩

theorem full_scan_of_well_formed_field_witness :
    ∃ st, scan_jpeg [0xFF, 0xD8, 0xFF, 0xE0, 0, 4, 1, 2, 0xFF, 0xDA, 0, 2, 5, 0xFF, 0, 6,
        0xFF, 0xD9] 18 false = Scan.ret 0 st ∧ st.jpeg_field_size = 16 + 2 :=
  full_scan_of_well_formed_field
    [0xFF, 0xD8, 0xFF, 0xE0, 0, 4, 1, 2, 0xFF, 0xDA, 0, 2, 5, 0xFF, 0, 6, 0xFF, 0xD9] 18
    [(M_APP0, 4)] 2 16 (by decide) (by decide) (by decide)

/-! ## The claim on lav_get_field_size -/

theorem scan_jpeg_of_zeros (n len : Nat) (hn : 0 < n) :
    scan_jpeg (List.replicate n 0) len false = Scan.ret (-1) JpegStatics.zero := by
  unfold scan_jpeg
  have h0 : (List.replicate n 0)[0]? = some 0 := by
    rw [List.getElem?_replicate]; simp [hn]
  rw [h0]
  simp

theorem lav_get_field_size_of_zeros (n : Nat) (hn : 0 < n) :
    lav_get_field_size (List.replicate n 0) n = FieldSize.ret (to_int n) := by
  unfold lav_get_field_size
  rw [scan_jpeg_of_zeros n n hn]
  simp

theorem to_int_wraps : to_int ((2147483648 : Nat) : Int) = -2147483648 := by
  unfold to_int
  norm_num

/-- C8, as stated, fails: on a buffer of 2^31 zero bytes the full scan fails
and `lav_get_field_size` returns -2^31, not the length 2^31: the length does
not fit the `int` result. -/
theorem lav_get_field_size_wraps :
    (List.replicate 2147483648 0).length = 2147483648 ∧
    scan_jpeg (List.replicate 2147483648 0) 2147483648 false =
      Scan.ret (-1) JpegStatics.zero ∧
    lav_get_field_size (List.replicate 2147483648 0) 2147483648 =
      FieldSize.ret (-2147483648) := by
  refine ⟨List.length_replicate _ _, scan_jpeg_of_zeros _ _ (by norm_num), ?_⟩
  rw [lav_get_field_size_of_zeros _ (by norm_num), to_int_wraps]

/-- C8, amended: for a frame `f1 ++ f2` of `len` bytes, `len` below 2^31,
where `f1` is a well-formed field followed by padding without a `0xFF 0xD8`
pair and `f2` begins with `0xFF 0xD8`, `lav_get_field_size` returns the
length of `f1`; when the full scan fails and `len` is below 2^31 it returns
`len`; in every case the result is at most `len`. -/
theorem lav_get_field_size_spec (b : List Nat) (len : Nat) :
    (∀ (f1 f2 : List Nat) (segs : List (Nat × Nat)) (sl eoi : Nat),
      b = f1 ++ f2 → len = b.length → len < 2 ^ 31 → well_formed_field f1 segs sl eoi →
      no_soi_from f1 (eoi + 2) → f2[0]? = some 0xFF → f2[1]? = some M_SOI →
      lav_get_field_size b len = FieldSize.ret f1.length) ∧
    (∀ r st, scan_jpeg b len false = Scan.ret r st → r < 0 → len < 2 ^ 31 →
      lav_get_field_size b len = FieldSize.ret len) ∧
    (∀ r, lav_get_field_size b len = FieldSize.ret r → r ≤ len) := by
  refine ⟨?_, ?_, ?_⟩
  · intro f1 f2 segs sl eoi hb hlen hrange hwf hpad h0 h1
    subst hb
    subst hlen
    obtain ⟨st, hs, hsame⟩ := scan_jpeg_first_field f1 f2 segs sl eoi hwf hpad h0 h1
    have hp : st.jpeg_padded_len = f1.length := congrArg JpegStatics.jpeg_padded_len hsame
    unfold lav_get_field_size
    rw [hs]
    simp only [lt_self_iff_false, if_false, hp]
    rw [to_int_of_lt]
    rw [List.length_append] at hrange
    omega
  · intro r st hs hr hrange
    unfold lav_get_field_size
    rw [hs]
    simp only [hr, if_true]
    rw [to_int_of_lt len hrange]
  · intro r hr
    unfold lav_get_field_size at hr
    cases hs : scan_jpeg b len false with
    | fault => rw [hs] at hr; simp at hr
    | timeout => rw [hs] at hr; simp at hr
    | ret res st =>
      rw [hs] at hr
      simp only at hr
      by_cases hneg : res < 0
      · simp only [hneg, if_true] at hr
        simp at hr
        rw [← hr]
        exact to_int_le len
      · simp only [hneg, if_false] at hr
        simp at hr
        rw [← hr]
        have hres : res = 0 := by
          have hrange := scan_loop_range b len false (len + 1) 2 JpegStatics.zero
            (range_inv_start len false)
          rcases scan_jpeg_inv b len false res st hs with ⟨h1, _, _⟩ |
            ⟨_, _, hl | ⟨_, _, _, h1⟩ | ⟨_, _, _, _, _, _, h1, _⟩⟩
          · omega
          · rw [hl] at hrange
            rcases hrange.1 with h1 | h1 <;> omega
          · omega
          · exact h1
        subst hres
        have hq := (padded_len_bounds b len st hs)
        have := to_int_le st.jpeg_padded_len
        omega

theorem lav_get_field_size_spec_witness :
    lav_get_field_size ([0xFF, 0xD8, 0xFF, 0xDA, 0, 2, 7, 0xFF, 0xD9, 0, 0] ++
        [0xFF, 0xD8, 0xFF, 0xD9]) 15 =
      FieldSize.ret ([0xFF, 0xD8, 0xFF, 0xDA, 0, 2, 7, 0xFF, 0xD9, 0, 0] : List Nat).length :=
  (lav_get_field_size_spec ([0xFF, 0xD8, 0xFF, 0xDA, 0, 2, 7, 0xFF, 0xD9, 0, 0] ++
      [0xFF, 0xD8, 0xFF, 0xD9]) 15).1
    [0xFF, 0xD8, 0xFF, 0xDA, 0, 2, 7, 0xFF, 0xD9, 0, 0] [0xFF, 0xD8, 0xFF, 0xD9] [] 2 7
    rfl (by decide) (by norm_num) (by decide) (by decide) (by decide) (by decide)

/-! ## The claims on lav_write_frame -/

/-- C9: on an interlaced session of format `'a'` or `'A'`, for a frame
`f1 ++ f2` of two well-formed fields (the first followed by padding without a
`0xFF 0xD8` pair) that each have, before the scan header, a first `M_APP0`
segment of declared length at least 16, `lav_write_frame` returns with bytes
4..7 of that segment set to `'A'`, `'V'`, `'I'`, `'1'` and byte 8 to the
field order (1 then 2 under `'a'`, 2 then 1 under `'A'`), in each field, and
every other byte of the frame unchanged.  (The repeat count is one that the
`int` counter of the write loop reaches, `count < 2^31`.) -/
theorem avi_tagging_sets_avi1 (have_libquicktime : Bool) (lav_file : lav_file_t)
    (f1 f2 : List Nat) (pre1 post1 pre2 post2 : List (Nat × Nat))
    (l1 sl1 eoi1 l2 sl2 eoi2 : Nat) (count : Int) (backend : Nat → Int)
    (hfmt : lav_file.format = 'a' ∨ lav_file.format = 'A')
    (hil : lav_file.interlacing ≠ Y4M_ILACE_NONE)
    (h1 : field_with_app0 f1 pre1 post1 l1 sl1 eoi1) (hpad : no_soi_from f1 (eoi1 + 2))
    (h2 : field_with_app0 f2 pre2 post2 l2 sl2 eoi2) (hcount : count < 2 ^ 31) :
    ∃ w, lav_write_frame have_libquicktime lav_file (f1 ++ f2) (f1 ++ f2).length count
        backend = WriteFrame.ret w ∧
      w.buff.length = (f1 ++ f2).length ∧
      avi1_at w.buff (segments_end 2 pre1) (if lav_file.format = 'a' then 1 else 2) ∧
      avi1_at w.buff (f1.length + segments_end 2 pre2)
        (if lav_file.format = 'a' then 2 else 1) ∧
      ∀ i, ¬ (segments_end 2 pre1 + 4 ≤ i ∧ i ≤ segments_end 2 pre1 + 8) →
        ¬ (f1.length + segments_end 2 pre2 + 4 ≤ i ∧ i ≤ f1.length + segments_end 2 pre2 + 8) →
        w.buff[i]? = (f1 ++ f2)[i]? := by
  obtain ⟨_, _, a3, a4, a5⟩ := field_with_app0_facts f1 pre1 post1 l1 sl1 eoi1 h1
  obtain ⟨_, _, c3, c4, c5⟩ := field_with_app0_facts f2 pre2 post2 l2 sl2 eoi2 h2
  have hl1 := h1.2.2
  have hl2 := h2.2.2
  obtain ⟨w, hw, hbuff⟩ := lav_write_frame_avi have_libquicktime lav_file (f1 ++ f2)
    (f1 ++ f2).length count backend hfmt hil _
    (tag_avi_two_fields lav_file.format f1 f2 pre1 post1 pre2 post2 l1 sl1 eoi1 l2 sl2 eoi2
      h1 hpad h2) hcount
  obtain ⟨t1, t2, t3, t4⟩ := tagged_frame_spec f1 f2 (segments_end 2 pre1) (segments_end 2 pre2)
    (if lav_file.format = 'a' then 1 else 2) (if lav_file.format = 'a' then 2 else 1)
    (by omega) (by omega)
  refine ⟨w, hw, ?_, ?_, ?_, ?_⟩
  · rw [hbuff]; exact t1
  · rw [hbuff]; exact t2
  · rw [hbuff]; exact t3
  · intro i hi1 hi2
    rw [hbuff]
    exact t4 i (by omega) (by omega)

theorem avi_tagging_sets_avi1_witness :
    ∃ w, lav_write_frame false ⟨'A', 2, 1, 1, 0, 0, 0, 0⟩
        ([0xFF, 0xD8, 0xFF, 0xE0, 0, 16, 0, 0, 0, 0, 0, 0, 0, 0, 0, 0, 0, 0, 0, 0,
            0xFF, 0xDA, 0, 2, 7, 0xFF, 0xD9, 0] ++
          [0xFF, 0xD8, 0xFF, 0xDB, 0, 2, 0xFF, 0xE0, 0, 16, 0, 0, 0, 0, 0, 0, 0, 0, 0, 0,
            0, 0, 0, 0, 0xFF, 0xDA, 0, 2, 7, 0xFF, 0xD9])
        ([0xFF, 0xD8, 0xFF, 0xE0, 0, 16, 0, 0, 0, 0, 0, 0, 0, 0, 0, 0, 0, 0, 0, 0,
            0xFF, 0xDA, 0, 2, 7, 0xFF, 0xD9, 0] ++
          [0xFF, 0xD8, 0xFF, 0xDB, 0, 2, 0xFF, 0xE0, 0, 16, 0, 0, 0, 0, 0, 0, 0, 0, 0, 0,
            0, 0, 0, 0, 0xFF, 0xDA, 0, 2, 7, 0xFF, 0xD9]).length 1 (fun _ => 0) =
        WriteFrame.ret w ∧
      avi1_at w.buff 2 2 ∧ avi1_at w.buff (28 + 6) 1 := by
  obtain ⟨w, hw, _, t2, t3, _⟩ := avi_tagging_sets_avi1 false ⟨'A', 2, 1, 1, 0, 0, 0, 0⟩
    [0xFF, 0xD8, 0xFF, 0xE0, 0, 16, 0, 0, 0, 0, 0, 0, 0, 0, 0, 0, 0, 0, 0, 0,
      0xFF, 0xDA, 0, 2, 7, 0xFF, 0xD9, 0]
    [0xFF, 0xD8, 0xFF, 0xDB, 0, 2, 0xFF, 0xE0, 0, 16, 0, 0, 0, 0, 0, 0, 0, 0, 0, 0,
      0, 0, 0, 0, 0xFF, 0xDA, 0, 2, 7, 0xFF, 0xD9]
    [] [] [(M_DQT, 2)] [] 16 2 25 16 2 29 1 (fun _ => 0)
    (Or.inr rfl) (by decide) (by decide) (by decide) (by decide) (by decide)
  exact ⟨w, hw, t2, t3⟩

/-- C10: in the setting of C9, each field of the tagged frame, scanned on
its own in either mode, gives success with the app0 offset that the scan of
the field before tagging gives, and the byte at that offset plus 8 is the
field order written: 1 then 2 under `'a'`, 2 then 1 under `'A'`.  (The
repeat count is one that the `int` counter of the write loop reaches.) -/
theorem avi_tagging_round_trip (have_libquicktime : Bool) (lav_file : lav_file_t)
    (f1 f2 : List Nat) (pre1 post1 pre2 post2 : List (Nat × Nat))
    (l1 sl1 eoi1 l2 sl2 eoi2 : Nat) (count : Int) (backend : Nat → Int) (h : Bool)
    (hfmt : lav_file.format = 'a' ∨ lav_file.format = 'A')
    (hil : lav_file.interlacing ≠ Y4M_ILACE_NONE)
    (h1 : field_with_app0 f1 pre1 post1 l1 sl1 eoi1) (hpad : no_soi_from f1 (eoi1 + 2))
    (h2 : field_with_app0 f2 pre2 post2 l2 sl2 eoi2) (hcount : count < 2 ^ 31) :
    ∃ w, lav_write_frame have_libquicktime lav_file (f1 ++ f2) (f1 ++ f2).length count
        backend = WriteFrame.ret w ∧
      (∃ st0 st, scan_jpeg f1 f1.length h = Scan.ret 0 st0 ∧
        scan_jpeg (w.buff.take f1.length) f1.length h = Scan.ret 0 st ∧
        st.jpeg_app0_offset = st0.jpeg_app0_offset ∧
        (w.buff.take f1.length)[st.jpeg_app0_offset + 8]? =
          some (if lav_file.format = 'a' then 1 else 2)) ∧
      (∃ st0 st, scan_jpeg f2 f2.length h = Scan.ret 0 st0 ∧
        scan_jpeg (w.buff.drop f1.length) f2.length h = Scan.ret 0 st ∧
        st.jpeg_app0_offset = st0.jpeg_app0_offset ∧
        (w.buff.drop f1.length)[st.jpeg_app0_offset + 8]? =
          some (if lav_file.format = 'a' then 2 else 1)) := by
  obtain ⟨_, _, a3, a4, a5⟩ := field_with_app0_facts f1 pre1 post1 l1 sl1 eoi1 h1
  obtain ⟨_, _, c3, c4, c5⟩ := field_with_app0_facts f2 pre2 post2 l2 sl2 eoi2 h2
  have hl1 := h1.2.2
  have hl2 := h2.2.2
  have hlen : (f1 ++ f2).length = f1.length + f2.length := List.length_append f1 f2
  obtain ⟨w, hw, hbuff⟩ := lav_write_frame_avi have_libquicktime lav_file (f1 ++ f2)
    (f1 ++ f2).length count backend hfmt hil _
    (tag_avi_two_fields lav_file.format f1 f2 pre1 post1 pre2 post2 l1 sl1 eoi1 l2 sl2 eoi2
      h1 hpad h2) hcount
  obtain ⟨t1, t2, t3, t4⟩ := tagged_frame_spec f1 f2 (segments_end 2 pre1) (segments_end 2 pre2)
    (if lav_file.format = 'a' then 1 else 2) (if lav_file.format = 'a' then 2 else 1)
    (by omega) (by omega)
  have htake := tagged_frame_take f1 f2 (segments_end 2 pre1) (segments_end 2 pre2)
    (if lav_file.format = 'a' then 1 else 2) (if lav_file.format = 'a' then 2 else 1)
    (by omega) (by omega)
  have hdrop := tagged_frame_drop f1 f2 (segments_end 2 pre1) (segments_end 2 pre2)
    (if lav_file.format = 'a' then 1 else 2) (if lav_file.format = 'a' then 2 else 1)
    (by omega) (by omega)
  rw [← hbuff] at t1 t2 t3 htake hdrop
  refine ⟨w, hw, ?_, ?_⟩
  · obtain ⟨st0, hs0, happ0⟩ := scan_jpeg_app0 f1 pre1 post1 l1 sl1 eoi1 f1.length h h1.1
      h1.2.1 a5 (le_refl _)
    have hwf : well_formed_field (w.buff.take f1.length) (pre1 ++ (M_APP0, l1) :: post1)
        sl1 eoi1 :=
      well_formed_field_congr_hole f1 _ pre1 post1 M_APP0 l1 sl1 eoi1
        (fun i hi => htake i (by omega)) h1.1
    have hlt : (w.buff.take f1.length).length = f1.length := by
      rw [List.length_take, t1, hlen]; omega
    obtain ⟨st, hs, happ⟩ := scan_jpeg_app0 (w.buff.take f1.length) pre1 post1 l1 sl1 eoi1
      f1.length h hwf h1.2.1 a5 (by omega)
    refine ⟨st0, st, hs0, hs, by rw [happ, happ0], ?_⟩
    rw [happ, List.getElem?_take]
    have : segments_end 2 pre1 + 8 < f1.length := by omega
    simp only [this, if_true]
    exact t2.2.2.2.2
  · obtain ⟨st0, hs0, happ0⟩ := scan_jpeg_app0 f2 pre2 post2 l2 sl2 eoi2 f2.length h h2.1
      h2.2.1 c5 (le_refl _)
    have hwf : well_formed_field (w.buff.drop f1.length) (pre2 ++ (M_APP0, l2) :: post2)
        sl2 eoi2 :=
      well_formed_field_congr_hole f2 _ pre2 post2 M_APP0 l2 sl2 eoi2
        (fun i hi => hdrop i (by omega)) h2.1
    have hlt : (w.buff.drop f1.length).length = f2.length := by
      rw [List.length_drop, t1, hlen]; omega
    obtain ⟨st, hs, happ⟩ := scan_jpeg_app0 (w.buff.drop f1.length) pre2 post2 l2 sl2 eoi2
      f2.length h hwf h2.2.1 c5 (by omega)
    refine ⟨st0, st, hs0, hs, by rw [happ, happ0], ?_⟩
    rw [happ, List.getElem?_drop, ← Nat.add_assoc]
    exact t3.2.2.2.2

theorem avi_tagging_round_trip_witness :
    ∃ w, lav_write_frame false ⟨'a', 1, 1, 1, 0, 0, 0, 0⟩
        ([0xFF, 0xD8, 0xFF, 0xE0, 0, 16, 0, 0, 0, 0, 0, 0, 0, 0, 0, 0, 0, 0, 0, 0,
            0xFF, 0xDA, 0, 2, 7, 0xFF, 0xD9, 0] ++
          [0xFF, 0xD8, 0xFF, 0xDB, 0, 2, 0xFF, 0xE0, 0, 16, 0, 0, 0, 0, 0, 0, 0, 0, 0, 0,
            0, 0, 0, 0, 0xFF, 0xDA, 0, 2, 7, 0xFF, 0xD9])
        ([0xFF, 0xD8, 0xFF, 0xE0, 0, 16, 0, 0, 0, 0, 0, 0, 0, 0, 0, 0, 0, 0, 0, 0,
            0xFF, 0xDA, 0, 2, 7, 0xFF, 0xD9, 0] ++
          [0xFF, 0xD8, 0xFF, 0xDB, 0, 2, 0xFF, 0xE0, 0, 16, 0, 0, 0, 0, 0, 0, 0, 0, 0, 0,
            0, 0, 0, 0, 0xFF, 0xDA, 0, 2, 7, 0xFF, 0xD9]).length 1 (fun _ => 0) =
        WriteFrame.ret w ∧
      ∃ st, scan_jpeg (w.buff.drop 28) 31 false = Scan.ret 0 st ∧
        (w.buff.drop 28)[st.jpeg_app0_offset + 8]? = some 2 := by
  obtain ⟨w, hw, _, st0, st, _, hs, _, hb⟩ := avi_tagging_round_trip false
    ⟨'a', 1, 1, 1, 0, 0, 0, 0⟩
    [0xFF, 0xD8, 0xFF, 0xE0, 0, 16, 0, 0, 0, 0, 0, 0, 0, 0, 0, 0, 0, 0, 0, 0,
      0xFF, 0xDA, 0, 2, 7, 0xFF, 0xD9, 0]
    [0xFF, 0xD8, 0xFF, 0xDB, 0, 2, 0xFF, 0xE0, 0, 16, 0, 0, 0, 0, 0, 0, 0, 0, 0, 0,
      0, 0, 0, 0, 0xFF, 0xDA, 0, 2, 7, 0xFF, 0xD9]
    [] [] [(M_DQT, 2)] [] 16 2 25 16 2 29 1 (fun _ => 0) false
    (Or.inl rfl) (by decide) (by decide) (by decide) (by decide) (by decide)
  exact ⟨w, hw, st, hs, hb⟩

/-! ## The probe of lav_open_input_file -/

/-- When the first frame is read, `lav_open_input_file` is the scan of that
frame followed by the probe of the frame. -/
theorem lav_open_input_file_reads (hq : Bool) (env : Backend) (g : Globals)
    (h : reads_first_frame hq env) :
    lav_open_input_file hq env g =
      match scan_jpeg env.frame env.frame_size.toNat true with
      | Scan.fault => OpenInput.fault
      | Scan.timeout => OpenInput.timeout
      | Scan.ret r st =>
        if r ≠ 0 then errexit (session_at_probe hq env) ERROR_JPEG
        else probe_frame hq env (session_at_probe hq env) st := by
  obtain ⟨h1, h2, ⟨c1, c2, c3, c4⟩, h4, h5, h6, h7, h8⟩ := h
  have hpos : ¬ (env.frame_size ≤ 0) := by omega
  have hrd : ¬ (to_int env.read_frame ≤ 0) := by omega
  rcases h2 with ha | ⟨ha, hb, hc, hd, he, hf⟩
  · have hcase : has_case hq (with_bps hq env (avi_session env)).format = true := by
      simp [has_case, with_bps, avi_session]
    unfold lav_open_input_file probe probe_mjpg session_at_probe
    simp only [h1, ha, c1, c2, c3, c4, if_true, if_false, Bool.true_eq_false,
      Bool.false_eq_true, lav_set_video_position, lav_frame_size, lav_read_frame,
      hcase, h4, h8, hpos, hrd, h6, ne_eq, not_true_eq_false]
  · subst hc
    have hcase : has_case true (with_bps true env (qt_session env)).format = true := by
      simp [has_case, with_bps, qt_session]
    have htr : ¬ (env.qt_video_tracks < 1) := by omega
    unfold lav_open_input_file probe probe_mjpg session_at_probe
    simp only [h1, ha, hb, hd, he, htr, c1, c2, c3, c4, if_true, if_false,
      Bool.true_eq_false, Bool.false_eq_true, or_self, lav_set_video_position,
      lav_frame_size, lav_read_frame, hcase, h4, h8, hpos, hrd, h6, ne_eq, not_true_eq_false]

/-- When the backend answers `2^31` for the read of the first frame, the
`int` that `lav_read_frame` returns is negative and `lav_open_input_file`
returns the null pointer. -/
theorem lav_open_input_file_read_wraps :
    lav_read_frame false { avi_file 240 app0_field with read_frame := 2 ^ 31 }
        ⟨'a', Y4M_UNKNOWN, 1, 1, 0, 1, Y4M_UNKNOWN, DATAFORMAT_MJPG⟩ = -(2 ^ 31) ∧
    lav_open_input_file false { avi_file 240 app0_field with read_frame := 2 ^ 31 } ⟨' ', 0⟩ =
      OpenInput.ret none ⟨'a', 0⟩ := by
  decide

/-- When the first frame is read and its header-only scan succeeds,
`lav_open_input_file` is the probe of the frame. -/
theorem lav_open_input_file_probe (hq : Bool) (env : Backend) (g : Globals) (st : JpegStatics)
    (h : reads_first_frame hq env)
    (hs : scan_jpeg env.frame env.frame_size.toNat true = Scan.ret 0 st) :
    lav_open_input_file hq env g = probe_frame hq env (session_at_probe hq env) st := by
  rw [lav_open_input_file_reads hq env g h, hs]
  simp

theorem session_at_probe_chroma (hq : Bool) (env : Backend) :
    (session_at_probe hq env).chroma = Y4M_UNKNOWN := by
  unfold session_at_probe with_bps
  split <;> rfl

theorem session_at_probe_format (hq : Bool) (env : Backend) :
    (session_at_probe hq env).format = if env.avi_fd = true then 'a' else 'q' := by
  unfold session_at_probe with_bps
  split <;> rfl

theorem session_at_probe_height (hq : Bool) (env : Backend) (h : reads_first_frame hq env) :
    lav_video_height hq env (session_at_probe hq env) = env.video_height := by
  unfold lav_video_height
  rw [session_at_probe_format]
  rcases h.2.1 with ha | ⟨ha, _, hc, _⟩
  · simp [ha, has_case]
  · simp [ha, hc, has_case]

/-- The chroma value of a session that the probe returns is the one the
block on the sampling factors computes. -/
theorem probe_frame_chroma (hq : Bool) (env : Backend) (lav_fd r : lav_file_t)
    (st : JpegStatics) (g : Globals)
    (h : probe_frame hq env lav_fd st = OpenInput.ret (some r) g) :
    chroma_of_frame env.frame st.jpeg_image_offset lav_fd.chroma = some r.chroma := by
  unfold probe_frame at h
  split at h
  · exact absurd h (by simp)
  · rename_i c hc
    rw [hc]
    split at h
    · split at h
      · simp only [OpenInput.ret.injEq, Option.some.injEq] at h
        rw [← h.1]
      · split at h
        · split at h
          · split at h
            · exact absurd h (by simp)
            · simp only [OpenInput.ret.injEq, Option.some.injEq] at h
              rw [← h.1]
          · split at h
            · simp only [OpenInput.ret.injEq, Option.some.injEq] at h
              rw [← h.1]
            · simp only [OpenInput.ret.injEq, Option.some.injEq] at h
              rw [← h.1]
        · simp [errexit] at h
    · exact absurd h (by simp)

/-- The chroma value for a frame header of three components whose sampling
bytes are `16 * h + v`. -/
theorem chroma_of_frame_three (frame : List Nat) (io : Nat) (c : Int)
    (h0 v0 h1 v1 h2 v2 : Nat)
    (hn : frame[io + 9]? = some 3)
    (hc0 : frame[io + 11]? = some (16 * h0 + v0)) (hv0 : v0 < 16)
    (hc1 : frame[io + 14]? = some (16 * h1 + v1)) (hv1 : v1 < 16)
    (hc2 : frame[io + 17]? = some (16 * h2 + v2)) (hv2 : v2 < 16) :
    chroma_of_frame frame io c =
      some (if h0 = 2 * h1 ∧ h0 = 2 * h2 then
        if v0 = v1 ∧ v0 = v2 then Y4M_CHROMA_422
        else if v0 = 2 * v1 ∧ v0 = 2 * v2 then Y4M_CHROMA_420JPEG
        else Y4M_UNKNOWN
      else Y4M_UNKNOWN) := by
  have e0 : (16 * h0 + v0) / 16 = h0 := by omega
  have e1 : (16 * h1 + v1) / 16 = h1 := by omega
  have e2 : (16 * h2 + v2) / 16 = h2 := by omega
  have m0 : (16 * h0 + v0) % 16 = v0 := by omega
  have m1 : (16 * h1 + v1) % 16 = v1 := by omega
  have m2 : (16 * h2 + v2) % 16 = v2 := by omega
  unfold chroma_of_frame
  have a0 : io + 10 + 3 * 0 + 1 = io + 11 := by omega
  have a1 : io + 10 + 3 * 1 + 1 = io + 14 := by omega
  have a2 : io + 10 + 3 * 2 + 1 = io + 17 := by omega
  rw [a0, a1, a2, hn, hc0, hc1, hc2]
  simp only [if_true, e0, e1, e2, m0, m1, m2]
  split <;> [split <;> [rfl; (split <;> rfl)]; rfl]

/-- The chroma value of the session returned for a first frame whose frame
header has three components. -/
theorem lav_open_input_file_chroma (hq : Bool) (env : Backend) (g g1 : Globals)
    (st : JpegStatics) (lav_fd : lav_file_t) (h0 v0 h1 v1 h2 v2 : Nat)
    (hread : reads_first_frame hq env)
    (hscan : scan_jpeg env.frame env.frame_size.toNat true = Scan.ret 0 st)
    (hn : env.frame[st.jpeg_image_offset + 9]? = some 3)
    (hc0 : env.frame[st.jpeg_image_offset + 11]? = some (16 * h0 + v0)) (hv0 : v0 < 16)
    (hc1 : env.frame[st.jpeg_image_offset + 14]? = some (16 * h1 + v1)) (hv1 : v1 < 16)
    (hc2 : env.frame[st.jpeg_image_offset + 17]? = some (16 * h2 + v2)) (hv2 : v2 < 16)
    (hret : lav_open_input_file hq env g = OpenInput.ret (some lav_fd) g1) :
    lav_fd.chroma =
      if h0 = 2 * h1 ∧ h0 = 2 * h2 then
        if v0 = v1 ∧ v0 = v2 then Y4M_CHROMA_422
        else if v0 = 2 * v1 ∧ v0 = 2 * v2 then Y4M_CHROMA_420JPEG
        else Y4M_UNKNOWN
      else Y4M_UNKNOWN := by
  rw [lav_open_input_file_probe hq env g st hread hscan] at hret
  have h := probe_frame_chroma hq env _ lav_fd st g1 hret
  rw [chroma_of_frame_three env.frame _ _ h0 v0 h1 v1 h2 v2 hn hc0 hv0 hc1 hv1 hc2 hv2] at h
  exact (Option.some.inj h).symm

/-! ## The claims on the chroma classification -/

/-- C16: when `lav_open_input_file` reads a first frame, the header-only scan
of it succeeds, the frame header at the recorded offset declares 3 components
with the sampling factors `(h0, v0)`, `(h1, v1)`, `(h2, v2)`, and a session is
returned, then the chroma of the session is 4:2:2 exactly when
`h0 = 2 * h1 = 2 * h2` and `v0 = v1 = v2`; 4:2:0-JPEG exactly when
`h0 = 2 * h1 = 2 * h2`, the vertical factors are not all equal and
`v0 = 2 * v1 = 2 * v2`; and unknown exactly in every other case. -/
theorem chroma_classification (hq : Bool) (env : Backend) (g g1 : Globals)
    (st : JpegStatics) (lav_fd : lav_file_t) (h0 v0 h1 v1 h2 v2 : Nat)
    (hread : reads_first_frame hq env)
    (hscan : scan_jpeg env.frame env.frame_size.toNat true = Scan.ret 0 st)
    (hn : env.frame[st.jpeg_image_offset + 9]? = some 3)
    (hc0 : env.frame[st.jpeg_image_offset + 11]? = some (16 * h0 + v0)) (hv0 : v0 < 16)
    (hc1 : env.frame[st.jpeg_image_offset + 14]? = some (16 * h1 + v1)) (hv1 : v1 < 16)
    (hc2 : env.frame[st.jpeg_image_offset + 17]? = some (16 * h2 + v2)) (hv2 : v2 < 16)
    (hret : lav_open_input_file hq env g = OpenInput.ret (some lav_fd) g1) :
    (lav_fd.chroma = Y4M_CHROMA_422 ↔
      (h0 = 2 * h1 ∧ h0 = 2 * h2) ∧ (v0 = v1 ∧ v0 = v2)) ∧
    (lav_fd.chroma = Y4M_CHROMA_420JPEG ↔
      (h0 = 2 * h1 ∧ h0 = 2 * h2) ∧ ¬ (v0 = v1 ∧ v0 = v2) ∧ (v0 = 2 * v1 ∧ v0 = 2 * v2)) ∧
    (lav_fd.chroma = Y4M_UNKNOWN ↔
      ¬ ((h0 = 2 * h1 ∧ h0 = 2 * h2) ∧ (v0 = v1 ∧ v0 = v2)) ∧
      ¬ ((h0 = 2 * h1 ∧ h0 = 2 * h2) ∧ ¬ (v0 = v1 ∧ v0 = v2) ∧
        (v0 = 2 * v1 ∧ v0 = 2 * v2))) := by
  have h := lav_open_input_file_chroma hq env g g1 st lav_fd h0 v0 h1 v1 h2 v2 hread hscan hn
    hc0 hv0 hc1 hv1 hc2 hv2 hret
  have d1 : Y4M_CHROMA_422 ≠ Y4M_CHROMA_420JPEG := by decide
  have d2 : Y4M_CHROMA_422 ≠ Y4M_UNKNOWN := by decide
  have d3 : Y4M_CHROMA_420JPEG ≠ Y4M_UNKNOWN := by decide
  rw [h]
  by_cases hh : h0 = 2 * h1 ∧ h0 = 2 * h2
  · by_cases hv : v0 = v1 ∧ v0 = v2
    · rw [if_pos hh, if_pos hv]
      exact ⟨⟨fun _ => ⟨hh, hv⟩, fun _ => rfl⟩,
        ⟨fun e => absurd e d1, fun x => absurd hv x.2.1⟩,
        ⟨fun e => absurd e d2, fun x => absurd ⟨hh, hv⟩ x.1⟩⟩
    · by_cases hw : v0 = 2 * v1 ∧ v0 = 2 * v2
      · rw [if_pos hh, if_neg hv, if_pos hw]
        exact ⟨⟨fun e => absurd e d1.symm, fun x => absurd x.2 hv⟩,
          ⟨fun _ => ⟨hh, hv, hw⟩, fun _ => rfl⟩,
          ⟨fun e => absurd e d3, fun x => absurd ⟨hh, hv, hw⟩ x.2⟩⟩
      · rw [if_pos hh, if_neg hv, if_neg hw]
        exact ⟨⟨fun e => absurd e d2.symm, fun x => absurd x.2 hv⟩,
          ⟨fun e => absurd e d3.symm, fun x => absurd x.2.2 hw⟩,
          ⟨fun _ => ⟨fun x => hv x.2, fun x => hw x.2.2⟩, fun _ => rfl⟩⟩
  · rw [if_neg hh]
    exact ⟨⟨fun e => absurd e d2.symm, fun x => absurd x.1 hh⟩,
      ⟨fun e => absurd e d3.symm, fun x => absurd x.1 hh⟩,
      ⟨fun _ => ⟨fun x => hh x.1, fun x => hh x.1⟩, fun _ => rfl⟩⟩

theorem chroma_classification_witness :
    ∃ lav_fd g1,
      lav_open_input_file false
        (avi_file 240
          (sample_frame [0, 0, 0, 0, 0, 0, 0, 0, 0, 0, 0, 0, 0, 0] 240 0x22 0x11 0x11))
        ⟨' ', 0⟩ = OpenInput.ret (some lav_fd) g1 ∧
      (lav_fd.chroma = Y4M_CHROMA_420JPEG ↔
        (2 = 2 * 1 ∧ 2 = 2 * 1) ∧ ¬ (2 = 1 ∧ 2 = 1) ∧ (2 = 2 * 1 ∧ 2 = 2 * 1)) :=
  ⟨⟨'a', Y4M_ILACE_NONE, 1, 1, 0, 1, Y4M_CHROMA_420JPEG, DATAFORMAT_MJPG⟩, ⟨'a', 0⟩,
    by decide,
    (chroma_classification false
      (avi_file 240 (sample_frame [0, 0, 0, 0, 0, 0, 0, 0, 0, 0, 0, 0, 0, 0] 240 0x22 0x11 0x11))
      ⟨' ', 0⟩ ⟨'a', 0⟩
      ⟨0, 0, 0, 20, 39, 43, 0, 2, 0, [(M_APP0, 3), (M_SOF0, 21), (M_SOS, 40)]⟩
      ⟨'a', Y4M_ILACE_NONE, 1, 1, 0, 1, Y4M_CHROMA_420JPEG, DATAFORMAT_MJPG⟩ 2 2 1 1 1 1
      (by decide) (by decide) (by decide) (by decide) (by decide) (by decide) (by decide)
      (by decide) (by decide) (by decide)).2.1⟩

/-- C17, amended: when `lav_open_input_file` reads a first frame, the header-only scan
of it succeeds, the frame header at the recorded offset declares 3 components
with the sampling factors (2,1) for the first and (1,1) for the other two,
and a session is returned, then the chroma of the session is 4:2:2. -/
theorem sampling_21_11_11_is_422 (hq : Bool) (env : Backend) (g g1 : Globals)
    (st : JpegStatics) (lav_fd : lav_file_t)
    (hread : reads_first_frame hq env)
    (hscan : scan_jpeg env.frame env.frame_size.toNat true = Scan.ret 0 st)
    (hn : env.frame[st.jpeg_image_offset + 9]? = some 3)
    (hc0 : env.frame[st.jpeg_image_offset + 11]? = some (16 * 2 + 1))
    (hc1 : env.frame[st.jpeg_image_offset + 14]? = some (16 * 1 + 1))
    (hc2 : env.frame[st.jpeg_image_offset + 17]? = some (16 * 1 + 1))
    (hret : lav_open_input_file hq env g = OpenInput.ret (some lav_fd) g1) :
    lav_fd.chroma = Y4M_CHROMA_422 := by
  rw [lav_open_input_file_chroma hq env g g1 st lav_fd 2 1 1 1 1 1 hread hscan hn
    hc0 (by omega) hc1 (by omega) hc2 (by omega) hret]
  rfl

theorem sampling_21_11_11_is_422_witness :
    ∃ lav_fd g1,
      lav_open_input_file true
        (qt_file 32 (sample_frame [0, 0, 0, 0, 0, 0, 0, 0, 0, 0, 0, 0, 0, 0] 32 0x21 0x11 0x11))
        ⟨' ', 0⟩ = OpenInput.ret (some lav_fd) g1 ∧
      lav_fd.chroma = Y4M_CHROMA_422 :=
  ⟨⟨'q', Y4M_ILACE_NONE, 1, 1, 0, 1, Y4M_CHROMA_422, DATAFORMAT_MJPG⟩, ⟨'q', 0⟩, by decide,
    sampling_21_11_11_is_422 true
      (qt_file 32 (sample_frame [0, 0, 0, 0, 0, 0, 0, 0, 0, 0, 0, 0, 0, 0] 32 0x21 0x11 0x11))
      ⟨' ', 0⟩ ⟨'q', 0⟩
      ⟨0, 0, 0, 20, 39, 43, 0, 2, 0, [(M_APP0, 3), (M_SOF0, 21), (M_SOS, 40)]⟩
      ⟨'q', Y4M_ILACE_NONE, 1, 1, 0, 1, Y4M_CHROMA_422, DATAFORMAT_MJPG⟩
      (by decide) (by decide) (by decide) (by decide) (by decide) (by decide) (by decide)⟩

/-- C17, as stated, fails: for the AVI file whose first frame has
the sampling factors (2,1), (1,1), (1,1), `lav_open_input_file` returns a
session whose chroma is 4:2:2, which is not the value 4:2:0-JPEG. -/
theorem sampling_21_11_11_is_not_420jpeg :
    reads_first_frame false
        (avi_file 240
          (sample_frame [0, 0, 0, 0, 0, 0, 0, 0, 0, 0, 0, 0, 0, 0] 240 0x21 0x11 0x11)) ∧
    (sample_frame [0, 0, 0, 0, 0, 0, 0, 0, 0, 0, 0, 0, 0, 0] 240 0x21 0x11 0x11).drop 29 =
      [3, 1, 0x21, 0, 2, 0x11, 1, 3, 0x11, 1, 0xFF, 0xDA, 0, 2, 7, 0xFF, 0xD9] ∧
    lav_open_input_file false
        (avi_file 240
          (sample_frame [0, 0, 0, 0, 0, 0, 0, 0, 0, 0, 0, 0, 0, 0] 240 0x21 0x11 0x11))
        ⟨' ', 0⟩ =
      OpenInput.ret (some ⟨'a', Y4M_ILACE_NONE, 1, 1, 0, 1, Y4M_CHROMA_422, DATAFORMAT_MJPG⟩)
        ⟨'a', 0⟩ ∧
    Y4M_CHROMA_422 ≠ Y4M_CHROMA_420JPEG := by
  decide

/-- C18, amended: when `lav_open_input_file` reads a first frame, the header-only scan
of it succeeds, the frame header at the recorded offset declares 3 components
with the sampling factors (2,1) for all three, and a session is returned,
then the chroma of the session is unknown. -/
theorem sampling_21_21_21_is_unknown (hq : Bool) (env : Backend) (g g1 : Globals)
    (st : JpegStatics) (lav_fd : lav_file_t)
    (hread : reads_first_frame hq env)
    (hscan : scan_jpeg env.frame env.frame_size.toNat true = Scan.ret 0 st)
    (hn : env.frame[st.jpeg_image_offset + 9]? = some 3)
    (hc0 : env.frame[st.jpeg_image_offset + 11]? = some (16 * 2 + 1))
    (hc1 : env.frame[st.jpeg_image_offset + 14]? = some (16 * 2 + 1))
    (hc2 : env.frame[st.jpeg_image_offset + 17]? = some (16 * 2 + 1))
    (hret : lav_open_input_file hq env g = OpenInput.ret (some lav_fd) g1) :
    lav_fd.chroma = Y4M_UNKNOWN := by
  rw [lav_open_input_file_chroma hq env g g1 st lav_fd 2 1 2 1 2 1 hread hscan hn
    hc0 (by omega) hc1 (by omega) hc2 (by omega) hret]
  rfl

theorem sampling_21_21_21_is_unknown_witness :
    ∃ lav_fd g1,
      lav_open_input_file true
        (qt_file 64 (sample_frame [0, 0, 0, 0, 0, 0, 0, 0, 0, 0, 0, 0, 0, 0] 32 0x21 0x21 0x21))
        ⟨' ', 0⟩ = OpenInput.ret (some lav_fd) g1 ∧
      lav_fd.chroma = Y4M_UNKNOWN :=
  ⟨⟨'q', Y4M_ILACE_TOP_FIRST, 1, 1, 0, 1, Y4M_UNKNOWN, DATAFORMAT_MJPG⟩, ⟨'q', 0⟩, by decide,
    sampling_21_21_21_is_unknown true
      (qt_file 64 (sample_frame [0, 0, 0, 0, 0, 0, 0, 0, 0, 0, 0, 0, 0, 0] 32 0x21 0x21 0x21))
      ⟨' ', 0⟩ ⟨'q', 0⟩
      ⟨0, 0, 0, 20, 39, 43, 0, 2, 0, [(M_APP0, 3), (M_SOF0, 21), (M_SOS, 40)]⟩
      ⟨'q', Y4M_ILACE_TOP_FIRST, 1, 1, 0, 1, Y4M_UNKNOWN, DATAFORMAT_MJPG⟩
      (by decide) (by decide) (by decide) (by decide) (by decide) (by decide) (by decide)⟩

/-- C18, as stated, fails: for the AVI file whose first frame has
the sampling factors (2,1), (2,1), (2,1), `lav_open_input_file` returns a
session whose chroma is unknown, which is not the value 4:2:2. -/
theorem sampling_21_21_21_is_not_422 :
    reads_first_frame false
        (avi_file 240
          (sample_frame [0, 0, 0, 0, 0, 0, 0, 0, 0, 0, 0, 0, 0, 0] 240 0x21 0x21 0x21)) ∧
    (sample_frame [0, 0, 0, 0, 0, 0, 0, 0, 0, 0, 0, 0, 0, 0] 240 0x21 0x21 0x21).drop 29 =
      [3, 1, 0x21, 0, 2, 0x21, 1, 3, 0x21, 1, 0xFF, 0xDA, 0, 2, 7, 0xFF, 0xD9] ∧
    lav_open_input_file false
        (avi_file 240
          (sample_frame [0, 0, 0, 0, 0, 0, 0, 0, 0, 0, 0, 0, 0, 0] 240 0x21 0x21 0x21))
        ⟨' ', 0⟩ =
      OpenInput.ret (some ⟨'a', Y4M_ILACE_NONE, 1, 1, 0, 1, Y4M_UNKNOWN, DATAFORMAT_MJPG⟩)
        ⟨'a', 0⟩ ∧
    Y4M_UNKNOWN ≠ Y4M_CHROMA_422 := by
  decide

/-! ## The probe of the heights and of the field order -/

theorem get_int2_some (b : List Nat) (a : Nat) (h : a + 1 < b.length) :
    ∃ v, get_int2 b a = some v := by
  unfold get_int2
  rw [List.getElem?_eq_getElem (by omega : a < b.length),
    List.getElem?_eq_getElem (by omega : a + 1 < b.length)]
  exact ⟨_, rfl⟩

theorem chroma_of_frame_some (frame : List Nat) (io : Nat) (c0 : Int)
    (h : io + 17 < frame.length) : ∃ c, chroma_of_frame frame io c0 = some c := by
  unfold chroma_of_frame
  rw [List.getElem?_eq_getElem (by omega : io + 9 < frame.length),
    List.getElem?_eq_getElem (by omega : io + 10 + 3 * 0 + 1 < frame.length),
    List.getElem?_eq_getElem (by omega : io + 10 + 3 * 1 + 1 < frame.length),
    List.getElem?_eq_getElem (by omega : io + 10 + 3 * 2 + 1 < frame.length)]
  simp only
  split
  · split
    · split
      · exact ⟨_, rfl⟩
      · split <;> exact ⟨_, rfl⟩
    · exact ⟨_, rfl⟩
  · exact ⟨_, rfl⟩

theorem is_avi1_some (frame : List Nat) (a : Nat) (h : a + 3 < frame.length) :
    ∃ t, is_avi1 frame a = some t := by
  unfold is_avi1
  rw [List.getElem?_eq_getElem (by omega : a < frame.length),
    List.getElem?_eq_getElem (by omega : a + 1 < frame.length),
    List.getElem?_eq_getElem (by omega : a + 2 < frame.length),
    List.getElem?_eq_getElem (by omega : a + 3 < frame.length)]
  simp only
  split
  · exact ⟨_, rfl⟩
  · split
    · exact ⟨_, rfl⟩
    · split <;> exact ⟨_, rfl⟩

/-- The field order that the branch `case 'a':` finds, when its reads lie
within the frame buffer: top field first unless the app0 offset is not zero,
the declared length there is at least 5, the bytes 4..7 are `"AVI1"` (in
either case of the letters) and byte 8 is not 1. -/
theorem avi_polarity_spec (frame : List Nat) (a : Nat) (h : a + 8 < frame.length) :
    ∃ pol, avi_polarity frame a = some pol ∧
      (pol = Y4M_ILACE_TOP_FIRST ∨ pol = Y4M_ILACE_BOTTOM_FIRST) ∧
      (a = 0 → pol = Y4M_ILACE_TOP_FIRST) ∧
      (∀ l, get_int2 frame (a + 2) = some l → l < 5 → pol = Y4M_ILACE_TOP_FIRST) ∧
      (is_avi1 frame (a + 4) = some false → pol = Y4M_ILACE_TOP_FIRST) ∧
      (∀ l v, a ≠ 0 → get_int2 frame (a + 2) = some l → 5 ≤ l →
        is_avi1 frame (a + 4) = some true → frame[a + 8]? = some v →
        pol = if v = 1 then Y4M_ILACE_TOP_FIRST else Y4M_ILACE_BOTTOM_FIRST) := by
  obtain ⟨l, hl⟩ := get_int2_some frame (a + 2) (by omega)
  obtain ⟨t, ht⟩ := is_avi1_some frame (a + 4) (by omega)
  have hv : frame[a + 8]? = some (frame[a + 8]) := List.getElem?_eq_getElem h
  have d : Y4M_ILACE_BOTTOM_FIRST ≠ Y4M_ILACE_TOP_FIRST := by decide
  unfold avi_polarity
  rw [hl, ht, hv]
  by_cases ha : a = 0
  · rw [if_pos ha]
    exact ⟨_, rfl, Or.inl rfl, fun _ => rfl, fun _ _ _ => rfl, fun _ => rfl,
      fun _ _ h0 => absurd ha h0⟩
  · rw [if_neg ha]
    by_cases h5 : l < 5
    · simp only [h5, if_true]
      refine ⟨_, rfl, Or.inl rfl, fun _ => rfl, fun _ _ _ => rfl, fun _ => rfl, ?_⟩
      intro l0 v _ e h50
      cases e
      omega
    · simp only [h5, if_false]
      cases t with
      | false =>
        refine ⟨_, rfl, Or.inl rfl, fun _ => rfl, fun _ _ _ => rfl, fun _ => rfl, ?_⟩
        intro _ _ _ _ _ e
        cases e
      | true =>
        simp only
        by_cases h1 : frame[a + 8] = 1
        · rw [if_pos h1]
          refine ⟨_, rfl, Or.inl rfl, fun _ => rfl, fun _ _ _ => rfl, fun _ => rfl, ?_⟩
          intro _ v _ _ _ _ e
          cases e
          rw [if_pos h1]
        · rw [if_neg h1]
          refine ⟨_, rfl, Or.inr rfl, fun h0 => absurd h0 ha, ?_, ?_, ?_⟩
          · intro l0 e h50
            cases e
            omega
          · intro e
            cases e
          · intro _ v _ _ _ _ e
            cases e
            rw [if_neg h1]

/-- The probe behind the reads of the chroma block and of the two sizes. -/
theorem probe_frame_heights (hq : Bool) (env : Backend) (lav_fd : lav_file_t)
    (st : JpegStatics) (chroma : Int) (jpg_height jpg_width : Nat)
    (hc : chroma_of_frame env.frame st.jpeg_image_offset lav_fd.chroma = some chroma)
    (hh : get_int2 env.frame (st.jpeg_image_offset + 5) = some jpg_height)
    (hw : get_int2 env.frame (st.jpeg_image_offset + 7) = some jpg_width) :
    probe_frame hq env lav_fd st =
      if (jpg_height : Int) = lav_video_height hq env lav_fd then
        OpenInput.ret (some { lav_fd with chroma := chroma, interlacing := Y4M_ILACE_NONE })
          ⟨lav_fd.format, 0⟩
      else if (jpg_height : Int) = Int.tdiv (lav_video_height hq env lav_fd) 2 then
        if lav_fd.format = 'a' then
          match avi_polarity env.frame st.jpeg_app0_offset with
          | none => OpenInput.fault
          | some pol =>
            OpenInput.ret
              (some { lav_fd with
                chroma := chroma, interlacing := pol,
                format := if pol = Y4M_ILACE_BOTTOM_FIRST then 'A' else 'a' })
              ⟨lav_fd.format, 0⟩
        else if lav_fd.format = 'q' then
          OpenInput.ret (some { lav_fd with chroma := chroma, interlacing := Y4M_ILACE_TOP_FIRST })
            ⟨lav_fd.format, 0⟩
        else OpenInput.ret (some { lav_fd with chroma := chroma }) ⟨lav_fd.format, 0⟩
      else errexit lav_fd ERROR_JPEG := by
  unfold probe_frame
  rw [hc, hh, hw]

/-- The call of `lav_open_input_file` for a first frame of the height `J` in
an interlaced AVI file: the session has the field order of the branch
`case 'a':` and the format tag that goes with it. -/
theorem lav_open_input_file_avi_interlaced (hq : Bool) (env : Backend) (g : Globals)
    (st : JpegStatics) (J : Nat) (pol : Int)
    (hread : reads_first_frame hq env) (havi : env.avi_fd = true)
    (hscan : scan_jpeg env.frame env.frame_size.toNat true = Scan.ret 0 st)
    (hJ : get_int2 env.frame (st.jpeg_image_offset + 5) = some J)
    (hin : st.jpeg_image_offset + 17 < env.frame.length)
    (hne : (J : Int) ≠ env.video_height) (hhalf : (J : Int) = Int.tdiv env.video_height 2)
    (hpol : avi_polarity env.frame st.jpeg_app0_offset = some pol) :
    ∃ lav_fd g1, lav_open_input_file hq env g = OpenInput.ret (some lav_fd) g1 ∧
      lav_fd.interlacing = pol ∧
      lav_fd.format = if pol = Y4M_ILACE_BOTTOM_FIRST then 'A' else 'a' := by
  obtain ⟨c, hc⟩ := chroma_of_frame_some env.frame st.jpeg_image_offset
    (session_at_probe hq env).chroma hin
  obtain ⟨W, hW⟩ := get_int2_some env.frame (st.jpeg_image_offset + 7) (by omega)
  have hfmt : (session_at_probe hq env).format = 'a' := by
    rw [session_at_probe_format, if_pos havi]
  rw [lav_open_input_file_probe hq env g st hread hscan,
    probe_frame_heights hq env _ st c J W hc hJ hW, session_at_probe_height hq env hread,
    if_neg hne, if_pos hhalf, if_pos hfmt, hpol]
  exact ⟨_, _, rfl, rfl, rfl⟩

/-- The call of `lav_open_input_file` for a first frame of the height `J` in
an interlaced Quicktime file: the session is top field first. -/
theorem lav_open_input_file_qt_interlaced (hq : Bool) (env : Backend) (g : Globals)
    (st : JpegStatics) (J : Nat)
    (hread : reads_first_frame hq env) (hqt : env.avi_fd = false)
    (hscan : scan_jpeg env.frame env.frame_size.toNat true = Scan.ret 0 st)
    (hJ : get_int2 env.frame (st.jpeg_image_offset + 5) = some J)
    (hin : st.jpeg_image_offset + 17 < env.frame.length)
    (hne : (J : Int) ≠ env.video_height) (hhalf : (J : Int) = Int.tdiv env.video_height 2) :
    ∃ lav_fd g1, lav_open_input_file hq env g = OpenInput.ret (some lav_fd) g1 ∧
      lav_fd.interlacing = Y4M_ILACE_TOP_FIRST ∧ lav_fd.format = 'q' := by
  obtain ⟨c, hc⟩ := chroma_of_frame_some env.frame st.jpeg_image_offset
    (session_at_probe hq env).chroma hin
  obtain ⟨W, hW⟩ := get_int2_some env.frame (st.jpeg_image_offset + 7) (by omega)
  have hfmt : (session_at_probe hq env).format = 'q' := by
    rw [session_at_probe_format, hqt]; rfl
  have hfa : ¬ (session_at_probe hq env).format = 'a' := by
    rw [hfmt]; decide
  rw [lav_open_input_file_probe hq env g st hread hscan,
    probe_frame_heights hq env _ st c J W hc hJ hW, session_at_probe_height hq env hread,
    if_neg hne, if_pos hhalf, if_neg hfa, if_pos hfmt]
  exact ⟨_, _, rfl, rfl, hfmt⟩

/-- C19, amended: when `lav_open_input_file` reads a first frame whose header-only
scan succeeds, with `H` the frame height the backend reports and `J` the
height in the frame header at the recorded offset (the reads of the probe
being within the frame buffer): a session with `Y4M_ILACE_NONE` is returned
when `J = H`; an interlaced session is returned when `J ≠ H` and `J` is
`H / 2` in the integer division of C, which for `H ≥ 0` means `H = 2 * J` or
`H = 2 * J + 1`; and for every other pair no session is returned and the
error kind is `ERROR_JPEG`. -/
theorem interlace_detection (hq : Bool) (env : Backend) (g : Globals) (st : JpegStatics)
    (J : Nat)
    (hread : reads_first_frame hq env)
    (hscan : scan_jpeg env.frame env.frame_size.toNat true = Scan.ret 0 st)
    (hJ : get_int2 env.frame (st.jpeg_image_offset + 5) = some J)
    (hin : probe_in_bounds env.frame st) :
    ((J : Int) = env.video_height →
      ∃ lav_fd g1, lav_open_input_file hq env g = OpenInput.ret (some lav_fd) g1 ∧
        lav_fd.interlacing = Y4M_ILACE_NONE) ∧
    ((J : Int) ≠ env.video_height → (J : Int) = Int.tdiv env.video_height 2 →
      ∃ lav_fd g1, lav_open_input_file hq env g = OpenInput.ret (some lav_fd) g1 ∧
        (lav_fd.interlacing = Y4M_ILACE_TOP_FIRST ∨
          lav_fd.interlacing = Y4M_ILACE_BOTTOM_FIRST)) ∧
    ((J : Int) ≠ env.video_height → (J : Int) ≠ Int.tdiv env.video_height 2 →
      ∃ g1, lav_open_input_file hq env g = OpenInput.ret none g1 ∧
        g1.internal_error = ERROR_JPEG) ∧
    (0 ≤ env.video_height →
      ((J : Int) = Int.tdiv env.video_height 2 ↔
        (env.video_height = 2 * J ∨ env.video_height = 2 * J + 1))) := by
  obtain ⟨c, hc⟩ := chroma_of_frame_some env.frame st.jpeg_image_offset
    (session_at_probe hq env).chroma hin.1
  obtain ⟨W, hW⟩ := get_int2_some env.frame (st.jpeg_image_offset + 7)
    (by have := hin.1; omega)
  refine ⟨?_, ?_, ?_, ?_⟩
  · intro he
    rw [lav_open_input_file_probe hq env g st hread hscan,
      probe_frame_heights hq env _ st c J W hc hJ hW, session_at_probe_height hq env hread,
      if_pos he]
    exact ⟨_, _, rfl, rfl⟩
  · intro hne hhalf
    cases havi : env.avi_fd with
    | true =>
      obtain ⟨pol, hpol, hor, _⟩ := avi_polarity_spec env.frame st.jpeg_app0_offset hin.2
      obtain ⟨lav_fd, g1, hr, hi, _⟩ := lav_open_input_file_avi_interlaced hq env g st J pol
        hread havi hscan hJ hin.1 hne hhalf hpol
      exact ⟨lav_fd, g1, hr, by rw [hi]; exact hor⟩
    | false =>
      obtain ⟨lav_fd, g1, hr, hi, _⟩ := lav_open_input_file_qt_interlaced hq env g st J
        hread havi hscan hJ hin.1 hne hhalf
      exact ⟨lav_fd, g1, hr, Or.inl hi⟩
  · intro hne hnh
    rw [lav_open_input_file_probe hq env g st hread hscan,
      probe_frame_heights hq env _ st c J W hc hJ hW, session_at_probe_height hq env hread,
      if_neg hne, if_neg hnh]
    exact ⟨_, rfl, rfl⟩
  · intro h0
    rw [Int.tdiv_eq_ediv h0 (by decide)]
    omega

theorem interlace_detection_witness :
    ∃ g1, lav_open_input_file false
        (avi_file 100
          (sample_frame [0, 0, 0, 0, 0, 0, 0, 0, 0, 0, 0, 0, 0, 0] 30 0x21 0x11 0x11))
        ⟨' ', 0⟩ = OpenInput.ret none g1 ∧
      g1.internal_error = ERROR_JPEG :=
  (interlace_detection false
    (avi_file 100 (sample_frame [0, 0, 0, 0, 0, 0, 0, 0, 0, 0, 0, 0, 0, 0] 30 0x21 0x11 0x11))
    ⟨' ', 0⟩ ⟨0, 0, 0, 20, 39, 43, 0, 2, 0, [(M_APP0, 3), (M_SOF0, 21), (M_SOS, 40)]⟩ 30
    (by decide) (by decide) (by decide) (by decide)).2.2.1 (by decide) (by decide)

/-- C19, as stated, fails: the reported frame height 241 is neither
the height 120 of the frame header nor twice it, and `lav_open_input_file`
returns an interlaced session instead of failing. -/
theorem odd_height_is_interlaced :
    reads_first_frame false
        (avi_file 241
          (sample_frame [0, 0, 0, 0, 0, 0, 0, 0, 0, 0, 0, 0, 0, 0] 120 0x21 0x11 0x11)) ∧
    get_int2 (sample_frame [0, 0, 0, 0, 0, 0, 0, 0, 0, 0, 0, 0, 0, 0] 120 0x21 0x11 0x11)
      (20 + 5) = some 120 ∧
    (120 : Int) ≠ 241 ∧ (241 : Int) ≠ 2 * 120 ∧
    lav_open_input_file false
        (avi_file 241
          (sample_frame [0, 0, 0, 0, 0, 0, 0, 0, 0, 0, 0, 0, 0, 0] 120 0x21 0x11 0x11))
        ⟨' ', 0⟩ =
      OpenInput.ret
        (some ⟨'a', Y4M_ILACE_TOP_FIRST, 1, 1, 0, 1, Y4M_CHROMA_422, DATAFORMAT_MJPG⟩)
        ⟨'a', 0⟩ := by
  decide

/-- C20, amended: when `lav_open_input_file` reads a first frame whose header-only
scan succeeds and whose height `J` differs from the reported height `H` and
is `H / 2` (the reads of the probe being within the frame buffer), a session
is returned; on the AVI backend its field order is top field first when no
APP0 segment was recorded, when the declared length of the recorded one is
below 5, or when its bytes 4..7 are not `"AVI1"` (letters in either case),
and otherwise top field first when byte 8 of the segment is 1 and bottom
field first for any other value; on the Quicktime backend it is top field
first. -/
theorem polarity_resolution (hq : Bool) (env : Backend) (g : Globals) (st : JpegStatics)
    (J : Nat)
    (hread : reads_first_frame hq env)
    (hscan : scan_jpeg env.frame env.frame_size.toNat true = Scan.ret 0 st)
    (hJ : get_int2 env.frame (st.jpeg_image_offset + 5) = some J)
    (hin : probe_in_bounds env.frame st)
    (hne : (J : Int) ≠ env.video_height) (hhalf : (J : Int) = Int.tdiv env.video_height 2) :
    ∃ lav_fd g1, lav_open_input_file hq env g = OpenInput.ret (some lav_fd) g1 ∧
      (env.avi_fd = true →
        (st.jpeg_app0_offset = 0 → lav_fd.interlacing = Y4M_ILACE_TOP_FIRST) ∧
        (∀ l, get_int2 env.frame (st.jpeg_app0_offset + 2) = some l → l < 5 →
          lav_fd.interlacing = Y4M_ILACE_TOP_FIRST) ∧
        (is_avi1 env.frame (st.jpeg_app0_offset + 4) = some false →
          lav_fd.interlacing = Y4M_ILACE_TOP_FIRST) ∧
        (∀ l v, st.jpeg_app0_offset ≠ 0 →
          get_int2 env.frame (st.jpeg_app0_offset + 2) = some l → 5 ≤ l →
          is_avi1 env.frame (st.jpeg_app0_offset + 4) = some true →
          env.frame[st.jpeg_app0_offset + 8]? = some v →
          lav_fd.interlacing =
            if v = 1 then Y4M_ILACE_TOP_FIRST else Y4M_ILACE_BOTTOM_FIRST)) ∧
      (env.avi_fd = false → lav_fd.interlacing = Y4M_ILACE_TOP_FIRST) := by
  cases havi : env.avi_fd with
  | true =>
    obtain ⟨pol, hpol, _, p1, p2, p3, p4⟩ :=
      avi_polarity_spec env.frame st.jpeg_app0_offset hin.2
    obtain ⟨lav_fd, g1, hr, hi, _⟩ := lav_open_input_file_avi_interlaced hq env g st J pol
      hread havi hscan hJ hin.1 hne hhalf hpol
    refine ⟨lav_fd, g1, hr, fun _ => ?_, fun h => absurd h (by simp)⟩
    rw [hi]
    exact ⟨p1, p2, p3, p4⟩
  | false =>
    obtain ⟨lav_fd, g1, hr, hi, _⟩ := lav_open_input_file_qt_interlaced hq env g st J
      hread havi hscan hJ hin.1 hne hhalf
    exact ⟨lav_fd, g1, hr, fun h => absurd h (by simp), fun _ => hi⟩

theorem polarity_resolution_witness :
    ∃ lav_fd g1, lav_open_input_file false
        (avi_file 64
          (sample_frame [65, 86, 73, 49, 2, 0, 0, 0, 0, 0, 0, 0, 0, 0] 32 0x21 0x11 0x11))
        ⟨' ', 0⟩ = OpenInput.ret (some lav_fd) g1 ∧
      lav_fd.interlacing = Y4M_ILACE_BOTTOM_FIRST := by
  obtain ⟨lav_fd, g1, hr, ha, _⟩ := polarity_resolution false
    (avi_file 64 (sample_frame [65, 86, 73, 49, 2, 0, 0, 0, 0, 0, 0, 0, 0, 0] 32 0x21 0x11 0x11))
    ⟨' ', 0⟩ ⟨0, 0, 0, 20, 39, 43, 0, 2, 0, [(M_APP0, 3), (M_SOF0, 21), (M_SOS, 40)]⟩ 32
    (by decide) (by decide) (by decide) (by decide) (by decide) (by decide)
  exact ⟨lav_fd, g1, hr, (ha rfl).2.2.2 16 2 (by decide) (by decide) (by decide) (by decide)
    (by decide)⟩

/-- C20, as stated, fails: the first frame of the AVI file has an
APP0 segment of declared length 16 whose bytes 4..7 are `"JFIF"` and whose
byte 8 is 0, not 1, and `lav_open_input_file` returns a session that is top
field first, not bottom field first. -/
theorem jfif_app0_is_top_first :
    reads_first_frame false
        (avi_file 64
          (sample_frame [74, 70, 73, 70, 0, 1, 1, 0, 0, 1, 0, 1, 0, 0] 32 0x21 0x11 0x11)) ∧
    (sample_frame [74, 70, 73, 70, 0, 1, 1, 0, 0, 1, 0, 1, 0, 0] 32 0x21 0x11 0x11).take 11 =
      [0xFF, 0xD8, 0xFF, M_APP0, 0, 16, 74, 70, 73, 70, 0] ∧
    lav_open_input_file false
        (avi_file 64
          (sample_frame [74, 70, 73, 70, 0, 1, 1, 0, 0, 1, 0, 1, 0, 0] 32 0x21 0x11 0x11))
        ⟨' ', 0⟩ =
      OpenInput.ret
        (some ⟨'a', Y4M_ILACE_TOP_FIRST, 1, 1, 0, 1, Y4M_CHROMA_422, DATAFORMAT_MJPG⟩)
        ⟨'a', 0⟩ ∧
    Y4M_ILACE_TOP_FIRST ≠ Y4M_ILACE_BOTTOM_FIRST := by
  decide

/-! ## The formats without tagging, and the strict Quicktime branch -/

/-- The write loop of the format `'j'` behind its first pass makes no call
and keeps `res`. -/
theorem write_loop_j (hq : Bool) (buff : List Nat) (size : Nat) (backend : Nat → Int)
    (k n : Nat) (calls : List BackendCall) (hn : n ≠ 0) (hk : n + k < 2 ^ 31) :
    write_loop hq 'j' buff size backend k n 0 calls = some (0, calls) := by
  induction k generalizing n calls with
  | zero => rfl
  | succ k ih =>
    have hp : write_pass hq 'j' buff size backend n 0 = (0, []) := by
      unfold write_pass
      rw [if_neg (by decide), if_pos rfl, if_neg hn]
    rw [write_loop_succ, hp]
    simp only [ne_eq, not_true_eq_false, if_false, List.append_nil]
    rw [if_pos (by omega)]
    exact ih (n + 1) calls (by omega) (by omega)

theorem tag_qt_succ (k n : Nat) (buff : List Nat) (off jpglen : Nat) :
    tag_qt (k + 1) n buff off jpglen =
      match scan_jpeg (buff.drop off) jpglen false with
      | Scan.fault => Tagged.fault
      | Scan.timeout => Tagged.timeout
      | Scan.ret res st =>
        if res ≠ 0 ∨ st.jpeg_app1_offset = 0 then Tagged.broken buff
        else
          match get_int2 (buff.drop off) (st.jpeg_app1_offset + 2) with
          | none => Tagged.fault
          | some l =>
            if l < 42 then Tagged.broken buff
            else
              match put_mjpa buff (off + st.jpeg_app1_offset) n st with
              | none => Tagged.fault
              | some buff1 =>
                tag_qt k (n + 1) buff1 (off + st.jpeg_padded_len)
                  (jpglen - st.jpeg_padded_len) := rfl

/-- One pass of the Quicktime tagging loop over a field that it rejects. -/
theorem tag_qt_rejects (k n : Nat) (buff : List Nat) (off jpglen : Nat) (r : Int)
    (st : JpegStatics) (hs : scan_jpeg (buff.drop off) jpglen false = Scan.ret r st)
    (hbad : qt_rejects (buff.drop off) r st) :
    tag_qt (k + 1) n buff off jpglen = Tagged.broken buff := by
  rw [tag_qt_succ, hs]
  by_cases h1 : r ≠ 0 ∨ st.jpeg_app1_offset = 0
  · simp only [h1, if_true]
  · rcases hbad with h | h | ⟨l, hl, hlt⟩
    · exact absurd (Or.inl h) h1
    · exact absurd (Or.inr h) h1
    · simp only [h1, if_false, hl, hlt, if_true]

/-- One pass of the Quicktime tagging loop over a field that it accepts. -/
theorem tag_qt_accepts (k n : Nat) (buff : List Nat) (off jpglen : Nat)
    (st : JpegStatics) (l : Nat) (buff1 : List Nat)
    (hs : scan_jpeg (buff.drop off) jpglen false = Scan.ret 0 st)
    (h1 : st.jpeg_app1_offset ≠ 0)
    (hl : get_int2 (buff.drop off) (st.jpeg_app1_offset + 2) = some l) (h42 : 42 ≤ l)
    (hput : put_mjpa buff (off + st.jpeg_app1_offset) n st = some buff1) :
    tag_qt (k + 1) n buff off jpglen =
      tag_qt k (n + 1) buff1 (off + st.jpeg_padded_len) (jpglen - st.jpeg_padded_len) := by
  rw [tag_qt_succ, hs]
  have h42 : ¬ l < 42 := by omega
  simp only [ne_eq, not_true_eq_false, h1, or_self, if_false, hl, h42, hput]

/-- On an interlaced session of format `'q'`, with `HAVE_LIBQUICKTIME`, when
the tagging loop breaks off, `lav_write_frame` returns -1 with the error kind
`ERROR_JPEG` and no backend call. -/
theorem lav_write_frame_qt_broken (lav_file : lav_file_t) (buff : List Nat) (size : Nat)
    (count : Int) (backend : Nat → Int) (hfmt : lav_file.format = 'q')
    (hil : lav_file.interlacing ≠ Y4M_ILACE_NONE) (buff1 : List Nat)
    (htag : tag_qt 2 0 buff 0 size = Tagged.broken buff1) :
    lav_write_frame true lav_file buff size count backend =
      WriteFrame.ret ⟨-1, buff1, 'q', ERROR_JPEG, []⟩ := by
  have hna : ¬ (lav_file.format = 'a' ∨ lav_file.format = 'A') := by
    rw [hfmt]; decide
  rw [lav_write_frame_eq, if_pos hil, if_neg hna, if_pos ⟨hfmt, rfl⟩, htag]
  simp only [hfmt]

/-! ## The claim on the format 'j' -/

/-- C13, amended: on a session of the format `'j'`, interlaced or not,
`lav_write_frame` applies no tagging: it returns 0 with the frame buffer
unchanged, whatever segments the fields have, after one call of `write` for
the whole buffer (no call when `count` is not positive), and with no error
kind set.  (The repeat count is one that the `int` counter of the write loop
reaches, `count < 2^31`.) -/
theorem jpeg_stream_frame_is_not_tagged (have_libquicktime : Bool) (lav_file : lav_file_t)
    (buff : List Nat) (size : Nat) (count : Int) (backend : Nat → Int)
    (hfmt : lav_file.format = 'j') (hcount : count < 2 ^ 31) :
    lav_write_frame have_libquicktime lav_file buff size count backend =
      WriteFrame.ret
        ⟨0, buff, 'j', 0, if 0 < count then [BackendCall.write buff size] else []⟩ := by
  have hna : ¬ (lav_file.format = 'a' ∨ lav_file.format = 'A') := by
    rw [hfmt]; decide
  have hnq : ¬ (lav_file.format = 'q' ∧ have_libquicktime = true) := by
    rw [hfmt]; simp
  have htag : (if lav_file.interlacing ≠ Y4M_ILACE_NONE then
        if lav_file.format = 'a' ∨ lav_file.format = 'A' then
          tag_avi lav_file.format size 2 0 buff 0
        else if lav_file.format = 'q' ∧ have_libquicktime = true then tag_qt 2 0 buff 0 size
        else Tagged.done buff
      else Tagged.done buff) = Tagged.done buff := by
    rw [if_neg hna, if_neg hnq]
    split <;> rfl
  rw [lav_write_frame_eq, htag]
  simp only [hfmt]
  by_cases hc : 0 < count
  · obtain ⟨k, hk⟩ : ∃ k, count.toNat = k + 1 := ⟨count.toNat - 1, by omega⟩
    rw [hk, if_pos hc]
    have hp : write_pass have_libquicktime 'j' buff size backend 0 0 =
        (0, [BackendCall.write buff size]) := by
      unfold write_pass
      rw [if_neg (by decide), if_pos rfl, if_pos rfl]
    have hw : write_loop have_libquicktime 'j' buff size backend (k + 1) 0 0 [] =
        some (0, [BackendCall.write buff size]) := by
      rw [write_loop_succ, hp]
      simp only [ne_eq, not_true_eq_false, if_false, List.nil_append]
      rw [if_pos (by omega)]
      exact write_loop_j have_libquicktime buff size backend k 1 _ (by omega) (by omega)
    rw [hw]
  · have hk : count.toNat = 0 := by omega
    rw [hk, if_neg hc]
    rfl

theorem jpeg_stream_frame_is_not_tagged_witness :
    lav_write_frame false ⟨'j', Y4M_ILACE_BOTTOM_FIRST, 1, 1, 0, 0, 0, 0⟩
        (app0_field ++ app0_field) 54 3 (fun _ => 0) =
      WriteFrame.ret ⟨0, app0_field ++ app0_field, 'j', 0,
        if 0 < (3 : Int) then [BackendCall.write (app0_field ++ app0_field) 54] else []⟩ :=
  jpeg_stream_frame_is_not_tagged false ⟨'j', Y4M_ILACE_BOTTOM_FIRST, 1, 1, 0, 0, 0, 0⟩
    (app0_field ++ app0_field) 54 3 (fun _ => 0) rfl (by decide)

/-- C13, as stated, fails: on an interlaced session of the format
`'j'`, for a frame of two well-formed fields that each have an `M_APP0`
segment of declared length 16 at index 2, `lav_write_frame` returns with the
frame buffer as it was, and neither segment holds `'AVI1'` with a field
order. -/
theorem jpeg_stream_frame_left_untagged :
    field_with_app0 app0_field [] [] 16 2 25 ∧
    lav_write_frame false ⟨'j', Y4M_ILACE_TOP_FIRST, 1, 1, 0, 0, 0, 0⟩
        (app0_field ++ app0_field) (app0_field ++ app0_field).length 1 (fun _ => 0) =
      WriteFrame.ret ⟨0, app0_field ++ app0_field, 'j', 0,
        [BackendCall.write (app0_field ++ app0_field) 54]⟩ ∧
    (app0_field ++ app0_field)[2 + 4]? ≠ some 65 ∧
    (app0_field ++ app0_field)[27 + 2 + 4]? ≠ some 65 := by
  decide

/-! ## A header-only scan behind a full scan of the same bytes -/

theorem check_marker_mode (len m p l : Nat) (st : JpegStatics) (hm : m ≠ M_SOS) :
    check_marker len true m p l st = check_marker len false m p l st := by
  unfold check_marker
  simp only [hm, false_and, if_false]

/-- A pass through the loop body that ends without fault or timeout leaves
an app0 offset that is not zero as it is. -/
theorem scan_step_keeps_app0 (b : List Nat) (len : Nat) (h : Bool) (p : Nat)
    (st st1 : JpegStatics) (hp : p < len) (hc : st.jpeg_app0_offset ≠ 0)
    (hs : (∃ q, scan_step b len h p st = Step.next q st1) ∨
      (∃ q, scan_step b len h p st = Step.brk q st1) ∨
      (∃ r, scan_step b len h p st = Step.ret r st1)) :
    st1.jpeg_app0_offset = st.jpeg_app0_offset := by
  have hrec : ∀ m q l, (record_marker m q l
      { st with met := st.met ++ [(m, q - 1)] }).jpeg_app0_offset = st.jpeg_app0_offset := by
    intro m q l
    rw [record_marker_app0]
    have : ¬ (m = M_APP0 ∧ st.jpeg_app0_offset = 0) := fun x => hc x.2
    rw [if_neg this]
  rcases scan_step_inv b len h p st hp with e | e | e | ⟨p1, p2, m, l, _, _, _, _, _, _, _, _, e⟩
  · rcases hs with ⟨q, hq⟩ | ⟨q, hq⟩ | ⟨r, hr⟩
    · rw [e] at hq; exact absurd hq (by simp)
    · rw [e] at hq; exact absurd hq (by simp)
    · rw [e] at hr
      simp only [Step.ret.injEq] at hr
      rw [← hr.2]
  · rcases hs with ⟨q, hq⟩ | ⟨q, hq⟩ | ⟨r, hr⟩
    · rw [e] at hq; exact absurd hq (by simp)
    · rw [e] at hq; exact absurd hq (by simp)
    · rw [e] at hr; exact absurd hr (by simp)
  · rcases hs with ⟨q, hq⟩ | ⟨q, hq⟩ | ⟨r, hr⟩
    · rw [e] at hq; exact absurd hq (by simp)
    · rw [e] at hq; exact absurd hq (by simp)
    · rw [e] at hr; exact absurd hr (by simp)
  · rcases hs with ⟨q, hq⟩ | ⟨q, hq⟩ | ⟨r, hr⟩
    · rw [e] at hq
      obtain ⟨_, _, hst, _⟩ := check_marker_next len h m (p2 + 1) l _ q st1 hq
      rw [hst]
      exact hrec m (p2 + 1) l
    · rw [e] at hq
      obtain ⟨_, _, hst⟩ := check_marker_brk len h m (p2 + 1) l _ q st1 hq
      rw [hst]
    · rw [e] at hr
      obtain ⟨_, hst, _⟩ := check_marker_ret len h m (p2 + 1) l _ r st1 hr
      rw [hst]
      exact hrec m (p2 + 1) l

/-- The main loop leaves an app0 offset that is not zero as it is. -/
theorem scan_loop_keeps_app0 (b : List Nat) (len : Nat) (h : Bool) (c : Nat) (hc : c ≠ 0) :
    ∀ (fuel p : Nat) (st : JpegStatics), st.jpeg_app0_offset = c →
      ∀ q sf, (scan_loop b len h fuel p st = Loop.out q sf →
        sf.jpeg_app0_offset = c) := by
  intro fuel
  induction fuel with
  | zero =>
    intro p st _ q sf hl
    exact absurd hl (by simp [scan_loop])
  | succ fuel ih =>
    intro p st hst q sf hl
    rw [scan_loop_succ] at hl
    by_cases hp : p < len
    · rw [if_pos hp] at hl
      cases hstep : scan_step b len h p st with
      | next p1 st1 =>
        rw [hstep] at hl
        have := scan_step_keeps_app0 b len h p st st1 hp (by rw [hst]; exact hc)
          (Or.inl ⟨p1, hstep⟩)
        exact ih p1 st1 (by rw [this, hst]) q sf hl
      | brk p1 st1 =>
        rw [hstep] at hl
        simp only [Loop.out.injEq] at hl
        have := scan_step_keeps_app0 b len h p st st1 hp (by rw [hst]; exact hc)
          (Or.inr (Or.inl ⟨p1, hstep⟩))
        rw [← hl.2, this, hst]
      | ret r st1 => rw [hstep] at hl; exact absurd hl (by simp)
      | fault => rw [hstep] at hl; exact absurd hl (by simp)
      | timeout => rw [hstep] at hl; exact absurd hl (by simp)
    · rw [if_neg hp] at hl
      simp only [Loop.out.injEq] at hl
      rw [← hl.2, hst]

/-- Where the main loop of a full scan ends behind an end-of-image marker,
the main loop of a header-only scan from the same state ends the same way,
or returns 0 at a scan header with the app0 offset zero or the one the full
scan leaves. -/
theorem scan_loop_header_only_of_full (b : List Nat) (len : Nat) :
    ∀ (fuel p : Nat) (s : JpegStatics) (q : Nat) (sf : JpegStatics),
      scan_loop b len false fuel p s = Loop.out q sf → sf.jpeg_field_size ≠ 0 →
      s.jpeg_field_size = 0 →
      scan_loop b len true fuel p s = Loop.out q sf ∨
      ∃ sh, scan_loop b len true fuel p s = Loop.ret 0 sh ∧
        (sh.jpeg_app0_offset = 0 ∨ sh.jpeg_app0_offset = sf.jpeg_app0_offset) := by
  intro fuel
  induction fuel with
  | zero =>
    intro p s q sf hl
    exact absurd hl (by simp [scan_loop])
  | succ fuel ih =>
    intro p s q sf hl hsf hs0
    rw [scan_loop_succ] at hl ⊢
    by_cases hp : p < len
    · rw [if_pos hp] at hl ⊢
      rcases scan_step_inv b len false p s hp with e | e | e |
        ⟨p1, p2, m, l, g1, g2, g3, g4, g5, g6, g7, g8, e⟩
      · rw [e] at hl; exact absurd hl (by simp)
      · rw [e] at hl; exact absurd hl (by simp)
      · rw [e] at hl; exact absurd hl (by simp)
      · have et := scan_step_run b len true p s p1 p2 m l g1 g2 g3 g4 g5 g6 g7 g8
        rw [e] at hl
        rw [et]
        by_cases hm : m = M_SOS
        · subst hm
          have hh : check_marker len true M_SOS (p2 + 1) l
              { s with met := s.met ++ [(M_SOS, p2)] } =
              Step.ret 0 (record_marker M_SOS (p2 + 1) l
                { s with met := s.met ++ [(M_SOS, p2)] }) := by
            unfold check_marker
            rw [if_neg (by decide)]
            simp only [and_self, if_true]
          rw [hh]
          refine Or.inr ⟨_, rfl, ?_⟩
          have happ : (record_marker M_SOS (p2 + 1) l
              { s with met := s.met ++ [(M_SOS, p2)] }).jpeg_app0_offset =
              s.jpeg_app0_offset := by
            rw [record_marker_app0, if_neg (fun x => absurd x.1 (by decide))]
          rw [happ]
          by_cases hz : s.jpeg_app0_offset = 0
          · exact Or.inl hz
          · right
            cases hstep : check_marker len false M_SOS (p2 + 1) l
                { s with met := s.met ++ [(M_SOS, p2)] } with
            | next p3 s3 =>
              rw [hstep] at hl
              obtain ⟨_, _, hst, _⟩ := check_marker_next len false M_SOS (p2 + 1) l _ p3 s3 hstep
              have h3 : s3.jpeg_app0_offset = s.jpeg_app0_offset := by rw [hst, happ]
              exact (scan_loop_keeps_app0 b len false _ hz fuel p3 s3 h3 q sf hl).symm
            | brk p3 s3 =>
              obtain ⟨hx, _⟩ := check_marker_brk len false M_SOS (p2 + 1) l _ p3 s3 hstep
              exact absurd hx (by decide)
            | ret r s3 => rw [hstep] at hl; exact absurd hl (by simp)
            | fault => rw [hstep] at hl; exact absurd hl (by simp)
            | timeout => rw [hstep] at hl; exact absurd hl (by simp)
        · rw [check_marker_mode len m (p2 + 1) l _ hm]
          cases hstep : check_marker len false m (p2 + 1) l
              { s with met := s.met ++ [(m, p2)] } with
          | next p3 s3 =>
            rw [hstep] at hl
            obtain ⟨_, _, hst, _⟩ := check_marker_next len false m (p2 + 1) l _ p3 s3 hstep
            have h3 : s3.jpeg_field_size = 0 := by
              rw [hst, record_marker_field_size]
              exact hs0
            exact ih p3 s3 q sf hl hsf h3
          | brk p3 s3 =>
            rw [hstep] at hl
            exact Or.inl hl
          | ret r s3 => rw [hstep] at hl; exact absurd hl (by simp)
          | fault => rw [hstep] at hl; exact absurd hl (by simp)
          | timeout => rw [hstep] at hl; exact absurd hl (by simp)
    · rw [if_neg hp] at hl
      simp only [Loop.out.injEq] at hl
      rw [← hl.2] at hsf
      exact absurd hs0 hsf

/-- Where a full scan succeeds, the header-only scan of the same bytes with
the same declared length succeeds as well, and its app0 offset is zero or the
one of the full scan. -/
theorem scan_jpeg_header_only_of_full (b : List Nat) (len : Nat) (st : JpegStatics)
    (hs : scan_jpeg b len false = Scan.ret 0 st) :
    ∃ sh, scan_jpeg b len true = Scan.ret 0 sh ∧
      (sh.jpeg_app0_offset = 0 ∨ sh.jpeg_app0_offset = st.jpeg_app0_offset) := by
  rcases scan_jpeg_inv b len false 0 st hs with ⟨hr, _⟩ | ⟨h0, h1, hloop⟩
  · exact absurd hr (by decide)
  · rcases hloop with hl | ⟨p, _, _, hr⟩ | ⟨p, st0, q, hl, hf, hpad, _, hst⟩
    · have := scan_loop_range b len false (len + 1) 2 JpegStatics.zero
        (range_inv_start len false)
      rw [hl] at this
      exact absurd (this.2 rfl).1 (by decide)
    · exact absurd hr (by decide)
    · have happ : st.jpeg_app0_offset = st0.jpeg_app0_offset := by rw [hst]
      unfold scan_jpeg
      rw [h0, h1]
      simp only [ne_eq, not_true_eq_false, if_false]
      rcases scan_loop_header_only_of_full b len (len + 1) 2 JpegStatics.zero p st0 hl hf rfl
        with e | ⟨sh, e, hsh⟩
      · rw [e]
        simp only [hf, if_false, hpad]
        exact ⟨_, rfl, Or.inr (by rw [hst])⟩
      · rw [e]
        exact ⟨sh, rfl, by rw [happ]; exact hsh⟩

/-! ## The tolerant AVI branch -/

/-- One pass of the AVI tagging loop over a field it leaves alone: the scan
succeeds and records no `M_APP0` segment, or one of declared length below
16. -/
theorem tag_avi_skip (format : Char) (size k n : Nat) (buff : List Nat) (off : Nat)
    (st : JpegStatics)
    (hs : scan_jpeg (buff.drop off) size (decide (n ≠ 0)) = Scan.ret 0 st)
    (hno : st.jpeg_app0_offset = 0 ∨
      ∃ l, get_int2 (buff.drop off) (st.jpeg_app0_offset + 2) = some l ∧ l < 16) :
    tag_avi format size (k + 1) n buff off = tag_avi format size k (n + 1) buff off := by
  rw [tag_avi_succ, hs]
  by_cases hz : st.jpeg_app0_offset = 0
  · simp only [ne_eq, not_true_eq_false, if_false, hz, if_true]
  · rcases hno with h | ⟨l, hl, hlt⟩
    · exact absurd h hz
    · simp only [ne_eq, not_true_eq_false, if_false, hz, hl, hlt, if_true]

/-- The first pass of the AVI tagging loop over a frame whose first field
has a first `M_APP0` segment of declared length at least 16. -/
theorem tag_avi_first_field (format : Char) (f1 f2 : List Nat)
    (pre1 post1 : List (Nat × Nat)) (l1 sl1 eoi1 : Nat)
    (h1 : field_with_app0 f1 pre1 post1 l1 sl1 eoi1) (hpad : no_soi_from f1 (eoi1 + 2))
    (h0 : f2[0]? = some 0xFF) (hsoi : f2[1]? = some M_SOI) :
    tag_avi format (f1 ++ f2).length 2 0 (f1 ++ f2) 0 =
      tag_avi format (f1 ++ f2).length 1 1
        (avi1_tagged (f1 ++ f2) (segments_end 2 pre1) (if format = 'a' then 1 else 2))
        f1.length ∧
    (avi1_tagged (f1 ++ f2) (segments_end 2 pre1) (if format = 'a' then 1 else 2)).drop
      f1.length = f2 := by
  obtain ⟨a1, a2, a3, a4, a5⟩ := field_with_app0_facts f1 pre1 post1 l1 sl1 eoi1 h1
  have hlen : (f1 ++ f2).length = f1.length + f2.length := List.length_append f1 f2
  obtain ⟨st1, hs1, hsame1⟩ := scan_jpeg_first_field f1 f2 _ sl1 eoi1 h1.1 hpad h0 hsoi
  have happ1 : st1.jpeg_app0_offset = segments_end 2 pre1 := by
    have := congrArg JpegStatics.jpeg_app0_offset hsame1
    rw [this]
    exact record_headers_app0 pre1 post1 l1 sl1 h1.2.1
  have hpl1 : st1.jpeg_padded_len = f1.length := congrArg JpegStatics.jpeg_padded_len hsame1
  have hg1 : get_int2 (f1 ++ f2) (segments_end 2 pre1 + 2) = some l1 := by
    rw [get_int2_congr f1 (f1 ++ f2) _ (List.getElem?_append_left (by omega))
      (List.getElem?_append_left (by omega))]
    exact a2
  have hx1 : ¬ (segments_end 2 pre1 = 0) := by omega
  have hl1 : ¬ (l1 < 16) := by have := h1.2.2; omega
  have hput1 := put_avi1_eq (f1 ++ f2) (segments_end 2 pre1) (if format = 'a' then 1 else 2)
    (by omega)
  refine ⟨?_, ?_⟩
  · rw [tag_avi_succ]
    simp only [List.drop_zero, ne_eq, not_true_eq_false, decide_False, hs1, happ1, hpl1, hg1,
      if_false, Nat.zero_add, hx1, hl1, hput1]
  · unfold avi1_tagged
    rw [List.drop_set_of_lt _ _ (by omega), List.drop_set_of_lt _ _ (by omega),
      List.drop_set_of_lt _ _ (by omega), List.drop_set_of_lt _ _ (by omega),
      List.drop_set_of_lt _ _ (by omega), List.drop_left]

/-- On an interlaced session of format `'a'` or `'A'`, when the tagging loop
runs to its end and the repeat count is in the range of the `int` counter,
`lav_write_frame` returns what the write loop gives for the tagged frame,
with no error kind set. -/
theorem lav_write_frame_avi_done (hq : Bool) (lav_file : lav_file_t) (buff : List Nat)
    (size : Nat) (count : Int) (backend : Nat → Int)
    (hfmt : lav_file.format = 'a' ∨ lav_file.format = 'A')
    (hil : lav_file.interlacing ≠ Y4M_ILACE_NONE) (buff1 : List Nat)
    (htag : tag_avi lav_file.format size 2 0 buff 0 = Tagged.done buff1)
    (hcount : count < 2 ^ 31) :
    ∃ r, write_loop hq lav_file.format buff1 size backend count.toNat 0 0 [] = some r ∧
      lav_write_frame hq lav_file buff size count backend =
        WriteFrame.ret ⟨r.1, buff1, lav_file.format, 0, r.2⟩ := by
  obtain ⟨r, hr⟩ := write_loop_returns hq lav_file.format buff1 size backend count.toNat 0 0 []
    (by omega)
  refine ⟨r, hr, ?_⟩
  rw [lav_write_frame_eq, if_pos hil, if_pos hfmt, htag]
  simp only [hr]

/-! ## The claim on the tolerance of the AVI branch -/

/-- C12: on an interlaced session of format `'a'` or `'A'`, (1) when the full
scan of the first field succeeds and records no `M_APP0` segment, or one of
declared length below 16, `lav_write_frame` sets no error kind, leaves every
byte of the frame buffer unchanged and goes on to the write loop; (2) when
the first field is tagged (as in C9) and the header-only scan of the second
field `f2` succeeds and records no `M_APP0` segment, or one of declared
length below 16, `lav_write_frame` sets no error kind, leaves every byte of
`f2` unchanged and goes on to the write loop.  (The repeat count is one that
the `int` counter of the write loop reaches, `count < 2^31`.) -/
theorem avi_tagging_is_tolerant (have_libquicktime : Bool) (lav_file : lav_file_t)
    (count : Int) (backend : Nat → Int)
    (hfmt : lav_file.format = 'a' ∨ lav_file.format = 'A')
    (hil : lav_file.interlacing ≠ Y4M_ILACE_NONE) (hcount : count < 2 ^ 31) :
    (∀ (buff : List Nat) (size : Nat) (st : JpegStatics),
      scan_jpeg buff size false = Scan.ret 0 st →
      (st.jpeg_app0_offset = 0 ∨
        ∃ l, get_int2 buff (st.jpeg_app0_offset + 2) = some l ∧ l < 16) →
      ∃ r, write_loop have_libquicktime lav_file.format buff size backend
          count.toNat 0 0 [] = some r ∧
        lav_write_frame have_libquicktime lav_file buff size count backend =
          WriteFrame.ret ⟨r.1, buff, lav_file.format, 0, r.2⟩) ∧
    (∀ (f1 f2 : List Nat) (pre1 post1 : List (Nat × Nat)) (l1 sl1 eoi1 : Nat)
      (st2 : JpegStatics),
      field_with_app0 f1 pre1 post1 l1 sl1 eoi1 → no_soi_from f1 (eoi1 + 2) →
      scan_jpeg f2 (f1 ++ f2).length true = Scan.ret 0 st2 →
      (st2.jpeg_app0_offset = 0 ∨
        ∃ l, get_int2 f2 (st2.jpeg_app0_offset + 2) = some l ∧ l < 16) →
      ∃ w, lav_write_frame have_libquicktime lav_file (f1 ++ f2) (f1 ++ f2).length count
          backend = WriteFrame.ret w ∧
        w.internal_error = 0 ∧ w.buff.drop f1.length = f2 ∧
        w.buff.length = (f1 ++ f2).length ∧
        some (w.res, w.calls) = write_loop have_libquicktime lav_file.format w.buff
          (f1 ++ f2).length backend count.toNat 0 0 []) := by
  refine ⟨?_, ?_⟩
  · intro buff size st hs hno
    refine lav_write_frame_avi_done have_libquicktime lav_file buff size count backend hfmt hil
      buff ?_ hcount
    obtain ⟨sh, hsh, happ⟩ := scan_jpeg_header_only_of_full buff size st hs
    rw [tag_avi_skip lav_file.format size 1 0 buff 0 st
        (by rw [List.drop_zero]; exact hs) (by rw [List.drop_zero]; exact hno),
      tag_avi_skip lav_file.format size 0 1 buff 0 sh (by rw [List.drop_zero]; exact hsh)
        (by
          rw [List.drop_zero]
          rcases happ with hz | he
          · exact Or.inl hz
          · rcases hno with hz | hl
            · exact Or.inl (by rw [he, hz])
            · exact Or.inr (by rw [he]; exact hl))]
    rfl
  · intro f1 f2 pre1 post1 l1 sl1 eoi1 st2 h1 hpad hs2 hno
    have hsoi : f2[0]? = some 0xFF ∧ f2[1]? = some M_SOI := by
      rcases scan_jpeg_inv f2 _ true 0 st2 hs2 with ⟨hr, _⟩ | ⟨h0, hs, _⟩
      · exact absurd hr (by decide)
      · exact ⟨h0, hs⟩
    obtain ⟨hfirst, hdrop⟩ := tag_avi_first_field lav_file.format f1 f2 pre1 post1 l1 sl1 eoi1
      h1 hpad hsoi.1 hsoi.2
    have htag : tag_avi lav_file.format (f1 ++ f2).length 2 0 (f1 ++ f2) 0 =
        Tagged.done (avi1_tagged (f1 ++ f2) (segments_end 2 pre1)
          (if lav_file.format = 'a' then 1 else 2)) := by
      rw [hfirst, tag_avi_skip lav_file.format (f1 ++ f2).length 0 1 _ f1.length st2
        (by rw [hdrop]; exact hs2) (by rw [hdrop]; exact hno)]
      rfl
    obtain ⟨r, hr, hw⟩ := lav_write_frame_avi_done have_libquicktime lav_file (f1 ++ f2) _
      count backend hfmt hil _ htag hcount
    rw [hw]
    exact ⟨_, rfl, rfl, hdrop, avi1_tagged_length _ _ _, hr.symm⟩

theorem avi_tagging_is_tolerant_witness :
    ∃ r, write_loop false 'a' [0xFF, 0xD8, 0xFF, 0xE0, 0, 4, 0, 0, 0xFF, 0xDA, 0, 2, 7, 0xFF,
          0xD9] 15 (fun _ => 0) (1 : Int).toNat 0 0 [] = some r ∧
      lav_write_frame false ⟨'a', Y4M_ILACE_TOP_FIRST, 1, 1, 0, 0, 0, 0⟩
          [0xFF, 0xD8, 0xFF, 0xE0, 0, 4, 0, 0, 0xFF, 0xDA, 0, 2, 7, 0xFF, 0xD9] 15 1
          (fun _ => 0) =
        WriteFrame.ret ⟨r.1,
          [0xFF, 0xD8, 0xFF, 0xE0, 0, 4, 0, 0, 0xFF, 0xDA, 0, 2, 7, 0xFF, 0xD9], 'a', 0, r.2⟩ :=
  (avi_tagging_is_tolerant false ⟨'a', Y4M_ILACE_TOP_FIRST, 1, 1, 0, 0, 0, 0⟩ 1 (fun _ => 0)
    (Or.inl rfl) (by decide) (by decide)).1
    [0xFF, 0xD8, 0xFF, 0xE0, 0, 4, 0, 0, 0xFF, 0xDA, 0, 2, 7, 0xFF, 0xD9] 15
    ⟨15, 0, 0, 0, 8, 12, 15, 2, 0, [(M_APP0, 3), (M_SOS, 9), (M_EOI, 14)]⟩
    (by decide) (Or.inr ⟨4, by decide, by decide⟩)

/-! ## The frame header offset of a well-formed field -/

theorem put_int4_spec (b : List Nat) (a v : Nat) (h : a + 4 ≤ b.length) :
    ∃ b1, put_int4 b a v = some b1 ∧ b1.length = b.length ∧
      (∀ i, (i < a ∨ a + 4 ≤ i) → b1[i]? = b[i]?) ∧
      read_int4 b1 a = some (v % 2 ^ 32) := by
  refine ⟨(((b.set a (v / 2 ^ 24 % 256)).set (a + 1) (v / 2 ^ 16 % 256)).set (a + 2)
    (v / 2 ^ 8 % 256)).set (a + 3) (v % 256), ?_, ?_, ?_, ?_⟩
  · unfold put_int4 store
    have h0 : a < b.length := by omega
    have h1 : a + 1 < b.length := by omega
    have h2 : a + 2 < b.length := by omega
    have h3 : a + 3 < b.length := by omega
    simp [h0, h1, h2, h3]
  · simp
  · intro i hi
    rw [List.getElem?_set_ne (by omega), List.getElem?_set_ne (by omega),
      List.getElem?_set_ne (by omega), List.getElem?_set_ne (by omega)]
  · unfold read_int4
    rw [List.getElem?_set_ne (by omega), List.getElem?_set_ne (by omega),
      List.getElem?_set_ne (by omega), List.getElem?_set_self (by omega),
      List.getElem?_set_ne (by omega), List.getElem?_set_ne (by omega),
      List.getElem?_set_self (by simp; omega),
      List.getElem?_set_ne (by omega), List.getElem?_set_self (by simp; omega),
      List.getElem?_set_self (by simp; omega)]
    simp only [Option.some.injEq]
    norm_num
    omega

theorem read_int4_congr (b b1 : List Nat) (a : Nat)
    (h : ∀ i, a ≤ i → i < a + 4 → b1[i]? = b[i]?) : read_int4 b1 a = read_int4 b a := by
  unfold read_int4
  rw [h a (by omega) (by omega), h (a + 1) (by omega) (by omega),
    h (a + 2) (by omega) (by omega), h (a + 3) (by omega) (by omega)]

theorem words_at_congr (b b1 : List Nat) : ∀ (ws : List Nat) (a : Nat),
    (∀ i, a ≤ i → i < a + 4 * ws.length → b1[i]? = b[i]?) →
      words_at b a ws → words_at b1 a ws := by
  intro ws
  induction ws with
  | nil => intro a _ _; trivial
  | cons w ws ih =>
    intro a h hw
    have hlen : (w :: ws).length = ws.length + 1 := rfl
    refine ⟨?_, ih (a + 4) (fun i h1 h2 => h i (by omega) (by rw [hlen]; omega)) hw.2⟩
    rw [read_int4_congr b b1 a (fun i h1 h2 => h i h1 (by rw [hlen]; omega))]
    exact hw.1

/-- The calls of `put_int4` for the words `ws` write them, cut to 32 bits,
and nothing else. -/
theorem put_words_spec : ∀ (ws : List Nat) (b : List Nat) (a : Nat),
    a + 4 * ws.length ≤ b.length →
      ∃ b1, put_words b a ws = some b1 ∧ b1.length = b.length ∧
        (∀ i, (i < a ∨ a + 4 * ws.length ≤ i) → b1[i]? = b[i]?) ∧
        words_at b1 a (ws.map (· % 2 ^ 32)) := by
  intro ws
  induction ws with
  | nil =>
    intro b a _
    exact ⟨b, rfl, rfl, fun _ _ => rfl, trivial⟩
  | cons w ws ih =>
    intro b a h
    have hlen : (w :: ws).length = ws.length + 1 := rfl
    rw [hlen] at h
    obtain ⟨b1, e1, l1, o1, r1⟩ := put_int4_spec b a w (by omega)
    obtain ⟨b2, e2, l2, o2, r2⟩ := ih b1 (a + 4) (by rw [l1]; omega)
    refine ⟨b2, ?_, by rw [l2, l1], ?_, ?_, ?_⟩
    · show (put_int4 b a w).bind (fun b1 => put_words b1 (a + 4) ws) = some b2
      rw [e1]
      exact e2
    · intro i hi
      rw [hlen] at hi
      rw [o2 i (by omega), o1 i (by omega)]
    · show read_int4 b2 a = some (w % 2 ^ 32)
      rw [read_int4_congr b1 b2 a (fun i h1 h2 => o2 i (Or.inl (by omega)))]
      exact r1
    · exact r2

theorem put_mjpa_eq (buff : List Nat) (a n : Nat) (st : JpegStatics) :
    put_mjpa buff a n st = put_words buff (a + 4) (mjpa_words n st) := by
  unfold put_mjpa mjpa_words
  simp only [put_words, Nat.add_assoc, Nat.reduceAdd, Option.bind_some]

/-- The ten calls of `put_int4` of the Quicktime branch write the ten words,
cut to 32 bits, into the 40 bytes from index `a + 4` on, and nothing else. -/
theorem put_mjpa_spec (buff : List Nat) (a n : Nat) (st : JpegStatics)
    (h : a + 44 ≤ buff.length) :
    ∃ b1, put_mjpa buff a n st = some b1 ∧ b1.length = buff.length ∧
      (∀ i, (i < a + 4 ∨ a + 44 ≤ i) → b1[i]? = buff[i]?) ∧
      words_at b1 (a + 4) ((mjpa_words n st).map (· % 2 ^ 32)) := by
  have hlen : (mjpa_words n st).length = 10 := rfl
  obtain ⟨b1, e1, l1, o1, r1⟩ := put_words_spec (mjpa_words n st) buff (a + 4)
    (by rw [hlen]; omega)
  refine ⟨b1, by rw [put_mjpa_eq]; exact e1, l1, ?_, r1⟩
  intro i hi
  exact o1 i (by rw [hlen]; omega)

/-! ## The offset of the first APP1 segment -/

theorem record_marker_app1 (m p l : Nat) (st : JpegStatics) :
    (record_marker m p l st).jpeg_app1_offset =
      if m = M_APP1 ∧ st.jpeg_app1_offset = 0 then p - 2 else st.jpeg_app1_offset := by
  unfold record_marker
  split_ifs <;> simp_all [M_APP0, M_SOS, M_SOF0, M_SOF1, M_DQT, M_DHT, M_APP1]

theorem record_segments_app1_none : ∀ (pre : List (Nat × Nat)) (a : Nat) (st : JpegStatics),
    (∀ e ∈ pre, e.1 ≠ M_APP1) →
      (record_segments a pre st).jpeg_app1_offset = st.jpeg_app1_offset := by
  intro pre
  induction pre with
  | nil => intro a st _; rfl
  | cons hd tl ih =>
    intro a st hno
    obtain ⟨m, l⟩ := hd
    unfold record_segments
    rw [ih _ _ (fun e he => hno e (List.mem_cons_of_mem _ he)), record_marker_app1]
    have : m ≠ M_APP1 := hno (m, l) (List.mem_cons_self _ _)
    simp [this]

theorem record_segments_app1_keep : ∀ (segs : List (Nat × Nat)) (a : Nat) (st : JpegStatics),
    st.jpeg_app1_offset ≠ 0 →
      (record_segments a segs st).jpeg_app1_offset = st.jpeg_app1_offset := by
  intro segs
  induction segs with
  | nil => intro a st _; rfl
  | cons hd tl ih =>
    intro a st hne
    obtain ⟨m, l⟩ := hd
    unfold record_segments
    have hstep : (record_marker m (a + 2) l
        { st with met := st.met ++ [(m, a + 1)] }).jpeg_app1_offset = st.jpeg_app1_offset := by
      rw [record_marker_app1]
      simp [hne]
    rw [ih _ _ (by rw [hstep]; exact hne), hstep]

/-- After the headers of a field whose first `M_APP1` segment stands behind
the segments `pre`, the app1 offset is the index of that segment. -/
theorem record_headers_app1 (pre post : List (Nat × Nat)) (l sl : Nat)
    (hno : ∀ e ∈ pre, e.1 ≠ M_APP1) :
    (record_headers (pre ++ (M_APP1, l) :: post) sl).jpeg_app1_offset = segments_end 2 pre := by
  have hge := segments_end_ge pre 2
  have hz : (record_segments 2 pre JpegStatics.zero).jpeg_app1_offset = 0 := by
    rw [record_segments_app1_none pre 2 _ hno]; rfl
  have hfirst : (record_marker M_APP1 (segments_end 2 pre + 2) l
      { record_segments 2 pre JpegStatics.zero with
        met := (record_segments 2 pre JpegStatics.zero).met ++
          [(M_APP1, segments_end 2 pre + 1)] }).jpeg_app1_offset = segments_end 2 pre := by
    rw [record_marker_app1]
    simp only [hz, and_self, if_true]
    omega
  have hsegs : (record_segments 2 (pre ++ (M_APP1, l) :: post)
      JpegStatics.zero).jpeg_app1_offset = segments_end 2 pre := by
    rw [record_segments_append]
    show (record_segments (segments_end 2 pre + 2 + l) post _).jpeg_app1_offset = _
    rw [record_segments_app1_keep post _ _ (by rw [hfirst]; omega), hfirst]
  unfold record_headers
  simp only
  rw [record_marker_app1, if_neg (fun hc => absurd hc.1 (by decide))]
  exact hsegs

/-- The facts on a field with a first `M_APP1` segment that the tagging uses. -/
theorem field_with_app1_facts (f : List Nat) (pre post : List (Nat × Nat)) (l sl eoi : Nat)
    (hf : field_with_app1 f pre post l sl eoi) :
    2 ≤ segments_end 2 pre ∧ get_int2 f (segments_end 2 pre + 2) = some l ∧
    segments_end 2 pre + 2 + l ≤ segments_end 2 (pre ++ (M_APP1, l) :: post) ∧
    segments_end 2 (pre ++ (M_APP1, l) :: post) + 4 ≤ eoi ∧ eoi + 2 ≤ f.length := by
  obtain ⟨⟨_, _, hseg, hsos, hd, _, _, he1⟩, _, _⟩ := hf
  rw [segments_at_append] at hseg
  obtain ⟨_, _, hs, _⟩ := hseg
  have hend : segments_end 2 (pre ++ (M_APP1, l) :: post) =
      segments_end (segments_end 2 pre + 2 + l) post := by
    rw [segments_end_append]; rfl
  have hge := segments_end_ge post (segments_end 2 pre + 2 + l)
  have hl := hsos.2.2.2
  refine ⟨segments_end_ge pre 2, hs.2.2.1, by omega, by omega, ?_⟩
  by_contra hc
  rw [List.getElem?_eq_none (by omega)] at he1
  simp at he1

/-! ## The ranges of the statics after a full scan -/

/-- After a successful full scan none of the values that the Quicktime branch
writes exceeds the declared length. -/
theorem scan_jpeg_full_le (b : List Nat) (len : Nat) (st : JpegStatics)
    (hs : scan_jpeg b len false = Scan.ret 0 st) :
    st.jpeg_field_size ≤ len ∧ st.jpeg_padded_len ≤ len ∧ st.jpeg_quant_offset ≤ len ∧
    st.jpeg_huffman_offset ≤ len ∧ st.jpeg_image_offset ≤ len ∧ st.jpeg_scan_offset ≤ len ∧
    st.jpeg_data_offset ≤ len := by
  have hrange := scan_loop_range b len false (len + 1) 2 JpegStatics.zero
    (range_inv_start len false)
  rcases scan_jpeg_inv b len false 0 st hs with ⟨hr, _, _⟩ | ⟨_, _, hl | ⟨p, hl, hf, hr⟩ |
    ⟨p, st0, q, hl, hf, hpad, hr, hst⟩⟩
  · exact absurd hr (by decide)
  · rw [hl] at hrange
    exact absurd (hrange.2 rfl).1 (by decide)
  · exact absurd hr (by decide)
  · rw [hl] at hrange
    rcases hrange.2 with g | ⟨g1, _, g2, _, _, _, ⟨o1, o2, o3, o4, _, _⟩, g4⟩
    · exact absurd g hf
    · obtain ⟨_, hq, _, _⟩ := skip_padding_spec b len (len + 1) p q hpad
      have hq := hq g2
      subst hst
      unfold off_ok at o1 o2 o3 o4
      refine ⟨?_, hq, ?_, ?_, ?_, ?_, ?_⟩
      · show st0.jpeg_field_size ≤ len
        omega
      · show st0.jpeg_quant_offset ≤ len
        omega
      · show st0.jpeg_huffman_offset ≤ len
        omega
      · show st0.jpeg_image_offset ≤ len
        omega
      · show st0.jpeg_scan_offset ≤ len
        omega
      · show st0.jpeg_data_offset ≤ len
        omega

theorem words_at_mod (b : List Nat) (a : Nat) : ∀ (ws : List Nat),
    (∀ w ∈ ws, w < 2 ^ 32) → words_at b a (ws.map (· % 2 ^ 32)) → words_at b a ws := by
  intro ws h hw
  have e : ws.map (· % 2 ^ 32) = ws := by
    conv_rhs => rw [← List.map_id ws]
    apply List.map_congr_left
    intro w hmem
    exact Nat.mod_eq_of_lt (h w hmem)
  rw [e] at hw
  exact hw

theorem mjpa_words_lt (n : Nat) (st : JpegStatics) (len : Nat) (hlen : len < 2 ^ 32)
    (h : st.jpeg_field_size ≤ len ∧ st.jpeg_padded_len ≤ len ∧ st.jpeg_quant_offset ≤ len ∧
      st.jpeg_huffman_offset ≤ len ∧ st.jpeg_image_offset ≤ len ∧
      st.jpeg_scan_offset ≤ len ∧ st.jpeg_data_offset ≤ len) :
    ∀ w ∈ mjpa_words n st, w < 2 ^ 32 := by
  obtain ⟨h1, h2, h3, h4, h5, h6, h7⟩ := h
  intro w hw
  unfold mjpa_words at hw
  simp only [List.mem_cons, List.mem_singleton, List.not_mem_nil, or_false] at hw
  rcases hw with e | e | e | e | e | e | e | e | e | e
  · rw [e]; norm_num
  · rw [e]; unfold QUICKTIME_MJPG_TAG; norm_num
  · rw [e]; omega
  · rw [e]; omega
  · rw [e]; split <;> omega
  · rw [e]; omega
  · rw [e]; omega
  · rw [e]; omega
  · rw [e]; omega
  · rw [e]; omega

/-! ## The tagging of the Quicktime branch -/

/-- The Quicktime tagging loop over a frame of two well-formed fields that
each have a first `M_APP1` segment of declared length at least 42: it runs to
its end, and the frame it leaves holds, in each segment, the ten words of the
full scan of the field, cut to 32 bits, and the bytes of the frame as they
were everywhere else. -/
theorem tag_qt_two_fields (f1 f2 : List Nat)
    (pre1 post1 pre2 post2 : List (Nat × Nat)) (l1 sl1 eoi1 l2 sl2 eoi2 : Nat)
    (h1 : field_with_app1 f1 pre1 post1 l1 sl1 eoi1) (hpad : no_soi_from f1 (eoi1 + 2))
    (h2 : field_with_app1 f2 pre2 post2 l2 sl2 eoi2) :
    ∃ st1 st2 buff2,
      scan_jpeg (f1 ++ f2) (f1 ++ f2).length false = Scan.ret 0 st1 ∧
      scan_jpeg f2 f2.length false = Scan.ret 0 st2 ∧
      st1.jpeg_app1_offset = segments_end 2 pre1 ∧
      st2.jpeg_app1_offset = segments_end 2 pre2 ∧
      st1.jpeg_padded_len = f1.length ∧
      tag_qt 2 0 (f1 ++ f2) 0 (f1 ++ f2).length = Tagged.done buff2 ∧
      buff2.length = (f1 ++ f2).length ∧
      words_at buff2 (segments_end 2 pre1 + 4) ((mjpa_words 0 st1).map (· % 2 ^ 32)) ∧
      words_at buff2 (f1.length + segments_end 2 pre2 + 4)
        ((mjpa_words 1 st2).map (· % 2 ^ 32)) ∧
      ∀ i, (i < segments_end 2 pre1 + 4 ∨ segments_end 2 pre1 + 44 ≤ i) →
        (i < f1.length + segments_end 2 pre2 + 4 ∨
          f1.length + segments_end 2 pre2 + 44 ≤ i) →
        buff2[i]? = (f1 ++ f2)[i]? := by
  obtain ⟨a1, a2, a3, a4, a5⟩ := field_with_app1_facts f1 pre1 post1 l1 sl1 eoi1 h1
  obtain ⟨c1, c2, c3, c4, c5⟩ := field_with_app1_facts f2 pre2 post2 l2 sl2 eoi2 h2
  have hl1 := h1.2.2
  have hl2 := h2.2.2
  have hlen : (f1 ++ f2).length = f1.length + f2.length := List.length_append f1 f2
  obtain ⟨st1, hs1, hsame1⟩ := scan_jpeg_first_field f1 f2 _ sl1 eoi1 h1.1 hpad h2.1.1 h2.1.2.1
  have happ1 : st1.jpeg_app1_offset = segments_end 2 pre1 := by
    have := congrArg JpegStatics.jpeg_app1_offset hsame1
    rw [this]
    exact record_headers_app1 pre1 post1 l1 sl1 h1.2.1
  have hpl1 : st1.jpeg_padded_len = f1.length := congrArg JpegStatics.jpeg_padded_len hsame1
  have hg1 : get_int2 (f1 ++ f2) (segments_end 2 pre1 + 2) = some l1 := by
    rw [get_int2_congr f1 (f1 ++ f2) _ (List.getElem?_append_left (by omega))
      (List.getElem?_append_left (by omega))]
    exact a2
  obtain ⟨b1, e1, len1, o1, r1⟩ := put_mjpa_spec (f1 ++ f2) (segments_end 2 pre1) 0 st1
    (by omega)
  have hdrop : b1.drop f1.length = f2 := by
    apply List.ext_getElem?
    intro j
    rw [List.getElem?_drop, o1 _ (Or.inr (by omega)), List.getElem?_append_right (by omega),
      show f1.length + j - f1.length = j by omega]
  obtain ⟨q2, st2, _, hs2, hsame2⟩ := scan_jpeg_field f2 f2.length _ sl2 eoi2 h2.1 c5
    (le_refl _)
  have happ2 : st2.jpeg_app1_offset = segments_end 2 pre2 := by
    have := congrArg JpegStatics.jpeg_app1_offset hsame2
    rw [this]
    exact record_headers_app1 pre2 post2 l2 sl2 h2.2.1
  obtain ⟨b2, e2, len2, o2, r2⟩ := put_mjpa_spec b1 (f1.length + segments_end 2 pre2) 1 st2
    (by rw [len1, hlen]; omega)
  have hsub : (f1 ++ f2).length - f1.length = f2.length := by omega
  have hpass1 : tag_qt 2 0 (f1 ++ f2) 0 (f1 ++ f2).length =
      tag_qt 1 1 b1 f1.length f2.length := by
    rw [tag_qt_accepts 1 0 (f1 ++ f2) 0 (f1 ++ f2).length st1 l1 b1
      (by rw [List.drop_zero]; exact hs1) (by rw [happ1]; omega)
      (by rw [List.drop_zero, happ1]; exact hg1) hl1
      (by rw [Nat.zero_add, happ1]; exact e1)]
    simp only [Nat.zero_add, hpl1, hsub]
  have hpass2 : tag_qt 1 1 b1 f1.length f2.length = Tagged.done b2 := by
    rw [tag_qt_accepts 0 1 b1 f1.length f2.length st2 l2 b2
      (by rw [hdrop]; exact hs2) (by rw [happ2]; omega)
      (by rw [hdrop, happ2]; exact c2) hl2 (by rw [happ2]; exact e2)]
    rfl
  refine ⟨st1, st2, b2, hs1, hs2, happ1, happ2, hpl1, by rw [hpass1, hpass2],
    by rw [len2, len1], ?_, ?_, ?_⟩
  · apply words_at_congr b1 b2 _ _ _ r1
    intro i hi1 hi2
    have : ((mjpa_words 0 st1).map (· % 2 ^ 32)).length = 10 := rfl
    rw [this] at hi2
    exact o2 i (Or.inl (by omega))
  · exact r2
  · intro i hi1 hi2
    rw [o2 i hi2, o1 i hi1]

/-- On an interlaced session of format `'q'`, with `HAVE_LIBQUICKTIME`, when
the tagging loop runs to its end and the repeat count is in the range of the
`int` counter, `lav_write_frame` returns what the write loop gives for the
tagged frame, with no error kind set. -/
theorem lav_write_frame_qt_done (lav_file : lav_file_t) (buff : List Nat)
    (size : Nat) (count : Int) (backend : Nat → Int)
    (hfmt : lav_file.format = 'q')
    (hil : lav_file.interlacing ≠ Y4M_ILACE_NONE) (buff1 : List Nat)
    (htag : tag_qt 2 0 buff 0 size = Tagged.done buff1) (hcount : count < 2 ^ 31) :
    ∃ r, write_loop true lav_file.format buff1 size backend count.toNat 0 0 [] = some r ∧
      lav_write_frame true lav_file buff size count backend =
        WriteFrame.ret ⟨r.1, buff1, lav_file.format, 0, r.2⟩ := by
  have hna : ¬ (lav_file.format = 'a' ∨ lav_file.format = 'A') := by
    rw [hfmt]; decide
  obtain ⟨r, hr⟩ := write_loop_returns true lav_file.format buff1 size backend count.toNat 0 0
    [] (by omega)
  refine ⟨r, hr, ?_⟩
  rw [lav_write_frame_eq, if_pos hil, if_neg hna, if_pos ⟨hfmt, rfl⟩, htag]
  simp only [hr]

/-! ## The claim on the layout of the Quicktime tag -/

/-- C15: on an interlaced session of format `'q'`, with `HAVE_LIBQUICKTIME`,
for a frame `f1 ++ f2` of two well-formed fields (the first followed by
padding without a `0xFF 0xD8` pair) that each have, before the scan header, a
first `M_APP1` segment of declared length at least 42, `lav_write_frame`
returns without error kind, and in each field the ten 4-byte groups from
byte 4 of that segment on, read back big-endian, are: 0, `0x6D6A7067`, and
the field size, the padded length, the next-field offset (the padded length
in the first field, 0 in the second) and the quant, huffman, image, scan and
data offsets of the full scan of the field made before the write, each cut
to 32 bits, and exactly those values when the frame is shorter than `2 ^ 32`
bytes; every other byte of the frame is unchanged.  (The repeat count is one
that the `int` counter of the write loop reaches, `count < 2^31`.) -/
theorem qt_tagging_layout (lav_file : lav_file_t)
    (f1 f2 : List Nat) (pre1 post1 pre2 post2 : List (Nat × Nat))
    (l1 sl1 eoi1 l2 sl2 eoi2 : Nat) (count : Int) (backend : Nat → Int)
    (hfmt : lav_file.format = 'q')
    (hil : lav_file.interlacing ≠ Y4M_ILACE_NONE)
    (h1 : field_with_app1 f1 pre1 post1 l1 sl1 eoi1) (hpad : no_soi_from f1 (eoi1 + 2))
    (h2 : field_with_app1 f2 pre2 post2 l2 sl2 eoi2) (hcount : count < 2 ^ 31) :
    ∃ w st1 st2,
      lav_write_frame true lav_file (f1 ++ f2) (f1 ++ f2).length count backend =
        WriteFrame.ret w ∧
      w.internal_error = 0 ∧ w.buff.length = (f1 ++ f2).length ∧
      scan_jpeg (f1 ++ f2) (f1 ++ f2).length false = Scan.ret 0 st1 ∧
      scan_jpeg f2 f2.length false = Scan.ret 0 st2 ∧
      st1.jpeg_app1_offset = segments_end 2 pre1 ∧
      st2.jpeg_app1_offset = segments_end 2 pre2 ∧
      st1.jpeg_padded_len = f1.length ∧
      words_at w.buff (st1.jpeg_app1_offset + 4) ((mjpa_words 0 st1).map (· % 2 ^ 32)) ∧
      words_at w.buff (f1.length + st2.jpeg_app1_offset + 4)
        ((mjpa_words 1 st2).map (· % 2 ^ 32)) ∧
      ((f1 ++ f2).length < 2 ^ 32 →
        words_at w.buff (st1.jpeg_app1_offset + 4) (mjpa_words 0 st1) ∧
        words_at w.buff (f1.length + st2.jpeg_app1_offset + 4) (mjpa_words 1 st2)) ∧
      ∀ i, (i < st1.jpeg_app1_offset + 4 ∨ st1.jpeg_app1_offset + 44 ≤ i) →
        (i < f1.length + st2.jpeg_app1_offset + 4 ∨
          f1.length + st2.jpeg_app1_offset + 44 ≤ i) →
        w.buff[i]? = (f1 ++ f2)[i]? := by
  obtain ⟨st1, st2, buff2, hs1, hs2, happ1, happ2, hpl1, htag, hlen2, hw1, hw2, hout⟩ :=
    tag_qt_two_fields f1 f2 pre1 post1 pre2 post2 l1 sl1 eoi1 l2 sl2 eoi2 h1 hpad h2
  have hlen : (f1 ++ f2).length = f1.length + f2.length := List.length_append f1 f2
  obtain ⟨r, _, hw⟩ := lav_write_frame_qt_done lav_file (f1 ++ f2) _ count backend hfmt hil
    buff2 htag hcount
  refine ⟨_, st1, st2, hw, rfl, hlen2, hs1, hs2, happ1, happ2, hpl1, ?_, ?_, ?_, ?_⟩
  · rw [happ1]; exact hw1
  · rw [happ2]; exact hw2
  · intro hsmall
    have b1 := scan_jpeg_full_le _ _ st1 hs1
    have b2 := scan_jpeg_full_le _ _ st2 hs2
    refine ⟨?_, ?_⟩
    · rw [happ1]
      exact words_at_mod _ _ _ (mjpa_words_lt 0 st1 _ hsmall b1) hw1
    · rw [happ2]
      exact words_at_mod _ _ _ (mjpa_words_lt 1 st2 f2.length (by omega) b2) hw2
  · rw [happ1, happ2]
    exact hout

theorem qt_tagging_layout_witness :
    ∃ w, lav_write_frame true ⟨'q', Y4M_ILACE_TOP_FIRST, 1, 1, 0, 0, 0, 0⟩
        (app1_field ++ app1_field) (app1_field ++ app1_field).length 1 (fun _ => 0) =
        WriteFrame.ret w ∧
      words_at w.buff (6 + 4) [0, QUICKTIME_MJPG_TAG, 57, 57, 57, 2, 0, 0, 50, 54] ∧
      words_at w.buff (57 + 6 + 4) [0, QUICKTIME_MJPG_TAG, 57, 57, 0, 2, 0, 0, 50, 54] := by
  obtain ⟨w, st1, st2, hw, _, _, hs1, hs2, _, _, _, _, _, hex, _⟩ := qt_tagging_layout
    ⟨'q', Y4M_ILACE_TOP_FIRST, 1, 1, 0, 0, 0, 0⟩ app1_field app1_field
    [(M_DQT, 2)] [] [(M_DQT, 2)] [] 42 2 55 42 2 55 1 (fun _ => 0)
    rfl (by decide) (by decide) (by decide) (by decide) (by decide)
  have e1 : scan_jpeg (app1_field ++ app1_field) (app1_field ++ app1_field).length false =
      Scan.ret 0 ⟨57, 2, 0, 0, 50, 54, 57, 0, 6,
        [(M_DQT, 3), (M_APP1, 7), (M_SOS, 51), (M_EOI, 56)]⟩ := by decide
  have e2 : scan_jpeg app1_field app1_field.length false =
      Scan.ret 0 ⟨57, 2, 0, 0, 50, 54, 57, 0, 6,
        [(M_DQT, 3), (M_APP1, 7), (M_SOS, 51), (M_EOI, 56)]⟩ := by decide
  rw [e1] at hs1
  rw [e2] at hs2
  cases hs1
  cases hs2
  exact ⟨w, hw, hex (by decide)⟩

/-! ## The first APP1 segment lies within the field -/

/-- Loop head invariant of the main loop, on the segment at the app1 offset:
the loop has moved past it. -/
theorem scan_loop_app1_segment (b : List Nat) (len : Nat) (h : Bool) :
    ∀ (fuel p : Nat) (st : JpegStatics),
      (st.jpeg_field_size = 0 ∧ (st.jpeg_app1_offset = 0 ∨
        ∃ l, length_at b len (st.jpeg_app1_offset + 1) = some l ∧
          st.jpeg_app1_offset + 2 + l ≤ p)) →
      ∀ q sf, scan_loop b len h fuel p st = Loop.out q sf → sf.jpeg_field_size ≠ 0 →
        (sf.jpeg_app1_offset = 0 ∨
          ∃ l, length_at b len (sf.jpeg_app1_offset + 1) = some l ∧
            sf.jpeg_app1_offset + 2 + l + 2 ≤ q) := by
  intro fuel
  induction fuel with
  | zero =>
    intro p st _ q sf hl
    exact absurd hl (by simp [scan_loop])
  | succ fuel ih =>
    intro p st hinv q sf hl hsf
    obtain ⟨hfs, happ⟩ := hinv
    rw [scan_loop_succ] at hl
    by_cases hp : p < len
    · rw [if_pos hp] at hl
      rcases scan_step_inv b len h p st hp with e | e | e |
        ⟨p1, p2, m, l, g1, g2, g3, g4, g5, g6, g7, g8, e⟩
      · rw [e] at hl; exact absurd hl (by simp)
      · rw [e] at hl; exact absurd hl (by simp)
      · rw [e] at hl; exact absurd hl (by simp)
      · rw [e] at hl
        cases hstep : check_marker len h m (p2 + 1) l
            { st with met := st.met ++ [(m, p2)] } with
        | next p3 s3 =>
          rw [hstep] at hl
          obtain ⟨_, _, hst, hp3⟩ := check_marker_next len h m (p2 + 1) l _ p3 s3 hstep
          refine ih p3 s3 ⟨?_, ?_⟩ q sf hl hsf
          · rw [hst, record_marker_field_size]
            exact hfs
          · rw [hst, record_marker_app1]
            by_cases hc : m = M_APP1 ∧ st.jpeg_app1_offset = 0
            · have hc2 : m = M_APP1 ∧ ({ st with met := st.met ++ [(m, p2)] } :
                  JpegStatics).jpeg_app1_offset = 0 := hc
              rw [if_pos hc2]
              right
              refine ⟨l, ?_, ?_⟩
              · rw [show p2 + 1 - 2 + 1 = p2 by omega]
                exact g8
              · rcases hp3 with ⟨hn, _⟩ | ⟨_, hq, _⟩
                · rw [hc.1] at hn
                  exact absurd hn (by decide)
                · omega
            · have hc2 : ¬ (m = M_APP1 ∧ ({ st with met := st.met ++ [(m, p2)] } :
                  JpegStatics).jpeg_app1_offset = 0) := hc
              rw [if_neg hc2]
              rcases happ with hz | ⟨l0, hl0, hle⟩
              · exact Or.inl hz
              · right
                refine ⟨l0, hl0, ?_⟩
                show st.jpeg_app1_offset + 2 + l0 ≤ p3
                rcases hp3 with ⟨_, hq⟩ | ⟨_, hq, _⟩ <;> omega
        | brk p3 s3 =>
          rw [hstep] at hl
          obtain ⟨_, hp3, hst⟩ := check_marker_brk len h m (p2 + 1) l _ p3 s3 hstep
          simp only [Loop.out.injEq] at hl
          rw [← hl.2, ← hl.1, hst]
          rcases happ with hz | ⟨l0, hl0, hle⟩
          · exact Or.inl hz
          · right
            refine ⟨l0, hl0, ?_⟩
            show st.jpeg_app1_offset + 2 + l0 + 2 ≤ p3
            omega
        | ret r s3 => rw [hstep] at hl; exact absurd hl (by simp)
        | fault => rw [hstep] at hl; exact absurd hl (by simp)
        | timeout => rw [hstep] at hl; exact absurd hl (by simp)
    · rw [if_neg hp] at hl
      simp only [Loop.out.injEq] at hl
      rw [← hl.2] at hsf
      exact absurd hfs hsf

/-- After a successful full scan the segment at the app1 offset, with the
length its two length bytes declare, ends before the end-of-image marker of
the field, which lies within the buffer and within the padded length. -/
theorem scan_jpeg_app1_segment (b : List Nat) (len : Nat) (st : JpegStatics) (l : Nat)
    (hs : scan_jpeg b len false = Scan.ret 0 st) (h1 : st.jpeg_app1_offset ≠ 0)
    (hl : get_int2 b (st.jpeg_app1_offset + 2) = some l) :
    st.jpeg_app1_offset + 2 + l + 2 ≤ st.jpeg_field_size ∧
    st.jpeg_field_size ≤ st.jpeg_padded_len ∧ st.jpeg_field_size ≤ b.length := by
  have hrange := scan_loop_range b len false (len + 1) 2 JpegStatics.zero
    (range_inv_start len false)
  rcases scan_jpeg_inv b len false 0 st hs with ⟨hr, _, _⟩ | ⟨_, _, hlp | ⟨p, _, _, hr⟩ |
    ⟨p, st0, q, hlp, hf, hpad, _, hst⟩⟩
  · exact absurd hr (by decide)
  · rw [hlp] at hrange
    exact absurd (hrange.2 rfl).1 (by decide)
  · exact absurd hr (by decide)
  · have hseg := scan_loop_app1_segment b len false (len + 1) 2 JpegStatics.zero
      ⟨rfl, Or.inl rfl⟩ p st0 hlp hf
    rw [hlp] at hrange
    rcases hrange.2 with g | ⟨g1, _, g2, _, g3, _⟩
    · exact absurd g hf
    · obtain ⟨hq, _⟩ := skip_padding_spec b len (len + 1) p q hpad
      have hb : p - 1 < b.length := by
        by_contra hc
        rw [List.getElem?_eq_none (by omega)] at g3
        exact absurd g3 (by simp)
      subst hst
      have h1 : st0.jpeg_app1_offset ≠ 0 := h1
      have hl : get_int2 b (st0.jpeg_app1_offset + 2) = some l := hl
      rcases hseg with hz | ⟨l0, hl0, hle⟩
      · exact absurd hz h1
      · unfold length_at at hl0
        rw [if_pos (by omega), show st0.jpeg_app1_offset + 1 + 1 = st0.jpeg_app1_offset + 2
          by omega, hl] at hl0
        cases hl0
        refine ⟨?_, ?_, ?_⟩
        · show st0.jpeg_app1_offset + 2 + l + 2 ≤ st0.jpeg_field_size
          omega
        · show st0.jpeg_field_size ≤ q
          omega
        · show st0.jpeg_field_size ≤ b.length
          omega

/-! ## The claim on the strictness of the Quicktime branch -/

/-- C14: on an interlaced session of format `'q'`, with `HAVE_LIBQUICKTIME`,
`lav_write_frame` returns -1 with the error kind `ERROR_JPEG` and without a
backend call (1) when the tagging rejects the first field: its full scan
fails, or records no `M_APP1` segment, or one of declared length below 42;
and (2) when the first field has a first `M_APP1` segment of declared length
at least 42 and the tagging rejects the second field, the bytes of the frame
from the padded length of the first field on; the first field is tagged by
then, and the bytes of the second are as they were. -/
theorem qt_tagging_is_strict (lav_file : lav_file_t) (buff : List Nat) (size : Nat)
    (count : Int) (backend : Nat → Int) (hfmt : lav_file.format = 'q')
    (hil : lav_file.interlacing ≠ Y4M_ILACE_NONE) :
    (∀ r st, scan_jpeg buff size false = Scan.ret r st → qt_rejects buff r st →
      lav_write_frame true lav_file buff size count backend =
        WriteFrame.ret ⟨-1, buff, 'q', ERROR_JPEG, []⟩) ∧
    (∀ st1 l1 r st, scan_jpeg buff size false = Scan.ret 0 st1 →
      st1.jpeg_app1_offset ≠ 0 →
      get_int2 buff (st1.jpeg_app1_offset + 2) = some l1 → 42 ≤ l1 →
      scan_jpeg (buff.drop st1.jpeg_padded_len) (size - st1.jpeg_padded_len) false =
        Scan.ret r st →
      qt_rejects (buff.drop st1.jpeg_padded_len) r st →
      ∃ buff1, put_mjpa buff st1.jpeg_app1_offset 0 st1 = some buff1 ∧
        buff1.drop st1.jpeg_padded_len = buff.drop st1.jpeg_padded_len ∧
        lav_write_frame true lav_file buff size count backend =
          WriteFrame.ret ⟨-1, buff1, 'q', ERROR_JPEG, []⟩) := by
  refine ⟨?_, ?_⟩
  · intro r st hs hbad
    exact lav_write_frame_qt_broken lav_file buff size count backend hfmt hil buff
      (tag_qt_rejects 1 0 buff 0 size r st hs hbad)
  · intro st1 l1 r st hs1 h1 hl1 h42 hs hbad
    obtain ⟨hseg, hfp, hfb⟩ := scan_jpeg_app1_segment buff size st1 l1 hs1 h1 hl1
    obtain ⟨buff1, e1, _, o1, _⟩ := put_mjpa_spec buff st1.jpeg_app1_offset 0 st1 (by omega)
    have hdrop : buff1.drop st1.jpeg_padded_len = buff.drop st1.jpeg_padded_len := by
      apply List.ext_getElem?
      intro j
      rw [List.getElem?_drop, List.getElem?_drop, o1 _ (Or.inr (by omega))]
    refine ⟨buff1, e1, hdrop, ?_⟩
    apply lav_write_frame_qt_broken lav_file buff size count backend hfmt hil buff1
    rw [tag_qt_accepts 1 0 buff 0 size st1 l1 buff1 hs1 h1 hl1 h42
      (by rw [Nat.zero_add]; exact e1)]
    simp only [Nat.zero_add]
    exact tag_qt_rejects 0 1 buff1 _ _ r st (by rw [hdrop]; exact hs)
      (by rw [hdrop]; exact hbad)

theorem qt_tagging_is_strict_witness :
    lav_write_frame true ⟨'q', Y4M_ILACE_TOP_FIRST, 1, 1, 0, 0, 0, 0⟩
        (app0_field ++ app0_field) 54 1 (fun _ => 0) =
      WriteFrame.ret ⟨-1, app0_field ++ app0_field, 'q', ERROR_JPEG, []⟩ ∧
    ∃ buff1, buff1.drop 57 = app0_field ∧
      lav_write_frame true ⟨'q', Y4M_ILACE_TOP_FIRST, 1, 1, 0, 0, 0, 0⟩
          (app1_field ++ app0_field) 84 1 (fun _ => 0) =
        WriteFrame.ret ⟨-1, buff1, 'q', ERROR_JPEG, []⟩ := by
  refine ⟨(qt_tagging_is_strict ⟨'q', Y4M_ILACE_TOP_FIRST, 1, 1, 0, 0, 0, 0⟩
    (app0_field ++ app0_field) 54 1 (fun _ => 0) rfl (by decide)).1 0
    ⟨27, 0, 0, 0, 20, 24, 27, 2, 0, [(M_APP0, 3), (M_SOS, 21), (M_EOI, 26)]⟩
    (by decide) (Or.inr (Or.inl rfl)), ?_⟩
  obtain ⟨buff1, _, hd, hw⟩ := (qt_tagging_is_strict ⟨'q', Y4M_ILACE_TOP_FIRST, 1, 1, 0, 0, 0, 0⟩
    (app1_field ++ app0_field) 84 1 (fun _ => 0) rfl (by decide)).2
    ⟨57, 2, 0, 0, 50, 54, 57, 0, 6, [(M_DQT, 3), (M_APP1, 7), (M_SOS, 51), (M_EOI, 56)]⟩ 42 0
    ⟨27, 0, 0, 0, 20, 24, 27, 2, 0, [(M_APP0, 3), (M_SOS, 21), (M_EOI, 26)]⟩
    (by decide) (by decide) (by decide) (by decide) (by decide) (Or.inr (Or.inl rfl))
  exact ⟨buff1, hd.trans (by decide), hw⟩

/-! ## The offsets of the first markers met -/

theorem first_met_append (k m q : Nat) : ∀ (met : List (Nat × Nat)),
    first_met k (met ++ [(m, q)]) =
      match first_met k met with
      | some x => some x
      | none => if m = k then some q else none := by
  intro met
  induction met with
  | nil => rfl
  | cons hd tl ih =>
    obtain ⟨m0, q0⟩ := hd
    show (if m0 = k then some q0 else first_met k (tl ++ [(m, q)])) = _
    by_cases h0 : m0 = k
    · rw [if_pos h0]
      show _ = match (if m0 = k then some q0 else first_met k tl) with
        | some x => some x
        | none => if m = k then some q else none
      rw [if_pos h0]
    · rw [if_neg h0, ih]
      show _ = match (if m0 = k then some q0 else first_met k tl) with
        | some x => some x
        | none => if m = k then some q else none
      rw [if_neg h0]

theorem first_met_mem (k : Nat) : ∀ (met : List (Nat × Nat)) (q : Nat),
    first_met k met = some q → (k, q) ∈ met := by
  intro met
  induction met with
  | nil => intro q h; exact absurd h (by simp [first_met])
  | cons hd tl ih =>
    intro q h
    obtain ⟨m0, q0⟩ := hd
    unfold first_met at h
    by_cases h0 : m0 = k
    · rw [if_pos h0] at h
      cases h
      rw [h0]
      exact List.mem_cons_self _ _
    · rw [if_neg h0] at h
      exact List.mem_cons_of_mem _ (ih q h)

theorem first_met_none (k : Nat) : ∀ (met : List (Nat × Nat)),
    first_met k met = none ↔ ∀ q, (k, q) ∉ met := by
  intro met
  induction met with
  | nil => simp [first_met]
  | cons hd tl ih =>
    obtain ⟨m0, q0⟩ := hd
    unfold first_met
    by_cases h0 : m0 = k
    · rw [if_pos h0]
      constructor
      · intro h; exact absurd h (by simp)
      · intro h
        exact absurd (by rw [h0]; exact List.mem_cons_self _ _) (h q0)
    · rw [if_neg h0, ih]
      constructor
      · intro h q hq
        rcases List.mem_cons.1 hq with e | e
        · simp only [Prod.mk.injEq] at e
          exact h0 e.1.symm
        · exact h q e
      · intro h q hq
        exact h q (List.mem_cons_of_mem _ hq)

theorem record_marker_quant (m p l : Nat) (st : JpegStatics) :
    (record_marker m p l st).jpeg_quant_offset =
      if m = M_DQT ∧ st.jpeg_quant_offset = 0 then p - 2 else st.jpeg_quant_offset := by
  unfold record_marker
  split_ifs <;> simp_all [M_APP0, M_SOS, M_SOF0, M_SOF1, M_DQT, M_DHT, M_APP1]

theorem record_marker_huffman (m p l : Nat) (st : JpegStatics) :
    (record_marker m p l st).jpeg_huffman_offset =
      if m = M_DHT ∧ st.jpeg_huffman_offset = 0 then p - 2 else st.jpeg_huffman_offset := by
  unfold record_marker
  split_ifs <;> simp_all [M_APP0, M_SOS, M_SOF0, M_SOF1, M_DQT, M_DHT, M_APP1]

/-- One guarded assignment of the `switch` keeps the offset of the first
marker met of its kind. -/
theorem first_seen_step (k m q off : Nat) (met : List (Nat × Nat)) (hq : 2 ≤ q)
    (hmet : ∀ e ∈ met, 3 ≤ e.2) (hoff : off = offset_of (first_met k met)) :
    (if m = k ∧ off = 0 then q + 1 - 2 else off) =
      offset_of (first_met k (met ++ [(m, q)])) := by
  rw [first_met_append]
  cases hf : first_met k met with
  | none =>
    rw [hf] at hoff
    have h0 : off = 0 := hoff
    by_cases hm : m = k
    · rw [if_pos ⟨hm, h0⟩]
      simp only [hm, if_true]
      show q + 1 - 2 = q - 1
      omega
    · rw [if_neg (fun x => hm x.1)]
      simp only [hm, if_false]
      exact h0
  | some x =>
    rw [hf] at hoff
    have hx := hmet (k, x) (first_met_mem k met x hf)
    have h0 : off = x - 1 := hoff
    have hne : ¬ (m = k ∧ off = 0) := by
      intro hc
      have : 3 ≤ x := hx
      omega
    rw [if_neg hne]
    exact h0

/-- The loop body keeps `first_seen` when it reads a marker code `m` at
index `q` behind a byte `0xFF`: through the `switch`, and through the `break`
at `M_EOI`. -/
theorem first_seen_record (b : List Nat) (st : JpegStatics) (m q l : Nat) (hq : 3 ≤ q)
    (hff : b[q - 1]? = some 0xFF) (hm : b[q]? = some m) (h : first_seen b st) :
    first_seen b (record_marker m (q + 1) l { st with met := st.met ++ [(m, q)] }) ∧
    (m = M_EOI → ∀ f,
      first_seen b { st with met := st.met ++ [(m, q)], jpeg_field_size := f }) := by
  obtain ⟨h1, h2, h3, h4, h5⟩ := h
  have hmet : ∀ e ∈ st.met, 3 ≤ e.2 := fun e he => (h5 e he).1
  have hall : ∀ e ∈ st.met ++ [(m, q)], 3 ≤ e.2 ∧ b[e.2 - 1]? = some 0xFF ∧
      b[e.2]? = some e.1 := by
    intro e he
    rcases List.mem_append.1 he with h0 | h0
    · exact h5 e h0
    · rw [List.mem_singleton.1 h0]
      exact ⟨hq, hff, hm⟩
  have g1 := first_seen_step M_DQT m q _ st.met (by omega) hmet h1
  have g2 := first_seen_step M_DHT m q _ st.met (by omega) hmet h2
  have g3 := first_seen_step M_APP0 m q _ st.met (by omega) hmet h3
  have g4 := first_seen_step M_APP1 m q _ st.met (by omega) hmet h4
  refine ⟨⟨?_, ?_, ?_, ?_, ?_⟩, fun he f => ⟨?_, ?_, ?_, ?_, hall⟩⟩
  · rw [record_marker_quant, record_marker_met]
    exact g1
  · rw [record_marker_huffman, record_marker_met]
    exact g2
  · rw [record_marker_app0, record_marker_met]
    exact g3
  · rw [record_marker_app1, record_marker_met]
    exact g4
  · rw [record_marker_met]
    exact hall
  · rw [he, if_neg (fun x => absurd x.1 (by decide))] at g1
    rw [he]
    exact g1
  · rw [he, if_neg (fun x => absurd x.1 (by decide))] at g2
    rw [he]
    exact g2
  · rw [he, if_neg (fun x => absurd x.1 (by decide))] at g3
    rw [he]
    exact g3
  · rw [he, if_neg (fun x => absurd x.1 (by decide))] at g4
    rw [he]
    exact g4

/-- The main loop keeps `first_seen`. -/
theorem scan_loop_first_seen (b : List Nat) (len : Nat) (h : Bool) :
    ∀ (fuel p : Nat) (st : JpegStatics), 2 ≤ p → first_seen b st →
      ∀ st1, ((∃ q, scan_loop b len h fuel p st = Loop.out q st1) ∨
        (∃ r, scan_loop b len h fuel p st = Loop.ret r st1)) → first_seen b st1 := by
  intro fuel
  induction fuel with
  | zero =>
    intro p st _ _ st1 hl
    rcases hl with ⟨q, hl⟩ | ⟨r, hl⟩ <;> exact absurd hl (by simp [scan_loop])
  | succ fuel ih =>
    intro p st hp2 hfs st1 hl
    rw [scan_loop_succ] at hl
    by_cases hp : p < len
    · rw [if_pos hp] at hl
      rcases scan_step_inv b len h p st hp with e | e | e |
        ⟨p1, p2, m, l, g1, g2, g3, g4, g5, g6, g7, g8, e⟩
      · rw [e] at hl
        rcases hl with ⟨q, hl⟩ | ⟨r, hl⟩
        · exact absurd hl (by simp)
        · simp only [Loop.ret.injEq] at hl
          rw [← hl.2]
          exact hfs
      · rw [e] at hl
        rcases hl with ⟨q, hl⟩ | ⟨r, hl⟩ <;> exact absurd hl (by simp)
      · rw [e] at hl
        rcases hl with ⟨q, hl⟩ | ⟨r, hl⟩ <;> exact absurd hl (by simp)
      · have hff : b[p2 - 1]? = some 0xFF := g5 (p2 - 1) (by omega) (by omega)
        obtain ⟨r1, r2⟩ := first_seen_record b st m p2 l (by omega) hff g6 hfs
        rw [e] at hl
        cases hstep : check_marker len h m (p2 + 1) l
            { st with met := st.met ++ [(m, p2)] } with
        | next p3 s3 =>
          rw [hstep] at hl
          obtain ⟨_, _, hst, hp3⟩ := check_marker_next len h m (p2 + 1) l _ p3 s3 hstep
          refine ih p3 s3 ?_ (by rw [hst]; exact r1) st1 hl
          rcases hp3 with ⟨_, hq⟩ | ⟨_, hq, _⟩ <;> omega
        | brk p3 s3 =>
          rw [hstep] at hl
          obtain ⟨hm, _, hst⟩ := check_marker_brk len h m (p2 + 1) l _ p3 s3 hstep
          rcases hl with ⟨q, hl⟩ | ⟨r, hl⟩
          · simp only [Loop.out.injEq] at hl
            rw [← hl.2, hst]
            exact r2 hm _
          · exact absurd hl (by simp)
        | ret r s3 =>
          rw [hstep] at hl
          obtain ⟨_, hst, _⟩ := check_marker_ret len h m (p2 + 1) l _ r s3 hstep
          rcases hl with ⟨q, hl⟩ | ⟨r0, hl⟩
          · exact absurd hl (by simp)
          · simp only [Loop.ret.injEq] at hl
            rw [← hl.2, hst]
            exact r1
        | fault =>
          rw [hstep] at hl
          rcases hl with ⟨q, hl⟩ | ⟨r, hl⟩ <;> exact absurd hl (by simp)
        | timeout =>
          rw [hstep] at hl
          rcases hl with ⟨q, hl⟩ | ⟨r, hl⟩ <;> exact absurd hl (by simp)
    · rw [if_neg hp] at hl
      rcases hl with ⟨q, hl⟩ | ⟨r, hl⟩
      · simp only [Loop.out.injEq] at hl
        rw [← hl.2]
        exact hfs
      · exact absurd hl (by simp)

/-- Whatever a scan returns, its statics satisfy `first_seen`. -/
theorem scan_jpeg_first_seen (b : List Nat) (len : Nat) (h : Bool) (r : Int)
    (st : JpegStatics) (hs : scan_jpeg b len h = Scan.ret r st) : first_seen b st := by
  have hz : first_seen b JpegStatics.zero :=
    ⟨rfl, rfl, rfl, rfl, fun e he => absurd he (by simp [JpegStatics.zero])⟩
  have hloop := scan_loop_first_seen b len h (len + 1) 2 JpegStatics.zero (le_refl _) hz
  rcases scan_jpeg_inv b len h r st hs with ⟨_, hst, _⟩ | ⟨_, _, hl | ⟨p, hl, _, _⟩ |
    ⟨p, st0, q, hl, _, _, _, hst⟩⟩
  · rw [hst]; exact hz
  · exact hloop st (Or.inr ⟨r, hl⟩)
  · exact hloop st (Or.inl ⟨p, hl⟩)
  · rw [hst]
    exact hloop st0 (Or.inl ⟨p, hl⟩)

/-! ## The claim on the first-seen offsets -/

/-- C26: after a successful scan, in either mode, each of the quant, huffman,
app0 and app1 offsets is 0 if the scanner met no marker of its kind
(`M_DQT`, `M_DHT`, `M_APP0`, `M_APP1`), and otherwise is the index just
before the code byte of the first such marker met in scan order, where the
buffer holds `0xFF`; markers of the kind met later do not change it. -/
theorem offsets_are_first_seen (b : List Nat) (len : Nat) (h : Bool) (st : JpegStatics)
    (hs : scan_jpeg b len h = Scan.ret 0 st) (k : Nat) (off : JpegStatics → Nat)
    (hk : (k = M_DQT ∧ off = JpegStatics.jpeg_quant_offset) ∨
      (k = M_DHT ∧ off = JpegStatics.jpeg_huffman_offset) ∨
      (k = M_APP0 ∧ off = JpegStatics.jpeg_app0_offset) ∨
      (k = M_APP1 ∧ off = JpegStatics.jpeg_app1_offset)) :
    ((∀ q, (k, q) ∉ st.met) → off st = 0) ∧
    (∀ pre q post, st.met = pre ++ (k, q) :: post → (∀ e ∈ pre, e.1 ≠ k) →
      off st = q - 1 ∧ 2 ≤ off st ∧ b[off st]? = some 0xFF ∧ b[off st + 1]? = some k) := by
  obtain ⟨h1, h2, h3, h4, h5⟩ := scan_jpeg_first_seen b len h 0 st hs
  have hoff : off st = offset_of (first_met k st.met) := by
    rcases hk with ⟨e1, e2⟩ | ⟨e1, e2⟩ | ⟨e1, e2⟩ | ⟨e1, e2⟩
    · rw [e1, e2]; exact h1
    · rw [e1, e2]; exact h2
    · rw [e1, e2]; exact h3
    · rw [e1, e2]; exact h4
  refine ⟨?_, ?_⟩
  · intro hno
    rw [hoff, (first_met_none k st.met).2 hno]
    rfl
  · intro pre q post hmet hpre
    have hfirst : first_met k (pre ++ (k, q) :: post) = some q := by
      clear hmet
      induction pre with
      | nil =>
        show (if k = k then some q else _) = some q
        rw [if_pos rfl]
      | cons hd tl ih =>
        obtain ⟨m0, q0⟩ := hd
        show (if m0 = k then some q0 else first_met k (tl ++ (k, q) :: post)) = some q
        rw [if_neg (hpre (m0, q0) (List.mem_cons_self _ _))]
        exact ih (fun e he => hpre e (List.mem_cons_of_mem _ he))
    rw [← hmet] at hfirst
    obtain ⟨g1, g2, g3⟩ := h5 (k, q) (by rw [hmet]; simp)
    have hq : off st = q - 1 := by rw [hoff, hfirst]; rfl
    have g1 : 3 ≤ q := g1
    have g2 : b[q - 1]? = some 0xFF := g2
    have g3 : b[q]? = some k := g3
    refine ⟨hq, by omega, by rw [hq]; exact g2, ?_⟩
    rw [hq, show q - 1 + 1 = q by omega]
    exact g3

theorem offsets_are_first_seen_witness :
    ∃ st, scan_jpeg [0xFF, 0xD8, 0xFF, 0xDB, 0, 2, 0xFF, 0xFF, 0xDB, 0, 2, 0xFF, 0xDA, 0, 2, 7,
        0xFF, 0xD9] 18 false = Scan.ret 0 st ∧
      st.met = [] ++ (M_DQT, 3) :: [(M_DQT, 8), (M_SOS, 12), (M_EOI, 17)] ∧
      st.jpeg_quant_offset = 3 - 1 := by
  refine ⟨⟨18, 2, 0, 0, 11, 15, 18, 0, 0, [(M_DQT, 3), (M_DQT, 8), (M_SOS, 12), (M_EOI, 17)]⟩,
    by decide, rfl, ?_⟩
  exact ((offsets_are_first_seen
    [0xFF, 0xD8, 0xFF, 0xDB, 0, 2, 0xFF, 0xFF, 0xDB, 0, 2, 0xFF, 0xDA, 0, 2, 7, 0xFF, 0xD9] 18
    false ⟨18, 2, 0, 0, 11, 15, 18, 0, 0, [(M_DQT, 3), (M_DQT, 8), (M_SOS, 12), (M_EOI, 17)]⟩
    (by decide) M_DQT JpegStatics.jpeg_quant_offset (Or.inl ⟨rfl, rfl⟩)).2 [] 3
    [(M_DQT, 8), (M_SOS, 12), (M_EOI, 17)] rfl (by simp)).1

/-! ## The claim on the image offset -/

/-- C27: on the buffer `FF D8 | FF C0 00 02 | FF C1 00 02 | FF DA 00 02 | 07 |
FF D9`, which holds two frame header markers before the scan header, the
scan succeeds in both modes, the first frame header marker met is the
`M_SOF0` with code byte at index 3, and the image offset left is 6, that of
the `M_SOF1` met later, not 2: the `case M_SOF0: case M_SOF1:` of the
`switch` has no guard `if(... == 0)` as the cases of the other offsets
have. -/
theorem image_offset_is_last_seen :
    scan_jpeg [0xFF, 0xD8, 0xFF, 0xC0, 0, 2, 0xFF, 0xC1, 0, 2, 0xFF, 0xDA, 0, 2, 7, 0xFF, 0xD9]
        17 false =
      Scan.ret 0 ⟨17, 0, 0, 6, 10, 14, 17, 0, 0,
        [(M_SOF0, 3), (M_SOF1, 7), (M_SOS, 11), (M_EOI, 16)]⟩ ∧
    scan_jpeg [0xFF, 0xD8, 0xFF, 0xC0, 0, 2, 0xFF, 0xC1, 0, 2, 0xFF, 0xDA, 0, 2, 7, 0xFF, 0xD9]
        17 true =
      Scan.ret 0 ⟨0, 0, 0, 6, 10, 14, 0, 0, 0, [(M_SOF0, 3), (M_SOF1, 7), (M_SOS, 11)]⟩ ∧
    offset_of (first_met M_SOF0 [(M_SOF0, 3), (M_SOF1, 7), (M_SOS, 11), (M_EOI, 16)]) = 2 ∧
    (6 : Nat) ≠ 2 := by
  decide

/-! ## Reads stay below the declared length -/

theorem skip_non_ff_congr (b1 b2 : List Nat) (len : Nat)
    (hag : ∀ i, i < len → b1[i]? = b2[i]?) :
    ∀ (fuel p : Nat), p < len → skip_non_ff b1 len fuel p = skip_non_ff b2 len fuel p := by
  intro fuel
  induction fuel with
  | zero => intro p _; rfl
  | succ fuel ih =>
    intro p hp
    unfold skip_non_ff
    rw [hag p hp]
    cases b2[p]? with
    | none => rfl
    | some v =>
      simp only
      by_cases hv : v ≠ 0xFF
      · rw [if_pos hv, if_pos hv]
        by_cases hn : p + 1 ≥ len
        · rw [if_pos hn, if_pos hn]
        · rw [if_neg hn, if_neg hn]
          exact ih (p + 1) (by omega)
      · rw [if_neg hv, if_neg hv]

theorem skip_ff_congr (b1 b2 : List Nat) (len : Nat)
    (hag : ∀ i, i < len → b1[i]? = b2[i]?) :
    ∀ (fuel p : Nat), p < len → skip_ff b1 len fuel p = skip_ff b2 len fuel p := by
  intro fuel
  induction fuel with
  | zero => intro p _; rfl
  | succ fuel ih =>
    intro p hp
    unfold skip_ff
    rw [hag p hp]
    cases b2[p]? with
    | none => rfl
    | some v =>
      simp only
      by_cases hv : v = 0xFF
      · rw [if_pos hv, if_pos hv]
        by_cases hn : p + 1 ≥ len
        · rw [if_pos hn, if_pos hn]
        · rw [if_neg hn, if_neg hn]
          exact ih (p + 1) (by omega)
      · rw [if_neg hv, if_neg hv]

theorem skip_padding_congr (b1 b2 : List Nat) (len : Nat)
    (hag : ∀ i, i < len → b1[i]? = b2[i]?) :
    ∀ (fuel p : Nat), skip_padding b1 len fuel p = skip_padding b2 len fuel p := by
  intro fuel
  induction fuel with
  | zero => intro p; rfl
  | succ fuel ih =>
    intro p
    unfold skip_padding
    by_cases hp : p < len
    · rw [if_pos hp, if_pos hp]
      by_cases hp1 : p + 1 < len
      · rw [if_pos hp1, if_pos hp1, hag p hp, hag (p + 1) hp1, ih (p + 1)]
      · rw [if_neg hp1, if_neg hp1]
        exact ih (p + 1)
    · rw [if_neg hp, if_neg hp]

/-- One pass through the loop body reads no byte at an index from the declared
length on: it is the same on two buffers that agree below that length. -/
theorem scan_step_congr (b1 b2 : List Nat) (len : Nat) (h : Bool)
    (hag : ∀ i, i < len → b1[i]? = b2[i]?) (p : Nat) (st : JpegStatics) (hp : p < len) :
    scan_step b1 len h p st = scan_step b2 len h p st := by
  unfold scan_step
  rw [skip_non_ff_congr b1 b2 len hag len p hp]
  cases h1 : skip_non_ff b2 len len p with
  | bad => rfl
  | fault => rfl
  | timeout => rfl
  | stop p1 =>
    simp only
    have hp1 : p1 < len := (skip_non_ff_spec b2 len len p p1 h1).2.2.2.1 hp
    rw [skip_ff_congr b1 b2 len hag len p1 hp1]
    cases h2 : skip_ff b2 len len p1 with
    | bad => rfl
    | fault => rfl
    | timeout => rfl
    | stop p2 =>
      simp only
      have hp2 : p2 < len := (skip_ff_spec b2 len len p1 p2 h2).2.2.2.1 hp1
      rw [hag p2 hp2]
      by_cases hl : p2 + 1 + 2 ≤ len
      · rw [if_pos hl, if_pos hl,
          get_int2_congr b2 b1 (p2 + 1) (hag _ (by omega)) (hag _ (by omega))]
      · rw [if_neg hl, if_neg hl]

theorem scan_loop_congr (b1 b2 : List Nat) (len : Nat) (h : Bool)
    (hag : ∀ i, i < len → b1[i]? = b2[i]?) :
    ∀ (fuel p : Nat) (st : JpegStatics),
      scan_loop b1 len h fuel p st = scan_loop b2 len h fuel p st := by
  intro fuel
  induction fuel with
  | zero => intro p st; rfl
  | succ fuel ih =>
    intro p st
    rw [scan_loop_succ, scan_loop_succ]
    by_cases hp : p < len
    · rw [if_pos hp, if_pos hp, scan_step_congr b1 b2 len h hag p st hp]
      cases scan_step b2 len h p st with
      | next p1 st1 => exact ih p1 st1
      | brk p1 st1 => rfl
      | ret r st1 => rfl
      | fault => rfl
      | timeout => rfl
    · rw [if_neg hp, if_neg hp]

/-- A scan with a declared length of at least 2 reads no byte at an index
from that length on: it is the same on two buffers that agree below it. -/
theorem scan_jpeg_congr (b1 b2 : List Nat) (len : Nat) (h : Bool) (h2 : 2 ≤ len)
    (hag : ∀ i, i < len → b1[i]? = b2[i]?) :
    scan_jpeg b1 len h = scan_jpeg b2 len h := by
  unfold scan_jpeg
  rw [hag 0 (by omega), hag 1 (by omega), scan_loop_congr b1 b2 len h hag]
  cases b2[0]? with
  | none => rfl
  | some b0 =>
    simp only
    split
    · rfl
    · cases b2[1]? with
      | none => rfl
      | some v =>
        simp only
        split
        · rfl
        · cases scan_loop b2 len h (len + 1) 2 JpegStatics.zero with
          | ret r st => rfl
          | fault => rfl
          | timeout => rfl
          | out p st =>
            simp only
            rw [skip_padding_congr b1 b2 len hag]

theorem skip_non_ff_succ (b : List Nat) (len fuel p : Nat) :
    skip_non_ff b len (fuel + 1) p =
      match b[p]? with
      | none => Skip.fault
      | some v =>
        if v ≠ 0xFF then
          if p + 1 ≥ len then Skip.bad else skip_non_ff b len fuel (p + 1)
        else Skip.stop p := rfl

theorem skip_ff_succ (b : List Nat) (len fuel p : Nat) :
    skip_ff b len (fuel + 1) p =
      match b[p]? with
      | none => Skip.fault
      | some v =>
        if v = 0xFF then
          if p + 1 ≥ len then Skip.bad else skip_ff b len fuel (p + 1)
        else Skip.stop p := rfl

theorem skip_padding_succ (b : List Nat) (len fuel p : Nat) :
    skip_padding b len (fuel + 1) p =
      if p < len then
        if p + 1 < len then
          match b[p]? with
          | none => Pad.fault
          | some b0 =>
            if b0 = 0xFF then
              match b[p + 1]? with
              | none => Pad.fault
              | some b1 =>
                if b1 = M_SOI then Pad.stop p else skip_padding b len fuel (p + 1)
            else skip_padding b len fuel (p + 1)
        else skip_padding b len fuel (p + 1)
      else Pad.stop p := rfl

theorem skip_non_ff_iter (b : List Nat) (len fuel p : Nat) :
    skip_non_ff b len (fuel + 1) p = Skip.stop p ∨ skip_non_ff b len (fuel + 1) p = Skip.bad ∨
    skip_non_ff b len (fuel + 1) p = Skip.fault ∨
    skip_non_ff b len (fuel + 1) p = skip_non_ff b len fuel (p + 1) := by
  rw [skip_non_ff_succ]
  cases b[p]? with
  | none => exact Or.inr (Or.inr (Or.inl rfl))
  | some v =>
    simp only
    by_cases hv : v ≠ 0xFF
    · rw [if_pos hv]
      by_cases hn : p + 1 ≥ len
      · rw [if_pos hn]; exact Or.inr (Or.inl rfl)
      · rw [if_neg hn]; exact Or.inr (Or.inr (Or.inr rfl))
    · rw [if_neg hv]; exact Or.inl rfl

theorem skip_ff_iter (b : List Nat) (len fuel p : Nat) :
    skip_ff b len (fuel + 1) p = Skip.stop p ∨ skip_ff b len (fuel + 1) p = Skip.bad ∨
    skip_ff b len (fuel + 1) p = Skip.fault ∨
    skip_ff b len (fuel + 1) p = skip_ff b len fuel (p + 1) := by
  rw [skip_ff_succ]
  cases b[p]? with
  | none => exact Or.inr (Or.inr (Or.inl rfl))
  | some v =>
    simp only
    by_cases hv : v = 0xFF
    · rw [if_pos hv]
      by_cases hn : p + 1 ≥ len
      · rw [if_pos hn]; exact Or.inr (Or.inl rfl)
      · rw [if_neg hn]; exact Or.inr (Or.inr (Or.inr rfl))
    · rw [if_neg hv]; exact Or.inl rfl

theorem skip_padding_iter (b : List Nat) (len fuel p : Nat) :
    skip_padding b len (fuel + 1) p = Pad.stop p ∨ skip_padding b len (fuel + 1) p = Pad.fault ∨
    skip_padding b len (fuel + 1) p = skip_padding b len fuel (p + 1) := by
  rw [skip_padding_succ]
  by_cases hp : p < len
  · rw [if_pos hp]
    by_cases hp1 : p + 1 < len
    · rw [if_pos hp1]
      cases b[p]? with
      | none => exact Or.inr (Or.inl rfl)
      | some b0 =>
        simp only
        by_cases h0 : b0 = 0xFF
        · rw [if_pos h0]
          cases b[p + 1]? with
          | none => exact Or.inr (Or.inl rfl)
          | some b1 =>
            simp only
            by_cases h1 : b1 = M_SOI
            · rw [if_pos h1]; exact Or.inl rfl
            · rw [if_neg h1]; exact Or.inr (Or.inr rfl)
        · rw [if_neg h0]; exact Or.inr (Or.inr rfl)
    · rw [if_neg hp1]; exact Or.inr (Or.inr rfl)
  · rw [if_neg hp]; exact Or.inl rfl

/-! ## The claim on totality and bounds -/

/-- C29: for every buffer and every declared length `len` with
`2 ≤ len ≤ b.length`, in both modes, (1) `scan_jpeg` returns, without reading
outside the buffer and within the fuel `len + 1` of its loops, and returns
the same on the buffer cut off at `len`, where any read at an index from
`len` on would be a fault; (2) it returns the same on every buffer that
agrees with `b` below `len`; (3) a pass of the main loop that goes on leaves
the position strictly greater and at most `len`; (4) each iteration of the
two marker searching loops and of the trailing garbage loop ends the loop or
goes on at the position plus one.  (The scan takes the buffer as a value and
gives back the status and the statics only: the source has no store through
`jpegdata`.) -/
theorem scan_jpeg_terminates_in_bounds (b : List Nat) (len : Nat) (h : Bool)
    (h2 : 2 ≤ len) (hlen : len ≤ b.length) :
    (∃ r st, scan_jpeg b len h = Scan.ret r st ∧
      scan_jpeg (b.take len) len h = Scan.ret r st) ∧
    (∀ b1, (∀ i, i < len → b1[i]? = b[i]?) → scan_jpeg b1 len h = scan_jpeg b len h) ∧
    (∀ p st p1 st1, p < len → scan_step b len h p st = Step.next p1 st1 →
      p < p1 ∧ p1 ≤ len) ∧
    (∀ fuel p,
      (skip_non_ff b len (fuel + 1) p = Skip.stop p ∨
        skip_non_ff b len (fuel + 1) p = Skip.bad ∨
        skip_non_ff b len (fuel + 1) p = Skip.fault ∨
        skip_non_ff b len (fuel + 1) p = skip_non_ff b len fuel (p + 1)) ∧
      (skip_ff b len (fuel + 1) p = Skip.stop p ∨ skip_ff b len (fuel + 1) p = Skip.bad ∨
        skip_ff b len (fuel + 1) p = Skip.fault ∨
        skip_ff b len (fuel + 1) p = skip_ff b len fuel (p + 1)) ∧
      (skip_padding b len (fuel + 1) p = Pad.stop p ∨
        skip_padding b len (fuel + 1) p = Pad.fault ∨
        skip_padding b len (fuel + 1) p = skip_padding b len fuel (p + 1))) := by
  have htake : ∀ i, i < len → (b.take len)[i]? = b[i]? := by
    intro i hi
    rw [List.getElem?_take, if_pos hi]
  obtain ⟨r, st, hs⟩ := scan_jpeg_total b len h (by omega) hlen
  refine ⟨⟨r, st, hs, ?_⟩, ?_, ?_, ?_⟩
  · rw [scan_jpeg_congr (b.take len) b len h h2 htake]
    exact hs
  · intro b1 hag
    exact scan_jpeg_congr b1 b len h h2 hag
  · intro p st p1 st1 hp hstep
    exact scan_step_progress b len h p st p1 st1 hp hstep
  · intro fuel p
    exact ⟨skip_non_ff_iter b len fuel p, skip_ff_iter b len fuel p,
      skip_padding_iter b len fuel p⟩

theorem scan_jpeg_terminates_in_bounds_witness :
    ∃ r st, scan_jpeg [0xFF, 0xD8, 0xFF, 0xDA, 0, 16, 9, 9, 9] 6 true = Scan.ret r st ∧
      scan_jpeg ([0xFF, 0xD8, 0xFF, 0xDA, 0, 16, 9, 9, 9].take 6) 6 true = Scan.ret r st :=
  (scan_jpeg_terminates_in_bounds [0xFF, 0xD8, 0xFF, 0xDA, 0, 16, 9, 9, 9] 6 true
    (by decide) (by decide)).1

/-! ## The write loop -/

/-- The function `lav_write_frame` as the tagging of the frame followed by
the write loop. -/
theorem lav_write_frame_tag (hq : Bool) (lav_file : lav_file_t) (buff : List Nat) (size : Nat)
    (count : Int) (backend : Nat → Int) :
    lav_write_frame hq lav_file buff size count backend =
      match tag_frame hq lav_file buff size with
      | Tagged.fault => WriteFrame.fault
      | Tagged.timeout => WriteFrame.timeout
      | Tagged.broken buff1 => WriteFrame.ret ⟨-1, buff1, lav_file.format, ERROR_JPEG, []⟩
      | Tagged.done buff1 =>
        match write_loop hq lav_file.format buff1 size backend count.toNat 0 0 [] with
        | none => WriteFrame.fault
        | some r => WriteFrame.ret ⟨r.1, buff1, lav_file.format, 0, r.2⟩ := rfl

theorem write_pass_avi (hq : Bool) (format : Char) (buff : List Nat) (size : Nat)
    (backend : Nat → Int) (n : Nat) (res : Int) (hfmt : format = 'a' ∨ format = 'A') :
    write_pass hq format buff size backend n res =
      (backend n, [if n = 0 then BackendCall.AVI_write_frame buff size
        else BackendCall.AVI_dup_frame]) := by
  unfold write_pass
  rw [if_pos hfmt]
  split <;> rfl

/-- The write loop of the formats `'a'` and `'A'` behind its first pass, while
the backend calls succeed and the counter stays in the range of `int`: one
call `AVI_dup_frame` per pass. -/
theorem write_loop_avi_dups (hq : Bool) (format : Char) (buff : List Nat) (size : Nat)
    (backend : Nat → Int) (hfmt : format = 'a' ∨ format = 'A') :
    ∀ (k n : Nat) (calls : List BackendCall), n ≠ 0 → n + k < 2 ^ 31 →
      (∀ i, n ≤ i → i < n + k → backend i = 0) →
      write_loop hq format buff size backend k n 0 calls =
        some (0, calls ++ List.replicate k BackendCall.AVI_dup_frame) := by
  intro k
  induction k with
  | zero =>
    intro n calls _ _ _
    show some (0, calls) = some (0, calls ++ [])
    rw [List.append_nil]
  | succ k ih =>
    intro n calls hn hk hall
    rw [write_loop_succ, write_pass_avi hq format buff size backend n 0 hfmt,
      hall n (le_refl _) (by omega)]
    simp only [ne_eq, not_true_eq_false, if_false, hn]
    rw [if_pos (by omega),
      ih (n + 1) _ (by omega) (by omega) (fun i h1 h2 => hall i (by omega) (by omega)),
      List.append_assoc]
    rfl

/-- The write loop of the formats `'a'` and `'A'` behind its first pass, when
the backend call of pass `e` is the first that fails: the loop ends there. -/
theorem write_loop_avi_error (hq : Bool) (format : Char) (buff : List Nat) (size : Nat)
    (backend : Nat → Int) (hfmt : format = 'a' ∨ format = 'A') (e : Nat)
    (he : backend e ≠ 0) :
    ∀ (k n : Nat) (calls : List BackendCall), n ≠ 0 → n ≤ e → e < n + k → n + k < 2 ^ 31 →
      (∀ i, n ≤ i → i < e → backend i = 0) →
      write_loop hq format buff size backend k n 0 calls =
        some (backend e, calls ++ List.replicate (e - n + 1) BackendCall.AVI_dup_frame) := by
  intro k
  induction k with
  | zero =>
    intro n calls _ h1 h2 _ _
    omega
  | succ k ih =>
    intro n calls hn h1 h2 hk hall
    rw [write_loop_succ, write_pass_avi hq format buff size backend n 0 hfmt]
    by_cases hne : n = e
    · subst hne
      simp only [ne_eq, he, not_false_eq_true, if_true, hn, if_false, Nat.sub_self, Nat.zero_add]
      rfl
    · rw [hall n (le_refl _) (by omega)]
      simp only [ne_eq, not_true_eq_false, if_false, hn]
      rw [if_pos (by omega), ih (n + 1) _ (by omega) (by omega) (by omega) (by omega)
        (fun i g1 g2 => hall i (by omega) g2), List.append_assoc,
        show e - n + 1 = (e - (n + 1) + 1) + 1 by omega]
      rfl

/-- The write loop whose passes all leave `res` at 0 comes to the overflow of
its `int` counter when the passes to run reach `2^31`. -/
theorem write_loop_overflows (hq : Bool) (format : Char) (buff : List Nat) (size : Nat)
    (backend : Nat → Int)
    (hpass : ∀ n, (write_pass hq format buff size backend n 0).1 = 0) :
    ∀ (k n : Nat) (calls : List BackendCall), n < 2 ^ 31 → 2 ^ 31 ≤ n + k →
      write_loop hq format buff size backend k n 0 calls = none := by
  intro k
  induction k with
  | zero =>
    intro n calls h1 h2
    omega
  | succ k ih =>
    intro n calls h1 h2
    rw [write_loop_succ, hpass n]
    simp only [ne_eq, not_true_eq_false, if_false]
    by_cases hn : n + 1 < 2 ^ 31
    · rw [if_pos hn]
      exact ih (n + 1) _ hn (by omega)
    · rw [if_neg hn]

/-- When the tagging runs to its end, every pass of the write loop leaves
`res` at 0 and the repeat count is beyond the range of `int`, the counter of
the write loop overflows: `lav_write_frame` gives a fault. -/
theorem lav_write_frame_overflows (hq : Bool) (lav_file : lav_file_t)
    (buff buff1 : List Nat) (size : Nat) (count : Int) (backend : Nat → Int)
    (htag : tag_frame hq lav_file buff size = Tagged.done buff1)
    (hpass : ∀ n, (write_pass hq lav_file.format buff1 size backend n 0).1 = 0)
    (hcount : 2 ^ 31 ≤ count) :
    lav_write_frame hq lav_file buff size count backend = WriteFrame.fault := by
  rw [lav_write_frame_tag, htag]
  simp only
  rw [write_loop_overflows hq lav_file.format buff1 size backend hpass count.toNat 0 []
    (by norm_num) (by omega)]

/-! ## The claim on the repeat count -/

/-- C28, as stated, fails: the counter of the write loop is an `int` and the
repeat count a `long`; for the repeat count `2^31`, on a session of format
`'a'` whose backend calls all succeed and on a session of format `'j'`, the
increment of the counter overflows behind pass `2^31 - 1`, and
`lav_write_frame` does not return after `2^31 - 1` calls `AVI_dup_frame`,
or after one `write`. -/
theorem repeat_count_beyond_int :
    lav_write_frame false ⟨'a', Y4M_ILACE_NONE, 1, 1, 0, 0, 0, 0⟩ [1, 2, 3] 3 (2 ^ 31)
        (fun _ => 0) = WriteFrame.fault ∧
    lav_write_frame false ⟨'j', Y4M_ILACE_NONE, 1, 1, 0, 0, 0, 0⟩ [1, 2, 3] 3 (2 ^ 31)
        (fun _ => 0) = WriteFrame.fault :=
  ⟨lav_write_frame_overflows false ⟨'a', Y4M_ILACE_NONE, 1, 1, 0, 0, 0, 0⟩ [1, 2, 3] [1, 2, 3] 3
      (2 ^ 31) (fun _ => 0) rfl
      (fun n => by rw [write_pass_avi false 'a' [1, 2, 3] 3 (fun _ => 0) n 0 (Or.inl rfl)])
      (le_refl _),
    lav_write_frame_overflows false ⟨'j', Y4M_ILACE_NONE, 1, 1, 0, 0, 0, 0⟩ [1, 2, 3] [1, 2, 3] 3
      (2 ^ 31) (fun _ => 0) rfl
      (fun n => by
        unfold write_pass
        rw [if_neg (by decide), if_pos rfl]
        split <;> rfl)
      (le_refl _)⟩

/-- C28, amended: when the tagging of the frame runs to its end and leaves
the buffer `buff1` (as it does without tagging on a session that is not
interlaced), a call of `lav_write_frame` with `1 ≤ count ≤ INT_MAX` (1) on a
session of format `'a'` or `'A'` whose backend calls all succeed returns 0
after one call `AVI_write_frame` with `size` bytes followed by `count - 1`
calls `AVI_dup_frame`; (2) when the backend call of pass `e` is the first
that fails, returns what that call returned after `AVI_write_frame` and `e`
calls `AVI_dup_frame`, and makes no further call; (3) on a session of format
`'j'` returns 0 after exactly one call `write` with `size` bytes. -/
theorem repeat_semantics (have_libquicktime : Bool) (lav_file : lav_file_t)
    (buff buff1 : List Nat) (size : Nat) (count : Int) (backend : Nat → Int)
    (htag : tag_frame have_libquicktime lav_file buff size = Tagged.done buff1)
    (hcount : 1 ≤ count) (hmax : count < 2 ^ 31) :
    (lav_file.format = 'a' ∨ lav_file.format = 'A' →
      (∀ i, i < count.toNat → backend i = 0) →
      lav_write_frame have_libquicktime lav_file buff size count backend =
        WriteFrame.ret ⟨0, buff1, lav_file.format, 0,
          BackendCall.AVI_write_frame buff1 size ::
            List.replicate (count.toNat - 1) BackendCall.AVI_dup_frame⟩) ∧
    (lav_file.format = 'a' ∨ lav_file.format = 'A' →
      ∀ e, e < count.toNat → backend e ≠ 0 → (∀ i, i < e → backend i = 0) →
      lav_write_frame have_libquicktime lav_file buff size count backend =
        WriteFrame.ret ⟨backend e, buff1, lav_file.format, 0,
          BackendCall.AVI_write_frame buff1 size ::
            List.replicate e BackendCall.AVI_dup_frame⟩) ∧
    (lav_file.format = 'j' →
      lav_write_frame have_libquicktime lav_file buff size count backend =
        WriteFrame.ret ⟨0, buff1, lav_file.format, 0, [BackendCall.write buff1 size]⟩) := by
  obtain ⟨k, hk⟩ : ∃ k, count.toNat = k + 1 := ⟨count.toNat - 1, by omega⟩
  have hk31 : 1 + k < 2 ^ 31 := by omega
  rw [lav_write_frame_tag, htag, hk]
  simp only
  refine ⟨?_, ?_, ?_⟩
  · intro hfmt hall
    rw [write_loop_succ, write_pass_avi have_libquicktime _ buff1 size backend 0 0 hfmt,
      hall 0 (by omega)]
    simp only [ne_eq, not_true_eq_false, if_false, if_true, List.nil_append]
    rw [if_pos (by omega),
      write_loop_avi_dups have_libquicktime _ buff1 size backend hfmt k 1 _ (by omega) hk31
        (fun i h1 h2 => hall i (by omega))]
    rfl
  · intro hfmt e he hne hall
    rw [write_loop_succ, write_pass_avi have_libquicktime _ buff1 size backend 0 0 hfmt]
    by_cases h0 : e = 0
    · subst h0
      simp only [ne_eq, hne, not_false_eq_true, if_true, List.nil_append]
      rfl
    · rw [hall 0 (by omega)]
      simp only [ne_eq, not_true_eq_false, if_false, if_true, List.nil_append]
      rw [if_pos (by omega),
        write_loop_avi_error have_libquicktime _ buff1 size backend hfmt e hne k 1 _
          (by omega) (by omega) (by omega) hk31 (fun i h1 h2 => hall i h2),
        show e - 1 + 1 = e by omega]
      rfl
  · intro hfmt
    rw [hfmt]
    have hp : write_pass have_libquicktime 'j' buff1 size backend 0 0 =
        (0, [BackendCall.write buff1 size]) := by
      unfold write_pass
      rw [if_neg (by decide), if_pos rfl, if_pos rfl]
    rw [write_loop_succ, hp]
    simp only [ne_eq, not_true_eq_false, if_false, List.nil_append]
    rw [if_pos (by omega),
      write_loop_j have_libquicktime buff1 size backend k 1 _ (by omega) hk31]

theorem repeat_semantics_witness :
    lav_write_frame false ⟨'a', Y4M_ILACE_NONE, 1, 1, 0, 0, 0, 0⟩ [1, 2, 3] 3 4
        (fun i => if i = 2 then -1 else 0) =
      WriteFrame.ret ⟨-1, [1, 2, 3], 'a', 0,
        BackendCall.AVI_write_frame [1, 2, 3] 3 ::
          List.replicate 2 BackendCall.AVI_dup_frame⟩ :=
  (repeat_semantics false ⟨'a', Y4M_ILACE_NONE, 1, 1, 0, 0, 0, 0⟩ [1, 2, 3] [1, 2, 3] 3 4
    (fun i => if i = 2 then -1 else 0) (by decide) (by decide) (by decide)).2.1 (Or.inl rfl) 2
    (by decide) (by decide) (by decide)

/-! ## The first APP0 segment lies within the field -/

/-- Loop head invariant of the main loop, on the segment at the app0 offset:
the loop has moved past it. -/
theorem scan_loop_app0_segment (b : List Nat) (len : Nat) (h : Bool) :
    ∀ (fuel p : Nat) (st : JpegStatics),
      (st.jpeg_field_size = 0 ∧ (st.jpeg_app0_offset = 0 ∨
        ∃ l, length_at b len (st.jpeg_app0_offset + 1) = some l ∧
          st.jpeg_app0_offset + 2 + l ≤ p)) →
      ∀ q sf, scan_loop b len h fuel p st = Loop.out q sf → sf.jpeg_field_size ≠ 0 →
        (sf.jpeg_app0_offset = 0 ∨
          ∃ l, length_at b len (sf.jpeg_app0_offset + 1) = some l ∧
            sf.jpeg_app0_offset + 2 + l + 2 ≤ q) := by
  intro fuel
  induction fuel with
  | zero =>
    intro p st _ q sf hl
    exact absurd hl (by simp [scan_loop])
  | succ fuel ih =>
    intro p st hinv q sf hl hsf
    obtain ⟨hfs, happ⟩ := hinv
    rw [scan_loop_succ] at hl
    by_cases hp : p < len
    · rw [if_pos hp] at hl
      rcases scan_step_inv b len h p st hp with e | e | e |
        ⟨p1, p2, m, l, g1, g2, g3, g4, g5, g6, g7, g8, e⟩
      · rw [e] at hl; exact absurd hl (by simp)
      · rw [e] at hl; exact absurd hl (by simp)
      · rw [e] at hl; exact absurd hl (by simp)
      · rw [e] at hl
        cases hstep : check_marker len h m (p2 + 1) l
            { st with met := st.met ++ [(m, p2)] } with
        | next p3 s3 =>
          rw [hstep] at hl
          obtain ⟨_, _, hst, hp3⟩ := check_marker_next len h m (p2 + 1) l _ p3 s3 hstep
          refine ih p3 s3 ⟨?_, ?_⟩ q sf hl hsf
          · rw [hst, record_marker_field_size]
            exact hfs
          · rw [hst, record_marker_app0]
            by_cases hc : m = M_APP0 ∧ st.jpeg_app0_offset = 0
            · have hc2 : m = M_APP0 ∧ ({ st with met := st.met ++ [(m, p2)] } :
                  JpegStatics).jpeg_app0_offset = 0 := hc
              rw [if_pos hc2]
              right
              refine ⟨l, ?_, ?_⟩
              · rw [show p2 + 1 - 2 + 1 = p2 by omega]
                exact g8
              · rcases hp3 with ⟨hn, _⟩ | ⟨_, hq, _⟩
                · rw [hc.1] at hn
                  exact absurd hn (by decide)
                · omega
            · have hc2 : ¬ (m = M_APP0 ∧ ({ st with met := st.met ++ [(m, p2)] } :
                  JpegStatics).jpeg_app0_offset = 0) := hc
              rw [if_neg hc2]
              rcases happ with hz | ⟨l0, hl0, hle⟩
              · exact Or.inl hz
              · right
                refine ⟨l0, hl0, ?_⟩
                show st.jpeg_app0_offset + 2 + l0 ≤ p3
                rcases hp3 with ⟨_, hq⟩ | ⟨_, hq, _⟩ <;> omega
        | brk p3 s3 =>
          rw [hstep] at hl
          obtain ⟨_, hp3, hst⟩ := check_marker_brk len h m (p2 + 1) l _ p3 s3 hstep
          simp only [Loop.out.injEq] at hl
          rw [← hl.2, ← hl.1, hst]
          rcases happ with hz | ⟨l0, hl0, hle⟩
          · exact Or.inl hz
          · right
            refine ⟨l0, hl0, ?_⟩
            show st.jpeg_app0_offset + 2 + l0 + 2 ≤ p3
            omega
        | ret r s3 => rw [hstep] at hl; exact absurd hl (by simp)
        | fault => rw [hstep] at hl; exact absurd hl (by simp)
        | timeout => rw [hstep] at hl; exact absurd hl (by simp)
    · rw [if_neg hp] at hl
      simp only [Loop.out.injEq] at hl
      rw [← hl.2] at hsf
      exact absurd hfs hsf

/-- After a successful full scan the segment at the app0 offset, with the
length its two length bytes declare, ends before the end-of-image marker of
the field, which lies within the buffer and within the padded length. -/
theorem scan_jpeg_app0_segment (b : List Nat) (len : Nat) (st : JpegStatics) (l : Nat)
    (hs : scan_jpeg b len false = Scan.ret 0 st) (h1 : st.jpeg_app0_offset ≠ 0)
    (hl : get_int2 b (st.jpeg_app0_offset + 2) = some l) :
    st.jpeg_app0_offset + 2 + l + 2 ≤ st.jpeg_field_size ∧
    st.jpeg_field_size ≤ st.jpeg_padded_len ∧ st.jpeg_field_size ≤ b.length := by
  have hrange := scan_loop_range b len false (len + 1) 2 JpegStatics.zero
    (range_inv_start len false)
  rcases scan_jpeg_inv b len false 0 st hs with ⟨hr, _, _⟩ | ⟨_, _, hlp | ⟨p, _, _, hr⟩ |
    ⟨p, st0, q, hlp, hf, hpad, _, hst⟩⟩
  · exact absurd hr (by decide)
  · rw [hlp] at hrange
    exact absurd (hrange.2 rfl).1 (by decide)
  · exact absurd hr (by decide)
  · have hseg := scan_loop_app0_segment b len false (len + 1) 2 JpegStatics.zero
      ⟨rfl, Or.inl rfl⟩ p st0 hlp hf
    rw [hlp] at hrange
    rcases hrange.2 with g | ⟨g1, _, g2, _, g3, _⟩
    · exact absurd g hf
    · obtain ⟨hq, _⟩ := skip_padding_spec b len (len + 1) p q hpad
      have hb : p - 1 < b.length := by
        by_contra hc
        rw [List.getElem?_eq_none (by omega)] at g3
        exact absurd g3 (by simp)
      subst hst
      have h1 : st0.jpeg_app0_offset ≠ 0 := h1
      have hl : get_int2 b (st0.jpeg_app0_offset + 2) = some l := hl
      rcases hseg with hz | ⟨l0, hl0, hle⟩
      · exact absurd hz h1
      · unfold length_at at hl0
        rw [if_pos (by omega), show st0.jpeg_app0_offset + 1 + 1 = st0.jpeg_app0_offset + 2
          by omega, hl] at hl0
        cases hl0
        refine ⟨?_, ?_, ?_⟩
        · show st0.jpeg_app0_offset + 2 + l + 2 ≤ st0.jpeg_field_size
          omega
        · show st0.jpeg_field_size ≤ q
          omega
        · show st0.jpeg_field_size ≤ b.length
          omega


/-! ## A failed scan in the AVI branch -/

/-- One pass of the AVI tagging loop whose scan fails. -/
theorem tag_avi_fails (format : Char) (size k n : Nat) (buff : List Nat) (off : Nat)
    (r : Int) (st : JpegStatics)
    (hs : scan_jpeg (buff.drop off) size (decide (n ≠ 0)) = Scan.ret r st) (hr : r ≠ 0) :
    tag_avi format size (k + 1) n buff off = Tagged.broken buff := by
  rw [tag_avi_succ, hs]
  simp only [ne_eq, hr, not_false_eq_true, if_true]

/-- One pass of the AVI tagging loop over a field that it tags. -/
theorem tag_avi_tags (format : Char) (size k n : Nat) (buff : List Nat) (off : Nat)
    (st : JpegStatics) (l : Nat) (buff1 : List Nat)
    (hs : scan_jpeg (buff.drop off) size (decide (n ≠ 0)) = Scan.ret 0 st)
    (h0 : st.jpeg_app0_offset ≠ 0)
    (hl : get_int2 (buff.drop off) (st.jpeg_app0_offset + 2) = some l) (h16 : 16 ≤ l)
    (hput : put_avi1 buff (off + st.jpeg_app0_offset)
      (if format = 'a' then n + 1 else 2 - n) = some buff1) :
    tag_avi format size (k + 1) n buff off =
      tag_avi format size k (n + 1) buff1 (off + st.jpeg_padded_len) := by
  rw [tag_avi_succ, hs]
  have h16 : ¬ l < 16 := by omega
  simp only [ne_eq, not_true_eq_false, if_false, h0, hl, h16, hput]

/-- On an interlaced session of format `'a'` or `'A'`, when the tagging loop
breaks off, `lav_write_frame` returns -1 with the error kind `ERROR_JPEG` and
no backend call. -/
theorem lav_write_frame_avi_broken (hq : Bool) (lav_file : lav_file_t) (buff : List Nat)
    (size : Nat) (count : Int) (backend : Nat → Int)
    (hfmt : lav_file.format = 'a' ∨ lav_file.format = 'A')
    (hil : lav_file.interlacing ≠ Y4M_ILACE_NONE) (buff1 : List Nat)
    (htag : tag_avi lav_file.format size 2 0 buff 0 = Tagged.broken buff1) :
    lav_write_frame hq lav_file buff size count backend =
      WriteFrame.ret ⟨-1, buff1, lav_file.format, ERROR_JPEG, []⟩ := by
  rw [lav_write_frame_eq, if_pos hil, if_pos hfmt, htag]

/-! ## The claim on a failed scan in the AVI branch -/

/-- C22: on an interlaced session of format `'a'` or `'A'`, when the scan of
the first field fails, or the first field is tagged and the scan of the
second field (the bytes from the padded length of the first on, which the
tagging of the first has left as they were) fails, `lav_write_frame` returns
-1 with the error kind `ERROR_JPEG` and without any backend call, and
`lav_strerror` then gives "Internal: broken JPEG format". -/
theorem scan_failure_aborts_avi_write (have_libquicktime : Bool) (lav_file : lav_file_t)
    (buff : List Nat) (size : Nat) (count : Int) (backend : Nat → Int) (errno : Int)
    (hfmt : lav_file.format = 'a' ∨ lav_file.format = 'A')
    (hil : lav_file.interlacing ≠ Y4M_ILACE_NONE) :
    (∀ r st, scan_jpeg buff size false = Scan.ret r st → r ≠ 0 →
      lav_write_frame have_libquicktime lav_file buff size count backend =
        WriteFrame.ret ⟨-1, buff, lav_file.format, ERROR_JPEG, []⟩) ∧
    (∀ st1 l1 r st, scan_jpeg buff size false = Scan.ret 0 st1 →
      st1.jpeg_app0_offset ≠ 0 →
      get_int2 buff (st1.jpeg_app0_offset + 2) = some l1 → 16 ≤ l1 →
      scan_jpeg (buff.drop st1.jpeg_padded_len) size true = Scan.ret r st → r ≠ 0 →
      ∃ buff1, put_avi1 buff st1.jpeg_app0_offset
          (if lav_file.format = 'a' then 1 else 2) = some buff1 ∧
        buff1.drop st1.jpeg_padded_len = buff.drop st1.jpeg_padded_len ∧
        lav_write_frame have_libquicktime lav_file buff size count backend =
          WriteFrame.ret ⟨-1, buff1, lav_file.format, ERROR_JPEG, []⟩) ∧
    (lav_strerror have_libquicktime errno ⟨lav_file.format, ERROR_JPEG⟩).1 =
      ErrorText.text "Internal: broken JPEG format" := by
  refine ⟨?_, ?_, rfl⟩
  · intro r st hs hr
    exact lav_write_frame_avi_broken have_libquicktime lav_file buff size count backend hfmt
      hil buff (tag_avi_fails lav_file.format size 1 0 buff 0 r st
        (by rw [List.drop_zero]; exact hs) hr)
  · intro st1 l1 r st hs1 h0 hl1 h16 hs hr
    obtain ⟨hseg, hfp, hfb⟩ := scan_jpeg_app0_segment buff size st1 l1 hs1 h0 hl1
    have hput := put_avi1_eq buff st1.jpeg_app0_offset
      (if lav_file.format = 'a' then 1 else 2) (by omega)
    have hdrop : (avi1_tagged buff st1.jpeg_app0_offset
        (if lav_file.format = 'a' then 1 else 2)).drop st1.jpeg_padded_len =
        buff.drop st1.jpeg_padded_len := by
      apply List.ext_getElem?
      intro j
      rw [List.getElem?_drop, List.getElem?_drop,
        avi1_tagged_outside _ _ _ _ (Or.inr (by omega))]
    refine ⟨_, hput, hdrop, ?_⟩
    apply lav_write_frame_avi_broken have_libquicktime lav_file buff size count backend hfmt hil
    rw [tag_avi_tags lav_file.format size 1 0 buff 0 st1 l1 _
      (by rw [List.drop_zero]; exact hs1) h0 (by rw [List.drop_zero]; exact hl1) h16
      (by simp only [Nat.zero_add]; exact hput)]
    simp only [Nat.zero_add]
    exact tag_avi_fails lav_file.format size 0 1 _ _ r st (by rw [hdrop]; exact hs) hr

theorem scan_failure_aborts_avi_write_witness :
    lav_write_frame false ⟨'A', Y4M_ILACE_BOTTOM_FIRST, 1, 1, 0, 0, 0, 0⟩
        [0xFF, 0xD8, 0xFF, 0xDA, 0, 2, 7, 7, 7] 9 2 (fun _ => 0) =
      WriteFrame.ret ⟨-1, [0xFF, 0xD8, 0xFF, 0xDA, 0, 2, 7, 7, 7], 'A', ERROR_JPEG, []⟩ ∧
    ∃ buff1, buff1.drop 27 = [0xFF, 0xD8, 0xFF, 0xC0, 0xFF, 0xFF] ∧
      lav_write_frame false ⟨'A', Y4M_ILACE_BOTTOM_FIRST, 1, 1, 0, 0, 0, 0⟩
          (app0_field ++ [0xFF, 0xD8, 0xFF, 0xC0, 0xFF, 0xFF]) 33 2 (fun _ => 0) =
        WriteFrame.ret ⟨-1, buff1, 'A', ERROR_JPEG, []⟩ := by
  refine ⟨(scan_failure_aborts_avi_write false ⟨'A', Y4M_ILACE_BOTTOM_FIRST, 1, 1, 0, 0, 0, 0⟩
    [0xFF, 0xD8, 0xFF, 0xDA, 0, 2, 7, 7, 7] 9 2 (fun _ => 0) 0 (Or.inr rfl) (by decide)).1
    (-1) ⟨0, 0, 0, 0, 2, 6, 0, 0, 0, [(M_SOS, 3)]⟩ (by decide) (by decide), ?_⟩
  obtain ⟨buff1, _, hd, hw⟩ := (scan_failure_aborts_avi_write false
    ⟨'A', Y4M_ILACE_BOTTOM_FIRST, 1, 1, 0, 0, 0, 0⟩
    (app0_field ++ [0xFF, 0xD8, 0xFF, 0xC0, 0xFF, 0xFF]) 33 2 (fun _ => 0) 0 (Or.inr rfl)
    (by decide)).2.1
    ⟨27, 0, 0, 0, 20, 24, 27, 2, 0, [(M_APP0, 3), (M_SOS, 21), (M_EOI, 26)]⟩ 16 (-1)
    ⟨0, 0, 0, 2, 0, 0, 0, 0, 0, [(M_SOF0, 3)]⟩
    (by decide) (by decide) (by decide) (by decide) (by decide) (by decide)
  exact ⟨buff1, hd.trans (by decide), hw⟩

/-! ## An unsupported compressor -/

/-- For a file that opens as AVI and whose compressor identifier passes none
of the five tests, `lav_open_input_file` returns no session and leaves the
error kind 0. -/
theorem lav_open_input_file_unsupported (hq : Bool) (env : Backend) (g : Globals)
    (h1 : env.lav_fd_alloc = true) (h2 : env.avi_fd = true)
    (c1 : strncasecmp_eq env.video_compressor ['y', 'v', '1', '2'] 3 = false)
    (c2 : strncasecmp_eq env.video_compressor ['y', 'u', 'v', '2'] 4 = false)
    (c3 : strncasecmp_eq env.video_compressor ['d', 'v'] 2 = false)
    (c4 : strncasecmp_eq env.video_compressor ['m', 'j', 'p'] 3 = false)
    (c5 : strncasecmp_eq env.video_compressor ['j', 'p', 'e', 'g'] 4 = false) :
    lav_open_input_file hq env g = OpenInput.ret none ⟨'a', 0⟩ := by
  unfold lav_open_input_file probe
  simp only [h1, h2, c1, c2, c3, c4, c5, if_true, if_false, Bool.true_eq_false,
    Bool.false_eq_true, or_self]
  rfl

/-! ## The claim on an unsupported compressor -/

/-- C21: for an AVI file that opens and whose video compressor identifier is
`"XVID"`, which begins with none of `"yv12"`, `"yuv2"`, `"dv"`, `"mjp"`,
`"jpeg"`, `lav_open_input_file` returns no session and leaves the error kind
0, not `ERROR_FORMAT`: the assignment `internal_error = ERROR_FORMAT` before
`goto ERREXIT` is overwritten there by `internal_error = ierr`, with `ierr`
still 0; `lav_strerror` then gives the answer of `AVI_strerror`, not "Input
file format not recognized". -/
theorem unsupported_compressor_error_is_lost :
    ¬ (strncasecmp_eq ['X', 'V', 'I', 'D'] ['m', 'j', 'p'] 3 = true ∨
      strncasecmp_eq ['X', 'V', 'I', 'D'] ['j', 'p', 'e', 'g'] 4 = true) ∧
    strncasecmp_eq ['X', 'V', 'I', 'D'] ['y', 'v', '1', '2'] 3 = false ∧
    strncasecmp_eq ['X', 'V', 'I', 'D'] ['y', 'u', 'v', '2'] 4 = false ∧
    strncasecmp_eq ['X', 'V', 'I', 'D'] ['d', 'v'] 2 = false ∧
    lav_open_input_file false
        { avi_file 240 [] with video_compressor := ['X', 'V', 'I', 'D'] } ⟨' ', 0⟩ =
      OpenInput.ret none ⟨'a', 0⟩ ∧
    (0 : Nat) ≠ ERROR_FORMAT ∧
    lav_strerror false 0 ⟨'a', 0⟩ = (ErrorText.AVI_strerror, ⟨'a', 0⟩) ∧
    lav_strerror false 0 ⟨'a', ERROR_FORMAT⟩ =
      (ErrorText.text "Input file format not recognized", ⟨'a', 0⟩) := by
  decide

/-! ## The calls of the scanner in the AVI branch -/

theorem tag_avi_traced_succ (format : Char) (size k n : Nat) (buff : List Nat) (off : Nat) :
    tag_avi_traced format size (k + 1) n buff off =
      match scan_jpeg (buff.drop off) size (decide (n ≠ 0)) with
      | Scan.fault => (Tagged.fault, [⟨off, size, decide (n ≠ 0)⟩])
      | Scan.timeout => (Tagged.timeout, [⟨off, size, decide (n ≠ 0)⟩])
      | Scan.ret res st =>
        if res ≠ 0 then (Tagged.broken buff, [⟨off, size, decide (n ≠ 0)⟩])
        else if st.jpeg_app0_offset = 0 then
          ((tag_avi_traced format size k (n + 1) buff off).1,
            ⟨off, size, decide (n ≠ 0)⟩ :: (tag_avi_traced format size k (n + 1) buff off).2)
        else
          match get_int2 (buff.drop off) (st.jpeg_app0_offset + 2) with
          | none => (Tagged.fault, [⟨off, size, decide (n ≠ 0)⟩])
          | some l =>
            if l < 16 then
              ((tag_avi_traced format size k (n + 1) buff off).1,
                ⟨off, size, decide (n ≠ 0)⟩ ::
                  (tag_avi_traced format size k (n + 1) buff off).2)
            else
              match put_avi1 buff (off + st.jpeg_app0_offset)
                  (if format = 'a' then n + 1 else 2 - n) with
              | none => (Tagged.fault, [⟨off, size, decide (n ≠ 0)⟩])
              | some buff1 =>
                ((tag_avi_traced format size k (n + 1) buff1
                    (off + st.jpeg_padded_len)).1,
                  ⟨off, size, decide (n ≠ 0)⟩ ::
                    (tag_avi_traced format size k (n + 1) buff1
                      (off + st.jpeg_padded_len)).2) := rfl

/-- Without the record of the calls, `tag_avi_traced` is `tag_avi`. -/
theorem tag_avi_traced_fst (format : Char) (size : Nat) :
    ∀ (k n : Nat) (buff : List Nat) (off : Nat),
      (tag_avi_traced format size k n buff off).1 = tag_avi format size k n buff off := by
  intro k
  induction k with
  | zero => intro n buff off; rfl
  | succ k ih =>
    intro n buff off
    rw [tag_avi_traced_succ, tag_avi_succ]
    cases scan_jpeg (buff.drop off) size (decide (n ≠ 0)) with
    | fault => rfl
    | timeout => rfl
    | ret res st =>
      simp only
      split
      · rfl
      · split
        · exact ih (n + 1) buff off
        · cases get_int2 (buff.drop off) (st.jpeg_app0_offset + 2) with
          | none => rfl
          | some l =>
            simp only
            split
            · exact ih (n + 1) buff off
            · cases put_avi1 buff (off + st.jpeg_app0_offset)
                  (if format = 'a' then n + 1 else 2 - n) with
              | none => rfl
              | some buff1 => exact ih (n + 1) buff1 (off + st.jpeg_padded_len)

/-- The first call of the scanner in the AVI branch is in full mode, at the
start of the frame buffer. -/
theorem tag_avi_traced_first (format : Char) (size : Nat) (buff : List Nat) :
    ∃ rest, (tag_avi_traced format size 2 0 buff 0).2 = ⟨0, size, false⟩ :: rest := by
  rw [tag_avi_traced_succ]
  cases scan_jpeg (buff.drop 0) size (decide (0 ≠ 0)) with
  | fault => exact ⟨_, rfl⟩
  | timeout => exact ⟨_, rfl⟩
  | ret res st =>
    simp only
    split
    · exact ⟨_, rfl⟩
    · split
      · exact ⟨_, rfl⟩
      · cases get_int2 (buff.drop 0) (st.jpeg_app0_offset + 2) with
        | none => exact ⟨_, rfl⟩
        | some l =>
          simp only
          split
          · exact ⟨_, rfl⟩
          · cases put_avi1 buff (0 + st.jpeg_app0_offset)
                (if format = 'a' then 0 + 1 else 2 - 0) with
            | none => exact ⟨_, rfl⟩
            | some buff1 => exact ⟨_, rfl⟩

/-- The last pass of the AVI tagging loop makes one call of the scanner, in
header-only mode. -/
theorem tag_avi_traced_last (format : Char) (size : Nat) (buff : List Nat) (off : Nat) :
    (tag_avi_traced format size 1 1 buff off).2 = [⟨off, size, true⟩] := by
  rw [tag_avi_traced_succ]
  cases scan_jpeg (buff.drop off) size (decide (1 ≠ 0)) with
  | fault => rfl
  | timeout => rfl
  | ret res st =>
    simp only
    split
    · rfl
    · split
      · rfl
      · cases get_int2 (buff.drop off) (st.jpeg_app0_offset + 2) with
        | none => rfl
        | some l =>
          simp only
          split
          · rfl
          · cases put_avi1 buff (off + st.jpeg_app0_offset)
                (if format = 'a' then 1 + 1 else 2 - 1) with
            | none => rfl
            | some buff1 => rfl

/-! ## The claims on the calls of the scanner -/

/-- C24, as stated, fails: for the frame of two fields `app0_field`, each with
an `M_APP0` segment of declared length 16, the AVI tagging calls the scanner
for the second field in header-only mode and with the whole `size` as
length, not in full mode with the 27 bytes that remain. -/
theorem second_field_is_scanned_header_only :
    tag_avi_traced 'a' 54 2 0 (app0_field ++ app0_field) 0 =
      (Tagged.done (avi1_tagged (avi1_tagged (app0_field ++ app0_field) 2 1) (27 + 2) 2),
        [⟨0, 54, false⟩, ⟨27, 54, true⟩]) ∧
    tag_frame false ⟨'a', Y4M_ILACE_TOP_FIRST, 1, 1, 0, 0, 0, 0⟩ (app0_field ++ app0_field) 54 =
      (tag_avi_traced 'a' 54 2 0 (app0_field ++ app0_field) 0).1 ∧
    ([⟨0, 54, false⟩, ⟨27, 54, true⟩] : List ScanCall) ≠
      [⟨0, 54, false⟩, ⟨27, 54 - 27, false⟩] := by
  decide

/-- C24, amended: on an interlaced session of format `'a'` or `'A'` the
tagging of `lav_write_frame` is the loop whose calls of the scanner are
recorded; its first call is in full mode (`header_only = 0`) at the first
byte of the buffer; and when the first field is tagged (its full scan
succeeds with an `M_APP0` segment of declared length at least 16) there is
exactly one more call, in header-only mode (`header_only = 1`), at the first
byte of the second field, the padded length of the first. -/
theorem avi_tagging_scan_modes (have_libquicktime : Bool) (lav_file : lav_file_t)
    (buff : List Nat) (size : Nat)
    (hfmt : lav_file.format = 'a' ∨ lav_file.format = 'A')
    (hil : lav_file.interlacing ≠ Y4M_ILACE_NONE) :
    tag_frame have_libquicktime lav_file buff size =
      (tag_avi_traced lav_file.format size 2 0 buff 0).1 ∧
    (∃ rest, (tag_avi_traced lav_file.format size 2 0 buff 0).2.map
        (fun c => (c.off, c.header_only)) = (0, false) :: rest) ∧
    (∀ st1 l1, scan_jpeg buff size false = Scan.ret 0 st1 → st1.jpeg_app0_offset ≠ 0 →
      get_int2 buff (st1.jpeg_app0_offset + 2) = some l1 → 16 ≤ l1 →
      (tag_avi_traced lav_file.format size 2 0 buff 0).2.map
        (fun c => (c.off, c.header_only)) = [(0, false), (st1.jpeg_padded_len, true)]) := by
  refine ⟨?_, ?_, ?_⟩
  · unfold tag_frame
    rw [if_pos hil, if_pos hfmt, tag_avi_traced_fst]
  · obtain ⟨rest, hrest⟩ := tag_avi_traced_first lav_file.format size buff
    rw [hrest]
    exact ⟨_, rfl⟩
  · intro st1 l1 hs1 h0 hl1 h16
    obtain ⟨hseg, hfp, hfb⟩ := scan_jpeg_app0_segment buff size st1 l1 hs1 h0 hl1
    have hput := put_avi1_eq buff st1.jpeg_app0_offset
      (if lav_file.format = 'a' then 1 else 2) (by omega)
    have h16 : ¬ l1 < 16 := by omega
    rw [tag_avi_traced_succ]
    simp only [List.drop_zero, ne_eq, not_true_eq_false, decide_False, hs1, if_false, h0, hl1,
      h16, Nat.zero_add, Nat.sub_zero, hput, tag_avi_traced_last]
    rfl

theorem avi_tagging_scan_modes_witness :
    (tag_avi_traced 'A' 54 2 0 (app0_field ++ app0_field) 0).2.map
        (fun c => (c.off, c.header_only)) = [(0, false), (27, true)] :=
  (avi_tagging_scan_modes false ⟨'A', Y4M_ILACE_BOTTOM_FIRST, 1, 1, 0, 0, 0, 0⟩
    (app0_field ++ app0_field) 54 (Or.inr rfl) (by decide)).2.2
    ⟨27, 0, 0, 0, 20, 24, 27, 2, 0, [(M_APP0, 3), (M_SOS, 21), (M_EOI, 26)]⟩ 16
    (by decide) (by decide) (by decide) (by decide)

/-- C25: for the frame `plain_field ++ app0_field`, whose first field has no
`M_APP0` segment and whose second field has one of declared length 16, on an
interlaced session of format `'a'`, the tagging does not advance: after the
`continue` of the first pass the second pass scans the first field again,
at index 0, and `lav_write_frame` writes the frame with the `M_APP0` segment
of the second field as it was, without `'AVI1'`. -/
theorem untagged_first_field_blocks_second :
    (∃ st, scan_jpeg (plain_field ++ app0_field) 36 false = Scan.ret 0 st ∧
      st.jpeg_app0_offset = 0 ∧ st.jpeg_padded_len = 9) ∧
    field_with_app0 app0_field [] [] 16 2 25 ∧
    tag_avi_traced 'a' 36 2 0 (plain_field ++ app0_field) 0 =
      (Tagged.done (plain_field ++ app0_field), [⟨0, 36, false⟩, ⟨0, 36, true⟩]) ∧
    lav_write_frame false ⟨'a', Y4M_ILACE_TOP_FIRST, 1, 1, 0, 0, 0, 0⟩
        (plain_field ++ app0_field) 36 1 (fun _ => 0) =
      WriteFrame.ret ⟨0, plain_field ++ app0_field, 'a', 0,
        [BackendCall.AVI_write_frame (plain_field ++ app0_field) 36]⟩ ∧
    (plain_field ++ app0_field)[9 + 2 + 4]? ≠ some 65 := by
  refine ⟨⟨⟨9, 0, 0, 0, 2, 6, 9, 0, 0, [(M_SOS, 3), (M_EOI, 8)]⟩, by decide, rfl, rfl⟩,
    by decide, by decide, by decide, by decide⟩

/-! ## The deinterleaving loops of lav_write_audio -/

theorem put_sample_spec (C S : Nat) (out : List (List Int)) (j i : Nat) (v : Int)
    (hsh : shaped C S out) (hj : j < C) (hi : i < S) :
    ∃ out1, put_sample out j i v = some out1 ∧ shaped C S out1 ∧ cell out1 j i = some v ∧
      ∀ a b, (a ≠ j ∨ b ≠ i) → cell out1 a b = cell out a b := by
  obtain ⟨hlen, hrows⟩ := hsh
  obtain ⟨row, hrow, hrl⟩ := hrows j hj
  refine ⟨out.set j (row.set i v), ?_, ⟨?_, ?_⟩, ?_, ?_⟩
  · unfold put_sample
    rw [hrow]
    simp only
    rw [if_pos (by omega)]
  · rw [List.length_set]; exact hlen
  · intro a ha
    by_cases e : a = j
    · subst e
      exact ⟨row.set i v, List.getElem?_set_self (by omega), by rw [List.length_set]; exact hrl⟩
    · obtain ⟨r, hr, hl⟩ := hrows a ha
      exact ⟨r, by rw [List.getElem?_set_ne (fun x => e x.symm)]; exact hr, hl⟩
  · unfold cell
    rw [List.getElem?_set_self (by omega)]
    exact List.getElem?_set_self (by omega)
  · intro a b hab
    unfold cell
    by_cases e : a = j
    · subst e
      rw [List.getElem?_set_self (by omega), hrow]
      simp only
      rcases hab with h | h
      · exact absurd rfl h
      · exact List.getElem?_set_ne (fun x => h x.symm)
    · rw [List.getElem?_set_ne (fun x => e x.symm)]

theorem deinterleave_row_succ (sample : Nat → Option Int) (channels i k j : Nat)
    (out : List (List Int)) :
    deinterleave_row sample channels i (k + 1) j out =
      match sample (channels * i + j) with
      | none => none
      | some v =>
        match put_sample out j i v with
        | none => none
        | some out1 => deinterleave_row sample channels i k (j + 1) out1 := rfl

theorem deinterleave_succ (sample : Nat → Option Int) (channels k i : Nat)
    (out : List (List Int)) :
    deinterleave sample channels (k + 1) i out =
      match deinterleave_row sample channels i channels 0 out with
      | none => none
      | some out1 => deinterleave sample channels k (i + 1) out1 := rfl

/-- The inner loop fills the samples of index `i` of the rows from `j` on and
leaves all other samples as they are. -/
theorem deinterleave_row_spec (sample : Nat → Option Int) (C S i : Nat) (hi : i < S)
    (hs : ∀ a, a < C → sample (C * i + a) ≠ none) :
    ∀ (k j : Nat) (out : List (List Int)), j + k = C → shaped C S out →
      ∃ out1, deinterleave_row sample C i k j out = some out1 ∧ shaped C S out1 ∧
        (∀ a, j ≤ a → a < C → cell out1 a i = sample (C * i + a)) ∧
        (∀ a b, (b ≠ i ∨ a < j) → cell out1 a b = cell out a b) := by
  intro k
  induction k with
  | zero =>
    intro j out hj hsh
    exact ⟨out, rfl, hsh, fun a h1 h2 => by omega, fun _ _ _ => rfl⟩
  | succ k ih =>
    intro j out hj hsh
    rw [deinterleave_row_succ]
    cases hv : sample (C * i + j) with
    | none => exact absurd hv (hs j (by omega))
    | some v =>
      obtain ⟨out0, hp, hsh0, hc0, hf0⟩ := put_sample_spec C S out j i v hsh (by omega) hi
      obtain ⟨out1, hd, hsh1, hc1, hf1⟩ := ih (j + 1) out0 (by omega) hsh0
      simp only [hp]
      refine ⟨out1, hd, hsh1, ?_, ?_⟩
      · intro a h1 h2
        by_cases e : a = j
        · subst e
          rw [hf1 a i (Or.inr (by omega)), hc0, hv]
        · exact hc1 a (by omega) h2
      · intro a b hab
        rw [hf1 a b (by omega), hf0 a b (by omega)]

/-- The two loops fill every sample of every row. -/
theorem deinterleave_spec (sample : Nat → Option Int) (C S : Nat)
    (hs : ∀ idx, idx < C * S → sample idx ≠ none) :
    ∀ (k i : Nat) (out : List (List Int)), i + k = S → shaped C S out →
      ∃ out1, deinterleave sample C k i out = some out1 ∧ shaped C S out1 ∧
        (∀ a b, a < C → i ≤ b → b < S → cell out1 a b = sample (C * b + a)) ∧
        (∀ a b, b < i → cell out1 a b = cell out a b) := by
  intro k
  induction k with
  | zero =>
    intro i out hi hsh
    exact ⟨out, rfl, hsh, fun a b _ h1 h2 => by omega, fun _ _ _ => rfl⟩
  | succ k ih =>
    intro i out hi hsh
    have hrow : ∀ a, a < C → sample (C * i + a) ≠ none := by
      intro a ha
      apply hs
      have h1 : C * (i + 1) ≤ C * S := Nat.mul_le_mul_left _ (by omega)
      have h2 : C * (i + 1) = C * i + C := Nat.mul_succ C i
      omega
    obtain ⟨out0, hr, hsh0, hc0, hf0⟩ := deinterleave_row_spec sample C S i (by omega) hrow
      C 0 out (by omega) hsh
    obtain ⟨out1, hd, hsh1, hc1, hf1⟩ := ih (i + 1) out0 (by omega) hsh0
    rw [deinterleave_succ]
    simp only [hr]
    refine ⟨out1, hd, hsh1, ?_, ?_⟩
    · intro a b ha h1 h2
      by_cases e : b = i
      · subst e
        rw [hf1 a b (by omega)]
        exact hc0 a (by omega) ha
      · exact hc1 a b ha (by omega) h2
    · intro a b hb
      rw [hf1 a b (by omega), hf0 a b (Or.inl (by omega))]

theorem shaped_replicate (C S : Nat) :
    shaped C S (List.replicate C (List.replicate S 0)) := by
  refine ⟨List.length_replicate _ _, fun j hj => ⟨List.replicate S 0, ?_, ?_⟩⟩
  · rw [List.getElem?_replicate, if_pos hj]
  · exact List.length_replicate _ _

/-- The 16-bit value of a widened 8-bit sample, as a signed number. -/
theorem widen8_value (v : Nat) (hv : v < 256) :
    to_int16 (((v <<< 8) ^^^ 0x8000 : Nat) : Int) = ((v : Int) - 128) * 256 := by
  interval_cases v <;> rfl

/-! ## The claim on the 8-bit widening -/

/-- C23: with `HAVE_LIBQUICKTIME`, on a session of format `'q'` with audio
whose library reports 8 bits and `C` channels, for a buffer of bytes that
holds `C * S` samples, `lav_write_audio` hands to `lqt_encode_audio_track`
`C` rows of `S` samples, where sample `i` of row `j` is
`(buff[C * i + j] << 8) ^ 0x8000` reduced to `int16_t`, the signed value
`(buff[C * i + j] - 128) * 256`; and for the buffer `[10, 20, 30, 40]` with
2 channels the rows are `[(10<<8)^0x8000, (30<<8)^0x8000]` and
`[(20<<8)^0x8000, (40<<8)^0x8000]` reduced so. -/
theorem widen_8bit_deinterleave (env : Backend) (lav_file : lav_file_t) (buff : List Nat)
    (C S : Nat) (backend : Int)
    (hfmt : lav_file.format = 'q') (haud : lav_file.has_audio ≠ 0)
    (hbits : env.audio_bits = 8) (hch : env.audio_channels = C)
    (hS : (S : Int) < 2 ^ 31) (hCS : (C : Int) * S ≤ 2 ^ 31)
    (hlen : C * S ≤ buff.length) (hbyte : ∀ v ∈ buff, v < 256) :
    (∃ out, lav_write_audio true env lav_file buff S backend =
        WriteAudio.ret backend ⟨'q', 0⟩ [AudioCall.lqt_encode_audio_track out S] ∧
      out.length = C ∧
      ∀ j i, j < C → i < S →
        ∃ row v, out[j]? = some row ∧ row.length = S ∧ buff[C * i + j]? = some v ∧
          row[i]? = some (to_int16 (((v <<< 8) ^^^ 0x8000 : Nat) : Int)) ∧
          to_int16 (((v <<< 8) ^^^ 0x8000 : Nat) : Int) = ((v : Int) - 128) * 256) ∧
    lav_write_audio true (qt_audio 2 8) ⟨'q', Y4M_ILACE_NONE, 1, 1, 1, 2, Y4M_UNKNOWN, 0⟩
        [10, 20, 30, 40] 2 0 =
      WriteAudio.ret 0 ⟨'q', 0⟩
        [AudioCall.lqt_encode_audio_track
          [[to_int16 (((10 <<< 8) ^^^ 0x8000 : Nat) : Int),
              to_int16 (((30 <<< 8) ^^^ 0x8000 : Nat) : Int)],
            [to_int16 (((20 <<< 8) ^^^ 0x8000 : Nat) : Int),
              to_int16 (((40 <<< 8) ^^^ 0x8000 : Nat) : Int)]] 2] := by
  refine ⟨?_, by decide⟩
  have hcase : has_case true lav_file.format = true := by rw [hfmt]; rfl
  have hb : lav_audio_bits true env lav_file = 8 := by
    unfold lav_audio_bits
    rw [if_neg haud, if_pos hcase, hbits]
  have hc : lav_audio_channels true env lav_file = C := by
    unfold lav_audio_channels
    rw [if_neg haud, if_pos hcase, hch]
  have hsome : ∀ idx, idx < C * S → sample8 buff idx ≠ none := by
    intro idx hidx
    unfold sample8
    rw [List.getElem?_eq_getElem (by omega)]
    simp
  obtain ⟨out, hd, hsh, hcells, _⟩ := deinterleave_spec (sample8 buff) C S hsome S 0
    (List.replicate C (List.replicate S 0)) (by omega) (shaped_replicate C S)
  have hna : ¬ (lav_file.format = 'a' ∨ lav_file.format = 'A') := by rw [hfmt]; decide
  have hov : ¬ ((2 : Int) ^ 31 ≤ S ∨ (2 : Int) ^ 31 < C * S) := by omega
  refine ⟨out, ?_, hsh.1, ?_⟩
  · unfold lav_write_audio
    rw [if_neg hna, if_pos ⟨hfmt, rfl⟩, hb, hc]
    simp only [ne_eq, Nat.cast_ofNat, Int.reduceEq, not_false_eq_true, true_or, if_true,
      or_true, hov, if_false, Int.toNat_ofNat, hd, hfmt]
  · intro j i hj hi
    obtain ⟨row, hrow, hrl⟩ := hsh.2 j hj
    have hidx : C * i + j < buff.length := by
      have h1 : C * (i + 1) ≤ C * S := Nat.mul_le_mul_left _ (by omega)
      have h2 : C * (i + 1) = C * i + C := Nat.mul_succ C i
      omega
    have hcell := hcells j i hj (by omega) hi
    unfold cell at hcell
    rw [hrow] at hcell
    simp only at hcell
    unfold sample8 at hcell
    rw [List.getElem?_eq_getElem hidx] at hcell
    simp only at hcell
    exact ⟨row, buff[C * i + j], hrow, hrl, List.getElem?_eq_getElem hidx, hcell,
      widen8_value _ (hbyte _ (List.getElem_mem _))⟩

theorem widen_8bit_deinterleave_witness :
    ∃ out row, lav_write_audio true (qt_audio 2 8)
        ⟨'q', Y4M_ILACE_NONE, 1, 1, 1, 2, Y4M_UNKNOWN, 0⟩ [10, 20, 30, 200] 2 7 =
        WriteAudio.ret 7 ⟨'q', 0⟩ [AudioCall.lqt_encode_audio_track out 2] ∧
      out[1]? = some row ∧ row[1]? = some ((200 - 128) * 256) := by
  obtain ⟨out, hw, _, hall⟩ := (widen_8bit_deinterleave (qt_audio 2 8)
    ⟨'q', Y4M_ILACE_NONE, 1, 1, 1, 2, Y4M_UNKNOWN, 0⟩ [10, 20, 30, 200] 2 2 7 rfl (by decide)
    rfl rfl (by decide) (by decide) (by decide) (by decide)).1
  obtain ⟨row, v, hrow, _, hv, hcell, hval⟩ := hall 1 1 (by decide) (by decide)
  have e : v = 200 := by
    have h200 : [10, 20, 30, 200][2 * 1 + 1]? = some 200 := by decide
    rw [h200] at hv
    exact (Option.some.inj hv).symm
  subst e
  exact ⟨out, row, hw, hrow, by rw [hcell, hval]; rfl⟩

/-! ## The bytes per sample of a session -/

/-- The session that `lav_open_output_file` returns: audio is there when
`asize` and `achans` are positive, and then `bps` is at least 1 as long as
`asize*achans+7` is in the range of `int`. -/
theorem lav_open_output_file_bps (hq : Bool) (env : OutBackend) (mem : lav_file_t)
    (g g1 : Globals) (format : Char) (interlaced asize achans : Int) (lav_fd : lav_file_t)
    (h : lav_open_output_file hq env mem g format interlaced asize achans =
      OpenOutput.ret (some lav_fd) g1) :
    (lav_fd.has_audio ≠ 0 ↔ (0 < asize ∧ 0 < achans)) ∧
    lav_fd.bps = bytes_per_sample asize achans ∧
    (0 < asize → 0 < achans → asize * achans + 7 < 2 ^ 31 → 1 ≤ lav_fd.bps) := by
  have key : lav_fd.has_audio = (if 0 < asize ∧ 0 < achans then 1 else 0) ∧
      lav_fd.bps = bytes_per_sample asize achans := by
    unfold lav_open_output_file at h
    split at h
    · exact absurd h (by simp)
    · simp only at h
      split at h
      · split at h
        · exact absurd h (by simp)
        · simp only [OpenOutput.ret.injEq, Option.some.injEq] at h
          rw [← h.1]
          exact ⟨rfl, rfl⟩
      · split at h
        · split at h
          · exact absurd h (by simp)
          · simp only [OpenOutput.ret.injEq, Option.some.injEq] at h
            rw [← h.1]
            exact ⟨rfl, rfl⟩
        · split at h
          · split at h
            · split at h
              · exact absurd h (by simp)
              · simp only [OpenOutput.ret.injEq, Option.some.injEq] at h
                rw [← h.1]
                exact ⟨rfl, rfl⟩
            · exact absurd h (by simp)
          · exact absurd h (by simp)
  obtain ⟨ha, hb⟩ := key
  refine ⟨?_, hb, ?_⟩
  · rw [ha]
    by_cases hc : 0 < asize ∧ 0 < achans
    · rw [if_pos hc]
      exact ⟨fun _ => hc, fun _ => by decide⟩
    · rw [if_neg hc]
      exact ⟨fun x => absurd rfl x, fun x => absurd x hc⟩
  · intro h1 h2 h3
    have hprod : 1 ≤ asize * achans := by
      have := Int.mul_pos h1 h2
      omega
    have e1 : to_int (asize * achans) = asize * achans := by
      unfold to_int
      omega
    have e2 : to_int (asize * achans + 7) = asize * achans + 7 := by
      unfold to_int
      omega
    rw [hb]
    unfold bytes_per_sample
    rw [e1, e2, Int.tdiv_eq_ediv (by omega) (by decide)]
    omega

/-- The `int` arithmetic of `bytes_per_sample` wraps: 65535 channels of 65535
bits give -16383, and 65536 of 65536 give 0. -/
theorem bytes_per_sample_wraps :
    bytes_per_sample 65535 65535 = -16383 ∧ bytes_per_sample 65536 65536 = 0 := by
  decide

theorem with_bps_ne_zero (hq : Bool) (env : Backend) (lav_fd : lav_file_t) :
    (with_bps hq env lav_fd).bps ≠ 0 := by
  unfold with_bps
  simp only
  split
  · decide
  · assumption

theorem probe_frame_bps (hq : Bool) (env : Backend) (lav_fd r : lav_file_t)
    (st : JpegStatics) (g : Globals)
    (h : probe_frame hq env lav_fd st = OpenInput.ret (some r) g) : r.bps = lav_fd.bps := by
  unfold probe_frame at h
  split at h
  · exact absurd h (by simp)
  · split at h
    · split at h
      · simp only [OpenInput.ret.injEq, Option.some.injEq] at h
        rw [← h.1]
      · split at h
        · split at h
          · split at h
            · exact absurd h (by simp)
            · simp only [OpenInput.ret.injEq, Option.some.injEq] at h
              rw [← h.1]
          · split at h
            · simp only [OpenInput.ret.injEq, Option.some.injEq] at h
              rw [← h.1]
            · simp only [OpenInput.ret.injEq, Option.some.injEq] at h
              rw [← h.1]
        · simp [errexit] at h
    · exact absurd h (by simp)

theorem probe_mjpg_bps (hq : Bool) (env : Backend) (lav_fd r : lav_file_t) (g : Globals)
    (h : probe_mjpg hq env lav_fd = OpenInput.ret (some r) g) : r.bps = lav_fd.bps := by
  unfold probe_mjpg at h
  split at h
  · simp [errexit] at h
  · split at h
    · simp [errexit] at h
    · split at h
      · simp [errexit] at h
      · split at h
        · simp [errexit] at h
        · split at h
          · simp [errexit] at h
          · split at h
            · exact absurd h (by simp)
            · exact absurd h (by simp)
            · split at h
              · simp [errexit] at h
              · exact probe_frame_bps hq env lav_fd r _ g h

theorem probe_bps (hq : Bool) (env : Backend) (lav_fd r : lav_file_t) (g g1 : Globals)
    (h : probe hq env lav_fd g = OpenInput.ret (some r) g1) : r.bps ≠ 0 := by
  have hw := with_bps_ne_zero hq env lav_fd
  unfold probe at h
  simp only at h
  split at h
  · simp only [OpenInput.ret.injEq, Option.some.injEq] at h
    rw [← h.1]
    exact hw
  · split at h
    · simp only [OpenInput.ret.injEq, Option.some.injEq] at h
      rw [← h.1]
      exact hw
    · split at h
      · simp only [OpenInput.ret.injEq, Option.some.injEq] at h
        rw [← h.1]
        exact hw
      · split at h
        · rw [probe_mjpg_bps hq env _ r g1 h]
          exact hw
        · simp [errexit] at h

/-- The session that `lav_open_input_file` returns has `bps` other than 0. -/
theorem lav_open_input_file_bps (hq : Bool) (env : Backend) (g g1 : Globals)
    (lav_fd : lav_file_t)
    (h : lav_open_input_file hq env g = OpenInput.ret (some lav_fd) g1) : lav_fd.bps ≠ 0 := by
  unfold lav_open_input_file at h
  split at h
  · exact absurd h (by simp)
  · split at h
    · exact probe_bps hq env _ lav_fd _ g1 h
    · split at h
      · split at h
        · exact absurd h (by simp)
        · split at h
          · exact absurd h (by simp)
          · split at h
            · exact absurd h (by simp)
            · exact probe_bps hq env _ lav_fd _ g1 h
      · exact absurd h (by simp)

/-! ## The claim on the division by bps -/

/-- C30: the call `lav_open_output_file` with format `'a'`, `asize = 65536`
and `achans = 65536` returns a session with `has_audio = 1` and `bps = 0`:
the `int` product `asize*achans` wraps to 0 and `(0+7)/8` is 0.  On that
session `lav_audio_samples` and the AVI branch of `lav_read_audio` divide by
zero.  (`lav_open_input_file` has the statement `if(lav_fd->bps==0)
lav_fd->bps=1;` that keeps `bps` away from 0, see `lav_open_input_file_bps`;
`lav_open_output_file` has none.) -/
theorem write_session_divides_by_zero :
    lav_open_output_file false ⟨true, true, true, true⟩ ⟨' ', 0, 1, 1, 0, 0, 0, 0⟩ ⟨' ', 0⟩
        'a' 0 65536 65536 =
      OpenOutput.ret (some ⟨'a', Y4M_ILACE_NONE, 1, 1, 1, 0, Y4M_UNKNOWN, 0⟩) ⟨' ', 0⟩ ∧
    lav_audio_samples false ⟨'a', Y4M_ILACE_NONE, 1, 1, 1, 0, Y4M_UNKNOWN, 0⟩ ⟨' ', 0⟩
        4000 0 = AudioQuery.fault ∧
    lav_read_audio false ⟨'a', Y4M_ILACE_NONE, 1, 1, 1, 0, Y4M_UNKNOWN, 0⟩ ⟨' ', 0⟩
        4000 0 = AudioQuery.fault := by
  decide

end LavIO
